import Mathlib

/-!
Verification of the symbolic triangle-triangle intersection module
(geogram, src/lib/geogram/mesh/triangle_intersection.h).

The repository files contain only the declaring header; the computing
routine itself (the .cpp body) is not among them.  Following the design
document, the routine is modelled here over exact rational coordinates:
an orientation predicate (sign of a determinant), a vertex classifier,
a topology dispatcher over the two sign triples, a symbolic assembler
for the coplanar and transversal/touching topologies, and a degeneracy
filter that suppresses shared-vertex configurations.  The enumeration
TriangleRegion, the boolean convenience overload and the two stream
output operators are embedded directly from the header text.
-/

/-- Vector of three rational coordinates, standing for the double
precision vec3 of the geometry library (the design document requires the
predicate arithmetic to behave exactly, which rational arithmetic does). -/
structure vec3 where
  x : ℚ
  y : ℚ
  z : ℚ
deriving DecidableEq

/-- Componentwise sum of two vectors. -/
def vadd (a b : vec3) : vec3 := ⟨a.x + b.x, a.y + b.y, a.z + b.z⟩

/-- Componentwise difference of two vectors. -/
def vsub (a b : vec3) : vec3 := ⟨a.x - b.x, a.y - b.y, a.z - b.z⟩

/-- Scalar multiple of a vector. -/
def smul (t : ℚ) (a : vec3) : vec3 := ⟨t * a.x, t * a.y, t * a.z⟩

/-- Dot product. -/
def dot (a b : vec3) : ℚ := a.x * b.x + a.y * b.y + a.z * b.z

/-- Cross product. -/
def cross (a b : vec3) : vec3 :=
  ⟨a.y * b.z - a.z * b.y, a.z * b.x - a.x * b.z, a.x * b.y - a.y * b.x⟩

/-- The zero vector. -/
def vzero : vec3 := ⟨0, 0, 0⟩

/-- Normal vector of the triangle (a, b, c). -/
def triNormal (a b c : vec3) : vec3 := cross (vsub b a) (vsub c a)

/-- Orientation predicate value: the determinant whose sign tells on which
side of the plane through a, b, c the point d lies (section 4.1 of the
design document; over rationals the sign is exact by construction). -/
def orient3d (a b c d : vec3) : ℚ := dot (triNormal a b c) (vsub d a)

/-- In-plane orientation value of the triple (a, b, c) with respect to a
plane of normal n: the 2D orientation test used by the coplanar case,
realised as the component of the 3D orientation along n. -/
def side (n a b c : vec3) : ℚ := dot (triNormal a b c) n

/-- A triangle is valid (non-degenerate) when its vertices are pairwise
distinct and not collinear, which is exactly a nonzero normal. -/
def nondegenerate (a b c : vec3) : Prop := triNormal a b c ≠ vzero

/-- Sign of a rational number, as a symbol. -/
inductive Sg
  | neg
  | zer
  | pos
deriving DecidableEq

/-- Sign computation. -/
def sgn (r : ℚ) : Sg := if 0 < r then .pos else if r < 0 then .neg else .zer

/-- TriangleRegion: the closed enumeration of the 14 region symbols of the
header (three vertices, three edges and the interior, for each of the two
triangles).  T_RGN_NB below keeps the final count value of the C++ enum. -/
inductive TriangleRegion
  | T1_RGN_P0
  | T1_RGN_P1
  | T1_RGN_P2
  | T2_RGN_P0
  | T2_RGN_P1
  | T2_RGN_P2
  | T1_RGN_E0
  | T1_RGN_E1
  | T1_RGN_E2
  | T2_RGN_E0
  | T2_RGN_E1
  | T2_RGN_E2
  | T1_RGN_T
  | T2_RGN_T
deriving DecidableEq, Fintype

/-- Numeric value of each enumerator, as written in the header. -/
def TriangleRegion.toNat : TriangleRegion → Nat
  | .T1_RGN_P0 => 0
  | .T1_RGN_P1 => 1
  | .T1_RGN_P2 => 2
  | .T2_RGN_P0 => 3
  | .T2_RGN_P1 => 4
  | .T2_RGN_P2 => 5
  | .T1_RGN_E0 => 6
  | .T1_RGN_E1 => 7
  | .T1_RGN_E2 => 8
  | .T2_RGN_E0 => 9
  | .T2_RGN_E1 => 10
  | .T2_RGN_E2 => 11
  | .T1_RGN_T => 12
  | .T2_RGN_T => 13

/-- The count enumerator of the C++ declaration. -/
def T_RGN_NB : Nat := 14

/-- Region of a single triangle, before tagging with the triangle it
belongs to (vertex i, edge i opposite vertex i, or the interior). -/
inductive Rgn
  | P0
  | P1
  | P2
  | E0
  | E1
  | E2
  | T
deriving DecidableEq

/-- Tag an untagged region as a region of the first triangle. -/
def toT1 : Rgn → TriangleRegion
  | .P0 => .T1_RGN_P0
  | .P1 => .T1_RGN_P1
  | .P2 => .T1_RGN_P2
  | .E0 => .T1_RGN_E0
  | .E1 => .T1_RGN_E1
  | .E2 => .T1_RGN_E2
  | .T => .T1_RGN_T

/-- Tag an untagged region as a region of the second triangle. -/
def toT2 : Rgn → TriangleRegion
  | .P0 => .T2_RGN_P0
  | .P1 => .T2_RGN_P1
  | .P2 => .T2_RGN_P2
  | .E0 => .T2_RGN_E0
  | .E1 => .T2_RGN_E1
  | .E2 => .T2_RGN_E2
  | .T => .T2_RGN_T

/-- Relabel a region of one triangle as the corresponding region of the
other triangle. -/
def swapRgn : TriangleRegion → TriangleRegion
  | .T1_RGN_P0 => .T2_RGN_P0
  | .T1_RGN_P1 => .T2_RGN_P1
  | .T1_RGN_P2 => .T2_RGN_P2
  | .T2_RGN_P0 => .T1_RGN_P0
  | .T2_RGN_P1 => .T1_RGN_P1
  | .T2_RGN_P2 => .T1_RGN_P2
  | .T1_RGN_E0 => .T2_RGN_E0
  | .T1_RGN_E1 => .T2_RGN_E1
  | .T1_RGN_E2 => .T2_RGN_E2
  | .T2_RGN_E0 => .T1_RGN_E0
  | .T2_RGN_E1 => .T1_RGN_E1
  | .T2_RGN_E2 => .T1_RGN_E2
  | .T1_RGN_T => .T2_RGN_T
  | .T2_RGN_T => .T1_RGN_T

/-- TriangleIsect: a symbolic intersection element, as in the header a
pair of regions (first component a region of the first triangle, second
component a region of the second one). -/
abbrev TriangleIsect := TriangleRegion × TriangleRegion

/-- Degeneracy filter condition (section 4.5): the two triangles share at
least one vertex by exact coordinate equality. -/
abbrev sharesVertex (p0 p1 p2 q0 q1 q2 : vec3) : Prop :=
  (p0 = q0 ∨ p0 = q1 ∨ p0 = q2) ∨
  (p1 = q0 ∨ p1 = q1 ∨ p1 = q2) ∨
  (p2 = q0 ∨ p2 = q1 ∨ p2 = q2)

/-- Uniform strictly nonzero sign triple: the three values are all
strictly positive or all strictly negative (separation fast path). -/
abbrev uniformSignNZ (s0 s1 s2 : ℚ) : Prop :=
  (0 < s0 ∧ 0 < s1 ∧ 0 < s2) ∨ (s0 < 0 ∧ s1 < 0 ∧ s2 < 0)

/-- All three values of a sign triple vanish. -/
abbrev allZero (s0 s1 s2 : ℚ) : Prop := s0 = 0 ∧ s1 = 0 ∧ s2 = 0

/-- Classification of a point z of the common plane against the triangle
(b0, b1, b2), using in-plane orientation signs with respect to the plane
normal n: strictly inside, on the relative interior of one edge, or
outside / on a vertex (section 4.3, coplanar case; a vertex-on-vertex
contact is a shared vertex and is already removed by the filter). -/
def classify (n b0 b1 b2 zp : vec3) : Option Rgn :=
  if sgn (side n b1 b2 zp) = sgn (side n b0 b1 b2) ∧
     sgn (side n b2 b0 zp) = sgn (side n b0 b1 b2) ∧
     sgn (side n b0 b1 zp) = sgn (side n b0 b1 b2) then some .T
  else if side n b1 b2 zp = 0 ∧
     sgn (side n b2 b0 zp) = sgn (side n b0 b1 b2) ∧
     sgn (side n b0 b1 zp) = sgn (side n b0 b1 b2) then some .E0
  else if side n b2 b0 zp = 0 ∧
     sgn (side n b1 b2 zp) = sgn (side n b0 b1 b2) ∧
     sgn (side n b0 b1 zp) = sgn (side n b0 b1 b2) then some .E1
  else if side n b0 b1 zp = 0 ∧
     sgn (side n b1 b2 zp) = sgn (side n b0 b1 b2) ∧
     sgn (side n b2 b0 zp) = sgn (side n b0 b1 b2) then some .E2
  else none

/-- Proper crossing of the two in-plane segments (u, v) and (w, xx): each
segment strictly straddles the supporting line of the other (section 4.3,
coplanar case; section 4.4, edge-edge crossing pairs). -/
abbrev properCross (n u v w xx : vec3) : Prop :=
  side n u v w * side n u v xx < 0 ∧ side n w xx u * side n w xx v < 0

/-- Pair list for one vertex of the first triangle classified within the
second one. -/
def vpairA (rv : Rgn) (cl : Option Rgn) : List (Rgn × Rgn) :=
  match cl with
  | some r => [(rv, r)]
  | none => []

/-- Pair list for one vertex of the second triangle classified within the
first one. -/
def vpairB (rv : Rgn) (cl : Option Rgn) : List (Rgn × Rgn) :=
  match cl with
  | some r => [(r, rv)]
  | none => []

/-- Pair list for one candidate edge-edge crossing. -/
def xpair (ra rb : Rgn) (c : Prop) [Decidable c] : List (Rgn × Rgn) :=
  if c then [(ra, rb)] else []

/-- Symbolic assembly for the coplanar topology (sections 4.3 and 4.4):
one pair for every vertex of either triangle lying strictly inside, or on
the relative interior of an edge of, the other triangle, and one pair for
every proper edge-edge crossing.  Edge i joins the two vertices other
than vertex i.  The in-plane orientation tests use the plane normal n. -/
def coplanarPairs (n p0 p1 p2 q0 q1 q2 : vec3) : List (Rgn × Rgn) :=
  vpairA .P0 (classify n q0 q1 q2 p0) ++
  vpairA .P1 (classify n q0 q1 q2 p1) ++
  vpairA .P2 (classify n q0 q1 q2 p2) ++
  vpairB .P0 (classify n p0 p1 p2 q0) ++
  vpairB .P1 (classify n p0 p1 p2 q1) ++
  vpairB .P2 (classify n p0 p1 p2 q2) ++
  xpair .E0 .E0 (properCross n p1 p2 q1 q2) ++
  xpair .E0 .E1 (properCross n p1 p2 q2 q0) ++
  xpair .E0 .E2 (properCross n p1 p2 q0 q1) ++
  xpair .E1 .E0 (properCross n p2 p0 q1 q2) ++
  xpair .E1 .E1 (properCross n p2 p0 q2 q0) ++
  xpair .E1 .E2 (properCross n p2 p0 q0 q1) ++
  xpair .E2 .E0 (properCross n p0 p1 q1 q2) ++
  xpair .E2 .E1 (properCross n p0 p1 q2 q0) ++
  xpair .E2 .E2 (properCross n p0 p1 q0 q1)

/-- Intersection point of the segment (u, v) with the plane against which
u has orientation value su and v has value sv (used when su and sv have
strict opposite signs, so that su - sv is nonzero). -/
def crossPt (u : vec3) (su : ℚ) (v : vec3) (sv : ℚ) : vec3 :=
  vadd u (smul (su / (su - sv)) (vsub v u))

/-- Chord of a triangle in the supporting plane of the other triangle:
the two endpoints with the region of the triangle each lies on, plus the
region met by the relative interior of the chord. -/
structure Chord where
  pt1 : vec3
  rg1 : Rgn
  pt2 : vec3
  rg2 : Rgn
  mid : Rgn
deriving DecidableEq

/-- Topology dispatch for one triangle (a, b, c) from the sign triple of
its vertices against the plane of the other triangle (section 4.3): the
chord along which it meets that plane, labelled symbolically.  A uniform
strictly nonzero triple (triangle strictly on one side) and the all-zero
triple (coplanar configuration) carry no chord: those sign patterns are
handled by the earlier dispatch stages, and reaching this function with
one of them is the dispatch gap of section 7, answered defensively by
the caller. -/
def chordOf (a b c : vec3) (s0 s1 s2 : ℚ) : Option Chord :=
  match sgn s0, sgn s1, sgn s2 with
  | .zer, .zer, .zer => none
  | .pos, .pos, .pos => none
  | .neg, .neg, .neg => none
  | .zer, .pos, .pos => some ⟨a, .P0, a, .P0, .P0⟩
  | .zer, .neg, .neg => some ⟨a, .P0, a, .P0, .P0⟩
  | .pos, .zer, .pos => some ⟨b, .P1, b, .P1, .P1⟩
  | .neg, .zer, .neg => some ⟨b, .P1, b, .P1, .P1⟩
  | .pos, .pos, .zer => some ⟨c, .P2, c, .P2, .P2⟩
  | .neg, .neg, .zer => some ⟨c, .P2, c, .P2, .P2⟩
  | .zer, .zer, .pos => some ⟨a, .P0, b, .P1, .E2⟩
  | .zer, .zer, .neg => some ⟨a, .P0, b, .P1, .E2⟩
  | .zer, .pos, .zer => some ⟨c, .P2, a, .P0, .E1⟩
  | .zer, .neg, .zer => some ⟨c, .P2, a, .P0, .E1⟩
  | .pos, .zer, .zer => some ⟨b, .P1, c, .P2, .E0⟩
  | .neg, .zer, .zer => some ⟨b, .P1, c, .P2, .E0⟩
  | .zer, .pos, .neg => some ⟨a, .P0, crossPt b s1 c s2, .E0, .T⟩
  | .zer, .neg, .pos => some ⟨a, .P0, crossPt b s1 c s2, .E0, .T⟩
  | .pos, .zer, .neg => some ⟨b, .P1, crossPt c s2 a s0, .E1, .T⟩
  | .neg, .zer, .pos => some ⟨b, .P1, crossPt c s2 a s0, .E1, .T⟩
  | .pos, .neg, .zer => some ⟨c, .P2, crossPt a s0 b s1, .E2, .T⟩
  | .neg, .pos, .zer => some ⟨c, .P2, crossPt a s0 b s1, .E2, .T⟩
  | .pos, .pos, .neg => some ⟨crossPt b s1 c s2, .E0, crossPt c s2 a s0, .E1, .T⟩
  | .neg, .neg, .pos => some ⟨crossPt b s1 c s2, .E0, crossPt c s2 a s0, .E1, .T⟩
  | .pos, .neg, .pos => some ⟨crossPt a s0 b s1, .E2, crossPt b s1 c s2, .E0, .T⟩
  | .neg, .pos, .neg => some ⟨crossPt a s0 b s1, .E2, crossPt b s1 c s2, .E0, .T⟩
  | .neg, .pos, .pos => some ⟨crossPt a s0 b s1, .E2, crossPt c s2 a s0, .E1, .T⟩
  | .pos, .neg, .neg => some ⟨crossPt a s0 b s1, .E2, crossPt c s2 a s0, .E1, .T⟩

/-- Chord endpoints ordered along the direction dL of the common line of
the two supporting planes. -/
def ordChord (dL : vec3) (c : Chord) : (vec3 × Rgn) × (vec3 × Rgn) :=
  if dot c.pt1 dL ≤ dot c.pt2 dL then ((c.pt1, c.rg1), (c.pt2, c.rg2))
  else ((c.pt2, c.rg2), (c.pt1, c.rg1))

/-- Region of a chord met at a point zp: one of the two endpoint regions
if zp is that endpoint, the region of the relative interior otherwise. -/
def chordLabel (c : Chord) (zp : vec3) : Rgn :=
  if zp = c.pt1 then c.rg1 else if zp = c.pt2 then c.rg2 else c.mid

/-- Lower endpoint of the overlap of the two chords along the direction
dL: the larger of the two chord lower endpoints. -/
def loPoint (dL : vec3) (cp cq : Chord) : vec3 :=
  if dot (ordChord dL cp).1.1 dL ≤ dot (ordChord dL cq).1.1 dL
  then (ordChord dL cq).1.1 else (ordChord dL cp).1.1

/-- Upper endpoint of the overlap of the two chords along the direction
dL: the smaller of the two chord upper endpoints. -/
def hiPoint (dL : vec3) (cp cq : Chord) : vec3 :=
  if dot (ordChord dL cp).2.1 dL ≤ dot (ordChord dL cq).2.1 dL
  then (ordChord dL cp).2.1 else (ordChord dL cq).2.1

/-- Symbolic assembly for the transversal and touching topologies
(sections 4.3 and 4.4): the emitted pairs are exactly the endpoints of
the overlap of the two chords along the common line of the planes, each
labelled by the region of each triangle it meets. -/
def assemble (dL : vec3) (cp cq : Chord) : List (Rgn × Rgn) :=
  if dot (hiPoint dL cp cq) dL < dot (loPoint dL cp cq) dL then []
  else if loPoint dL cp cq = hiPoint dL cp cq then
    [(chordLabel cp (loPoint dL cp cq), chordLabel cq (loPoint dL cp cq))]
  else
    [(chordLabel cp (loPoint dL cp cq), chordLabel cq (loPoint dL cp cq)),
     (chordLabel cp (hiPoint dL cp cq), chordLabel cq (hiPoint dL cp cq))]

/-- Tag an untagged pair as a TriangleIsect value. -/
def embedPair (pr : Rgn × Rgn) : TriangleIsect := (toT1 pr.1, toT2 pr.2)

/-- Pair a computed sequence with the boolean telling whether the
computed intersection is non-degenerate (some pair was emitted). -/
def packResult (l : List TriangleIsect) : Bool × List TriangleIsect :=
  (!l.isEmpty, l)

/-- Modelled from the spec: the triangle-triangle intersection routine
declared at src/lib/geogram/mesh/triangle_intersection.h lines 111-115,
whose computing body (triangle_intersection.cpp) is not among the
repository files.  Stages, in dispatch order (sections 4.2 to 4.5 and 7
of the design document): the degeneracy filter (shared vertex, hence
also shared edge and duplicated triangle, answers false with no pairs);
the separation fast path (a uniform strictly nonzero sign triple answers
false with no pairs); the coplanar case (all six orientation signs zero)
assembled by coplanarPairs; otherwise the transversal and touching cases
assembled from the two chords, any unrecognized sign pattern answered
defensively as no intersection.  The boolean tells whether the computed
intersection is non-degenerate (some symbolic pair was emitted). -/
def triangles_intersections_core (p0 p1 p2 q0 q1 q2 : vec3) :
    Bool × List TriangleIsect :=
  if sharesVertex p0 p1 p2 q0 q1 q2 then (false, [])
  else if uniformSignNZ (orient3d p0 p1 p2 q0) (orient3d p0 p1 p2 q1)
      (orient3d p0 p1 p2 q2) ∨
    uniformSignNZ (orient3d q0 q1 q2 p0) (orient3d q0 q1 q2 p1)
      (orient3d q0 q1 q2 p2) then (false, [])
  else if allZero (orient3d p0 p1 p2 q0) (orient3d p0 p1 p2 q1)
      (orient3d p0 p1 p2 q2) ∧
    allZero (orient3d q0 q1 q2 p0) (orient3d q0 q1 q2 p1)
      (orient3d q0 q1 q2 p2) then
    packResult
      ((coplanarPairs (triNormal p0 p1 p2) p0 p1 p2 q0 q1 q2).map embedPair)
  else
    match chordOf p0 p1 p2 (orient3d q0 q1 q2 p0) (orient3d q0 q1 q2 p1)
        (orient3d q0 q1 q2 p2),
      chordOf q0 q1 q2 (orient3d p0 p1 p2 q0) (orient3d p0 p1 p2 q1)
        (orient3d p0 p1 p2 q2) with
    | some cp, some cq =>
      packResult
        ((assemble (cross (triNormal p0 p1 p2) (triNormal q0 q1 q2)) cp cq).map
          embedPair)
    | _, _ => (false, [])

/-- Embedding of the full overload (header lines 111-115): the result
vector passed by the caller is replaced by the freshly computed sequence
(the design document, section 3, has the result sequence constructed
fresh on every call). -/
def triangles_intersections (p0 p1 p2 q0 q1 q2 : vec3)
    (_result : List TriangleIsect) : Bool × List TriangleIsect :=
  triangles_intersections_core p0 p1 p2 q0 q1 q2

/-- Embedding of the boolean convenience overload (header lines 128-135):
a fresh empty vector is allocated, the full overload is called on it and
only the boolean is kept. -/
def triangles_intersections_bool (p0 p1 p2 q0 q1 q2 : vec3) : Bool :=
  (triangles_intersections p0 p1 p2 q0 q1 q2 []).1

attribute [local semireducible] Rat.add Rat.mul Rat.sub Rat.inv

/-- Decidability of the validity test, by computing the normal vector. -/
instance decNondegenerate (a b c : vec3) : Decidable (nondegenerate a b c) :=
  inferInstanceAs (Decidable (triNormal a b c ≠ vzero))

/-- Shared edge condition of the contract: two distinct vertices of the
first triangle both occur among the vertices of the second one. -/
def isVertexOf (v a b c : vec3) : Prop := v = a ∨ v = b ∨ v = c

/-- Shared edge condition of the contract. -/
def sharesEdge (p0 p1 p2 q0 q1 q2 : vec3) : Prop :=
  (p0 ≠ p1 ∧ isVertexOf p0 q0 q1 q2 ∧ isVertexOf p1 q0 q1 q2) ∨
  (p0 ≠ p2 ∧ isVertexOf p0 q0 q1 q2 ∧ isVertexOf p2 q0 q1 q2) ∨
  (p1 ≠ p2 ∧ isVertexOf p1 q0 q1 q2 ∧ isVertexOf p2 q0 q1 q2)

/-- Duplicated triangle condition of the contract: the two triangles are
identical as vertex sets, in any vertex order. -/
def sameVertexSet (p0 p1 p2 q0 q1 q2 : vec3) : Prop :=
  ({p0, p1, p2} : Finset vec3) = ({q0, q1, q2} : Finset vec3)

/-- Stream output: appending one token to an output stream, the model of
operator<< on std::ostream used by the header. -/
def sput (out s : String) : String := out ++ s

/-- Embedding of the stream output operator for one TriangleIsect value
(header lines 150-159), parametric in the region_to_string function whose
body lives outside the repository files. -/
def streamIsect (r2s : TriangleRegion → String) (out : String)
    (I : TriangleIsect) : String :=
  sput (sput (sput (sput (sput out "(") (r2s I.1)) ",") (r2s I.2)) ")"

/-- Embedding of the stream output operator for a vector of TriangleIsect
values (header lines 167-174): elements in index order, each followed by
one space. -/
def streamIsectVec (r2s : TriangleRegion → String) (out : String)
    (II : List TriangleIsect) : String :=
  II.foldl (fun o I => sput (streamIsect r2s o I) " ") out

/-- Concatenation of a list of strings. -/
def sconcat (l : List String) : String := l.foldr (· ++ ·) ""

/-- Mixed strictly nonzero sign triple: no zero and not all of one sign,
the generic proper-crossing pattern of section 4.3. -/
abbrev strictMixed (s0 s1 s2 : ℚ) : Prop :=
  s0 ≠ 0 ∧ s1 ≠ 0 ∧ s2 ≠ 0 ∧ ¬ uniformSignNZ s0 s1 s2

/-- Point of the line through u and v at parameter t. -/
def pOn (u v : vec3) (t : ℚ) : vec3 := vadd u (smul t (vsub v u))

/-- Opposite of a sign symbol. -/
def flipSg : Sg → Sg
  | .neg => .pos
  | .zer => .zer
  | .pos => .neg

/-- Barycentric membership of a point in the closed triangle (a, b, c):
the point is a convex combination of the three vertices. -/
def inTriangle (a b c z : vec3) : Prop :=
  ∃ al be ga : ℚ, 0 ≤ al ∧ 0 ≤ be ∧ 0 ≤ ga ∧ al + be + ga = 1 ∧
    z = vadd (vadd (smul al a) (smul be b)) (smul ga c)

/-- Strict barycentric membership: all three coefficients positive. -/
def strictlyInTriangle (a b c z : vec3) : Prop :=
  ∃ al be ga : ℚ, 0 < al ∧ 0 < be ∧ 0 < ga ∧ al + be + ga = 1 ∧
    z = vadd (vadd (smul al a) (smul be b)) (smul ga c)

/-- The overlap region of the two input triangles. -/
def overlapSet (p0 p1 p2 q0 q1 q2 : vec3) : Set vec3 :=
  {z | inTriangle p0 p1 p2 z ∧ inTriangle q0 q1 q2 z}

/-- Extreme point of a set of points: a member that is not in the open
segment between any two members.  For the convex overlap polygon of two
coplanar triangles these are exactly the polygon vertices. -/
def isExtremePt (S : Set vec3) (z : vec3) : Prop :=
  z ∈ S ∧ ∀ y w : vec3, y ∈ S → w ∈ S → ∀ t : ℚ, 0 < t → t < 1 →
    z = pOn y w t → y = z ∧ w = z

/-- Crossing point of the supporting line of (u, v) with the supporting
line of (w, x) in the common plane of normal n, computed as the crossing
of (u, v) with the zero set of the orientation functional of (w, x). -/
def lineCross (n u v w x : vec3) : vec3 :=
  crossPt u (side n w x u) v (side n w x v)

/-- Geometric realization of an emitted symbolic pair: a vertex region
realizes to that vertex and an edge-edge pair to the crossing point of
the two supporting lines (edge i joins the two vertices other than i).
Pair shapes never emitted by the coplanar assembly realize to the
origin. -/
def realizeIsect (p0 p1 p2 q0 q1 q2 : vec3) : TriangleIsect → vec3
  | (.T1_RGN_P0, _) => p0
  | (.T1_RGN_P1, _) => p1
  | (.T1_RGN_P2, _) => p2
  | (_, .T2_RGN_P0) => q0
  | (_, .T2_RGN_P1) => q1
  | (_, .T2_RGN_P2) => q2
  | (.T1_RGN_E0, .T2_RGN_E0) => lineCross (triNormal p0 p1 p2) p1 p2 q1 q2
  | (.T1_RGN_E0, .T2_RGN_E1) => lineCross (triNormal p0 p1 p2) p1 p2 q2 q0
  | (.T1_RGN_E0, .T2_RGN_E2) => lineCross (triNormal p0 p1 p2) p1 p2 q0 q1
  | (.T1_RGN_E1, .T2_RGN_E0) => lineCross (triNormal p0 p1 p2) p2 p0 q1 q2
  | (.T1_RGN_E1, .T2_RGN_E1) => lineCross (triNormal p0 p1 p2) p2 p0 q2 q0
  | (.T1_RGN_E1, .T2_RGN_E2) => lineCross (triNormal p0 p1 p2) p2 p0 q0 q1
  | (.T1_RGN_E2, .T2_RGN_E0) => lineCross (triNormal p0 p1 p2) p0 p1 q1 q2
  | (.T1_RGN_E2, .T2_RGN_E1) => lineCross (triNormal p0 p1 p2) p0 p1 q2 q0
  | (.T1_RGN_E2, .T2_RGN_E2) => lineCross (triNormal p0 p1 p2) p0 p1 q0 q1
  | _ => vzero

/-- Least ratio of value over decrease rate among the entries of a list
of pairs (value, slope) with negative slope: the largest step possible
along a ray before an affine value with decreasing slope reaches zero. -/
def minRatio : List (ℚ × ℚ) → Option ℚ
  | [] => none
  | p :: l =>
    match minRatio l with
    | none => if p.2 < 0 then some (p.1 / (-p.2)) else none
    | some m => if p.2 < 0 then some (min (p.1 / (-p.2)) m) else some m

theorem sgn_eq_pos_iff (r : ℚ) : sgn r = Sg.pos ↔ 0 < r := by
  unfold sgn
  split_ifs with h1 h2
  · simpa using h1
  · simp only [reduceCtorEq, false_iff]
    exact not_lt_of_gt h2
  · simp only [reduceCtorEq, false_iff]
    exact h1

theorem sgn_eq_neg_iff (r : ℚ) : sgn r = Sg.neg ↔ r < 0 := by
  unfold sgn
  split_ifs with h1 h2
  · simp only [reduceCtorEq, false_iff]
    exact not_lt_of_gt h1
  · simpa using h2
  · simp only [reduceCtorEq, false_iff]
    exact h2

theorem sgn_eq_zer_iff (r : ℚ) : sgn r = Sg.zer ↔ r = 0 := by
  unfold sgn
  split_ifs with h1 h2
  · simp only [reduceCtorEq, false_iff]
    exact ne_of_gt h1
  · simp only [reduceCtorEq, false_iff]
    exact ne_of_lt h2
  · simp only [true_iff]
    exact le_antisymm (le_of_not_lt h1) (le_of_not_lt h2)

theorem packResult_fst (l : List TriangleIsect) :
    (packResult l).1 = !l.isEmpty := rfl

theorem packResult_snd (l : List TriangleIsect) : (packResult l).2 = l := rfl

/-- C1: for valid input triangles that share a vertex exactly, or share an
edge, or are identical as vertex sets, the routine answers false with an
empty result sequence, whatever the geometric overlap. -/
theorem triangles_intersections_shared_feature_empty
    (p0 p1 p2 q0 q1 q2 : vec3) (result : List TriangleIsect)
    (_hP : nondegenerate p0 p1 p2) (_hQ : nondegenerate q0 q1 q2)
    (h : sharesVertex p0 p1 p2 q0 q1 q2 ∨ sharesEdge p0 p1 p2 q0 q1 q2 ∨
      sameVertexSet p0 p1 p2 q0 q1 q2) :
    triangles_intersections p0 p1 p2 q0 q1 q2 result = (false, []) := by
  have hsv : sharesVertex p0 p1 p2 q0 q1 q2 := by
    rcases h with h | h | h
    · exact h
    · rcases h with ⟨_, h1, _⟩ | ⟨_, h1, _⟩ | ⟨_, h1, _⟩
      · exact Or.inl h1
      · exact Or.inl h1
      · exact Or.inr (Or.inl h1)
    · have hp0 : p0 ∈ ({q0, q1, q2} : Finset vec3) := by
        rw [← h]
        exact Finset.mem_insert_self _ _
      simp only [Finset.mem_insert, Finset.mem_singleton] at hp0
      exact Or.inl hp0
  unfold triangles_intersections triangles_intersections_core
  rw [if_pos hsv]

/-- Witness for C1 at a concrete shared-vertex input. -/
theorem triangles_intersections_shared_feature_empty_witness :
    triangles_intersections ⟨0, 0, 0⟩ ⟨1, 0, 0⟩ ⟨0, 1, 0⟩ ⟨0, 0, 0⟩
      ⟨1, 0, 1⟩ ⟨0, 1, 1⟩ [] = (false, []) :=
  triangles_intersections_shared_feature_empty _ _ _ _ _ _ _
    (by decide) (by decide) (Or.inl (by decide))

/-- C5: when every vertex of the second triangle lies strictly on one side
of the plane of the first one (equal nonzero orientation signs), the
routine answers false with an empty result sequence. -/
theorem triangles_intersections_separation_fast_path
    (p0 p1 p2 q0 q1 q2 : vec3) (result : List TriangleIsect)
    (_hP : nondegenerate p0 p1 p2) (_hQ : nondegenerate q0 q1 q2)
    (heq1 : sgn (orient3d p0 p1 p2 q0) = sgn (orient3d p0 p1 p2 q1))
    (heq2 : sgn (orient3d p0 p1 p2 q1) = sgn (orient3d p0 p1 p2 q2))
    (hnz : sgn (orient3d p0 p1 p2 q0) ≠ Sg.zer) :
    triangles_intersections p0 p1 p2 q0 q1 q2 result = (false, []) := by
  have huni : uniformSignNZ (orient3d p0 p1 p2 q0) (orient3d p0 p1 p2 q1)
      (orient3d p0 p1 p2 q2) := by
    rcases h0 : sgn (orient3d p0 p1 p2 q0) with _ | _ | _
    · right
      have h1 : sgn (orient3d p0 p1 p2 q1) = Sg.neg := by rw [← heq1, h0]
      have h2 : sgn (orient3d p0 p1 p2 q2) = Sg.neg := by rw [← heq2, h1]
      exact ⟨(sgn_eq_neg_iff _).1 h0, (sgn_eq_neg_iff _).1 h1,
        (sgn_eq_neg_iff _).1 h2⟩
    · exact absurd h0 hnz
    · left
      have h1 : sgn (orient3d p0 p1 p2 q1) = Sg.pos := by rw [← heq1, h0]
      have h2 : sgn (orient3d p0 p1 p2 q2) = Sg.pos := by rw [← heq2, h1]
      exact ⟨(sgn_eq_pos_iff _).1 h0, (sgn_eq_pos_iff _).1 h1,
        (sgn_eq_pos_iff _).1 h2⟩
  unfold triangles_intersections triangles_intersections_core
  by_cases hsv : sharesVertex p0 p1 p2 q0 q1 q2
  · rw [if_pos hsv]
  · rw [if_neg hsv, if_pos (Or.inl huni)]

/-- Witness for C5 at a concrete strictly separated input. -/
theorem triangles_intersections_separation_fast_path_witness :
    triangles_intersections ⟨0, 0, 0⟩ ⟨1, 0, 0⟩ ⟨0, 1, 0⟩ ⟨0, 0, 1⟩
      ⟨1, 0, 1⟩ ⟨0, 1, 2⟩ [] = (false, []) :=
  triangles_intersections_separation_fast_path _ _ _ _ _ _ _
    (by decide) (by decide) (by decide) (by decide) (by decide)

/-- C7: the boolean convenience overload returns exactly the boolean of
the full overload applied to the same six points with a fresh empty
result vector. -/
theorem triangles_intersections_bool_agrees (p0 p1 p2 q0 q1 q2 : vec3) :
    triangles_intersections_bool p0 p1 p2 q0 q1 q2 =
      (triangles_intersections p0 p1 p2 q0 q1 q2 []).1 := rfl

/-- C8: TriangleRegion is a closed enumeration of exactly 14 distinct
symbols, and the seven symbols of the first triangle are disjoint from
the seven symbols of the second one, the two sets together covering the
whole enumeration; the numeric values written in the header are also
pairwise distinct. -/
theorem triangleRegion_partition :
    (Finset.univ : Finset TriangleRegion).card = 14 ∧
    (({TriangleRegion.T1_RGN_P0, .T1_RGN_P1, .T1_RGN_P2, .T1_RGN_E0,
        .T1_RGN_E1, .T1_RGN_E2, .T1_RGN_T} : Finset TriangleRegion) ∩
      ({TriangleRegion.T2_RGN_P0, .T2_RGN_P1, .T2_RGN_P2, .T2_RGN_E0,
        .T2_RGN_E1, .T2_RGN_E2, .T2_RGN_T} : Finset TriangleRegion) = ∅) ∧
    (({TriangleRegion.T1_RGN_P0, .T1_RGN_P1, .T1_RGN_P2, .T1_RGN_E0,
        .T1_RGN_E1, .T1_RGN_E2, .T1_RGN_T} : Finset TriangleRegion) ∪
      ({TriangleRegion.T2_RGN_P0, .T2_RGN_P1, .T2_RGN_P2, .T2_RGN_E0,
        .T2_RGN_E1, .T2_RGN_E2, .T2_RGN_T} : Finset TriangleRegion) =
      Finset.univ) ∧
    (∀ r s : TriangleRegion, r.toNat = s.toNat → r = s) := by decide

/-- C9: when the dispatch reaches the chord stage and a sign pattern is
not mapped to a chord (the internal dispatch gap, reachable only through
inputs violating the non-degeneracy precondition), the routine answers
the defensive no-intersection result instead of faulting. -/
theorem triangles_intersections_dispatch_gap_defensive
    (p0 p1 p2 q0 q1 q2 : vec3) (result : List TriangleIsect)
    (h1 : ¬ sharesVertex p0 p1 p2 q0 q1 q2)
    (h2 : ¬ (uniformSignNZ (orient3d p0 p1 p2 q0) (orient3d p0 p1 p2 q1)
        (orient3d p0 p1 p2 q2) ∨
      uniformSignNZ (orient3d q0 q1 q2 p0) (orient3d q0 q1 q2 p1)
        (orient3d q0 q1 q2 p2)))
    (h3 : ¬ (allZero (orient3d p0 p1 p2 q0) (orient3d p0 p1 p2 q1)
        (orient3d p0 p1 p2 q2) ∧
      allZero (orient3d q0 q1 q2 p0) (orient3d q0 q1 q2 p1)
        (orient3d q0 q1 q2 p2)))
    (h4 : chordOf p0 p1 p2 (orient3d q0 q1 q2 p0) (orient3d q0 q1 q2 p1)
        (orient3d q0 q1 q2 p2) = none ∨
      chordOf q0 q1 q2 (orient3d p0 p1 p2 q0) (orient3d p0 p1 p2 q1)
        (orient3d p0 p1 p2 q2) = none) :
    triangles_intersections p0 p1 p2 q0 q1 q2 result = (false, []) := by
  unfold triangles_intersections triangles_intersections_core
  rw [if_neg h1, if_neg h2, if_neg h3]
  rcases h4 with h4 | h4
  · rw [h4]
  · rw [h4]
    cases chordOf p0 p1 p2 (orient3d q0 q1 q2 p0) (orient3d q0 q1 q2 p1)
      (orient3d q0 q1 q2 p2) <;> rfl

/-- Witness for C9: the first triangle is valid, the second one is a
degenerate collinear triple crossing its plane, so the chord stage sees
the all-zero against mixed sign pattern, which no topology maps. -/
theorem triangles_intersections_dispatch_gap_defensive_witness :
    triangles_intersections ⟨0, 0, 0⟩ ⟨1, 0, 0⟩ ⟨0, 1, 0⟩ ⟨0, 0, -1⟩
      ⟨0, 0, 1⟩ ⟨0, 0, 3⟩ [] = (false, []) :=
  triangles_intersections_dispatch_gap_defensive _ _ _ _ _ _ _
    (by decide) (by decide) (by decide) (Or.inl (by decide))


/-- C10: the element operator writes exactly the parenthesized pair of
region strings onto the given stream, and the vector operator writes the
elements in index order, each followed by a single space; both return the
stream they were given extended by exactly that text. -/
theorem stream_output_exact (r2s : TriangleRegion → String) (out : String)
    (I : TriangleIsect) (II : List TriangleIsect) :
    streamIsect r2s out I = out ++ ("(" ++ r2s I.1 ++ "," ++ r2s I.2 ++ ")") ∧
    streamIsectVec r2s out II =
      out ++ sconcat (II.map fun J =>
        ("(" ++ r2s J.1 ++ "," ++ r2s J.2 ++ ")") ++ " ") := by
  constructor
  · unfold streamIsect sput
    simp [String.append_assoc]
  · induction II generalizing out with
    | nil => simp [streamIsectVec, sconcat]
    | cons head tail ih =>
      have hstep : streamIsectVec r2s out (head :: tail) =
          streamIsectVec r2s (sput (streamIsect r2s out head) " ") tail := rfl
      rw [hstep, ih]
      unfold streamIsect sput sconcat
      simp [String.append_assoc]


theorem assemble_length_le (dL : vec3) (cp cq : Chord) :
    (assemble dL cp cq).length ≤ 2 := by
  simp only [assemble]
  split_ifs <;> simp

/-- C3: for valid triangles in general position (no shared vertex, edge or
duplicated triangle, both sign triples strictly mixed so that each
triangle properly crosses the plane of the other), the routine emits at
most two symbolic pairs. -/
theorem triangles_intersections_generic_crossing_bound
    (p0 p1 p2 q0 q1 q2 : vec3) (result : List TriangleIsect)
    (_hP : nondegenerate p0 p1 p2) (_hQ : nondegenerate q0 q1 q2)
    (hnsv : ¬ sharesVertex p0 p1 p2 q0 q1 q2)
    (hmq : strictMixed (orient3d p0 p1 p2 q0) (orient3d p0 p1 p2 q1)
      (orient3d p0 p1 p2 q2))
    (hmp : strictMixed (orient3d q0 q1 q2 p0) (orient3d q0 q1 q2 p1)
      (orient3d q0 q1 q2 p2)) :
    (triangles_intersections p0 p1 p2 q0 q1 q2 result).2.length ≤ 2 := by
  obtain ⟨hq0, _, _, hqu⟩ := hmq
  obtain ⟨_, _, _, hpu⟩ := hmp
  unfold triangles_intersections triangles_intersections_core
  rw [if_neg hnsv, if_neg (not_or.mpr ⟨hqu, hpu⟩),
    if_neg (fun hc => hq0 hc.1.1)]
  cases chordOf p0 p1 p2 (orient3d q0 q1 q2 p0) (orient3d q0 q1 q2 p1)
      (orient3d q0 q1 q2 p2) with
  | none =>
    cases chordOf q0 q1 q2 (orient3d p0 p1 p2 q0) (orient3d p0 p1 p2 q1)
        (orient3d p0 p1 p2 q2) <;> simp
  | some cp =>
    cases chordOf q0 q1 q2 (orient3d p0 p1 p2 q0) (orient3d p0 p1 p2 q1)
        (orient3d p0 p1 p2 q2) with
    | none => simp
    | some cq =>
      rw [packResult_snd]
      simpa using assemble_length_le
        (cross (triNormal p0 p1 p2) (triNormal q0 q1 q2)) cp cq

/-- Witness for C3 at the transversal example of the design document. -/
theorem triangles_intersections_generic_crossing_bound_witness :
    (triangles_intersections ⟨0, 0, 0⟩ ⟨1, 0, 0⟩ ⟨0, 1, 0⟩ ⟨0, 0, 1⟩
      ⟨1, 0, 1⟩ ⟨0, 1, -1⟩ []).2.length ≤ 2 :=
  triangles_intersections_generic_crossing_bound _ _ _ _ _ _ _
    (by decide) (by decide) (by decide) (by decide) (by decide)


theorem vec3_eq_iff (a b : vec3) : a = b ↔ a.x = b.x ∧ a.y = b.y ∧ a.z = b.z := by
  cases a
  cases b
  simp [vec3.mk.injEq]

theorem vadd_vsub_self (a z : vec3) : vadd a (vsub z a) = z := by
  simp [vadd, vsub, vec3_eq_iff]

theorem dot_vsub_split (n a b o : vec3) :
    dot n (vsub a b) = dot n (vsub a o) - dot n (vsub b o) := by
  simp [dot, vsub]
  ring

theorem dot_self_eq_zero_iff (d : vec3) : dot d d = 0 ↔ d = vzero := by
  simp only [dot, vec3_eq_iff, vzero]
  constructor
  · intro h
    refine ⟨?_, ?_, ?_⟩ <;>
      nlinarith [sq_nonneg d.x, sq_nonneg d.y, sq_nonneg d.z]
  · rintro ⟨h1, h2, h3⟩
    rw [h1, h2, h3]
    ring

theorem cross_cross_right (u v n : vec3) :
    cross (cross u v) n = vsub (smul (dot u n) v) (smul (dot v n) u) := by
  simp [cross, dot, vsub, smul, vec3_eq_iff]
  refine ⟨?_, ?_, ?_⟩ <;> ring

theorem lagrange_self (d w : vec3) :
    smul (dot d d) w = vadd (smul (dot w d) d) (cross d (cross w d)) := by
  simp [cross, dot, vadd, smul, vec3_eq_iff]
  refine ⟨?_, ?_, ?_⟩ <;> ring

theorem cross_anticomm_zero (a b : vec3) (h : cross a b = vzero) :
    cross b a = vzero := by
  rw [vec3_eq_iff] at h ⊢
  simp only [cross, vzero] at h ⊢
  refine ⟨?_, ?_, ?_⟩ <;> [skip; skip; skip] <;> linarith [h.1, h.2.1, h.2.2]

theorem parallel_of_cross_zero (w d : vec3) (hd : dot d d ≠ 0)
    (h : cross w d = vzero) : w = smul (dot w d / dot d d) d := by
  have hl := lagrange_self d w
  rw [h] at hl
  have hcz : cross d vzero = vzero := by
    simp [cross, vzero, vec3_eq_iff]
  rw [hcz] at hl
  rw [vec3_eq_iff] at hl ⊢
  simp only [smul, vadd, vzero] at hl ⊢
  obtain ⟨h1, h2, h3⟩ := hl
  refine ⟨?_, ?_, ?_⟩ <;> field_simp <;> linarith

theorem vsub_ne_vzero (a b : vec3) (h : b ≠ a) : vsub b a ≠ vzero := by
  intro hc
  apply h
  rw [vec3_eq_iff] at hc ⊢
  simp only [vsub, vzero] at hc
  refine ⟨?_, ?_, ?_⟩ <;> linarith [hc.1, hc.2.1, hc.2.2]

theorem side_affine (n a b u v : vec3) (t : ℚ) :
    side n a b (pOn u v t) =
      (1 - t) * side n a b u + t * side n a b v := by
  simp only [side, pOn, triNormal, cross, dot, vsub, vadd, smul]
  ring

theorem side_cyc (n a b c : vec3) : side n a b c = side n b c a := by
  simp only [side, triNormal, cross, dot, vsub]
  ring

theorem side_self_left (n a b : vec3) : side n a b a = 0 := by
  simp only [side, triNormal, cross, dot, vsub]
  ring

theorem side_self_right (n a b : vec3) : side n a b b = 0 := by
  simp only [side, triNormal, cross, dot, vsub]
  ring

theorem side_eq_dot_triNormal (n a b c : vec3) :
    side n a b c = dot (triNormal a b c) n := rfl

theorem side_swap12 (n a b c : vec3) : side n a b c = - side n b a c := by
  simp only [side, triNormal, cross, dot, vsub]
  ring

/-- A point of the plane where the in-plane orientation against the
segment (a, b) vanishes lies on the line through a and b. -/
theorem on_line_of_side_zero (n o a b z : vec3) (hn : dot n n ≠ 0)
    (ha : dot n (vsub a o) = 0) (hb : dot n (vsub b o) = 0)
    (hz : dot n (vsub z o) = 0) (hab : b ≠ a)
    (h : side n a b z = 0) : ∃ t, z = pOn a b t := by
  have hu : dot n (vsub b a) = 0 := by
    rw [dot_vsub_split n b a o, hb, ha]
    ring
  have hv : dot n (vsub z a) = 0 := by
    rw [dot_vsub_split n z a o, hz, ha]
    ring
  have hdotc : dot (cross (vsub b a) (vsub z a)) n = 0 := h
  have hcc : cross (cross (vsub b a) (vsub z a)) n = vzero := by
    rw [cross_cross_right]
    have h1 : dot (vsub b a) n = dot n (vsub b a) := by
      simp [dot]
      ring
    have h2 : dot (vsub z a) n = dot n (vsub z a) := by
      simp [dot]
      ring
    rw [h1, h2, hu, hv]
    simp [smul, vsub, vzero, vec3_eq_iff]
  have hw : cross (vsub b a) (vsub z a) =
      smul (dot (cross (vsub b a) (vsub z a)) n / dot n n) n :=
    parallel_of_cross_zero _ _ hn hcc
  rw [hdotc] at hw
  have hw0 : cross (vsub b a) (vsub z a) = vzero := by
    rw [hw]
    simp [smul, vzero, vec3_eq_iff]
  have hw0' : cross (vsub z a) (vsub b a) = vzero := cross_anticomm_zero _ _ hw0
  have hdd : dot (vsub b a) (vsub b a) ≠ 0 := by
    intro hc
    exact vsub_ne_vzero a b hab ((dot_self_eq_zero_iff _).1 hc)
  have hpar := parallel_of_cross_zero (vsub z a) (vsub b a) hdd hw0'
  refine ⟨dot (vsub z a) (vsub b a) / dot (vsub b a) (vsub b a), ?_⟩
  rw [pOn, ← hpar, vadd_vsub_self]

theorem side_self_firsttwo (n a c : vec3) : side n a a c = 0 := by
  simp only [side, triNormal, cross, dot, vsub]
  ring

theorem inplane_pOn (n o u v : vec3) (t : ℚ)
    (hu : dot n (vsub u o) = 0) (hv : dot n (vsub v o) = 0) :
    dot n (vsub (pOn u v t) o) = 0 := by
  have hid : dot n (vsub (pOn u v t) o) =
      (1 - t) * dot n (vsub u o) + t * dot n (vsub v o) := by
    simp only [dot, vsub, pOn, vadd, smul]
    ring
  rw [hid, hu, hv]
  ring

theorem sgn_eq_imp_mul_nonneg (a b : ℚ) (h : sgn a = sgn b) : 0 ≤ b * a := by
  rcases hb : sgn b with _ | _ | _
  · rw [hb] at h
    exact le_of_lt (mul_pos_of_neg_of_neg ((sgn_eq_neg_iff b).1 hb)
      ((sgn_eq_neg_iff a).1 h))
  · rw [(sgn_eq_zer_iff b).1 hb]
    simp
  · rw [hb] at h
    exact le_of_lt (mul_pos ((sgn_eq_pos_iff b).1 hb) ((sgn_eq_pos_iff a).1 h))

theorem classify_isSome_weak (n b0 b1 b2 zp : vec3)
    (h : (classify n b0 b1 b2 zp).isSome) :
    0 ≤ side n b0 b1 b2 * side n b1 b2 zp ∧
    0 ≤ side n b0 b1 b2 * side n b2 b0 zp ∧
    0 ≤ side n b0 b1 b2 * side n b0 b1 zp := by
  unfold classify at h
  split_ifs at h with hT hE0 hE1 hE2
  · exact ⟨sgn_eq_imp_mul_nonneg _ _ hT.1, sgn_eq_imp_mul_nonneg _ _ hT.2.1,
      sgn_eq_imp_mul_nonneg _ _ hT.2.2⟩
  · refine ⟨?_, sgn_eq_imp_mul_nonneg _ _ hE0.2.1,
      sgn_eq_imp_mul_nonneg _ _ hE0.2.2⟩
    rw [hE0.1]
    simp
  · refine ⟨sgn_eq_imp_mul_nonneg _ _ hE1.2.1, ?_,
      sgn_eq_imp_mul_nonneg _ _ hE1.2.2⟩
    rw [hE1.1]
    simp
  · refine ⟨sgn_eq_imp_mul_nonneg _ _ hE2.2.1,
      sgn_eq_imp_mul_nonneg _ _ hE2.2.2, ?_⟩
    rw [hE2.1]
    simp
  · simp at h

theorem param_bounds (C D s : ℚ) (h : (1 - s) * C + s * D = 0)
    (hCD : C * D < 0) : 0 < s ∧ s < 1 := by
  rcases mul_neg_iff.mp hCD with ⟨hC, hD⟩ | ⟨hC, hD⟩
  · constructor
    · by_contra hs
      push_neg at hs
      nlinarith
    · by_contra hs
      push_neg at hs
      nlinarith
  · constructor
    · by_contra hs
      push_neg at hs
      nlinarith
    · by_contra hs
      push_neg at hs
      nlinarith

/-- After the zero of an affine in-plane orientation along a segment, the
orientation has the sign of its value at the far endpoint. -/
theorem side_neg_after (n a b u v : vec3) (dv t0 tt : ℚ)
    (h0 : side n a b (pOn u v t0) = 0)
    (hA : 0 < dv * side n a b u) (hB : dv * side n a b v < 0)
    (ht : t0 < tt) : dv * side n a b (pOn u v tt) < 0 := by
  rw [side_affine] at h0 ⊢
  have key : dv * ((1 - tt) * side n a b u + tt * side n a b v) =
      (tt - t0) * (dv * side n a b v - dv * side n a b u) := by
    linear_combination dv * h0
  rw [key]
  exact mul_neg_of_pos_of_neg (by linarith) (by linarith)

/-- An affine in-plane orientation along a segment cannot vanish strictly
between two points where it has the sign of dv. -/
theorem side_zero_between (n a b u v : vec3) (dv t0 t1 t2 : ℚ)
    (h0 : side n a b (pOn u v t0) = 0)
    (h1 : 0 < dv * side n a b (pOn u v t1))
    (h2 : 0 < dv * side n a b (pOn u v t2))
    (hlt1 : t1 < t0) (hlt2 : t0 < t2) : False := by
  rw [side_affine] at h0 h1 h2
  have key : (dv * ((1 - t1) * side n a b u + t1 * side n a b v)) * (t2 - t0) +
      (dv * ((1 - t2) * side n a b u + t2 * side n a b v)) * (t0 - t1) = 0 := by
    linear_combination (dv * (t2 - t1)) * h0
  linarith [mul_pos h1 (sub_pos.mpr hlt2), mul_pos h2 (sub_pos.mpr hlt1)]

/-- A proper crossing of the segment (u, v) with the edge (w, x) of the
triangle listed cyclically as (w, x, y) happens at a parameter where the
crossed edge functional vanishes and the two other edge functionals have
the sign of the triangle: the crossing point is interior to the edge. -/
theorem cross_relint (n o u v w x y : vec3) (hn : dot n n ≠ 0)
    (hu : dot n (vsub u o) = 0) (hv : dot n (vsub v o) = 0)
    (hw : dot n (vsub w o) = 0) (hx : dot n (vsub x o) = 0)
    (hd : side n w x y ≠ 0) (hc : properCross n u v w x) :
    ∃ t : ℚ, side n w x (pOn u v t) = 0 ∧
      0 < side n w x y * side n x y (pOn u v t) ∧
      0 < side n w x y * side n y w (pOn u v t) := by
  obtain ⟨h1, h2⟩ := hc
  have hxw : x ≠ w := by
    intro hxe
    apply hd
    rw [hxe]
    exact side_self_firsttwo n w y
  have hABne : side n w x u - side n w x v ≠ 0 := by
    intro hc0
    have hAB : side n w x u = side n w x v := by linarith
    rw [hAB] at h2
    exact absurd h2 (not_lt.2 (mul_self_nonneg _))
  have hzero : side n w x
      (pOn u v (side n w x u / (side n w x u - side n w x v))) = 0 := by
    rw [side_affine]
    field_simp
    ring
  have hzpl : dot n (vsub
      (pOn u v (side n w x u / (side n w x u - side n w x v))) o) = 0 :=
    inplane_pOn n o u v _ hu hv
  obtain ⟨s, hs⟩ := on_line_of_side_zero n o w x
    (pOn u v (side n w x u / (side n w x u - side n w x v)))
    hn hw hx hzpl hxw hzero
  have huv0 : (1 - s) * side n u v w + s * side n u v x = 0 := by
    have h' : side n u v
        (pOn u v (side n w x u / (side n w x u - side n w x v))) = 0 := by
      rw [side_affine, side_self_left, side_self_right]
      ring
    rw [hs, side_affine] at h'
    exact h'
  have hsb := param_bounds _ _ _ huv0 h1
  have hsq : 0 < side n w x y * side n w x y := mul_self_pos.mpr hd
  have hchain : side n w x y = side n y w x :=
    (side_cyc n w x y).trans (side_cyc n x y w)
  have hxy : side n x y
      (pOn u v (side n w x u / (side n w x u - side n w x v))) =
      (1 - s) * side n w x y := by
    rw [hs, side_affine, side_self_left, ← side_cyc n w x y]
    ring
  have hyw : side n y w
      (pOn u v (side n w x u / (side n w x u - side n w x v))) =
      s * side n w x y := by
    rw [hs, side_affine, side_self_right, ← hchain]
    ring
  refine ⟨side n w x u / (side n w x u - side n w x v), hzero, ?_, ?_⟩
  · rw [hxy]
    have hr : side n w x y * ((1 - s) * side n w x y) =
        (1 - s) * (side n w x y * side n w x y) := by ring
    rw [hr]
    exact mul_pos (by linarith [hsb.2]) hsq
  · rw [hyw]
    have hr : side n w x y * (s * side n w x y) =
        s * (side n w x y * side n w x y) := by ring
    rw [hr]
    exact mul_pos hsb.1 hsq

theorem weak_to_strict (d a b : ℚ) (hd : d ≠ 0) (hab : a * b < 0)
    (ha : 0 ≤ d * a) : 0 < d * a := by
  rcases lt_or_eq_of_le ha with h | h
  · exact h
  · exfalso
    rcases mul_eq_zero.mp h.symm with h0 | h0
    · exact hd h0
    · rw [h0] at hab
      simp at hab

theorem strict_transfer (d a b : ℚ) (hd : d ≠ 0) (hab : a * b < 0)
    (ha : 0 < d * a) : d * b < 0 := by
  by_contra hcon
  push_neg at hcon
  have hnn := mul_nonneg (le_of_lt ha) hcon
  have key : d * a * (d * b) = d * d * (a * b) := by ring
  rw [key] at hnn
  have hneg : d * d * (a * b) < 0 :=
    mul_neg_of_pos_of_neg (mul_self_pos.mpr hd) hab
  linarith

theorem no_cross_of_weak (n u v w x y : vec3) (hd : side n w x y ≠ 0)
    (hwu : 0 ≤ side n w x y * side n w x u)
    (hwv : 0 ≤ side n w x y * side n w x v) :
    ¬ properCross n u v w x := by
  rintro ⟨_, h2⟩
  have hnn := mul_nonneg hwu hwv
  have key : side n w x y * side n w x u * (side n w x y * side n w x v) =
      side n w x y * side n w x y * (side n w x u * side n w x v) := by ring
  rw [key] at hnn
  have hneg : side n w x y * side n w x y * (side n w x u * side n w x v) < 0 :=
    mul_neg_of_pos_of_neg (mul_self_pos.mpr hd) h2
  linarith

theorem no_two_cross_cyc (n o u v w x y : vec3) (hn : dot n n ≠ 0)
    (hu : dot n (vsub u o) = 0) (hv : dot n (vsub v o) = 0)
    (hw : dot n (vsub w o) = 0) (hx : dot n (vsub x o) = 0)
    (hy : dot n (vsub y o) = 0) (hd : side n w x y ≠ 0)
    (hwu1 : 0 ≤ side n w x y * side n w x u)
    (hwu2 : 0 ≤ side n w x y * side n x y u) :
    ¬ (properCross n u v w x ∧ properCross n u v x y) := by
  rintro ⟨hc1, hc2⟩
  have hd2 : side n x y w ≠ 0 := by
    rw [← side_cyc n w x y]
    exact hd
  obtain ⟨t1, hz1, hp1a, hp1b⟩ :=
    cross_relint n o u v w x y hn hu hv hw hx hd hc1
  obtain ⟨t2, hz2, hp2a, hp2b⟩ :=
    cross_relint n o u v x y w hn hu hv hx hy hd2 hc2
  rw [← side_cyc n w x y] at hp2a hp2b
  have hG1u : 0 < side n w x y * side n w x u :=
    weak_to_strict _ _ _ hd hc1.2 hwu1
  have hG1v : side n w x y * side n w x v < 0 :=
    strict_transfer _ _ _ hd hc1.2 hG1u
  have hG2u : 0 < side n w x y * side n x y u :=
    weak_to_strict _ _ _ hd hc2.2 hwu2
  have hG2v : side n w x y * side n x y v < 0 :=
    strict_transfer _ _ _ hd hc2.2 hG2u
  rcases lt_trichotomy t1 t2 with hlt | heq | hlt
  · have := side_neg_after n w x u v (side n w x y) t1 t2 hz1 hG1u hG1v hlt
    linarith
  · rw [heq, hz2] at hp1a
    simp at hp1a
  · have := side_neg_after n x y u v (side n w x y) t2 t1 hz2 hG2u hG2v hlt
    linarith

theorem no_three_cross_cyc (n o u v w x y : vec3) (hn : dot n n ≠ 0)
    (hu : dot n (vsub u o) = 0) (hv : dot n (vsub v o) = 0)
    (hw : dot n (vsub w o) = 0) (hx : dot n (vsub x o) = 0)
    (hy : dot n (vsub y o) = 0) (hd : side n w x y ≠ 0) :
    ¬ (properCross n u v w x ∧ properCross n u v x y ∧
      properCross n u v y w) := by
  rintro ⟨hc1, hc2, hc3⟩
  have hd2 : side n x y w ≠ 0 := by
    rw [← side_cyc n w x y]
    exact hd
  have hchain : side n w x y = side n y w x :=
    (side_cyc n w x y).trans (side_cyc n x y w)
  have hd3 : side n y w x ≠ 0 := by
    rw [← hchain]
    exact hd
  obtain ⟨t1, hz1, hp1a, hp1b⟩ :=
    cross_relint n o u v w x y hn hu hv hw hx hd hc1
  obtain ⟨t2, hz2, hp2a, hp2b⟩ :=
    cross_relint n o u v x y w hn hu hv hx hy hd2 hc2
  obtain ⟨t3, hz3, hp3a, hp3b⟩ :=
    cross_relint n o u v y w x hn hu hv hy hw hd3 hc3
  rw [← side_cyc n w x y] at hp2a hp2b
  rw [← hchain] at hp3a hp3b
  have h12 : t1 ≠ t2 := by
    intro he
    rw [he, hz2] at hp1a
    simp at hp1a
  have h13 : t1 ≠ t3 := by
    intro he
    rw [he, hz3] at hp1b
    simp at hp1b
  have h23 : t2 ≠ t3 := by
    intro he
    rw [he, hz3] at hp2a
    simp at hp2a
  rcases lt_trichotomy t1 t2 with h12' | he | h12'
  · rcases lt_trichotomy t2 t3 with h23' | he | h23'
    · exact side_zero_between n x y u v (side n w x y) t2 t1 t3
        hz2 hp1a hp3b h12' h23'
    · exact h23 he
    · rcases lt_trichotomy t1 t3 with h13' | he | h13'
      · exact side_zero_between n y w u v (side n w x y) t3 t1 t2
          hz3 hp1b hp2a h13' h23'
      · exact h13 he
      · exact side_zero_between n w x u v (side n w x y) t1 t3 t2
          hz1 hp3a hp2b h13' h12'
  · exact h12 he
  · rcases lt_trichotomy t1 t3 with h13' | he | h13'
    · exact side_zero_between n w x u v (side n w x y) t1 t2 t3
        hz1 hp2b hp3a h12' h13'
    · exact h13 he
    · rcases lt_trichotomy t2 t3 with h23' | he | h23'
      · exact side_zero_between n y w u v (side n w x y) t3 t2 t1
          hz3 hp2a hp1b h23' h13'
      · exact h23 he
      · exact side_zero_between n x y u v (side n w x y) t2 t3 t1
          hz2 hp3b hp1a h23' h12'

theorem properCross_swap_seg (n u v w x : vec3) :
    properCross n u v w x ↔ properCross n v u w x := by
  have hkey : side n v u w * side n v u x = side n u v w * side n u v x := by
    rw [side_swap12 n v u w, side_swap12 n v u x]
    ring
  constructor
  · rintro ⟨h1, h2⟩
    refine ⟨by rw [hkey]; exact h1, by rw [mul_comm]; exact h2⟩
  · rintro ⟨h1, h2⟩
    rw [hkey] at h1
    exact ⟨h1, by rw [mul_comm]; exact h2⟩

theorem pair_excl (n o u v b0 b1 b2 : vec3) (hn : dot n n ≠ 0)
    (hu : dot n (vsub u o) = 0) (hv : dot n (vsub v o) = 0)
    (hb0 : dot n (vsub b0 o) = 0) (hb1 : dot n (vsub b1 o) = 0)
    (hb2 : dot n (vsub b2 o) = 0) (hd : side n b0 b1 b2 ≠ 0)
    (hcu : (classify n b0 b1 b2 u).isSome) :
    ¬ (properCross n u v b1 b2 ∧ properCross n u v b2 b0) ∧
    ¬ (properCross n u v b2 b0 ∧ properCross n u v b0 b1) ∧
    ¬ (properCross n u v b0 b1 ∧ properCross n u v b1 b2) := by
  obtain ⟨wu0, wu1, wu2⟩ := classify_isSome_weak n b0 b1 b2 u hcu
  have e1 : side n b1 b2 b0 = side n b0 b1 b2 := (side_cyc n b0 b1 b2).symm
  have e2 : side n b2 b0 b1 = side n b0 b1 b2 := side_cyc n b2 b0 b1
  refine ⟨?_, ?_, ?_⟩
  · exact no_two_cross_cyc n o u v b1 b2 b0 hn hu hv hb1 hb2 hb0
      (by rw [e1]; exact hd) (by rw [e1]; exact wu0) (by rw [e1]; exact wu1)
  · exact no_two_cross_cyc n o u v b2 b0 b1 hn hu hv hb2 hb0 hb1
      (by rw [e2]; exact hd) (by rw [e2]; exact wu1) (by rw [e2]; exact wu2)
  · exact no_two_cross_cyc n o u v b0 b1 b2 hn hu hv hb0 hb1 hb2 hd wu2 wu0

theorem edge_cross_bound (n o u v b0 b1 b2 : vec3) (hn : dot n n ≠ 0)
    (hu : dot n (vsub u o) = 0) (hv : dot n (vsub v o) = 0)
    (hb0 : dot n (vsub b0 o) = 0) (hb1 : dot n (vsub b1 o) = 0)
    (hb2 : dot n (vsub b2 o) = 0) (hd : side n b0 b1 b2 ≠ 0) :
    ((if properCross n u v b1 b2 then 1 else 0) +
      (if properCross n u v b2 b0 then 1 else 0) +
      (if properCross n u v b0 b1 then 1 else 0) +
      (if (classify n b0 b1 b2 u).isSome then 1 else 0) +
      (if (classify n b0 b1 b2 v).isSome then 1 else 0) : ℕ) ≤ 2 := by
  have e1 : side n b1 b2 b0 = side n b0 b1 b2 := (side_cyc n b0 b1 b2).symm
  have e2 : side n b2 b0 b1 = side n b0 b1 b2 := side_cyc n b2 b0 b1
  by_cases hcu : (classify n b0 b1 b2 u).isSome <;>
    by_cases hcv : (classify n b0 b1 b2 v).isSome
  · obtain ⟨wu0, wu1, wu2⟩ := classify_isSome_weak n b0 b1 b2 u hcu
    obtain ⟨wv0, wv1, wv2⟩ := classify_isSome_weak n b0 b1 b2 v hcv
    have n0 : ¬ properCross n u v b1 b2 :=
      no_cross_of_weak n u v b1 b2 b0 (by rw [e1]; exact hd)
        (by rw [e1]; exact wu0) (by rw [e1]; exact wv0)
    have n1 : ¬ properCross n u v b2 b0 :=
      no_cross_of_weak n u v b2 b0 b1 (by rw [e2]; exact hd)
        (by rw [e2]; exact wu1) (by rw [e2]; exact wv1)
    have n2 : ¬ properCross n u v b0 b1 :=
      no_cross_of_weak n u v b0 b1 b2 hd wu2 wv2
    rw [if_neg n0, if_neg n1, if_neg n2, if_pos hcu, if_pos hcv]
  · obtain ⟨hx01, hx12, hx20⟩ :=
      pair_excl n o u v b0 b1 b2 hn hu hv hb0 hb1 hb2 hd hcu
    by_cases hc0 : properCross n u v b1 b2 <;>
      by_cases hc1 : properCross n u v b2 b0 <;>
      by_cases hc2 : properCross n u v b0 b1
    · exact absurd ⟨hc0, hc1⟩ hx01
    · exact absurd ⟨hc0, hc1⟩ hx01
    · exact absurd ⟨hc2, hc0⟩ hx20
    · rw [if_pos hc0, if_neg hc1, if_neg hc2]
      split_ifs <;> omega
    · exact absurd ⟨hc1, hc2⟩ hx12
    · rw [if_neg hc0, if_pos hc1, if_neg hc2]
      split_ifs <;> omega
    · rw [if_neg hc0, if_neg hc1, if_pos hc2]
      split_ifs <;> omega
    · rw [if_neg hc0, if_neg hc1, if_neg hc2]
      split_ifs <;> omega
  · obtain ⟨hx01, hx12, hx20⟩ :=
      pair_excl n o v u b0 b1 b2 hn hv hu hb0 hb1 hb2 hd hcv
    rw [← properCross_swap_seg n u v b1 b2] at hx01 hx20
    rw [← properCross_swap_seg n u v b2 b0] at hx01 hx12
    rw [← properCross_swap_seg n u v b0 b1] at hx12 hx20
    by_cases hc0 : properCross n u v b1 b2 <;>
      by_cases hc1 : properCross n u v b2 b0 <;>
      by_cases hc2 : properCross n u v b0 b1
    · exact absurd ⟨hc0, hc1⟩ hx01
    · exact absurd ⟨hc0, hc1⟩ hx01
    · exact absurd ⟨hc2, hc0⟩ hx20
    · rw [if_pos hc0, if_neg hc1, if_neg hc2]
      split_ifs <;> omega
    · exact absurd ⟨hc1, hc2⟩ hx12
    · rw [if_neg hc0, if_pos hc1, if_neg hc2]
      split_ifs <;> omega
    · rw [if_neg hc0, if_neg hc1, if_pos hc2]
      split_ifs <;> omega
    · rw [if_neg hc0, if_neg hc1, if_neg hc2]
      split_ifs <;> omega
  · have htr : ¬ (properCross n u v b1 b2 ∧ properCross n u v b2 b0 ∧
        properCross n u v b0 b1) :=
      no_three_cross_cyc n o u v b1 b2 b0 hn hu hv hb1 hb2 hb0
        (by rw [e1]; exact hd)
    by_cases hc0 : properCross n u v b1 b2 <;>
      by_cases hc1 : properCross n u v b2 b0 <;>
      by_cases hc2 : properCross n u v b0 b1
    · exact absurd ⟨hc0, hc1, hc2⟩ htr
    all_goals (split_ifs <;> first | contradiction | omega)

theorem dot_comm (a b : vec3) : dot a b = dot b a := by
  simp only [dot]
  ring

theorem properCross_comm (n u v w x : vec3) :
    properCross n u v w x ↔ properCross n w x u v :=
  ⟨fun h => ⟨h.2, h.1⟩, fun h => ⟨h.2, h.1⟩⟩

theorem ite_comm_cross (n u v w x : vec3) :
    (if properCross n u v w x then (1 : ℕ) else 0) =
    (if properCross n w x u v then (1 : ℕ) else 0) := by
  by_cases h : properCross n u v w x
  · rw [if_pos h, if_pos ((properCross_comm n u v w x).1 h)]
  · rw [if_neg h, if_neg (fun hc => h ((properCross_comm n w x u v).1 hc))]

theorem vpairA_length (r : Rgn) (cl : Option Rgn) :
    (vpairA r cl).length = if cl.isSome then 1 else 0 := by
  cases cl <;> rfl

theorem vpairB_length (r : Rgn) (cl : Option Rgn) :
    (vpairB r cl).length = if cl.isSome then 1 else 0 := by
  cases cl <;> rfl

theorem xpair_length (ra rb : Rgn) (c : Prop) [Decidable c] :
    (xpair ra rb c).length = if c then 1 else 0 := by
  unfold xpair
  split_ifs <;> rfl

theorem coplanarPairs_length (n p0 p1 p2 q0 q1 q2 : vec3) :
    (coplanarPairs n p0 p1 p2 q0 q1 q2).length =
      (if (classify n q0 q1 q2 p0).isSome then 1 else 0) +
      (if (classify n q0 q1 q2 p1).isSome then 1 else 0) +
      (if (classify n q0 q1 q2 p2).isSome then 1 else 0) +
      (if (classify n p0 p1 p2 q0).isSome then 1 else 0) +
      (if (classify n p0 p1 p2 q1).isSome then 1 else 0) +
      (if (classify n p0 p1 p2 q2).isSome then 1 else 0) +
      (if properCross n p1 p2 q1 q2 then 1 else 0) +
      (if properCross n p1 p2 q2 q0 then 1 else 0) +
      (if properCross n p1 p2 q0 q1 then 1 else 0) +
      (if properCross n p2 p0 q1 q2 then 1 else 0) +
      (if properCross n p2 p0 q2 q0 then 1 else 0) +
      (if properCross n p2 p0 q0 q1 then 1 else 0) +
      (if properCross n p0 p1 q1 q2 then 1 else 0) +
      (if properCross n p0 p1 q2 q0 then 1 else 0) +
      (if properCross n p0 p1 q0 q1 then 1 else 0) := by
  simp only [coplanarPairs, List.length_append, vpairA_length, vpairB_length,
    xpair_length]

/-- The triangle of the second coplanar triangle is non-degenerate also
in the in-plane orientation taken along the normal of the first one. -/
theorem coplanar_delta_ne (p0 p1 p2 q0 q1 q2 : vec3)
    (hP : nondegenerate p0 p1 p2) (hQ : nondegenerate q0 q1 q2)
    (hq0 : orient3d p0 p1 p2 q0 = 0) (hq1 : orient3d p0 p1 p2 q1 = 0)
    (hq2 : orient3d p0 p1 p2 q2 = 0) :
    side (triNormal p0 p1 p2) q0 q1 q2 ≠ 0 := by
  intro hc
  have hnn : dot (triNormal p0 p1 p2) (triNormal p0 p1 p2) ≠ 0 :=
    fun h => hP ((dot_self_eq_zero_iff _).1 h)
  have e0 : dot (triNormal p0 p1 p2) (vsub q0 p0) = 0 := hq0
  have e1 : dot (triNormal p0 p1 p2) (vsub q1 p0) = 0 := hq1
  have e2 : dot (triNormal p0 p1 p2) (vsub q2 p0) = 0 := hq2
  have hu1 : dot (triNormal p0 p1 p2) (vsub q1 q0) = 0 := by
    rw [dot_vsub_split (triNormal p0 p1 p2) q1 q0 p0, e1, e0]
    ring
  have hu2 : dot (triNormal p0 p1 p2) (vsub q2 q0) = 0 := by
    rw [dot_vsub_split (triNormal p0 p1 p2) q2 q0 p0, e2, e0]
    ring
  have hcr : cross (triNormal q0 q1 q2) (triNormal p0 p1 p2) = vzero := by
    show cross (cross (vsub q1 q0) (vsub q2 q0)) (triNormal p0 p1 p2) = vzero
    rw [cross_cross_right]
    rw [dot_comm (vsub q1 q0) (triNormal p0 p1 p2), hu1]
    rw [dot_comm (vsub q2 q0) (triNormal p0 p1 p2), hu2]
    simp [smul, vsub, vzero, vec3_eq_iff]
  have hpar := parallel_of_cross_zero (triNormal q0 q1 q2)
    (triNormal p0 p1 p2) hnn hcr
  have hc' : dot (triNormal q0 q1 q2) (triNormal p0 p1 p2) = 0 := hc
  rw [hc'] at hpar
  apply hQ
  rw [hpar]
  simp [smul, vzero, vec3_eq_iff]

/-- Core counting bound for the coplanar topology: the coplanar assembly
emits at most six region pairs, because along each of the six triangle
edges the proper crossings and the contained endpoints together never
exceed two incidences. -/
theorem coplanarPairs_length_le_six (p0 p1 p2 q0 q1 q2 : vec3)
    (hP : nondegenerate p0 p1 p2) (hQ : nondegenerate q0 q1 q2)
    (hq0 : orient3d p0 p1 p2 q0 = 0) (hq1 : orient3d p0 p1 p2 q1 = 0)
    (hq2 : orient3d p0 p1 p2 q2 = 0) :
    (coplanarPairs (triNormal p0 p1 p2) p0 p1 p2 q0 q1 q2).length ≤ 6 := by
  have hn : dot (triNormal p0 p1 p2) (triNormal p0 p1 p2) ≠ 0 :=
    fun h => hP ((dot_self_eq_zero_iff _).1 h)
  have hip0 : dot (triNormal p0 p1 p2) (vsub p0 p0) = 0 := by
    simp only [dot, vsub]
    ring
  have hip1 : dot (triNormal p0 p1 p2) (vsub p1 p0) = 0 := by
    simp only [dot, vsub, triNormal, cross]
    ring
  have hip2 : dot (triNormal p0 p1 p2) (vsub p2 p0) = 0 := by
    simp only [dot, vsub, triNormal, cross]
    ring
  have hiq0 : dot (triNormal p0 p1 p2) (vsub q0 p0) = 0 := hq0
  have hiq1 : dot (triNormal p0 p1 p2) (vsub q1 p0) = 0 := hq1
  have hiq2 : dot (triNormal p0 p1 p2) (vsub q2 p0) = 0 := hq2
  have hdP : side (triNormal p0 p1 p2) p0 p1 p2 ≠ 0 := hn
  have hdQ := coplanar_delta_ne p0 p1 p2 q0 q1 q2 hP hQ hq0 hq1 hq2
  have B1 := edge_cross_bound (triNormal p0 p1 p2) p0 p1 p2 q0 q1 q2
    hn hip1 hip2 hiq0 hiq1 hiq2 hdQ
  have B2 := edge_cross_bound (triNormal p0 p1 p2) p0 p2 p0 q0 q1 q2
    hn hip2 hip0 hiq0 hiq1 hiq2 hdQ
  have B3 := edge_cross_bound (triNormal p0 p1 p2) p0 p0 p1 q0 q1 q2
    hn hip0 hip1 hiq0 hiq1 hiq2 hdQ
  have B4 := edge_cross_bound (triNormal p0 p1 p2) p0 q1 q2 p0 p1 p2
    hn hiq1 hiq2 hip0 hip1 hip2 hdP
  have B5 := edge_cross_bound (triNormal p0 p1 p2) p0 q2 q0 p0 p1 p2
    hn hiq2 hiq0 hip0 hip1 hip2 hdP
  have B6 := edge_cross_bound (triNormal p0 p1 p2) p0 q0 q1 p0 p1 p2
    hn hiq0 hiq1 hip0 hip1 hip2 hdP
  rw [ite_comm_cross (triNormal p0 p1 p2) q1 q2 p1 p2,
    ite_comm_cross (triNormal p0 p1 p2) q1 q2 p2 p0,
    ite_comm_cross (triNormal p0 p1 p2) q1 q2 p0 p1] at B4
  rw [ite_comm_cross (triNormal p0 p1 p2) q2 q0 p1 p2,
    ite_comm_cross (triNormal p0 p1 p2) q2 q0 p2 p0,
    ite_comm_cross (triNormal p0 p1 p2) q2 q0 p0 p1] at B5
  rw [ite_comm_cross (triNormal p0 p1 p2) q0 q1 p1 p2,
    ite_comm_cross (triNormal p0 p1 p2) q0 q1 p2 p0,
    ite_comm_cross (triNormal p0 p1 p2) q0 q1 p0 p1] at B6
  rw [coplanarPairs_length]
  revert B1 B2 B3 B4 B5 B6
  generalize (if properCross (triNormal p0 p1 p2) p1 p2 q1 q2 then (1 : ℕ) else 0) = x00
  generalize (if properCross (triNormal p0 p1 p2) p1 p2 q2 q0 then (1 : ℕ) else 0) = x01
  generalize (if properCross (triNormal p0 p1 p2) p1 p2 q0 q1 then (1 : ℕ) else 0) = x02
  generalize (if properCross (triNormal p0 p1 p2) p2 p0 q1 q2 then (1 : ℕ) else 0) = x10
  generalize (if properCross (triNormal p0 p1 p2) p2 p0 q2 q0 then (1 : ℕ) else 0) = x11
  generalize (if properCross (triNormal p0 p1 p2) p2 p0 q0 q1 then (1 : ℕ) else 0) = x12
  generalize (if properCross (triNormal p0 p1 p2) p0 p1 q1 q2 then (1 : ℕ) else 0) = x20
  generalize (if properCross (triNormal p0 p1 p2) p0 p1 q2 q0 then (1 : ℕ) else 0) = x21
  generalize (if properCross (triNormal p0 p1 p2) p0 p1 q0 q1 then (1 : ℕ) else 0) = x22
  generalize (if (classify (triNormal p0 p1 p2) q0 q1 q2 p0).isSome then (1 : ℕ) else 0) = wa0
  generalize (if (classify (triNormal p0 p1 p2) q0 q1 q2 p1).isSome then (1 : ℕ) else 0) = wa1
  generalize (if (classify (triNormal p0 p1 p2) q0 q1 q2 p2).isSome then (1 : ℕ) else 0) = wa2
  generalize (if (classify (triNormal p0 p1 p2) p0 p1 p2 q0).isSome then (1 : ℕ) else 0) = wb0
  generalize (if (classify (triNormal p0 p1 p2) p0 p1 p2 q1).isSome then (1 : ℕ) else 0) = wb1
  generalize (if (classify (triNormal p0 p1 p2) p0 p1 p2 q2).isSome then (1 : ℕ) else 0) = wb2
  intro B1 B2 B3 B4 B5 B6
  omega

/-- C2: for valid input triangles the routine always emits between zero
and six symbolic pairs. -/
theorem triangles_intersections_pair_count_le_six
    (p0 p1 p2 q0 q1 q2 : vec3) (result : List TriangleIsect)
    (hP : nondegenerate p0 p1 p2) (hQ : nondegenerate q0 q1 q2) :
    (triangles_intersections p0 p1 p2 q0 q1 q2 result).2.length ≤ 6 := by
  unfold triangles_intersections triangles_intersections_core
  split_ifs with h1 h2 h3
  · simp
  · simp
  · obtain ⟨⟨a0, a1, a2⟩, _⟩ := h3
    rw [packResult_snd]
    simpa using coplanarPairs_length_le_six p0 p1 p2 q0 q1 q2 hP hQ a0 a1 a2
  · cases chordOf p0 p1 p2 (orient3d q0 q1 q2 p0) (orient3d q0 q1 q2 p1)
        (orient3d q0 q1 q2 p2) with
    | none =>
      cases chordOf q0 q1 q2 (orient3d p0 p1 p2 q0) (orient3d p0 p1 p2 q1)
          (orient3d p0 p1 p2 q2) <;> simp
    | some cp =>
      cases chordOf q0 q1 q2 (orient3d p0 p1 p2 q0) (orient3d p0 p1 p2 q1)
          (orient3d p0 p1 p2 q2) with
      | none => simp
      | some cq =>
        have := assemble_length_le
          (cross (triNormal p0 p1 p2) (triNormal q0 q1 q2)) cp cq
        rw [packResult_snd]
        simp only [List.length_map]
        omega

/-- Witness for C2 at the coplanar overlap example of the design document. -/
theorem triangles_intersections_pair_count_le_six_witness :
    (triangles_intersections ⟨0, 0, 0⟩ ⟨1, 0, 0⟩ ⟨0, 1, 0⟩ ⟨1/2, -1/2, 0⟩
      ⟨1/2, 3/2, 0⟩ ⟨-1, 1/2, 0⟩ []).2.length ≤ 6 :=
  triangles_intersections_pair_count_le_six _ _ _ _ _ _ _
    (by decide) (by decide)

theorem dot_neg_smul (z dL : vec3) : dot z (smul (-1) dL) = - dot z dL := by
  simp only [dot, smul]
  ring

theorem vcross_anticomm (a b : vec3) : cross b a = smul (-1) (cross a b) := by
  simp only [cross, smul, vec3_eq_iff]
  refine ⟨?_, ?_, ?_⟩ <;> ring

theorem ordChord_neg_pts (dL : vec3) (c : Chord)
    (htie : dot c.pt1 dL = dot c.pt2 dL → c.pt1 = c.pt2) :
    (ordChord (smul (-1) dL) c).1.1 = (ordChord dL c).2.1 ∧
    (ordChord (smul (-1) dL) c).2.1 = (ordChord dL c).1.1 := by
  unfold ordChord
  simp only [dot_neg_smul]
  by_cases h1 : dot c.pt1 dL ≤ dot c.pt2 dL <;>
    by_cases h2 : - dot c.pt1 dL ≤ - dot c.pt2 dL
  · have hpt := htie (le_antisymm h1 (by linarith))
    rw [if_pos h1, if_pos h2]
    simp [hpt]
  · rw [if_pos h1, if_neg h2]
    simp
  · rw [if_neg h1, if_pos h2]
    simp
  · exact absurd (le_of_lt (lt_of_not_le h1)) (fun h => h2 (by linarith))

theorem loPoint_neg (dL : vec3) (cp cq : Chord)
    (htp : dot cp.pt1 dL = dot cp.pt2 dL → cp.pt1 = cp.pt2)
    (htq : dot cq.pt1 dL = dot cq.pt2 dL → cq.pt1 = cq.pt2) :
    loPoint (smul (-1) dL) cq cp = hiPoint dL cp cq := by
  obtain ⟨hq1, hq2⟩ := ordChord_neg_pts dL cq htq
  obtain ⟨hp1, hp2⟩ := ordChord_neg_pts dL cp htp
  unfold loPoint hiPoint
  rw [hq1, hp1, dot_neg_smul, dot_neg_smul]
  by_cases h : dot (ordChord dL cp).2.1 dL ≤ dot (ordChord dL cq).2.1 dL
  · rw [if_pos (by linarith), if_pos h]
  · rw [if_neg (fun hc => h (by linarith)), if_neg h]

theorem hiPoint_neg (dL : vec3) (cp cq : Chord)
    (htp : dot cp.pt1 dL = dot cp.pt2 dL → cp.pt1 = cp.pt2)
    (htq : dot cq.pt1 dL = dot cq.pt2 dL → cq.pt1 = cq.pt2) :
    hiPoint (smul (-1) dL) cq cp = loPoint dL cp cq := by
  obtain ⟨hq1, hq2⟩ := ordChord_neg_pts dL cq htq
  obtain ⟨hp1, hp2⟩ := ordChord_neg_pts dL cp htp
  unfold loPoint hiPoint
  rw [hq2, hp2, dot_neg_smul, dot_neg_smul]
  by_cases h : dot (ordChord dL cp).1.1 dL ≤ dot (ordChord dL cq).1.1 dL
  · rw [if_pos (by linarith), if_pos h]
  · rw [if_neg (fun hc => h (by linarith)), if_neg h]

theorem assemble_neg_swap (dL : vec3) (cp cq : Chord)
    (htp : dot cp.pt1 dL = dot cp.pt2 dL → cp.pt1 = cp.pt2)
    (htq : dot cq.pt1 dL = dot cq.pt2 dL → cq.pt1 = cq.pt2) :
    ((assemble (smul (-1) dL) cq cp : List (Rgn × Rgn)) : Multiset (Rgn × Rgn)) =
      Multiset.map (fun pr => (pr.2, pr.1))
        ((assemble dL cp cq : List (Rgn × Rgn)) : Multiset (Rgn × Rgn)) := by
  unfold assemble
  rw [loPoint_neg dL cp cq htp htq, hiPoint_neg dL cp cq htp htq,
    dot_neg_smul, dot_neg_smul]
  by_cases hemp : dot (hiPoint dL cp cq) dL < dot (loPoint dL cp cq) dL
  · rw [if_pos (by linarith), if_pos hemp]
    simp
  · rw [if_neg (by intro hc; exact hemp (by linarith)), if_neg hemp]
    by_cases heq : loPoint dL cp cq = hiPoint dL cp cq
    · rw [if_pos heq.symm, if_pos heq, heq]
      simp
    · rw [if_neg (fun hc => heq hc.symm), if_neg heq]
      show ((loPoint dL cp cq, hiPoint dL cp cq) |> fun _ => _) = _
      simp only [Multiset.map_coe, List.map_cons, List.map_nil]
      exact Multiset.coe_eq_coe.mpr (List.Perm.swap _ _ _)

theorem crossPt_on_plane (nq oq u v : vec3) (su sv : ℚ)
    (hsu : dot nq (vsub u oq) = su) (hsv : dot nq (vsub v oq) = sv)
    (hne : su - sv ≠ 0) : dot nq (vsub (crossPt u su v sv) oq) = 0 := by
  have hid : dot nq (vsub (crossPt u su v sv) oq) =
      (1 - su / (su - sv)) * dot nq (vsub u oq) +
      (su / (su - sv)) * dot nq (vsub v oq) := by
    simp only [dot, vsub, crossPt, vadd, smul]
    ring
  rw [hid, hsu, hsv]
  field_simp
  ring

theorem sgn_pos_neg_sub_ne (a b : ℚ) (ha : sgn a = Sg.pos)
    (hb : sgn b = Sg.neg) : a - b ≠ 0 := by
  have h1 := (sgn_eq_pos_iff a).1 ha
  have h2 := (sgn_eq_neg_iff b).1 hb
  intro h
  linarith

theorem sgn_neg_pos_sub_ne (a b : ℚ) (ha : sgn a = Sg.neg)
    (hb : sgn b = Sg.pos) : a - b ≠ 0 := by
  have h1 := (sgn_eq_neg_iff a).1 ha
  have h2 := (sgn_eq_pos_iff b).1 hb
  intro h
  linarith

theorem crossPt_inplane (np op u v : vec3) (su sv : ℚ)
    (hu : dot np (vsub u op) = 0) (hv : dot np (vsub v op) = 0) :
    dot np (vsub (crossPt u su v sv) op) = 0 := by
  have hid : dot np (vsub (crossPt u su v sv) op) =
      (1 - su / (su - sv)) * dot np (vsub u op) +
      (su / (su - sv)) * dot np (vsub v op) := by
    simp only [dot, vsub, crossPt, vadd, smul]
    ring
  rw [hid, hu, hv]
  ring

set_option maxHeartbeats 2000000 in
/-- Both endpoints of a chord delivered by the dispatch lie in the plane
of the triangle that owns the chord and in the plane against which the
sign triple was computed. -/
theorem chordOf_pts_planes (a b c np op nq oq : vec3) (s0 s1 s2 : ℚ)
    (ch : Chord)
    (ha : dot np (vsub a op) = 0) (hb : dot np (vsub b op) = 0)
    (hc : dot np (vsub c op) = 0)
    (ka : dot nq (vsub a oq) = s0) (kb : dot nq (vsub b oq) = s1)
    (kc : dot nq (vsub c oq) = s2)
    (hch : chordOf a b c s0 s1 s2 = some ch) :
    (dot np (vsub ch.pt1 op) = 0 ∧ dot np (vsub ch.pt2 op) = 0) ∧
    (dot nq (vsub ch.pt1 oq) = 0 ∧ dot nq (vsub ch.pt2 oq) = 0) := by
  unfold chordOf at hch
  rcases h0 : sgn s0 with _ | _ | _ <;> rcases h1 : sgn s1 with _ | _ | _ <;>
    rcases h2 : sgn s2 with _ | _ | _ <;>
    rw [h0, h1, h2] at hch <;>
    simp only [Option.some.injEq, reduceCtorEq] at hch <;>
    first
    | exact hch.elim
    | (subst hch
       refine ⟨⟨?_, ?_⟩, ?_, ?_⟩ <;>
       first
       | exact ha
       | exact hb
       | exact hc
       | (rw [ka]; exact (sgn_eq_zer_iff _).1 h0)
       | (rw [kb]; exact (sgn_eq_zer_iff _).1 h1)
       | (rw [kc]; exact (sgn_eq_zer_iff _).1 h2)
       | exact crossPt_inplane np op a b s0 s1 ha hb
       | exact crossPt_inplane np op b c s1 s2 hb hc
       | exact crossPt_inplane np op c a s2 s0 hc ha
       | exact crossPt_on_plane nq oq a b s0 s1 ka kb
           (sgn_pos_neg_sub_ne s0 s1 h0 h1)
       | exact crossPt_on_plane nq oq a b s0 s1 ka kb
           (sgn_neg_pos_sub_ne s0 s1 h0 h1)
       | exact crossPt_on_plane nq oq b c s1 s2 kb kc
           (sgn_pos_neg_sub_ne s1 s2 h1 h2)
       | exact crossPt_on_plane nq oq b c s1 s2 kb kc
           (sgn_neg_pos_sub_ne s1 s2 h1 h2)
       | exact crossPt_on_plane nq oq c a s2 s0 kc ka
           (sgn_pos_neg_sub_ne s2 s0 h2 h0)
       | exact crossPt_on_plane nq oq c a s2 s0 kc ka
           (sgn_neg_pos_sub_ne s2 s0 h2 h0))

theorem dot_sub_left (a b c : vec3) : dot (vsub a b) c = dot a c - dot b c := by
  simp only [dot, vsub]
  ring

theorem dot_smul_left (t : ℚ) (a b : vec3) :
    dot (smul t a) b = t * dot a b := by
  simp only [dot, smul]
  ring

theorem vsub_eq_vzero (a b : vec3) (h : vsub a b = vzero) : a = b := by
  rw [vec3_eq_iff] at h ⊢
  simp only [vsub, vzero] at h
  refine ⟨?_, ?_, ?_⟩ <;> linarith [h.1, h.2.1, h.2.2]

theorem dot_vsub_self (n a : vec3) : dot n (vsub a a) = 0 := by
  simp only [dot, vsub]
  ring

theorem dot_vsub_neg (n a b : vec3) : dot n (vsub a b) = - dot n (vsub b a) := by
  simp only [dot, vsub]
  ring

theorem dot_triNormal_e1 (a b c : vec3) :
    dot (triNormal a b c) (vsub b a) = 0 := by
  simp only [dot, vsub, triNormal, cross]
  ring

theorem dot_triNormal_e2 (a b c : vec3) :
    dot (triNormal a b c) (vsub c a) = 0 := by
  simp only [dot, vsub, triNormal, cross]
  ring

/-- Two points of the common line of the two planes with the same
parameter along the line direction are equal. -/
theorem line_param_inj (np op nq oq y z : vec3)
    (hdL : cross np nq ≠ vzero)
    (hy1 : dot np (vsub y op) = 0) (hy2 : dot nq (vsub y oq) = 0)
    (hz1 : dot np (vsub z op) = 0) (hz2 : dot nq (vsub z oq) = 0)
    (ht : dot y (cross np nq) = dot z (cross np nq)) : y = z := by
  have hd1 : dot np (vsub y z) = 0 := by
    rw [dot_vsub_split np y z op, hy1, hz1]
    ring
  have hd2 : dot nq (vsub y z) = 0 := by
    rw [dot_vsub_split nq y z oq, hy2, hz2]
    ring
  have hcc : cross (cross np nq) (vsub y z) = vzero := by
    rw [cross_cross_right, hd1, hd2]
    simp [smul, vsub, vzero, vec3_eq_iff]
  have hcc' : cross (vsub y z) (cross np nq) = vzero :=
    cross_anticomm_zero _ _ hcc
  have hdd : dot (cross np nq) (cross np nq) ≠ 0 :=
    fun h => hdL ((dot_self_eq_zero_iff _).1 h)
  have hpar := parallel_of_cross_zero (vsub y z) (cross np nq) hdd hcc'
  have hz : dot (vsub y z) (cross np nq) = 0 := by
    rw [dot_sub_left, ht]
    ring
  rw [hz] at hpar
  apply vsub_eq_vzero
  rw [hpar]
  simp [smul, vzero, vec3_eq_iff]

/-- In the chord stage (filter passed, not separated, not coplanar) the
two supporting planes of valid triangles are not parallel: the common
line direction does not vanish. -/
theorem chord_branch_dL_ne (p0 p1 p2 q0 q1 q2 : vec3)
    (hP : nondegenerate p0 p1 p2) (hQ : nondegenerate q0 q1 q2)
    (hnsep : ¬ (uniformSignNZ (orient3d p0 p1 p2 q0) (orient3d p0 p1 p2 q1)
        (orient3d p0 p1 p2 q2) ∨
      uniformSignNZ (orient3d q0 q1 q2 p0) (orient3d q0 q1 q2 p1)
        (orient3d q0 q1 q2 p2)))
    (hncop : ¬ (allZero (orient3d p0 p1 p2 q0) (orient3d p0 p1 p2 q1)
        (orient3d p0 p1 p2 q2) ∧
      allZero (orient3d q0 q1 q2 p0) (orient3d q0 q1 q2 p1)
        (orient3d q0 q1 q2 p2))) :
    cross (triNormal p0 p1 p2) (triNormal q0 q1 q2) ≠ vzero := by
  intro hcr
  have hqq : dot (triNormal q0 q1 q2) (triNormal q0 q1 q2) ≠ 0 :=
    fun h => hQ ((dot_self_eq_zero_iff _).1 h)
  have hpar := parallel_of_cross_zero (triNormal p0 p1 p2)
    (triNormal q0 q1 q2) hqq hcr
  have hnu : dot (triNormal p0 p1 p2) (triNormal q0 q1 q2) /
      dot (triNormal q0 q1 q2) (triNormal q0 q1 q2) ≠ 0 := by
    intro h
    apply hP
    rw [hpar, h]
    simp [smul, vzero, vec3_eq_iff]
  -- the three vertices of the first triangle have a common orientation
  -- value against the second plane, and conversely
  have hperp : ∀ w : vec3, dot (triNormal p0 p1 p2) w = 0 →
      dot (triNormal q0 q1 q2) w = 0 := by
    intro w hw
    rw [hpar, dot_smul_left] at hw
    rcases mul_eq_zero.mp hw with h | h
    · exact absurd h hnu
    · exact h
  have hsp : ∀ pz : vec3, dot (triNormal p0 p1 p2) (vsub pz p0) = 0 →
      orient3d q0 q1 q2 pz = dot (triNormal q0 q1 q2) (vsub p0 q0) := by
    intro pz hz
    show dot (triNormal q0 q1 q2) (vsub pz q0) = _
    rw [dot_vsub_split (triNormal q0 q1 q2) pz q0 p0]
    rw [hperp (vsub pz p0) hz]
    rw [dot_vsub_neg (triNormal q0 q1 q2) p0 q0]
    ring
  have hsp0 := hsp p0 (dot_vsub_self _ _)
  have hsp1 := hsp p1 (dot_triNormal_e1 p0 p1 p2)
  have hsp2 := hsp p2 (dot_triNormal_e2 p0 p1 p2)
  rcases lt_trichotomy (dot (triNormal q0 q1 q2) (vsub p0 q0)) 0 with he | he | he
  · exact hnsep (Or.inr (Or.inr (by rw [hsp0, hsp1, hsp2]; exact ⟨he, he, he⟩)))
  · -- common value zero: both sign triples vanish entirely
    apply hncop
    constructor
    · -- the second triangle lies in the first plane as well
      have hq : ∀ qz : vec3, dot (triNormal q0 q1 q2) (vsub qz q0) = 0 →
          orient3d p0 p1 p2 qz = 0 := by
        intro qz hz
        show dot (triNormal p0 p1 p2) (vsub qz p0) = 0
        rw [hpar, dot_smul_left]
        rw [dot_vsub_split (triNormal q0 q1 q2) qz p0 q0, hz]
        have : dot (triNormal q0 q1 q2) (vsub p0 q0) = 0 := he
        rw [this]
        ring
      exact ⟨hq q0 (dot_vsub_self _ _), hq q1 (dot_triNormal_e1 q0 q1 q2),
        hq q2 (dot_triNormal_e2 q0 q1 q2)⟩
    · rw [hsp0, hsp1, hsp2]
      exact ⟨he, he, he⟩
  · exact hnsep (Or.inr (Or.inl (by rw [hsp0, hsp1, hsp2]; exact ⟨he, he, he⟩)))

theorem side_smul (lam : ℚ) (n a b c : vec3) :
    side (smul lam n) a b c = lam * side n a b c := by
  simp only [side, triNormal, cross, dot, vsub, smul]
  ring


theorem sgn_smul_pos (lam : ℚ) (hl : 0 < lam) (c : ℚ) :
    sgn (lam * c) = sgn c := by
  rcases lt_trichotomy c 0 with hc | hc | hc
  · rw [(sgn_eq_neg_iff c).2 hc, sgn_eq_neg_iff]
    exact mul_neg_of_pos_of_neg hl hc
  · rw [hc, mul_zero]
  · rw [(sgn_eq_pos_iff c).2 hc, sgn_eq_pos_iff]
    exact mul_pos hl hc

theorem sgn_smul_neg (lam : ℚ) (hl : lam < 0) (c : ℚ) :
    sgn (lam * c) = flipSg (sgn c) := by
  rcases lt_trichotomy c 0 with hc | hc | hc
  · rw [(sgn_eq_neg_iff c).2 hc]
    show sgn (lam * c) = Sg.pos
    rw [sgn_eq_pos_iff]
    exact mul_pos_of_neg_of_neg hl hc
  · rw [hc, mul_zero]
    rfl
  · rw [(sgn_eq_pos_iff c).2 hc]
    show sgn (lam * c) = Sg.neg
    rw [sgn_eq_neg_iff]
    exact mul_neg_of_neg_of_pos hl hc

theorem flipSg_inj (a b : Sg) : flipSg a = flipSg b ↔ a = b := by
  cases a <;> cases b <;> simp [flipSg]

theorem sgn_smul_eq_iff (lam : ℚ) (hl : lam ≠ 0) (a b : ℚ) :
    (sgn (lam * a) = sgn (lam * b)) ↔ (sgn a = sgn b) := by
  rcases lt_or_gt_of_ne hl with h | h
  · rw [sgn_smul_neg lam h a, sgn_smul_neg lam h b, flipSg_inj]
  · rw [sgn_smul_pos lam h a, sgn_smul_pos lam h b]

theorem smul_zero_iff (lam : ℚ) (hl : lam ≠ 0) (a : ℚ) :
    lam * a = 0 ↔ a = 0 := by
  simp [mul_eq_zero, hl]

theorem classify_smul (lam : ℚ) (hl : lam ≠ 0) (n b0 b1 b2 zp : vec3) :
    classify (smul lam n) b0 b1 b2 zp = classify n b0 b1 b2 zp := by
  unfold classify
  simp only [side_smul]
  refine if_congr ?_ rfl (if_congr ?_ rfl (if_congr ?_ rfl
    (if_congr ?_ rfl rfl)))
  · exact and_congr (sgn_smul_eq_iff lam hl _ _)
      (and_congr (sgn_smul_eq_iff lam hl _ _) (sgn_smul_eq_iff lam hl _ _))
  · exact and_congr (smul_zero_iff lam hl _)
      (and_congr (sgn_smul_eq_iff lam hl _ _) (sgn_smul_eq_iff lam hl _ _))
  · exact and_congr (smul_zero_iff lam hl _)
      (and_congr (sgn_smul_eq_iff lam hl _ _) (sgn_smul_eq_iff lam hl _ _))
  · exact and_congr (smul_zero_iff lam hl _)
      (and_congr (sgn_smul_eq_iff lam hl _ _) (sgn_smul_eq_iff lam hl _ _))

theorem mul_sq_neg_iff (lam : ℚ) (hl : lam ≠ 0) (a b : ℚ) :
    lam * a * (lam * b) < 0 ↔ a * b < 0 := by
  have hsq : 0 < lam * lam := mul_self_pos.mpr hl
  have key : lam * a * (lam * b) = lam * lam * (a * b) := by ring
  rw [key]
  constructor
  · intro h
    by_contra hc
    push_neg at hc
    nlinarith
  · intro h
    exact mul_neg_of_pos_of_neg hsq h

theorem properCross_smul (lam : ℚ) (hl : lam ≠ 0) (n u v w x : vec3) :
    properCross (smul lam n) u v w x ↔ properCross n u v w x := by
  unfold properCross
  simp only [side_smul]
  exact and_congr (mul_sq_neg_iff lam hl _ _) (mul_sq_neg_iff lam hl _ _)

theorem xpair_congr (ra rb : Rgn) (c d : Prop) [Decidable c] [Decidable d]
    (h : c ↔ d) : xpair ra rb c = xpair ra rb d := by
  unfold xpair
  exact if_congr h rfl rfl

theorem coplanarPairs_smul (lam : ℚ) (hl : lam ≠ 0)
    (n a0 a1 a2 b0 b1 b2 : vec3) :
    coplanarPairs (smul lam n) a0 a1 a2 b0 b1 b2 =
      coplanarPairs n a0 a1 a2 b0 b1 b2 := by
  unfold coplanarPairs
  rw [classify_smul lam hl, classify_smul lam hl, classify_smul lam hl,
    classify_smul lam hl, classify_smul lam hl, classify_smul lam hl]
  rw [xpair_congr _ _ _ _ (properCross_smul lam hl n a1 a2 b1 b2),
    xpair_congr _ _ _ _ (properCross_smul lam hl n a1 a2 b2 b0),
    xpair_congr _ _ _ _ (properCross_smul lam hl n a1 a2 b0 b1),
    xpair_congr _ _ _ _ (properCross_smul lam hl n a2 a0 b1 b2),
    xpair_congr _ _ _ _ (properCross_smul lam hl n a2 a0 b2 b0),
    xpair_congr _ _ _ _ (properCross_smul lam hl n a2 a0 b0 b1),
    xpair_congr _ _ _ _ (properCross_smul lam hl n a0 a1 b1 b2),
    xpair_congr _ _ _ _ (properCross_smul lam hl n a0 a1 b2 b0),
    xpair_congr _ _ _ _ (properCross_smul lam hl n a0 a1 b0 b1)]

theorem vpairA_map_swap (r : Rgn) (cl : Option Rgn) :
    (vpairA r cl).map (fun pr => (pr.2, pr.1)) = vpairB r cl := by
  cases cl <;> rfl

theorem vpairB_map_swap (r : Rgn) (cl : Option Rgn) :
    (vpairB r cl).map (fun pr => (pr.2, pr.1)) = vpairA r cl := by
  cases cl <;> rfl

theorem xpair_map_swap (ra rb : Rgn) (c : Prop) [Decidable c] :
    (xpair ra rb c).map (fun pr => (pr.2, pr.1)) = xpair rb ra c := by
  unfold xpair
  split_ifs <;> rfl

theorem coplanarPairs_swap (n a0 a1 a2 b0 b1 b2 : vec3) :
    ((coplanarPairs n b0 b1 b2 a0 a1 a2 : List (Rgn × Rgn)) :
        Multiset (Rgn × Rgn)) =
      Multiset.map (fun pr => (pr.2, pr.1))
        ((coplanarPairs n a0 a1 a2 b0 b1 b2 : List (Rgn × Rgn)) :
          Multiset (Rgn × Rgn)) := by
  unfold coplanarPairs
  rw [xpair_congr Rgn.E0 Rgn.E0 _ _ (properCross_comm n b1 b2 a1 a2),
    xpair_congr Rgn.E0 Rgn.E1 _ _ (properCross_comm n b1 b2 a2 a0),
    xpair_congr Rgn.E0 Rgn.E2 _ _ (properCross_comm n b1 b2 a0 a1),
    xpair_congr Rgn.E1 Rgn.E0 _ _ (properCross_comm n b2 b0 a1 a2),
    xpair_congr Rgn.E1 Rgn.E1 _ _ (properCross_comm n b2 b0 a2 a0),
    xpair_congr Rgn.E1 Rgn.E2 _ _ (properCross_comm n b2 b0 a0 a1),
    xpair_congr Rgn.E2 Rgn.E0 _ _ (properCross_comm n b0 b1 a1 a2),
    xpair_congr Rgn.E2 Rgn.E1 _ _ (properCross_comm n b0 b1 a2 a0),
    xpair_congr Rgn.E2 Rgn.E2 _ _ (properCross_comm n b0 b1 a0 a1)]
  simp only [← Multiset.coe_add]
  simp only [Multiset.map_add, Multiset.map_coe, vpairA_map_swap,
    vpairB_map_swap, xpair_map_swap]
  abel

theorem sharesVertex_symm (p0 p1 p2 q0 q1 q2 : vec3)
    (h : sharesVertex p0 p1 p2 q0 q1 q2) :
    sharesVertex q0 q1 q2 p0 p1 p2 := by
  rcases h with (h | h | h) | (h | h | h) | (h | h | h)
  · exact Or.inl (Or.inl h.symm)
  · exact Or.inr (Or.inl (Or.inl h.symm))
  · exact Or.inr (Or.inr (Or.inl h.symm))
  · exact Or.inl (Or.inr (Or.inl h.symm))
  · exact Or.inr (Or.inl (Or.inr (Or.inl h.symm)))
  · exact Or.inr (Or.inr (Or.inr (Or.inl h.symm)))
  · exact Or.inl (Or.inr (Or.inr h.symm))
  · exact Or.inr (Or.inl (Or.inr (Or.inr h.symm)))
  · exact Or.inr (Or.inr (Or.inr (Or.inr h.symm)))

theorem map_swap_embed (M : Multiset (Rgn × Rgn)) :
    Multiset.map (fun I : TriangleIsect => (swapRgn I.2, swapRgn I.1))
        (Multiset.map embedPair M) =
      Multiset.map embedPair
        (Multiset.map (fun pr : Rgn × Rgn => (pr.2, pr.1)) M) := by
  rw [Multiset.map_map, Multiset.map_map]
  apply Multiset.map_congr rfl
  rintro ⟨ra, rb⟩ _
  show (swapRgn (toT2 rb), swapRgn (toT1 ra)) = (toT1 rb, toT2 ra)
  cases ra <;> cases rb <;> rfl

theorem list_isEmpty_of_length (l m : List TriangleIsect)
    (h : l.length = m.length) : l.isEmpty = m.isEmpty := by
  cases l <;> cases m <;> simp_all

/-- Packaging of the branch output symmetry: from the untagged multiset
relation follows the equality of the booleans and the tagged multiset
relation. -/
theorem branch_pack (l1 l2 : List (Rgn × Rgn))
    (hms : ((l2 : List (Rgn × Rgn)) : Multiset (Rgn × Rgn)) =
      Multiset.map (fun pr => (pr.2, pr.1))
        ((l1 : List (Rgn × Rgn)) : Multiset (Rgn × Rgn))) :
    (!(l2.map embedPair).isEmpty) = (!(l1.map embedPair).isEmpty) ∧
    ((l2.map embedPair : List TriangleIsect) : Multiset TriangleIsect) =
      Multiset.map (fun I => (swapRgn I.2, swapRgn I.1))
        ((l1.map embedPair : List TriangleIsect) : Multiset TriangleIsect) := by
  have hlen : l2.length = l1.length := by
    have hc := congrArg Multiset.card hms
    simpa [Multiset.coe_card, Multiset.card_map] using hc
  constructor
  · have : (l2.map embedPair).length = (l1.map embedPair).length := by
      simpa using hlen
    rw [list_isEmpty_of_length _ _ this]
  · rw [← Multiset.map_coe, ← Multiset.map_coe, hms, map_swap_embed]

set_option maxHeartbeats 4000000 in
/-- C6: exchanging the two triangles yields the same boolean and the
swapped, relabelled multiset of symbolic pairs. -/
theorem triangles_intersections_symmetry
    (p0 p1 p2 q0 q1 q2 : vec3) (result1 result2 : List TriangleIsect)
    (hP : nondegenerate p0 p1 p2) (hQ : nondegenerate q0 q1 q2) :
    (triangles_intersections q0 q1 q2 p0 p1 p2 result2).1 =
      (triangles_intersections p0 p1 p2 q0 q1 q2 result1).1 ∧
    ((triangles_intersections q0 q1 q2 p0 p1 p2 result2).2 :
        Multiset TriangleIsect) =
      Multiset.map (fun I => (swapRgn I.2, swapRgn I.1))
        ((triangles_intersections p0 p1 p2 q0 q1 q2 result1).2 :
          Multiset TriangleIsect) := by
  unfold triangles_intersections triangles_intersections_core
  by_cases h1 : sharesVertex p0 p1 p2 q0 q1 q2
  · rw [if_pos h1, if_pos (sharesVertex_symm _ _ _ _ _ _ h1)]
    simp
  · rw [if_neg h1, if_neg (fun hc => h1 (sharesVertex_symm _ _ _ _ _ _ hc))]
    by_cases h2 : uniformSignNZ (orient3d p0 p1 p2 q0) (orient3d p0 p1 p2 q1)
        (orient3d p0 p1 p2 q2) ∨
      uniformSignNZ (orient3d q0 q1 q2 p0) (orient3d q0 q1 q2 p1)
        (orient3d q0 q1 q2 p2)
    · rw [if_pos h2, if_pos (Or.symm h2)]
      simp
    · rw [if_neg h2, if_neg (fun hc => h2 (Or.symm hc))]
      by_cases h3 : allZero (orient3d p0 p1 p2 q0) (orient3d p0 p1 p2 q1)
          (orient3d p0 p1 p2 q2) ∧
        allZero (orient3d q0 q1 q2 p0) (orient3d q0 q1 q2 p1)
          (orient3d q0 q1 q2 p2)
      · rw [if_pos h3, if_pos (And.symm h3)]
        obtain ⟨⟨a0, a1, a2⟩, _⟩ := h3
        have hpp : dot (triNormal p0 p1 p2) (triNormal p0 p1 p2) ≠ 0 :=
          fun h => hP ((dot_self_eq_zero_iff _).1 h)
        have e0 : dot (triNormal p0 p1 p2) (vsub q0 p0) = 0 := a0
        have e1 : dot (triNormal p0 p1 p2) (vsub q1 p0) = 0 := a1
        have e2 : dot (triNormal p0 p1 p2) (vsub q2 p0) = 0 := a2
        have hu1 : dot (triNormal p0 p1 p2) (vsub q1 q0) = 0 := by
          rw [dot_vsub_split (triNormal p0 p1 p2) q1 q0 p0, e1, e0]
          ring
        have hu2 : dot (triNormal p0 p1 p2) (vsub q2 q0) = 0 := by
          rw [dot_vsub_split (triNormal p0 p1 p2) q2 q0 p0, e2, e0]
          ring
        have hcr : cross (triNormal q0 q1 q2) (triNormal p0 p1 p2) = vzero := by
          show cross (cross (vsub q1 q0) (vsub q2 q0))
            (triNormal p0 p1 p2) = vzero
          rw [cross_cross_right]
          rw [dot_comm (vsub q1 q0) (triNormal p0 p1 p2), hu1]
          rw [dot_comm (vsub q2 q0) (triNormal p0 p1 p2), hu2]
          simp [smul, vsub, vzero, vec3_eq_iff]
        have hpar := parallel_of_cross_zero (triNormal q0 q1 q2)
          (triNormal p0 p1 p2) hpp hcr
        have hlam : dot (triNormal q0 q1 q2) (triNormal p0 p1 p2) /
            dot (triNormal p0 p1 p2) (triNormal p0 p1 p2) ≠ 0 := by
          intro h
          apply hQ
          rw [hpar, h]
          simp [smul, vzero, vec3_eq_iff]
        have hcop2 : coplanarPairs (triNormal q0 q1 q2) q0 q1 q2 p0 p1 p2 =
            coplanarPairs (triNormal p0 p1 p2) q0 q1 q2 p0 p1 p2 := by
          rw [hpar, coplanarPairs_smul _ hlam]
        have hms : ((coplanarPairs (triNormal q0 q1 q2) q0 q1 q2 p0 p1 p2 :
              List (Rgn × Rgn)) : Multiset (Rgn × Rgn)) =
            Multiset.map (fun pr => (pr.2, pr.1))
              ((coplanarPairs (triNormal p0 p1 p2) p0 p1 p2 q0 q1 q2 :
                List (Rgn × Rgn)) : Multiset (Rgn × Rgn)) := by
          rw [hcop2]
          exact coplanarPairs_swap (triNormal p0 p1 p2) p0 p1 p2 q0 q1 q2
        have hpk := branch_pack
          (coplanarPairs (triNormal p0 p1 p2) p0 p1 p2 q0 q1 q2)
          (coplanarPairs (triNormal q0 q1 q2) q0 q1 q2 p0 p1 p2) hms
        simp only [packResult_fst, packResult_snd]
        exact ⟨hpk.1, hpk.2⟩
      · rw [if_neg h3, if_neg (fun hc => h3 (And.symm hc))]
        have hdL := chord_branch_dL_ne p0 p1 p2 q0 q1 q2 hP hQ h2 h3
        rcases hcp : chordOf p0 p1 p2 (orient3d q0 q1 q2 p0)
            (orient3d q0 q1 q2 p1) (orient3d q0 q1 q2 p2) with _ | cp
        · rcases hcq : chordOf q0 q1 q2 (orient3d p0 p1 p2 q0)
              (orient3d p0 p1 p2 q1) (orient3d p0 p1 p2 q2) with _ | cq <;>
            simp
        · rcases hcq : chordOf q0 q1 q2 (orient3d p0 p1 p2 q0)
              (orient3d p0 p1 p2 q1) (orient3d p0 p1 p2 q2) with _ | cq
          · simp
          · have hplP := chordOf_pts_planes p0 p1 p2 (triNormal p0 p1 p2) p0
              (triNormal q0 q1 q2) q0 _ _ _ cp (dot_vsub_self _ _)
              (dot_triNormal_e1 p0 p1 p2) (dot_triNormal_e2 p0 p1 p2)
              rfl rfl rfl hcp
            have hplQ := chordOf_pts_planes q0 q1 q2 (triNormal q0 q1 q2) q0
              (triNormal p0 p1 p2) p0 _ _ _ cq (dot_vsub_self _ _)
              (dot_triNormal_e1 q0 q1 q2) (dot_triNormal_e2 q0 q1 q2)
              rfl rfl rfl hcq
            have htp : dot cp.pt1 (cross (triNormal p0 p1 p2)
                  (triNormal q0 q1 q2)) =
                dot cp.pt2 (cross (triNormal p0 p1 p2) (triNormal q0 q1 q2)) →
                cp.pt1 = cp.pt2 := fun h =>
              line_param_inj (triNormal p0 p1 p2) p0 (triNormal q0 q1 q2) q0
                cp.pt1 cp.pt2 hdL hplP.1.1 hplP.2.1 hplP.1.2 hplP.2.2 h
            have htq : dot cq.pt1 (cross (triNormal p0 p1 p2)
                  (triNormal q0 q1 q2)) =
                dot cq.pt2 (cross (triNormal p0 p1 p2) (triNormal q0 q1 q2)) →
                cq.pt1 = cq.pt2 := fun h =>
              line_param_inj (triNormal p0 p1 p2) p0 (triNormal q0 q1 q2) q0
                cq.pt1 cq.pt2 hdL hplQ.2.1 hplQ.1.1 hplQ.2.2 hplQ.1.2 h
            have hms := assemble_neg_swap
              (cross (triNormal p0 p1 p2) (triNormal q0 q1 q2)) cp cq htp htq
            rw [vcross_anticomm (triNormal p0 p1 p2) (triNormal q0 q1 q2)]
            have hpk := branch_pack
              (assemble (cross (triNormal p0 p1 p2) (triNormal q0 q1 q2))
                cp cq)
              (assemble (smul (-1)
                (cross (triNormal p0 p1 p2) (triNormal q0 q1 q2))) cq cp) hms
            simp only [packResult_fst, packResult_snd]
            exact ⟨hpk.1, hpk.2⟩

/-- Witness for C6 at the coplanar overlap example of the design document. -/
theorem triangles_intersections_symmetry_witness :
    (triangles_intersections ⟨1/2, -1/2, 0⟩ ⟨1/2, 3/2, 0⟩ ⟨-1, 1/2, 0⟩
        ⟨0, 0, 0⟩ ⟨1, 0, 0⟩ ⟨0, 1, 0⟩ []).1 =
      (triangles_intersections ⟨0, 0, 0⟩ ⟨1, 0, 0⟩ ⟨0, 1, 0⟩ ⟨1/2, -1/2, 0⟩
        ⟨1/2, 3/2, 0⟩ ⟨-1, 1/2, 0⟩ []).1 ∧
    ((triangles_intersections ⟨1/2, -1/2, 0⟩ ⟨1/2, 3/2, 0⟩ ⟨-1, 1/2, 0⟩
        ⟨0, 0, 0⟩ ⟨1, 0, 0⟩ ⟨0, 1, 0⟩ []).2 : Multiset TriangleIsect) =
      Multiset.map (fun I => (swapRgn I.2, swapRgn I.1))
        ((triangles_intersections ⟨0, 0, 0⟩ ⟨1, 0, 0⟩ ⟨0, 1, 0⟩
          ⟨1/2, -1/2, 0⟩ ⟨1/2, 3/2, 0⟩ ⟨-1, 1/2, 0⟩ []).2 :
          Multiset TriangleIsect) :=
  triangles_intersections_symmetry ⟨0, 0, 0⟩ ⟨1, 0, 0⟩ ⟨0, 1, 0⟩
    ⟨1/2, -1/2, 0⟩ ⟨1/2, 3/2, 0⟩ ⟨-1, 1/2, 0⟩ [] []
    (by decide) (by decide)

theorem dot_self_nonneg (d : vec3) : 0 ≤ dot d d := by
  simp only [dot]
  nlinarith [mul_self_nonneg d.x, mul_self_nonneg d.y, mul_self_nonneg d.z]

theorem dot_self_pos (d : vec3) (h : d ≠ vzero) : 0 < dot d d := by
  rcases lt_or_eq_of_le (dot_self_nonneg d) with h1 | h1
  · exact h1
  · exact absurd ((dot_self_eq_zero_iff d).1 h1.symm) h

theorem smul_one_self (a : vec3) : smul 1 a = a := by
  simp only [smul, vec3_eq_iff]
  refine ⟨?_, ?_, ?_⟩ <;> ring

/-- The three edge functionals of a triangle sum to its orientation
constant. -/
theorem side_sum (n a b c z : vec3) :
    side n b c z + side n c a z + side n a b z = side n a b c := by
  simp only [side, triNormal, cross, dot, vsub]
  ring

/-- An in-plane orientation functional evaluated at a three-point affine
combination. -/
theorem side_affine3 (n a b x y w : vec3) (al be ga : ℚ)
    (hsum : al + be + ga = 1) :
    side n a b (vadd (vadd (smul al x) (smul be y)) (smul ga w)) =
      al * side n a b x + be * side n a b y + ga * side n a b w := by
  have hga : ga = 1 - al - be := by linarith
  subst hga
  simp only [side, triNormal, cross, dot, vsub, vadd, smul]
  ring

/-- Expansion of a point of space over a triangle frame: the normal
component plus the two in-plane edge components, scaled by the squared
normal. -/
theorem bary_vec (b0 b1 b2 z : vec3) :
    smul (dot (triNormal b0 b1 b2) (triNormal b0 b1 b2)) (vsub z b0) =
      vadd (vadd
        (smul (dot (vsub z b0) (triNormal b0 b1 b2)) (triNormal b0 b1 b2))
        (smul (side (triNormal b0 b1 b2) b2 b0 z) (vsub b1 b0)))
        (smul (side (triNormal b0 b1 b2) b0 b1 z) (vsub b2 b0)) := by
  simp only [side, triNormal, cross, dot, vsub, vadd, smul, vec3_eq_iff]
  refine ⟨?_, ?_, ?_⟩ <;> ring

/-- A point of the triangle plane lies in the closed triangle exactly
when its three edge orientation values, taken against the triangle's own
normal, are nonnegative. -/
theorem mem_tri_bary (b0 b1 b2 z : vec3) (hnd : nondegenerate b0 b1 b2)
    (hz : dot (triNormal b0 b1 b2) (vsub z b0) = 0) :
    inTriangle b0 b1 b2 z ↔
      0 ≤ side (triNormal b0 b1 b2) b1 b2 z ∧
      0 ≤ side (triNormal b0 b1 b2) b2 b0 z ∧
      0 ≤ side (triNormal b0 b1 b2) b0 b1 z := by
  have hD : 0 < dot (triNormal b0 b1 b2) (triNormal b0 b1 b2) :=
    dot_self_pos _ hnd
  have hDcyc : side (triNormal b0 b1 b2) b1 b2 b0 =
      dot (triNormal b0 b1 b2) (triNormal b0 b1 b2) := by
    rw [side_cyc, side_cyc]
    rfl
  have hDcyc1 : side (triNormal b0 b1 b2) b2 b0 b1 =
      dot (triNormal b0 b1 b2) (triNormal b0 b1 b2) := by
    rw [side_cyc]
    rfl
  constructor
  · rintro ⟨al, be, ga, hal, hbe, hga, hsum, hzz⟩
    subst hzz
    have hDr : side (triNormal b0 b1 b2) b0 b1 b2 =
        dot (triNormal b0 b1 b2) (triNormal b0 b1 b2) := rfl
    rw [side_affine3 _ _ _ _ _ _ _ _ _ hsum, side_affine3 _ _ _ _ _ _ _ _ _ hsum,
      side_affine3 _ _ _ _ _ _ _ _ _ hsum]
    rw [hDcyc, hDcyc1, hDr]
    simp only [side_self_left, side_self_right]
    refine ⟨?_, ?_, ?_⟩ <;> nlinarith
  · rintro ⟨h0, h1, h2⟩
    refine ⟨side (triNormal b0 b1 b2) b1 b2 z /
        dot (triNormal b0 b1 b2) (triNormal b0 b1 b2),
      side (triNormal b0 b1 b2) b2 b0 z /
        dot (triNormal b0 b1 b2) (triNormal b0 b1 b2),
      side (triNormal b0 b1 b2) b0 b1 z /
        dot (triNormal b0 b1 b2) (triNormal b0 b1 b2),
      div_nonneg h0 (le_of_lt hD), div_nonneg h1 (le_of_lt hD),
      div_nonneg h2 (le_of_lt hD), ?_, ?_⟩
    · have hs := side_sum (triNormal b0 b1 b2) b0 b1 b2 z
      field_simp
      rw [hs]
      rfl
    · have hb := bary_vec b0 b1 b2 z
      have hzz : dot (vsub z b0) (triNormal b0 b1 b2) = 0 := by
        rw [dot_comm]
        exact hz
      rw [hzz] at hb
      have hbx := congrArg vec3.x hb
      have hby := congrArg vec3.y hb
      have hbz := congrArg vec3.z hb
      have hs := side_sum (triNormal b0 b1 b2) b0 b1 b2 z
      have hDr : side (triNormal b0 b1 b2) b0 b1 b2 =
          dot (triNormal b0 b1 b2) (triNormal b0 b1 b2) := rfl
      rw [hDr] at hs
      rw [vec3_eq_iff]
      have hDne : dot (triNormal b0 b1 b2) (triNormal b0 b1 b2) ≠ 0 :=
        ne_of_gt hD
      simp only [smul, vadd, vsub] at hbx hby hbz ⊢
      refine ⟨?_, ?_, ?_⟩
      · field_simp
        linear_combination hbx - b0.x * hs
      · field_simp
        linear_combination hby - b0.y * hs
      · field_simp
        linear_combination hbz - b0.z * hs

/-- Strict counterpart of the barycentric membership criterion. -/
theorem strict_mem_tri_bary (b0 b1 b2 z : vec3) (hnd : nondegenerate b0 b1 b2)
    (hz : dot (triNormal b0 b1 b2) (vsub z b0) = 0) :
    strictlyInTriangle b0 b1 b2 z ↔
      0 < side (triNormal b0 b1 b2) b1 b2 z ∧
      0 < side (triNormal b0 b1 b2) b2 b0 z ∧
      0 < side (triNormal b0 b1 b2) b0 b1 z := by
  have hD : 0 < dot (triNormal b0 b1 b2) (triNormal b0 b1 b2) :=
    dot_self_pos _ hnd
  have hDcyc : side (triNormal b0 b1 b2) b1 b2 b0 =
      dot (triNormal b0 b1 b2) (triNormal b0 b1 b2) := by
    rw [side_cyc, side_cyc]
    rfl
  have hDcyc1 : side (triNormal b0 b1 b2) b2 b0 b1 =
      dot (triNormal b0 b1 b2) (triNormal b0 b1 b2) := by
    rw [side_cyc]
    rfl
  constructor
  · rintro ⟨al, be, ga, hal, hbe, hga, hsum, hzz⟩
    subst hzz
    have hDr : side (triNormal b0 b1 b2) b0 b1 b2 =
        dot (triNormal b0 b1 b2) (triNormal b0 b1 b2) := rfl
    rw [side_affine3 _ _ _ _ _ _ _ _ _ hsum, side_affine3 _ _ _ _ _ _ _ _ _ hsum,
      side_affine3 _ _ _ _ _ _ _ _ _ hsum]
    rw [hDcyc, hDcyc1, hDr]
    simp only [side_self_left, side_self_right]
    refine ⟨?_, ?_, ?_⟩ <;> nlinarith
  · rintro ⟨h0, h1, h2⟩
    have hmem : inTriangle b0 b1 b2 z :=
      (mem_tri_bary b0 b1 b2 z hnd hz).2
        ⟨le_of_lt h0, le_of_lt h1, le_of_lt h2⟩
    rcases hmem with ⟨al, be, ga, hal, hbe, hga, hsum, hzz⟩
    refine ⟨al, be, ga, ?_, ?_, ?_, hsum, hzz⟩
    · rcases lt_or_eq_of_le hal with h | h
      · exact h
      · exfalso
        rw [hzz, side_affine3 _ _ _ _ _ _ _ _ _ hsum, hDcyc,
          side_self_left, side_self_right, ← h] at h0
        nlinarith
    · rcases lt_or_eq_of_le hbe with h | h
      · exact h
      · exfalso
        rw [hzz, side_affine3 _ _ _ _ _ _ _ _ _ hsum,
          side_self_right, hDcyc1, side_self_left, ← h] at h1
        nlinarith
    · rcases lt_or_eq_of_le hga with h | h
      · exact h
      · exfalso
        have hDr : side (triNormal b0 b1 b2) b0 b1 b2 =
            dot (triNormal b0 b1 b2) (triNormal b0 b1 b2) := rfl
        rw [hzz, side_affine3 _ _ _ _ _ _ _ _ _ hsum,
          side_self_left, side_self_right, hDr, ← h] at h2
        nlinarith

/-- Membership in a flat triangle plane is preserved by the triangle
functionals: a member of the triangle lies in any plane holding the three
vertices. -/
theorem inTriangle_inplane (n a b c z : vec3)
    (hb : dot n (vsub b a) = 0) (hc : dot n (vsub c a) = 0)
    (h : inTriangle a b c z) : dot n (vsub z a) = 0 := by
  rcases h with ⟨al, be, ga, _, _, _, hsum, hz⟩
  subst hz
  have hal : al = 1 - be - ga := by linarith
  subst hal
  simp only [dot, vsub, vadd, smul] at hb hc ⊢
  linear_combination be * hb + ga * hc

theorem pos_factor_nonneg_iff (dd a : ℚ) (h : 0 < dd) :
    0 ≤ dd * a ↔ 0 ≤ a := by
  constructor <;> intro hh <;> nlinarith

theorem scale_mid_nonneg_iff (dd lam s : ℚ) (h : 0 < dd) :
    0 ≤ lam * s ↔ 0 ≤ lam * dd * s := by
  constructor <;> intro hh <;> nlinarith

theorem scale_mid_pos_iff (dd lam s : ℚ) (h : 0 < dd) :
    0 < lam * s ↔ 0 < lam * dd * s := by
  constructor <;> intro hh <;> nlinarith

/-- The two in-plane edge vectors of a triangle are orthogonal to any
normal the triangle normal is a nonzero multiple of. -/
theorem tri_vertices_inplane (n b0 b1 b2 : vec3) (lam : ℚ)
    (hm : triNormal b0 b1 b2 = smul lam n) (hlam : lam ≠ 0) :
    dot n (vsub b1 b0) = 0 ∧ dot n (vsub b2 b0) = 0 := by
  have h1 : dot (triNormal b0 b1 b2) (vsub b1 b0) = 0 := dot_triNormal_e1 _ _ _
  have h2 : dot (triNormal b0 b1 b2) (vsub b2 b0) = 0 := dot_triNormal_e2 _ _ _
  rw [hm, dot_smul_left] at h1 h2
  exact ⟨by
    rcases mul_eq_zero.1 h1 with h | h
    · exact absurd h hlam
    · exact h, by
    rcases mul_eq_zero.1 h2 with h | h
    · exact absurd h hlam
    · exact h⟩

/-- Membership criterion against an arbitrary normal of the common
plane: the weak orientation signs, weighted by the triangle's own
orientation constant. -/
theorem mem_tri_signs (n b0 b1 b2 z : vec3) (lam : ℚ)
    (hnd : nondegenerate b0 b1 b2) (hn : n ≠ vzero)
    (hm : triNormal b0 b1 b2 = smul lam n) (hlam : lam ≠ 0)
    (hz : dot n (vsub z b0) = 0) :
    inTriangle b0 b1 b2 z ↔
      0 ≤ side n b0 b1 b2 * side n b1 b2 z ∧
      0 ≤ side n b0 b1 b2 * side n b2 b0 z ∧
      0 ≤ side n b0 b1 b2 * side n b0 b1 z := by
  have hΔ : 0 < dot n n := dot_self_pos _ hn
  have hzm : dot (triNormal b0 b1 b2) (vsub z b0) = 0 := by
    rw [hm, dot_smul_left, hz]
    ring
  have hs0 : side (triNormal b0 b1 b2) b1 b2 z = lam * side n b1 b2 z := by
    rw [hm, side_smul]
  have hs1 : side (triNormal b0 b1 b2) b2 b0 z = lam * side n b2 b0 z := by
    rw [hm, side_smul]
  have hs2 : side (triNormal b0 b1 b2) b0 b1 z = lam * side n b0 b1 z := by
    rw [hm, side_smul]
  have hDB : side n b0 b1 b2 = lam * dot n n := by
    rw [side_eq_dot_triNormal, hm, dot_smul_left]
  rw [mem_tri_bary b0 b1 b2 z hnd hzm, hs0, hs1, hs2, hDB]
  refine and_congr ?_ (and_congr ?_ ?_) <;>
    rw [scale_mid_nonneg_iff (dot n n) _ _ hΔ]

/-- Strict membership criterion against an arbitrary normal of the
common plane. -/
theorem strict_mem_tri_signs (n b0 b1 b2 z : vec3) (lam : ℚ)
    (hnd : nondegenerate b0 b1 b2) (hn : n ≠ vzero)
    (hm : triNormal b0 b1 b2 = smul lam n) (hlam : lam ≠ 0)
    (hz : dot n (vsub z b0) = 0) :
    strictlyInTriangle b0 b1 b2 z ↔
      0 < side n b0 b1 b2 * side n b1 b2 z ∧
      0 < side n b0 b1 b2 * side n b2 b0 z ∧
      0 < side n b0 b1 b2 * side n b0 b1 z := by
  have hΔ : 0 < dot n n := dot_self_pos _ hn
  have hzm : dot (triNormal b0 b1 b2) (vsub z b0) = 0 := by
    rw [hm, dot_smul_left, hz]
    ring
  have hs0 : side (triNormal b0 b1 b2) b1 b2 z = lam * side n b1 b2 z := by
    rw [hm, side_smul]
  have hs1 : side (triNormal b0 b1 b2) b2 b0 z = lam * side n b2 b0 z := by
    rw [hm, side_smul]
  have hs2 : side (triNormal b0 b1 b2) b0 b1 z = lam * side n b0 b1 z := by
    rw [hm, side_smul]
  have hDB : side n b0 b1 b2 = lam * dot n n := by
    rw [side_eq_dot_triNormal, hm, dot_smul_left]
  rw [strict_mem_tri_bary b0 b1 b2 z hnd hzm, hs0, hs1, hs2, hDB]
  refine and_congr ?_ (and_congr ?_ ?_) <;>
    rw [scale_mid_pos_iff (dot n n) _ _ hΔ]

/-- A point of the plane at which the two edge functionals through a
common vertex vanish is that vertex. -/
theorem tri_vertex_of_zeros (n b0 b1 b2 z : vec3) (lam : ℚ)
    (hnd : nondegenerate b0 b1 b2)
    (hm : triNormal b0 b1 b2 = smul lam n)
    (hz : dot n (vsub z b0) = 0)
    (h1 : side n b2 b0 z = 0) (h2 : side n b0 b1 z = 0) : z = b0 := by
  have hb := bary_vec b0 b1 b2 z
  have hdm : dot (vsub z b0) (triNormal b0 b1 b2) = 0 := by
    rw [dot_comm, hm, dot_smul_left, hz]
    ring
  have h1m : side (triNormal b0 b1 b2) b2 b0 z = 0 := by
    rw [hm, side_smul, h1]
    ring
  have h2m : side (triNormal b0 b1 b2) b0 b1 z = 0 := by
    rw [hm, side_smul, h2]
    ring
  rw [hdm, h1m, h2m] at hb
  have hD : dot (triNormal b0 b1 b2) (triNormal b0 b1 b2) ≠ 0 :=
    ne_of_gt (dot_self_pos _ hnd)
  apply vsub_eq_vzero
  have hx := congrArg vec3.x hb
  have hy := congrArg vec3.y hb
  have hz' := congrArg vec3.z hb
  simp only [smul, vadd, vzero, vec3_eq_iff] at hx hy hz' ⊢
  constructor
  · have : dot (triNormal b0 b1 b2) (triNormal b0 b1 b2) * (vsub z b0).x = 0 := by
      rw [hx]
      ring
    rcases mul_eq_zero.1 this with h | h
    · exact absurd h hD
    · exact h
  constructor
  · have : dot (triNormal b0 b1 b2) (triNormal b0 b1 b2) * (vsub z b0).y = 0 := by
      rw [hy]
      ring
    rcases mul_eq_zero.1 this with h | h
    · exact absurd h hD
    · exact h
  · have : dot (triNormal b0 b1 b2) (triNormal b0 b1 b2) * (vsub z b0).z = 0 := by
      rw [hz']
      ring
    rcases mul_eq_zero.1 this with h | h
    · exact absurd h hD
    · exact h

theorem triNormal_cyc (b0 b1 b2 : vec3) :
    triNormal b1 b2 b0 = triNormal b0 b1 b2 := by
  simp only [triNormal, cross, vsub, vec3_eq_iff]
  refine ⟨?_, ?_, ?_⟩ <;> ring

theorem nondegenerate_cyc (b0 b1 b2 : vec3) (h : nondegenerate b0 b1 b2) :
    nondegenerate b1 b2 b0 := by
  unfold nondegenerate at h ⊢
  rw [triNormal_cyc]
  exact h

theorem sgn_eq_iff_mul_pos (a b : ℚ) (hb : b ≠ 0) :
    sgn a = sgn b ↔ 0 < b * a := by
  rcases lt_trichotomy b 0 with h | h | h
  · have hsb : sgn b = Sg.neg := (sgn_eq_neg_iff b).2 h
    rw [hsb, sgn_eq_neg_iff]
    constructor
    · intro ha
      nlinarith
    · intro ha
      nlinarith
  · exact absurd h hb
  · have hsb : sgn b = Sg.pos := (sgn_eq_pos_iff b).2 h
    rw [hsb, sgn_eq_pos_iff]
    constructor
    · intro ha
      nlinarith
    · intro ha
      nlinarith

theorem mul_pos_left_ne (a b : ℚ) (h : 0 < b * a) : b ≠ 0 := by
  intro hc
  rw [hc] at h
  nlinarith

/-- The classifier answers the interior region on three strict matching
signs. -/
theorem classify_T_of (n b0 b1 b2 zp : vec3)
    (h0 : 0 < side n b0 b1 b2 * side n b1 b2 zp)
    (h1 : 0 < side n b0 b1 b2 * side n b2 b0 zp)
    (h2 : 0 < side n b0 b1 b2 * side n b0 b1 zp) :
    classify n b0 b1 b2 zp = some .T := by
  have hD : side n b0 b1 b2 ≠ 0 := mul_pos_left_ne _ _ h0
  unfold classify
  rw [if_pos ⟨(sgn_eq_iff_mul_pos _ _ hD).2 h0, (sgn_eq_iff_mul_pos _ _ hD).2 h1,
    (sgn_eq_iff_mul_pos _ _ hD).2 h2⟩]

/-- The classifier answers edge zero on a vanishing first functional and
two strict matching signs. -/
theorem classify_E0_of (n b0 b1 b2 zp : vec3)
    (he : side n b1 b2 zp = 0)
    (h1 : 0 < side n b0 b1 b2 * side n b2 b0 zp)
    (h2 : 0 < side n b0 b1 b2 * side n b0 b1 zp) :
    classify n b0 b1 b2 zp = some .E0 := by
  have hD : side n b0 b1 b2 ≠ 0 := mul_pos_left_ne _ _ h1
  have hsD : sgn (side n b0 b1 b2) ≠ Sg.zer := fun hc =>
    hD ((sgn_eq_zer_iff _).1 hc)
  have hz0 : sgn (side n b1 b2 zp) = Sg.zer := (sgn_eq_zer_iff _).2 he
  unfold classify
  rw [if_neg (fun hc => hsD (by rw [hz0] at hc; exact hc.1.symm)),
    if_pos ⟨he, (sgn_eq_iff_mul_pos _ _ hD).2 h1,
      (sgn_eq_iff_mul_pos _ _ hD).2 h2⟩]

/-- The classifier answers edge one on a vanishing second functional and
two strict matching signs. -/
theorem classify_E1_of (n b0 b1 b2 zp : vec3)
    (he : side n b2 b0 zp = 0)
    (h0 : 0 < side n b0 b1 b2 * side n b1 b2 zp)
    (h2 : 0 < side n b0 b1 b2 * side n b0 b1 zp) :
    classify n b0 b1 b2 zp = some .E1 := by
  have hD : side n b0 b1 b2 ≠ 0 := mul_pos_left_ne _ _ h0
  have hsD : sgn (side n b0 b1 b2) ≠ Sg.zer := fun hc =>
    hD ((sgn_eq_zer_iff _).1 hc)
  have hz1 : sgn (side n b2 b0 zp) = Sg.zer := (sgn_eq_zer_iff _).2 he
  have he0 : side n b1 b2 zp ≠ 0 := by
    intro hc
    rw [hc] at h0
    nlinarith
  unfold classify
  rw [if_neg (fun hc => hsD (by rw [hz1] at hc; exact hc.2.1.symm)),
    if_neg (fun hc => he0 hc.1),
    if_pos ⟨he, (sgn_eq_iff_mul_pos _ _ hD).2 h0,
      (sgn_eq_iff_mul_pos _ _ hD).2 h2⟩]

/-- The classifier answers edge two on a vanishing third functional and
two strict matching signs. -/
theorem classify_E2_of (n b0 b1 b2 zp : vec3)
    (he : side n b0 b1 zp = 0)
    (h0 : 0 < side n b0 b1 b2 * side n b1 b2 zp)
    (h1 : 0 < side n b0 b1 b2 * side n b2 b0 zp) :
    classify n b0 b1 b2 zp = some .E2 := by
  have hD : side n b0 b1 b2 ≠ 0 := mul_pos_left_ne _ _ h0
  have hsD : sgn (side n b0 b1 b2) ≠ Sg.zer := fun hc =>
    hD ((sgn_eq_zer_iff _).1 hc)
  have hz2 : sgn (side n b0 b1 zp) = Sg.zer := (sgn_eq_zer_iff _).2 he
  have he0 : side n b1 b2 zp ≠ 0 := by
    intro hc
    rw [hc] at h0
    nlinarith
  have he1 : side n b2 b0 zp ≠ 0 := by
    intro hc
    rw [hc] at h1
    nlinarith
  unfold classify
  rw [if_neg (fun hc => hsD (by rw [hz2] at hc; exact hc.2.2.symm)),
    if_neg (fun hc => he0 hc.1), if_neg (fun hc => he1 hc.1),
    if_pos ⟨he, (sgn_eq_iff_mul_pos _ _ hD).2 h0,
      (sgn_eq_iff_mul_pos _ _ hD).2 h1⟩]

/-- Full picture of the least exit ratio: when it exists it is positive,
it keeps every decreasing affine value nonnegative and it makes one of
them vanish; when it does not exist no value decreases. -/
theorem minRatio_spec (l : List (ℚ × ℚ))
    (hpos : ∀ p ∈ l, p.2 < 0 → 0 < p.1) :
    (minRatio l = none → ∀ p ∈ l, ¬ p.2 < 0) ∧
    (∀ m, minRatio l = some m → 0 < m ∧
      (∀ p ∈ l, p.2 < 0 → m * (-p.2) ≤ p.1) ∧
      ∃ p ∈ l, p.2 < 0 ∧ m * (-p.2) = p.1) := by
  induction l with
  | nil =>
    constructor
    · intro _ p hp
      exact absurd hp (List.not_mem_nil p)
    · intro m hm
      simp [minRatio] at hm
  | cons p t ih =>
    have hpt : ∀ r ∈ t, r.2 < 0 → 0 < r.1 := fun r hr =>
      hpos r (List.mem_cons_of_mem p hr)
    have hph : p ∈ p :: t := List.mem_cons_self p t
    rcases ih hpt with ⟨ihn, ihs⟩
    cases hmt : minRatio t with
    | none =>
      by_cases hp2 : p.2 < 0
      · have hme : minRatio (p :: t) = some (p.1 / (-p.2)) := by
          simp [minRatio, hmt, hp2]
        constructor
        · intro hc
          rw [hme] at hc
          exact absurd hc (by simp)
        · intro m hm
          rw [hme] at hm
          have hmv : m = p.1 / (-p.2) := (Option.some.inj hm).symm
          have hp1 : 0 < p.1 := hpos p hph hp2
          have hnp2 : 0 < -p.2 := by linarith
          subst hmv
          refine ⟨div_pos hp1 hnp2, ?_, p, hph, hp2, ?_⟩
          · intro r hr hr2
            rcases List.mem_cons.1 hr with hre | hrt
            · subst hre
              rw [div_mul_cancel₀ _ (ne_of_gt hnp2)]
            · exact absurd hr2 (ihn hmt r hrt)
          · rw [div_mul_cancel₀ _ (ne_of_gt hnp2)]
      · have hme : minRatio (p :: t) = none := by
          simp [minRatio, hmt, hp2]
        constructor
        · intro _ r hr
          rcases List.mem_cons.1 hr with hre | hrt
          · subst hre
            exact hp2
          · exact ihn hmt r hrt
        · intro m hm
          rw [hme] at hm
          exact absurd hm (by simp)
    | some mt =>
      rcases ihs mt hmt with ⟨hmtpos, hmtb, r0, hr0, hr02, hr0eq⟩
      by_cases hp2 : p.2 < 0
      · have hme : minRatio (p :: t) = some (min (p.1 / (-p.2)) mt) := by
          simp [minRatio, hmt, hp2]
        constructor
        · intro hc
          rw [hme] at hc
          exact absurd hc (by simp)
        · intro m hm
          rw [hme] at hm
          have hmv : m = min (p.1 / (-p.2)) mt := (Option.some.inj hm).symm
          have hp1 : 0 < p.1 := hpos p hph hp2
          have hnp2 : 0 < -p.2 := by linarith
          subst hmv
          refine ⟨lt_min (div_pos hp1 hnp2) hmtpos, ?_, ?_⟩
          · intro r hr hr2
            rcases List.mem_cons.1 hr with hre | hrt
            · rw [hre]
              have h1 : min (p.1 / (-p.2)) mt ≤ p.1 / (-p.2) := min_le_left _ _
              calc min (p.1 / (-p.2)) mt * (-p.2)
                  ≤ p.1 / (-p.2) * (-p.2) :=
                    mul_le_mul_of_nonneg_right h1 (le_of_lt hnp2)
                _ = p.1 := div_mul_cancel₀ _ (ne_of_gt hnp2)
            · have h1 : min (p.1 / (-p.2)) mt ≤ mt := min_le_right _ _
              have hnr2 : 0 ≤ -r.2 := by linarith
              calc min (p.1 / (-p.2)) mt * (-r.2)
                  ≤ mt * (-r.2) := mul_le_mul_of_nonneg_right h1 hnr2
                _ ≤ r.1 := hmtb r hrt hr2
          · rcases le_total (p.1 / (-p.2)) mt with hle | hle
            · refine ⟨p, hph, hp2, ?_⟩
              rw [min_eq_left hle, div_mul_cancel₀ _ (ne_of_gt hnp2)]
            · refine ⟨r0, List.mem_cons_of_mem p hr0, hr02, ?_⟩
              rw [min_eq_right hle, hr0eq]
      · have hme : minRatio (p :: t) = some mt := by
          simp [minRatio, hmt, hp2]
        constructor
        · intro hc
          rw [hme] at hc
          exact absurd hc (by simp)
        · intro m hm
          rw [hme] at hm
          have hmv : m = mt := (Option.some.inj hm).symm
          subst hmv
          refine ⟨hmtpos, ?_, r0, List.mem_cons_of_mem p hr0, hr02, hr0eq⟩
          intro r hr hr2
          rcases List.mem_cons.1 hr with hre | hrt
          · subst hre
            exact absurd hr2 hp2
          · exact hmtb r hrt hr2

/-- Exit of a ray from a region cut out by finitely many affine values:
starting with every value nonnegative, every vanishing value constant
along the ray and some value strictly decreasing, there is a positive
step keeping every value nonnegative and making a decreasing value
vanish. -/
theorem list_exit (l : List (ℚ × ℚ))
    (h0 : ∀ p ∈ l, 0 ≤ p.1)
    (hzslope : ∀ p ∈ l, p.1 = 0 → p.2 = 0)
    (hneg : ∃ p ∈ l, p.2 < 0) :
    ∃ m : ℚ, 0 < m ∧ (∀ p ∈ l, 0 ≤ p.1 + m * p.2) ∧
      ∃ p ∈ l, p.1 + m * p.2 = 0 ∧ p.2 < 0 := by
  have hpos : ∀ p ∈ l, p.2 < 0 → 0 < p.1 := by
    intro p hp hneg2
    rcases lt_or_eq_of_le (h0 p hp) with h | h
    · exact h
    · have hzz := hzslope p hp h.symm
      rw [hzz] at hneg2
      exact absurd hneg2 (lt_irrefl 0)
  cases hm : minRatio l with
  | none =>
    exfalso
    obtain ⟨p, hp, hp2⟩ := hneg
    exact (minRatio_spec l hpos).1 hm p hp hp2
  | some m =>
    obtain ⟨hmpos, hbound, p0, hp0, hp02, hp0eq⟩ :=
      (minRatio_spec l hpos).2 m hm
    refine ⟨m, hmpos, ?_, p0, hp0, ?_, hp02⟩
    · intro p hp
      by_cases h2 : p.2 < 0
      · have := hbound p hp h2
        nlinarith
      · push_neg at h2
        nlinarith [h0 p hp, mul_nonneg (le_of_lt hmpos) h2]
    · nlinarith [hp0eq]

/-- An in-plane orientation value along a translated point: affine with
an explicit slope. -/
theorem side_translate (n a b z w : vec3) (t : ℚ) :
    side n a b (vadd z (smul t w)) =
      side n a b z + t * dot (cross (vsub b a) w) n := by
  simp only [side, triNormal, cross, dot, vsub, vadd, smul]
  ring

/-- The slope of an edge functional along its own edge direction
vanishes. -/
theorem slope_self_edge (n a b : vec3) :
    dot (cross (vsub b a) (vsub b a)) n = 0 := by
  simp only [cross, dot, vsub]
  ring

/-- Difference of an edge functional at two points, as the slope against
their difference. -/
theorem slope_diff (n w x u v : vec3) :
    side n w x v - side n w x u = dot (cross (vsub x w) (vsub v u)) n := by
  simp only [side, triNormal, cross, dot, vsub]
  ring

/-- Two in-plane vectors with vanishing oriented area are parallel: their
cross product vanishes. -/
theorem inplane_cross_slope_zero (n e u : vec3) (hn : dot n n ≠ 0)
    (he : dot n e = 0) (hu : dot n u = 0)
    (hslope : dot (cross e u) n = 0) : cross e u = vzero := by
  have hcc : cross (cross e u) n = vzero := by
    rw [cross_cross_right]
    rw [dot_comm e n, dot_comm u n] at *
    rw [he, hu]
    simp [smul, vsub, vzero, vec3_eq_iff]
  have hp := parallel_of_cross_zero (cross e u) n hn hcc
  rw [hslope] at hp
  rw [hp]
  simp [smul, vzero, vec3_eq_iff]

/-- In a nondegenerate triangle the first edge vector is nonzero. -/
theorem edge_ne_vzero_01 (p0 p1 p2 : vec3) (h : nondegenerate p0 p1 p2) :
    vsub p1 p0 ≠ vzero := by
  intro hc
  apply h
  unfold triNormal
  rw [hc]
  simp only [cross, vzero, vec3_eq_iff]
  refine ⟨?_, ?_, ?_⟩ <;> ring

theorem edge_ne_vzero_12 (p0 p1 p2 : vec3) (h : nondegenerate p0 p1 p2) :
    vsub p2 p1 ≠ vzero := by
  intro hc
  apply h
  have hx := congrArg vec3.x hc
  have hy := congrArg vec3.y hc
  have hz := congrArg vec3.z hc
  simp only [vsub, vzero] at hx hy hz
  unfold triNormal
  simp only [cross, vsub, vzero, vec3_eq_iff]
  refine ⟨?_, ?_, ?_⟩
  · linear_combination (p1.y - p0.y) * hz - (p1.z - p0.z) * hy
  · linear_combination (p1.z - p0.z) * hx - (p1.x - p0.x) * hz
  · linear_combination (p1.x - p0.x) * hy - (p1.y - p0.y) * hx

/-- The opposite-edge vector crossed with the first edge vector gives
minus the triangle normal. -/
theorem cross_e0_e2 (p0 p1 p2 : vec3) :
    cross (vsub p2 p1) (vsub p1 p0) = smul (-1) (triNormal p0 p1 p2) := by
  simp only [cross, vsub, smul, triNormal, vec3_eq_iff]
  refine ⟨?_, ?_, ?_⟩ <;> ring

/-- Along any nonzero in-plane direction, one of the three edge
functionals of a nondegenerate triangle strictly decreases. -/
theorem exists_neg_slope (p0 p1 p2 u : vec3) (hP : nondegenerate p0 p1 p2)
    (hu : u ≠ vzero) (huplane : dot (triNormal p0 p1 p2) u = 0) :
    dot (cross (vsub p2 p1) u) (triNormal p0 p1 p2) < 0 ∨
    dot (cross (vsub p0 p2) u) (triNormal p0 p1 p2) < 0 ∨
    dot (cross (vsub p1 p0) u) (triNormal p0 p1 p2) < 0 := by
  by_contra hc
  push_neg at hc
  obtain ⟨h0, h1, h2⟩ := hc
  have hsum : dot (cross (vsub p2 p1) u) (triNormal p0 p1 p2) +
      dot (cross (vsub p0 p2) u) (triNormal p0 p1 p2) +
      dot (cross (vsub p1 p0) u) (triNormal p0 p1 p2) = 0 := by
    simp only [cross, dot, vsub, triNormal]
    ring
  have hz0 : dot (cross (vsub p2 p1) u) (triNormal p0 p1 p2) = 0 := by linarith
  have hz2 : dot (cross (vsub p1 p0) u) (triNormal p0 p1 p2) = 0 := by linarith
  have hnn : dot (triNormal p0 p1 p2) (triNormal p0 p1 p2) ≠ 0 :=
    ne_of_gt (dot_self_pos _ hP)
  have hpl0 : dot (triNormal p0 p1 p2) (vsub p2 p1) = 0 := by
    have ha := dot_triNormal_e1 p0 p1 p2
    have hb := dot_triNormal_e2 p0 p1 p2
    rw [dot_vsub_split _ p2 p1 p0, ha, hb]
    ring
  have hpl2 : dot (triNormal p0 p1 p2) (vsub p1 p0) = 0 :=
    dot_triNormal_e1 p0 p1 p2
  have hc0 : cross (vsub p2 p1) u = vzero :=
    inplane_cross_slope_zero _ _ _ hnn hpl0 huplane hz0
  have hc2 : cross (vsub p1 p0) u = vzero :=
    inplane_cross_slope_zero _ _ _ hnn hpl2 huplane hz2
  have h12 : dot (vsub p1 p0) (vsub p1 p0) ≠ 0 :=
    fun h => edge_ne_vzero_01 p0 p1 p2 hP ((dot_self_eq_zero_iff _).1 h)
  have hupar := parallel_of_cross_zero u (vsub p1 p0) h12
    (cross_anticomm_zero _ _ hc2)
  have hmu : dot u (vsub p1 p0) / dot (vsub p1 p0) (vsub p1 p0) ≠ 0 := by
    intro h
    apply hu
    rw [hupar, h]
    simp [smul, vzero, vec3_eq_iff]
  rw [hupar] at hc0
  have hcs : smul (dot u (vsub p1 p0) / dot (vsub p1 p0) (vsub p1 p0))
      (cross (vsub p2 p1) (vsub p1 p0)) = vzero := by
    rw [← hc0]
    simp only [cross, smul, vec3_eq_iff]
    refine ⟨?_, ?_, ?_⟩ <;> ring
  rw [cross_e0_e2] at hcs
  apply hP
  have hx := congrArg vec3.x hcs
  have hy := congrArg vec3.y hcs
  have hz := congrArg vec3.z hcs
  simp only [smul, vzero] at hx hy hz
  rw [vec3_eq_iff]
  simp only [vzero]
  refine ⟨?_, ?_, ?_⟩
  · have := mul_eq_zero.1 (by linarith [hx] :
      dot u (vsub p1 p0) / dot (vsub p1 p0) (vsub p1 p0) *
        (-1 * (triNormal p0 p1 p2).x) = 0)
    rcases this with h | h
    · exact absurd h hmu
    · linarith
  · have := mul_eq_zero.1 (by linarith [hy] :
      dot u (vsub p1 p0) / dot (vsub p1 p0) (vsub p1 p0) *
        (-1 * (triNormal p0 p1 p2).y) = 0)
    rcases this with h | h
    · exact absurd h hmu
    · linarith
  · have := mul_eq_zero.1 (by linarith [hz] :
      dot u (vsub p1 p0) / dot (vsub p1 p0) (vsub p1 p0) *
        (-1 * (triNormal p0 p1 p2).z) = 0)
    rcases this with h | h
    · exact absurd h hmu
    · linarith

/-- Barycentric membership is invariant under a cyclic rotation of the
triangle vertices. -/
theorem inTriangle_rot (a b c z : vec3) (h : inTriangle a b c z) :
    inTriangle b c a z := by
  rcases h with ⟨al, be, ga, hal, hbe, hga, hsum, hz⟩
  refine ⟨be, ga, al, hbe, hga, hal, by linarith, ?_⟩
  rw [hz]
  simp only [vadd, smul, vec3_eq_iff]
  refine ⟨?_, ?_, ?_⟩ <;> ring

theorem inTriangle_cyc (a b c z : vec3) :
    inTriangle a b c z ↔ inTriangle b c a z :=
  ⟨inTriangle_rot a b c z, fun h => inTriangle_rot c a b z
    (inTriangle_rot b c a z h)⟩

/-- The overlap region is unchanged by a cyclic rotation of the first
triangle. -/
theorem overlapSet_rotP (p0 p1 p2 q0 q1 q2 : vec3) :
    overlapSet p0 p1 p2 q0 q1 q2 = overlapSet p1 p2 p0 q0 q1 q2 := by
  apply Set.ext
  intro z
  unfold overlapSet
  simp only [Set.mem_setOf_eq]
  rw [inTriangle_cyc p0 p1 p2 z]

/-- The overlap region is unchanged by a cyclic rotation of the second
triangle. -/
theorem overlapSet_rotQ (p0 p1 p2 q0 q1 q2 : vec3) :
    overlapSet p0 p1 p2 q0 q1 q2 = overlapSet p0 p1 p2 q1 q2 q0 := by
  apply Set.ext
  intro z
  unfold overlapSet
  simp only [Set.mem_setOf_eq]
  rw [inTriangle_cyc q0 q1 q2 z]

/-- Members of the overlap lie in the supporting plane of the first
triangle. -/
theorem overlapSet_inplane (p0 p1 p2 q0 q1 q2 y : vec3)
    (hy : y ∈ overlapSet p0 p1 p2 q0 q1 q2) :
    dot (triNormal p0 p1 p2) (vsub y p0) = 0 :=
  inTriangle_inplane (triNormal p0 p1 p2) p0 p1 p2 y
    (dot_triNormal_e1 p0 p1 p2) (dot_triNormal_e2 p0 p1 p2) hy.1

/-- A point equal to a proper combination with itself as the first
endpoint forces the second endpoint to agree. -/
theorem pOn_left_cancel (z w : vec3) (t : ℚ) (ht : t ≠ 0)
    (h : z = pOn z w t) : w = z := by
  have hx := congrArg vec3.x h
  have hy := congrArg vec3.y h
  have hz' := congrArg vec3.z h
  simp only [pOn, vadd, smul, vsub] at hx hy hz'
  rw [vec3_eq_iff]
  refine ⟨?_, ?_, ?_⟩
  · rcases mul_eq_zero.1 (by linarith : t * (w.x - z.x) = 0) with h' | h'
    · exact absurd h' ht
    · linarith
  · rcases mul_eq_zero.1 (by linarith : t * (w.y - z.y) = 0) with h' | h'
    · exact absurd h' ht
    · linarith
  · rcases mul_eq_zero.1 (by linarith : t * (w.z - z.z) = 0) with h' | h'
    · exact absurd h' ht
    · linarith

/-- Extreme point criterion for the overlap region: a member at which
two affine edge functionals vanish, both of one sign over the whole
region, with a common zero locus reduced to the point itself, is
extreme. -/
theorem extreme_of_zero_pair (p0 p1 p2 q0 q1 q2 n z u1 v1 u2 v2 : vec3)
    (c1 c2 : ℚ) (hc1 : c1 ≠ 0) (hc2 : c2 ≠ 0)
    (hmem : z ∈ overlapSet p0 p1 p2 q0 q1 q2)
    (hplane : ∀ y, y ∈ overlapSet p0 p1 p2 q0 q1 q2 →
      dot n (vsub y p0) = 0)
    (hnn1 : ∀ y, y ∈ overlapSet p0 p1 p2 q0 q1 q2 →
      0 ≤ c1 * side n u1 v1 y)
    (hnn2 : ∀ y, y ∈ overlapSet p0 p1 p2 q0 q1 q2 →
      0 ≤ c2 * side n u2 v2 y)
    (hv1 : side n u1 v1 z = 0) (hv2 : side n u2 v2 z = 0)
    (huniq : ∀ y, dot n (vsub y p0) = 0 → side n u1 v1 y = 0 →
      side n u2 v2 y = 0 → y = z) :
    isExtremePt (overlapSet p0 p1 p2 q0 q1 q2) z := by
  refine ⟨hmem, ?_⟩
  intro y w hy hw t ht0 ht1 hzc
  have ha1 : (1 - t) * (c1 * side n u1 v1 y) +
      t * (c1 * side n u1 v1 w) = 0 := by
    have h := hv1
    rw [hzc, side_affine] at h
    linear_combination c1 * h
  have ha2 : (1 - t) * (c2 * side n u2 v2 y) +
      t * (c2 * side n u2 v2 w) = 0 := by
    have h := hv2
    rw [hzc, side_affine] at h
    linear_combination c2 * h
  have hy1 : side n u1 v1 y = 0 := by
    have h1 := hnn1 y hy
    have h2 := hnn1 w hw
    have : c1 * side n u1 v1 y = 0 := by nlinarith
    rcases mul_eq_zero.1 this with h | h
    · exact absurd h hc1
    · exact h
  have hy2 : side n u2 v2 y = 0 := by
    have h1 := hnn2 y hy
    have h2 := hnn2 w hw
    have : c2 * side n u2 v2 y = 0 := by nlinarith
    rcases mul_eq_zero.1 this with h | h
    · exact absurd h hc2
    · exact h
  have hyz : y = z := huniq y (hplane y hy) hy1 hy2
  subst hyz
  have hwz : w = y := pOn_left_cancel y w t (ne_of_gt ht0) hzc
  exact ⟨rfl, hwz⟩

/-- Uniqueness of the common zero of two nonparallel in-plane edge
functionals. -/
theorem line_line_unique (n o u v w x y z : vec3) (hn : dot n n ≠ 0)
    (huo : dot n (vsub u o) = 0) (hvo : dot n (vsub v o) = 0)
    (hyo : dot n (vsub y o) = 0) (hzo : dot n (vsub z o) = 0)
    (huv : v ≠ u) (hslope : side n w x u ≠ side n w x v)
    (hfy : side n u v y = 0) (hfz : side n u v z = 0)
    (hgy : side n w x y = 0) (hgz : side n w x z = 0) : y = z := by
  obtain ⟨ty, hty⟩ := on_line_of_side_zero n o u v y hn huo hvo hyo huv hfy
  obtain ⟨tz, htz⟩ := on_line_of_side_zero n o u v z hn huo hvo hzo huv hfz
  rw [hty, side_affine] at hgy
  rw [htz, side_affine] at hgz
  have hts : ty = tz := by
    have h : (ty - tz) * (side n w x v - side n w x u) = 0 := by
      linear_combination hgy - hgz
    rcases mul_eq_zero.1 h with h' | h'
    · linarith
    · exfalso
      apply hslope
      linarith
  rw [hty, htz, hts]

/-- Bounds of the crossing ratio of two strictly straddling values. -/
theorem ratio_bounds (C D : ℚ) (h : C * D < 0) :
    0 < C / (C - D) ∧ C / (C - D) < 1 := by
  have hne : C - D ≠ 0 := by
    intro hc
    have : C = D := by linarith
    rw [this] at h
    nlinarith
  have hid : C / (C - D) * (C - D) = C := div_mul_cancel₀ _ hne
  rcases mul_neg_iff.1 h with ⟨hC, hD⟩ | ⟨hC, hD⟩
  · constructor
    · by_contra hs
      push_neg at hs
      nlinarith
    · by_contra hs
      push_neg at hs
      nlinarith
  · constructor
    · by_contra hs
      push_neg at hs
      nlinarith
    · by_contra hs
      push_neg at hs
      nlinarith

/-- The crossing point formula lies on the first line. -/
theorem crossPt_as_pOn (u v : vec3) (su sv : ℚ) :
    crossPt u su v sv = pOn u v (su / (su - sv)) := rfl

/-- An in-plane orientation functional vanishes along its own line. -/
theorem side_on_own_line (n u v : vec3) (t : ℚ) :
    side n u v (pOn u v t) = 0 := by
  rw [side_affine, side_self_left, side_self_right]
  ring

/-- The straddling functional vanishes at the crossing point. -/
theorem side_at_crossPt (n w x u v : vec3)
    (hne : side n w x u - side n w x v ≠ 0) :
    side n w x (crossPt u (side n w x u) v (side n w x v)) = 0 := by
  rw [crossPt_as_pOn, side_affine]
  field_simp
  ring

theorem mem_vpairA (pr : Rgn × Rgn) (rv : Rgn) (cl : Option Rgn) :
    pr ∈ vpairA rv cl ↔ ∃ r, cl = some r ∧ pr = (rv, r) := by
  cases cl <;> simp [vpairA]

theorem mem_vpairB (pr : Rgn × Rgn) (rv : Rgn) (cl : Option Rgn) :
    pr ∈ vpairB rv cl ↔ ∃ r, cl = some r ∧ pr = (r, rv) := by
  cases cl <;> simp [vpairB]

theorem mem_xpair (pr : Rgn × Rgn) (ra rb : Rgn) (c : Prop) [Decidable c] :
    pr ∈ xpair ra rb c ↔ c ∧ pr = (ra, rb) := by
  unfold xpair
  split_ifs with h <;> simp [h]

/-- The classifier only ever answers the interior or an edge region. -/
theorem classify_some_cases (n b0 b1 b2 zp : vec3) (r : Rgn)
    (h : classify n b0 b1 b2 zp = some r) :
    r = .T ∨ r = .E0 ∨ r = .E1 ∨ r = .E2 := by
  unfold classify at h
  split_ifs at h <;> simp only [Option.some.injEq] at h <;> simp [← h]

theorem realize_emb_P0 (p0 p1 p2 q0 q1 q2 : vec3) (r : Rgn) :
    realizeIsect p0 p1 p2 q0 q1 q2 (embedPair (.P0, r)) = p0 := by
  cases r <;> rfl

theorem realize_emb_P1 (p0 p1 p2 q0 q1 q2 : vec3) (r : Rgn) :
    realizeIsect p0 p1 p2 q0 q1 q2 (embedPair (.P1, r)) = p1 := by
  cases r <;> rfl

theorem realize_emb_P2 (p0 p1 p2 q0 q1 q2 : vec3) (r : Rgn) :
    realizeIsect p0 p1 p2 q0 q1 q2 (embedPair (.P2, r)) = p2 := by
  cases r <;> rfl

theorem realize_emb_Q0 (p0 p1 p2 q0 q1 q2 : vec3) (r : Rgn)
    (hr : r = .T ∨ r = .E0 ∨ r = .E1 ∨ r = .E2) :
    realizeIsect p0 p1 p2 q0 q1 q2 (embedPair (r, .P0)) = q0 := by
  rcases hr with h | h | h | h <;> subst h <;> rfl

theorem realize_emb_Q1 (p0 p1 p2 q0 q1 q2 : vec3) (r : Rgn)
    (hr : r = .T ∨ r = .E0 ∨ r = .E1 ∨ r = .E2) :
    realizeIsect p0 p1 p2 q0 q1 q2 (embedPair (r, .P1)) = q1 := by
  rcases hr with h | h | h | h <;> subst h <;> rfl

theorem realize_emb_Q2 (p0 p1 p2 q0 q1 q2 : vec3) (r : Rgn)
    (hr : r = .T ∨ r = .E0 ∨ r = .E1 ∨ r = .E2) :
    realizeIsect p0 p1 p2 q0 q1 q2 (embedPair (r, .P2)) = q2 := by
  rcases hr with h | h | h | h <;> subst h <;> rfl

/-- Existence of the parallelism scale between the two coplanar triangle
normals. -/
theorem coplanar_normals (p0 p1 p2 q0 q1 q2 : vec3)
    (hP : nondegenerate p0 p1 p2) (hQ : nondegenerate q0 q1 q2)
    (hq0 : orient3d p0 p1 p2 q0 = 0) (hq1 : orient3d p0 p1 p2 q1 = 0)
    (hq2 : orient3d p0 p1 p2 q2 = 0) :
    ∃ lam : ℚ, lam ≠ 0 ∧
      triNormal q0 q1 q2 = smul lam (triNormal p0 p1 p2) := by
  have hnn : dot (triNormal p0 p1 p2) (triNormal p0 p1 p2) ≠ 0 :=
    fun h => hP ((dot_self_eq_zero_iff _).1 h)
  have e0 : dot (triNormal p0 p1 p2) (vsub q0 p0) = 0 := hq0
  have e1 : dot (triNormal p0 p1 p2) (vsub q1 p0) = 0 := hq1
  have e2 : dot (triNormal p0 p1 p2) (vsub q2 p0) = 0 := hq2
  have hu1 : dot (triNormal p0 p1 p2) (vsub q1 q0) = 0 := by
    rw [dot_vsub_split (triNormal p0 p1 p2) q1 q0 p0, e1, e0]
    ring
  have hu2 : dot (triNormal p0 p1 p2) (vsub q2 q0) = 0 := by
    rw [dot_vsub_split (triNormal p0 p1 p2) q2 q0 p0, e2, e0]
    ring
  have hcr : cross (triNormal q0 q1 q2) (triNormal p0 p1 p2) = vzero := by
    show cross (cross (vsub q1 q0) (vsub q2 q0)) (triNormal p0 p1 p2) = vzero
    rw [cross_cross_right]
    rw [dot_comm (vsub q1 q0) (triNormal p0 p1 p2), hu1]
    rw [dot_comm (vsub q2 q0) (triNormal p0 p1 p2), hu2]
    simp [smul, vsub, vzero, vec3_eq_iff]
  have hpar := parallel_of_cross_zero (triNormal q0 q1 q2)
    (triNormal p0 p1 p2) hnn hcr
  refine ⟨dot (triNormal q0 q1 q2) (triNormal p0 p1 p2) /
    dot (triNormal p0 p1 p2) (triNormal p0 p1 p2), ?_, hpar⟩
  intro h
  apply hQ
  rw [hpar, h]
  simp [smul, vzero, vec3_eq_iff]

theorem inTriangle_v0 (a b c : vec3) : inTriangle a b c a := by
  refine ⟨1, 0, 0, by norm_num, le_refl 0, le_refl 0, by norm_num, ?_⟩
  simp only [vadd, smul, vec3_eq_iff]
  refine ⟨?_, ?_, ?_⟩ <;> ring

theorem inTriangle_v1 (a b c : vec3) : inTriangle a b c b := by
  refine ⟨0, 1, 0, le_refl 0, by norm_num, le_refl 0, by norm_num, ?_⟩
  simp only [vadd, smul, vec3_eq_iff]
  refine ⟨?_, ?_, ?_⟩ <;> ring

theorem inTriangle_v2 (a b c : vec3) : inTriangle a b c c := by
  refine ⟨0, 0, 1, le_refl 0, le_refl 0, by norm_num, by norm_num, ?_⟩
  simp only [vadd, smul, vec3_eq_iff]
  refine ⟨?_, ?_, ?_⟩ <;> ring

/-- A point of the edge joining the last two vertices belongs to the
triangle. -/
theorem edge_mem_tri (a0 a1 a2 : vec3) (t : ℚ) (h0 : 0 ≤ t) (h1 : t ≤ 1) :
    inTriangle a0 a1 a2 (pOn a1 a2 t) := by
  refine ⟨0, 1 - t, t, le_refl 0, by linarith, h0, by ring, ?_⟩
  simp only [pOn, vadd, smul, vsub, vec3_eq_iff]
  refine ⟨?_, ?_, ?_⟩ <;> ring

/-- The weak orientation signs of every overlap member against the first
triangle. -/
theorem S_signs_A (p0 p1 p2 q0 q1 q2 y : vec3)
    (hP : nondegenerate p0 p1 p2)
    (hy : y ∈ overlapSet p0 p1 p2 q0 q1 q2) :
    0 ≤ side (triNormal p0 p1 p2) p0 p1 p2 *
        side (triNormal p0 p1 p2) p1 p2 y ∧
    0 ≤ side (triNormal p0 p1 p2) p0 p1 p2 *
        side (triNormal p0 p1 p2) p2 p0 y ∧
    0 ≤ side (triNormal p0 p1 p2) p0 p1 p2 *
        side (triNormal p0 p1 p2) p0 p1 y := by
  have hz : dot (triNormal p0 p1 p2) (vsub y p0) = 0 :=
    overlapSet_inplane p0 p1 p2 q0 q1 q2 y hy
  exact (mem_tri_signs (triNormal p0 p1 p2) p0 p1 p2 y 1 hP hP
    (smul_one_self _).symm one_ne_zero hz).1 hy.1

/-- The weak orientation signs of every overlap member against the
second triangle, in the first triangle's normal. -/
theorem S_signs_B (p0 p1 p2 q0 q1 q2 y : vec3)
    (hP : nondegenerate p0 p1 p2) (hQ : nondegenerate q0 q1 q2)
    (hq0 : orient3d p0 p1 p2 q0 = 0) (hq1 : orient3d p0 p1 p2 q1 = 0)
    (hq2 : orient3d p0 p1 p2 q2 = 0)
    (hy : y ∈ overlapSet p0 p1 p2 q0 q1 q2) :
    0 ≤ side (triNormal p0 p1 p2) q0 q1 q2 *
        side (triNormal p0 p1 p2) q1 q2 y ∧
    0 ≤ side (triNormal p0 p1 p2) q0 q1 q2 *
        side (triNormal p0 p1 p2) q2 q0 y ∧
    0 ≤ side (triNormal p0 p1 p2) q0 q1 q2 *
        side (triNormal p0 p1 p2) q0 q1 y := by
  obtain ⟨lam, hlam, hm⟩ := coplanar_normals p0 p1 p2 q0 q1 q2 hP hQ hq0 hq1 hq2
  have hzp : dot (triNormal p0 p1 p2) (vsub y p0) = 0 :=
    overlapSet_inplane p0 p1 p2 q0 q1 q2 y hy
  have hzq : dot (triNormal p0 p1 p2) (vsub y q0) = 0 := by
    rw [dot_vsub_split _ y q0 p0, hzp]
    have h0 : dot (triNormal p0 p1 p2) (vsub q0 p0) = 0 := hq0
    rw [h0]
    ring
  exact (mem_tri_signs (triNormal p0 p1 p2) q0 q1 q2 y lam hQ hP hm hlam
    hzq).1 hy.2

/-- The crossing point of a proper edge-edge crossing belongs to both
triangles (stated for the edges joining the last two vertices of each
rotated copy). -/
theorem crossing_mem (n o a0 a1 a2 b0 b1 b2 : vec3) (hn : dot n n ≠ 0)
    (ha1 : dot n (vsub a1 o) = 0) (ha2 : dot n (vsub a2 o) = 0)
    (hb1 : dot n (vsub b1 o) = 0) (hb2 : dot n (vsub b2 o) = 0)
    (hpc : properCross n a1 a2 b1 b2) :
    inTriangle a0 a1 a2 (lineCross n a1 a2 b1 b2) ∧
    inTriangle b0 b1 b2 (lineCross n a1 a2 b1 b2) := by
  obtain ⟨hstrA, hstrB⟩ := hpc
  have hne : side n b1 b2 a1 - side n b1 b2 a2 ≠ 0 := by
    intro hc
    have : side n b1 b2 a1 = side n b1 b2 a2 := by linarith
    rw [this] at hstrB
    nlinarith
  have hzA : lineCross n a1 a2 b1 b2 =
      pOn a1 a2 (side n b1 b2 a1 / (side n b1 b2 a1 - side n b1 b2 a2)) :=
    crossPt_as_pOn _ _ _ _
  have hrb := ratio_bounds (side n b1 b2 a1) (side n b1 b2 a2) hstrB
  constructor
  · rw [hzA]
    exact edge_mem_tri a0 a1 a2 _ (le_of_lt hrb.1) (le_of_lt hrb.2)
  · have hv2 : side n b1 b2 (lineCross n a1 a2 b1 b2) = 0 :=
      side_at_crossPt n b1 b2 a1 a2 hne
    have hzpl : dot n (vsub (lineCross n a1 a2 b1 b2) o) = 0 := by
      rw [hzA]
      exact inplane_pOn n o a1 a2 _ ha1 ha2
    have hb21 : b2 ≠ b1 := by
      intro hc
      rw [hc, side_self_firsttwo, side_self_firsttwo] at hstrB
      nlinarith
    obtain ⟨s, hs⟩ := on_line_of_side_zero n o b1 b2
      (lineCross n a1 a2 b1 b2) hn hb1 hb2 hzpl hb21 hv2
    have hv1 : side n a1 a2 (lineCross n a1 a2 b1 b2) = 0 := by
      rw [hzA]
      exact side_on_own_line n a1 a2 _
    rw [hs, side_affine] at hv1
    have hsb := param_bounds _ _ s hv1 hstrA
    rw [hs]
    exact edge_mem_tri b0 b1 b2 s (le_of_lt hsb.1) (le_of_lt hsb.2)

/-- The crossing point of a proper edge-edge crossing is an extreme
point of the overlap region (abstract form: the two edges are given with
their region sign weights). -/
theorem crossing_extreme_abs (p0 p1 p2 q0 q1 q2 n a1 a2 b1 b2 : vec3)
    (DA DB : ℚ) (hn : dot n n ≠ 0) (hDA : DA ≠ 0) (hDB : DB ≠ 0)
    (hplane : ∀ y, y ∈ overlapSet p0 p1 p2 q0 q1 q2 →
      dot n (vsub y p0) = 0)
    (hSA : ∀ y, y ∈ overlapSet p0 p1 p2 q0 q1 q2 →
      0 ≤ DA * side n a1 a2 y)
    (hSB : ∀ y, y ∈ overlapSet p0 p1 p2 q0 q1 q2 →
      0 ≤ DB * side n b1 b2 y)
    (ha1 : dot n (vsub a1 p0) = 0) (ha2 : dot n (vsub a2 p0) = 0)
    (hb1 : dot n (vsub b1 p0) = 0) (hb2 : dot n (vsub b2 p0) = 0)
    (hpc : properCross n a1 a2 b1 b2)
    (hmem : lineCross n a1 a2 b1 b2 ∈ overlapSet p0 p1 p2 q0 q1 q2) :
    isExtremePt (overlapSet p0 p1 p2 q0 q1 q2)
      (lineCross n a1 a2 b1 b2) := by
  obtain ⟨hstrA, hstrB⟩ := hpc
  have hne : side n b1 b2 a1 - side n b1 b2 a2 ≠ 0 := by
    intro hc
    have : side n b1 b2 a1 = side n b1 b2 a2 := by linarith
    rw [this] at hstrB
    nlinarith
  have hzA : lineCross n a1 a2 b1 b2 =
      pOn a1 a2 (side n b1 b2 a1 / (side n b1 b2 a1 - side n b1 b2 a2)) :=
    crossPt_as_pOn _ _ _ _
  have hv1 : side n a1 a2 (lineCross n a1 a2 b1 b2) = 0 := by
    rw [hzA]
    exact side_on_own_line n a1 a2 _
  have hv2 : side n b1 b2 (lineCross n a1 a2 b1 b2) = 0 :=
    side_at_crossPt n b1 b2 a1 a2 hne
  have hzpl : dot n (vsub (lineCross n a1 a2 b1 b2) p0) = 0 := by
    rw [hzA]
    exact inplane_pOn n p0 a1 a2 _ ha1 ha2
  have ha21 : a2 ≠ a1 := by
    intro hc
    rw [hc] at hstrB
    nlinarith
  have hslope : side n b1 b2 a1 ≠ side n b1 b2 a2 := fun hc => hne (by linarith)
  refine extreme_of_zero_pair p0 p1 p2 q0 q1 q2 n _ a1 a2 b1 b2 DA DB
    hDA hDB hmem hplane hSA hSB hv1 hv2 ?_
  intro y hy hy1 hy2
  exact line_line_unique n p0 a1 a2 b1 b2 y _ hn ha1 ha2 hy hzpl
    ha21 hslope hy1 hv1 hy2 hv2

/-- A vertex of the first triangle classified inside the second one is
an extreme point of the overlap. -/
theorem vertexP0_extreme (p0 p1 p2 q0 q1 q2 : vec3)
    (hP : nondegenerate p0 p1 p2) (hQ : nondegenerate q0 q1 q2)
    (hq0 : orient3d p0 p1 p2 q0 = 0) (hq1 : orient3d p0 p1 p2 q1 = 0)
    (hq2 : orient3d p0 p1 p2 q2 = 0)
    (hcl : (classify (triNormal p0 p1 p2) q0 q1 q2 p0).isSome) :
    isExtremePt (overlapSet p0 p1 p2 q0 q1 q2) p0 := by
  obtain ⟨lam, hlam, hm⟩ := coplanar_normals p0 p1 p2 q0 q1 q2 hP hQ hq0 hq1 hq2
  have hw := classify_isSome_weak (triNormal p0 p1 p2) q0 q1 q2 p0 hcl
  have hq0' : dot (triNormal p0 p1 p2) (vsub p0 q0) = 0 := by
    rw [dot_vsub_neg]
    have h0 : dot (triNormal p0 p1 p2) (vsub q0 p0) = 0 := hq0
    rw [h0]
    ring
  have hmem : p0 ∈ overlapSet p0 p1 p2 q0 q1 q2 := by
    refine ⟨inTriangle_v0 p0 p1 p2, ?_⟩
    exact (mem_tri_signs (triNormal p0 p1 p2) q0 q1 q2 p0 lam hQ hP hm hlam
      hq0').2 hw
  have hDA : side (triNormal p0 p1 p2) p0 p1 p2 ≠ 0 :=
    ne_of_gt (dot_self_pos _ hP)
  refine extreme_of_zero_pair p0 p1 p2 q0 q1 q2 (triNormal p0 p1 p2) p0
    p2 p0 p0 p1 (side (triNormal p0 p1 p2) p0 p1 p2)
    (side (triNormal p0 p1 p2) p0 p1 p2) hDA hDA hmem
    (fun y hy => overlapSet_inplane p0 p1 p2 q0 q1 q2 y hy)
    (fun y hy => (S_signs_A p0 p1 p2 q0 q1 q2 y hP hy).2.1)
    (fun y hy => (S_signs_A p0 p1 p2 q0 q1 q2 y hP hy).2.2)
    (side_self_right _ _ _) (side_self_left _ _ _) ?_
  intro y hy h1 h2
  exact tri_vertex_of_zeros (triNormal p0 p1 p2) p0 p1 p2 y 1 hP
    (smul_one_self _).symm hy h1 h2

/-- Second vertex of the first triangle, as an extreme point. -/
theorem vertexP1_extreme (p0 p1 p2 q0 q1 q2 : vec3)
    (hP : nondegenerate p0 p1 p2) (hQ : nondegenerate q0 q1 q2)
    (hq0 : orient3d p0 p1 p2 q0 = 0) (hq1 : orient3d p0 p1 p2 q1 = 0)
    (hq2 : orient3d p0 p1 p2 q2 = 0)
    (hcl : (classify (triNormal p0 p1 p2) q0 q1 q2 p1).isSome) :
    isExtremePt (overlapSet p0 p1 p2 q0 q1 q2) p1 := by
  obtain ⟨lam, hlam, hm⟩ := coplanar_normals p0 p1 p2 q0 q1 q2 hP hQ hq0 hq1 hq2
  have hw := classify_isSome_weak (triNormal p0 p1 p2) q0 q1 q2 p1 hcl
  have hq1' : dot (triNormal p0 p1 p2) (vsub p1 q0) = 0 := by
    rw [dot_vsub_split _ p1 q0 p0, dot_triNormal_e1]
    have h0 : dot (triNormal p0 p1 p2) (vsub q0 p0) = 0 := hq0
    rw [h0]
    ring
  have hmem : p1 ∈ overlapSet p0 p1 p2 q0 q1 q2 := by
    refine ⟨inTriangle_v1 p0 p1 p2, ?_⟩
    exact (mem_tri_signs (triNormal p0 p1 p2) q0 q1 q2 p1 lam hQ hP hm hlam
      hq1').2 hw
  have hDA : side (triNormal p0 p1 p2) p0 p1 p2 ≠ 0 :=
    ne_of_gt (dot_self_pos _ hP)
  refine extreme_of_zero_pair p0 p1 p2 q0 q1 q2 (triNormal p0 p1 p2) p1
    p0 p1 p1 p2 (side (triNormal p0 p1 p2) p0 p1 p2)
    (side (triNormal p0 p1 p2) p0 p1 p2) hDA hDA hmem
    (fun y hy => overlapSet_inplane p0 p1 p2 q0 q1 q2 y hy)
    (fun y hy => (S_signs_A p0 p1 p2 q0 q1 q2 y hP hy).2.2)
    (fun y hy => (S_signs_A p0 p1 p2 q0 q1 q2 y hP hy).1)
    (side_self_right _ _ _) (side_self_left _ _ _) ?_
  intro y hy h1 h2
  have hy1 : dot (triNormal p0 p1 p2) (vsub y p1) = 0 := by
    rw [dot_vsub_split _ y p1 p0, dot_triNormal_e1, hy]
    ring
  have hmrot : triNormal p1 p2 p0 = smul 1 (triNormal p0 p1 p2) := by
    rw [triNormal_cyc]
    exact (smul_one_self _).symm
  exact tri_vertex_of_zeros (triNormal p0 p1 p2) p1 p2 p0 y 1
    (nondegenerate_cyc _ _ _ hP) hmrot hy1 h1 h2

/-- Third vertex of the first triangle, as an extreme point. -/
theorem vertexP2_extreme (p0 p1 p2 q0 q1 q2 : vec3)
    (hP : nondegenerate p0 p1 p2) (hQ : nondegenerate q0 q1 q2)
    (hq0 : orient3d p0 p1 p2 q0 = 0) (hq1 : orient3d p0 p1 p2 q1 = 0)
    (hq2 : orient3d p0 p1 p2 q2 = 0)
    (hcl : (classify (triNormal p0 p1 p2) q0 q1 q2 p2).isSome) :
    isExtremePt (overlapSet p0 p1 p2 q0 q1 q2) p2 := by
  obtain ⟨lam, hlam, hm⟩ := coplanar_normals p0 p1 p2 q0 q1 q2 hP hQ hq0 hq1 hq2
  have hw := classify_isSome_weak (triNormal p0 p1 p2) q0 q1 q2 p2 hcl
  have hq2' : dot (triNormal p0 p1 p2) (vsub p2 q0) = 0 := by
    rw [dot_vsub_split _ p2 q0 p0, dot_triNormal_e2]
    have h0 : dot (triNormal p0 p1 p2) (vsub q0 p0) = 0 := hq0
    rw [h0]
    ring
  have hmem : p2 ∈ overlapSet p0 p1 p2 q0 q1 q2 := by
    refine ⟨inTriangle_v2 p0 p1 p2, ?_⟩
    exact (mem_tri_signs (triNormal p0 p1 p2) q0 q1 q2 p2 lam hQ hP hm hlam
      hq2').2 hw
  have hDA : side (triNormal p0 p1 p2) p0 p1 p2 ≠ 0 :=
    ne_of_gt (dot_self_pos _ hP)
  refine extreme_of_zero_pair p0 p1 p2 q0 q1 q2 (triNormal p0 p1 p2) p2
    p1 p2 p2 p0 (side (triNormal p0 p1 p2) p0 p1 p2)
    (side (triNormal p0 p1 p2) p0 p1 p2) hDA hDA hmem
    (fun y hy => overlapSet_inplane p0 p1 p2 q0 q1 q2 y hy)
    (fun y hy => (S_signs_A p0 p1 p2 q0 q1 q2 y hP hy).1)
    (fun y hy => (S_signs_A p0 p1 p2 q0 q1 q2 y hP hy).2.1)
    (side_self_right _ _ _) (side_self_left _ _ _) ?_
  intro y hy h1 h2
  have hy2 : dot (triNormal p0 p1 p2) (vsub y p2) = 0 := by
    rw [dot_vsub_split _ y p2 p0, dot_triNormal_e2, hy]
    ring
  have hmrot : triNormal p2 p0 p1 = smul 1 (triNormal p0 p1 p2) := by
    rw [triNormal_cyc, triNormal_cyc]
    exact (smul_one_self _).symm
  exact tri_vertex_of_zeros (triNormal p0 p1 p2) p2 p0 p1 y 1
    (nondegenerate_cyc _ _ _ (nondegenerate_cyc _ _ _ hP)) hmrot hy2 h1 h2

/-- A vertex of the second triangle classified inside the first one is
an extreme point of the overlap. -/
theorem vertexQ0_extreme (p0 p1 p2 q0 q1 q2 : vec3)
    (hP : nondegenerate p0 p1 p2) (hQ : nondegenerate q0 q1 q2)
    (hq0 : orient3d p0 p1 p2 q0 = 0) (hq1 : orient3d p0 p1 p2 q1 = 0)
    (hq2 : orient3d p0 p1 p2 q2 = 0)
    (hcl : (classify (triNormal p0 p1 p2) p0 p1 p2 q0).isSome) :
    isExtremePt (overlapSet p0 p1 p2 q0 q1 q2) q0 := by
  obtain ⟨lam, hlam, hm⟩ := coplanar_normals p0 p1 p2 q0 q1 q2 hP hQ hq0 hq1 hq2
  have hw := classify_isSome_weak (triNormal p0 p1 p2) p0 p1 p2 q0 hcl
  have hpl : dot (triNormal p0 p1 p2) (vsub q0 p0) = 0 := hq0
  have hmem : q0 ∈ overlapSet p0 p1 p2 q0 q1 q2 := by
    refine ⟨?_, inTriangle_v0 q0 q1 q2⟩
    exact (mem_tri_signs (triNormal p0 p1 p2) p0 p1 p2 q0 1 hP hP
      (smul_one_self _).symm one_ne_zero hpl).2 hw
  have hDB : side (triNormal p0 p1 p2) q0 q1 q2 ≠ 0 :=
    coplanar_delta_ne p0 p1 p2 q0 q1 q2 hP hQ hq0 hq1 hq2
  refine extreme_of_zero_pair p0 p1 p2 q0 q1 q2 (triNormal p0 p1 p2) q0
    q2 q0 q0 q1 (side (triNormal p0 p1 p2) q0 q1 q2)
    (side (triNormal p0 p1 p2) q0 q1 q2) hDB hDB hmem
    (fun y hy => overlapSet_inplane p0 p1 p2 q0 q1 q2 y hy)
    (fun y hy => (S_signs_B p0 p1 p2 q0 q1 q2 y hP hQ hq0 hq1 hq2 hy).2.1)
    (fun y hy => (S_signs_B p0 p1 p2 q0 q1 q2 y hP hQ hq0 hq1 hq2 hy).2.2)
    (side_self_right _ _ _) (side_self_left _ _ _) ?_
  intro y hy h1 h2
  have hyq : dot (triNormal p0 p1 p2) (vsub y q0) = 0 := by
    rw [dot_vsub_split _ y q0 p0, hy, hpl]
    ring
  exact tri_vertex_of_zeros (triNormal p0 p1 p2) q0 q1 q2 y lam hQ hm
    hyq h1 h2

/-- Second vertex of the second triangle, as an extreme point. -/
theorem vertexQ1_extreme (p0 p1 p2 q0 q1 q2 : vec3)
    (hP : nondegenerate p0 p1 p2) (hQ : nondegenerate q0 q1 q2)
    (hq0 : orient3d p0 p1 p2 q0 = 0) (hq1 : orient3d p0 p1 p2 q1 = 0)
    (hq2 : orient3d p0 p1 p2 q2 = 0)
    (hcl : (classify (triNormal p0 p1 p2) p0 p1 p2 q1).isSome) :
    isExtremePt (overlapSet p0 p1 p2 q0 q1 q2) q1 := by
  obtain ⟨lam, hlam, hm⟩ := coplanar_normals p0 p1 p2 q0 q1 q2 hP hQ hq0 hq1 hq2
  have hw := classify_isSome_weak (triNormal p0 p1 p2) p0 p1 p2 q1 hcl
  have hpl : dot (triNormal p0 p1 p2) (vsub q1 p0) = 0 := hq1
  have hmem : q1 ∈ overlapSet p0 p1 p2 q0 q1 q2 := by
    refine ⟨?_, inTriangle_v1 q0 q1 q2⟩
    exact (mem_tri_signs (triNormal p0 p1 p2) p0 p1 p2 q1 1 hP hP
      (smul_one_self _).symm one_ne_zero hpl).2 hw
  have hDB : side (triNormal p0 p1 p2) q0 q1 q2 ≠ 0 :=
    coplanar_delta_ne p0 p1 p2 q0 q1 q2 hP hQ hq0 hq1 hq2
  refine extreme_of_zero_pair p0 p1 p2 q0 q1 q2 (triNormal p0 p1 p2) q1
    q0 q1 q1 q2 (side (triNormal p0 p1 p2) q0 q1 q2)
    (side (triNormal p0 p1 p2) q0 q1 q2) hDB hDB hmem
    (fun y hy => overlapSet_inplane p0 p1 p2 q0 q1 q2 y hy)
    (fun y hy => (S_signs_B p0 p1 p2 q0 q1 q2 y hP hQ hq0 hq1 hq2 hy).2.2)
    (fun y hy => (S_signs_B p0 p1 p2 q0 q1 q2 y hP hQ hq0 hq1 hq2 hy).1)
    (side_self_right _ _ _) (side_self_left _ _ _) ?_
  intro y hy h1 h2
  have hyq : dot (triNormal p0 p1 p2) (vsub y q1) = 0 := by
    rw [dot_vsub_split _ y q1 p0, hy, hpl]
    ring
  have hmrot : triNormal q1 q2 q0 = smul lam (triNormal p0 p1 p2) := by
    rw [triNormal_cyc]
    exact hm
  exact tri_vertex_of_zeros (triNormal p0 p1 p2) q1 q2 q0 y lam
    (nondegenerate_cyc _ _ _ hQ) hmrot hyq h1 h2

/-- Third vertex of the second triangle, as an extreme point. -/
theorem vertexQ2_extreme (p0 p1 p2 q0 q1 q2 : vec3)
    (hP : nondegenerate p0 p1 p2) (hQ : nondegenerate q0 q1 q2)
    (hq0 : orient3d p0 p1 p2 q0 = 0) (hq1 : orient3d p0 p1 p2 q1 = 0)
    (hq2 : orient3d p0 p1 p2 q2 = 0)
    (hcl : (classify (triNormal p0 p1 p2) p0 p1 p2 q2).isSome) :
    isExtremePt (overlapSet p0 p1 p2 q0 q1 q2) q2 := by
  obtain ⟨lam, hlam, hm⟩ := coplanar_normals p0 p1 p2 q0 q1 q2 hP hQ hq0 hq1 hq2
  have hw := classify_isSome_weak (triNormal p0 p1 p2) p0 p1 p2 q2 hcl
  have hpl : dot (triNormal p0 p1 p2) (vsub q2 p0) = 0 := hq2
  have hmem : q2 ∈ overlapSet p0 p1 p2 q0 q1 q2 := by
    refine ⟨?_, inTriangle_v2 q0 q1 q2⟩
    exact (mem_tri_signs (triNormal p0 p1 p2) p0 p1 p2 q2 1 hP hP
      (smul_one_self _).symm one_ne_zero hpl).2 hw
  have hDB : side (triNormal p0 p1 p2) q0 q1 q2 ≠ 0 :=
    coplanar_delta_ne p0 p1 p2 q0 q1 q2 hP hQ hq0 hq1 hq2
  refine extreme_of_zero_pair p0 p1 p2 q0 q1 q2 (triNormal p0 p1 p2) q2
    q1 q2 q2 q0 (side (triNormal p0 p1 p2) q0 q1 q2)
    (side (triNormal p0 p1 p2) q0 q1 q2) hDB hDB hmem
    (fun y hy => overlapSet_inplane p0 p1 p2 q0 q1 q2 y hy)
    (fun y hy => (S_signs_B p0 p1 p2 q0 q1 q2 y hP hQ hq0 hq1 hq2 hy).1)
    (fun y hy => (S_signs_B p0 p1 p2 q0 q1 q2 y hP hQ hq0 hq1 hq2 hy).2.1)
    (side_self_right _ _ _) (side_self_left _ _ _) ?_
  intro y hy h1 h2
  have hyq : dot (triNormal p0 p1 p2) (vsub y q2) = 0 := by
    rw [dot_vsub_split _ y q2 p0, hy, hpl]
    ring
  have hmrot : triNormal q2 q0 q1 = smul lam (triNormal p0 p1 p2) := by
    rw [triNormal_cyc, triNormal_cyc]
    exact hm
  exact tri_vertex_of_zeros (triNormal p0 p1 p2) q2 q0 q1 y lam
    (nondegenerate_cyc _ _ _ (nondegenerate_cyc _ _ _ hQ)) hmrot hyq h1 h2

/-- Soundness of the coplanar assembly: every emitted symbolic pair,
geometrically realized, is an extreme point of the overlap region. -/
theorem emitted_extreme (p0 p1 p2 q0 q1 q2 : vec3)
    (hP : nondegenerate p0 p1 p2) (hQ : nondegenerate q0 q1 q2)
    (hq0 : orient3d p0 p1 p2 q0 = 0) (hq1 : orient3d p0 p1 p2 q1 = 0)
    (hq2 : orient3d p0 p1 p2 q2 = 0)
    (pr : Rgn × Rgn)
    (hpr : pr ∈ coplanarPairs (triNormal p0 p1 p2) p0 p1 p2 q0 q1 q2) :
    isExtremePt (overlapSet p0 p1 p2 q0 q1 q2)
      (realizeIsect p0 p1 p2 q0 q1 q2 (embedPair pr)) := by
  have hnn : dot (triNormal p0 p1 p2) (triNormal p0 p1 p2) ≠ 0 :=
    ne_of_gt (dot_self_pos _ hP)
  have hDA : side (triNormal p0 p1 p2) p0 p1 p2 ≠ 0 :=
    ne_of_gt (dot_self_pos _ hP)
  have hDB : side (triNormal p0 p1 p2) q0 q1 q2 ≠ 0 :=
    coplanar_delta_ne p0 p1 p2 q0 q1 q2 hP hQ hq0 hq1 hq2
  have hplane : ∀ y, y ∈ overlapSet p0 p1 p2 q0 q1 q2 →
      dot (triNormal p0 p1 p2) (vsub y p0) = 0 :=
    fun y hy => overlapSet_inplane p0 p1 p2 q0 q1 q2 y hy
  have hplp1 : dot (triNormal p0 p1 p2) (vsub p1 p0) = 0 :=
    dot_triNormal_e1 p0 p1 p2
  have hplp2 : dot (triNormal p0 p1 p2) (vsub p2 p0) = 0 :=
    dot_triNormal_e2 p0 p1 p2
  have hplp0 : dot (triNormal p0 p1 p2) (vsub p0 p0) = 0 :=
    dot_vsub_self _ _
  have hplq0 : dot (triNormal p0 p1 p2) (vsub q0 p0) = 0 := hq0
  have hplq1 : dot (triNormal p0 p1 p2) (vsub q1 p0) = 0 := hq1
  have hplq2 : dot (triNormal p0 p1 p2) (vsub q2 p0) = 0 := hq2
  have hSA0 : ∀ y ∈ overlapSet p0 p1 p2 q0 q1 q2,
      0 ≤ side (triNormal p0 p1 p2) p0 p1 p2 *
        side (triNormal p0 p1 p2) p1 p2 y :=
    fun y hy => (S_signs_A p0 p1 p2 q0 q1 q2 y hP hy).1
  have hSA1 : ∀ y ∈ overlapSet p0 p1 p2 q0 q1 q2,
      0 ≤ side (triNormal p0 p1 p2) p0 p1 p2 *
        side (triNormal p0 p1 p2) p2 p0 y :=
    fun y hy => (S_signs_A p0 p1 p2 q0 q1 q2 y hP hy).2.1
  have hSA2 : ∀ y ∈ overlapSet p0 p1 p2 q0 q1 q2,
      0 ≤ side (triNormal p0 p1 p2) p0 p1 p2 *
        side (triNormal p0 p1 p2) p0 p1 y :=
    fun y hy => (S_signs_A p0 p1 p2 q0 q1 q2 y hP hy).2.2
  have hSB0 : ∀ y ∈ overlapSet p0 p1 p2 q0 q1 q2,
      0 ≤ side (triNormal p0 p1 p2) q0 q1 q2 *
        side (triNormal p0 p1 p2) q1 q2 y :=
    fun y hy => (S_signs_B p0 p1 p2 q0 q1 q2 y hP hQ hq0 hq1 hq2 hy).1
  have hSB1 : ∀ y ∈ overlapSet p0 p1 p2 q0 q1 q2,
      0 ≤ side (triNormal p0 p1 p2) q0 q1 q2 *
        side (triNormal p0 p1 p2) q2 q0 y :=
    fun y hy => (S_signs_B p0 p1 p2 q0 q1 q2 y hP hQ hq0 hq1 hq2 hy).2.1
  have hSB2 : ∀ y ∈ overlapSet p0 p1 p2 q0 q1 q2,
      0 ≤ side (triNormal p0 p1 p2) q0 q1 q2 *
        side (triNormal p0 p1 p2) q0 q1 y :=
    fun y hy => (S_signs_B p0 p1 p2 q0 q1 q2 y hP hQ hq0 hq1 hq2 hy).2.2
  simp only [coplanarPairs, List.mem_append, mem_vpairA, mem_vpairB,
    mem_xpair] at hpr
  rcases hpr with (((((((((((((⟨r, hcl, rfl⟩ | ⟨r, hcl, rfl⟩) | ⟨r, hcl,
    rfl⟩) | ⟨r, hcl, rfl⟩) | ⟨r, hcl, rfl⟩) | ⟨r, hcl, rfl⟩) | ⟨hpc, rfl⟩)
    | ⟨hpc, rfl⟩) | ⟨hpc, rfl⟩) | ⟨hpc, rfl⟩) | ⟨hpc, rfl⟩) | ⟨hpc, rfl⟩)
    | ⟨hpc, rfl⟩) | ⟨hpc, rfl⟩) | ⟨hpc, rfl⟩
  · rw [realize_emb_P0]
    exact vertexP0_extreme p0 p1 p2 q0 q1 q2 hP hQ hq0 hq1 hq2
      (by rw [hcl]; rfl)
  · rw [realize_emb_P1]
    exact vertexP1_extreme p0 p1 p2 q0 q1 q2 hP hQ hq0 hq1 hq2
      (by rw [hcl]; rfl)
  · rw [realize_emb_P2]
    exact vertexP2_extreme p0 p1 p2 q0 q1 q2 hP hQ hq0 hq1 hq2
      (by rw [hcl]; rfl)
  · rw [realize_emb_Q0 p0 p1 p2 q0 q1 q2 r
      (classify_some_cases _ _ _ _ _ _ hcl)]
    exact vertexQ0_extreme p0 p1 p2 q0 q1 q2 hP hQ hq0 hq1 hq2
      (by rw [hcl]; rfl)
  · rw [realize_emb_Q1 p0 p1 p2 q0 q1 q2 r
      (classify_some_cases _ _ _ _ _ _ hcl)]
    exact vertexQ1_extreme p0 p1 p2 q0 q1 q2 hP hQ hq0 hq1 hq2
      (by rw [hcl]; rfl)
  · rw [realize_emb_Q2 p0 p1 p2 q0 q1 q2 r
      (classify_some_cases _ _ _ _ _ _ hcl)]
    exact vertexQ2_extreme p0 p1 p2 q0 q1 q2 hP hQ hq0 hq1 hq2
      (by rw [hcl]; rfl)
  · have hmm := crossing_mem (triNormal p0 p1 p2) p0 p0 p1 p2 q0 q1 q2
      hnn hplp1 hplp2 hplq1 hplq2 hpc
    exact crossing_extreme_abs p0 p1 p2 q0 q1 q2 (triNormal p0 p1 p2)
      p1 p2 q1 q2 _ _ hnn hDA hDB hplane hSA0 hSB0
      hplp1 hplp2 hplq1 hplq2 hpc ⟨hmm.1, hmm.2⟩
  · have hmm := crossing_mem (triNormal p0 p1 p2) p0 p0 p1 p2 q1 q2 q0
      hnn hplp1 hplp2 hplq2 hplq0 hpc
    exact crossing_extreme_abs p0 p1 p2 q0 q1 q2 (triNormal p0 p1 p2)
      p1 p2 q2 q0 _ _ hnn hDA hDB hplane hSA0 hSB1
      hplp1 hplp2 hplq2 hplq0 hpc
      ⟨hmm.1, (inTriangle_cyc q0 q1 q2 _).2 hmm.2⟩
  · have hmm := crossing_mem (triNormal p0 p1 p2) p0 p0 p1 p2 q2 q0 q1
      hnn hplp1 hplp2 hplq0 hplq1 hpc
    exact crossing_extreme_abs p0 p1 p2 q0 q1 q2 (triNormal p0 p1 p2)
      p1 p2 q0 q1 _ _ hnn hDA hDB hplane hSA0 hSB2
      hplp1 hplp2 hplq0 hplq1 hpc
      ⟨hmm.1, ((inTriangle_cyc q0 q1 q2 _).trans
        (inTriangle_cyc q1 q2 q0 _)).2 hmm.2⟩
  · have hmm := crossing_mem (triNormal p0 p1 p2) p0 p1 p2 p0 q0 q1 q2
      hnn hplp2 hplp0 hplq1 hplq2 hpc
    exact crossing_extreme_abs p0 p1 p2 q0 q1 q2 (triNormal p0 p1 p2)
      p2 p0 q1 q2 _ _ hnn hDA hDB hplane hSA1 hSB0
      hplp2 hplp0 hplq1 hplq2 hpc
      ⟨(inTriangle_cyc p0 p1 p2 _).2 hmm.1, hmm.2⟩
  · have hmm := crossing_mem (triNormal p0 p1 p2) p0 p1 p2 p0 q1 q2 q0
      hnn hplp2 hplp0 hplq2 hplq0 hpc
    exact crossing_extreme_abs p0 p1 p2 q0 q1 q2 (triNormal p0 p1 p2)
      p2 p0 q2 q0 _ _ hnn hDA hDB hplane hSA1 hSB1
      hplp2 hplp0 hplq2 hplq0 hpc
      ⟨(inTriangle_cyc p0 p1 p2 _).2 hmm.1,
        (inTriangle_cyc q0 q1 q2 _).2 hmm.2⟩
  · have hmm := crossing_mem (triNormal p0 p1 p2) p0 p1 p2 p0 q2 q0 q1
      hnn hplp2 hplp0 hplq0 hplq1 hpc
    exact crossing_extreme_abs p0 p1 p2 q0 q1 q2 (triNormal p0 p1 p2)
      p2 p0 q0 q1 _ _ hnn hDA hDB hplane hSA1 hSB2
      hplp2 hplp0 hplq0 hplq1 hpc
      ⟨(inTriangle_cyc p0 p1 p2 _).2 hmm.1,
        ((inTriangle_cyc q0 q1 q2 _).trans
          (inTriangle_cyc q1 q2 q0 _)).2 hmm.2⟩
  · have hmm := crossing_mem (triNormal p0 p1 p2) p0 p2 p0 p1 q0 q1 q2
      hnn hplp0 hplp1 hplq1 hplq2 hpc
    exact crossing_extreme_abs p0 p1 p2 q0 q1 q2 (triNormal p0 p1 p2)
      p0 p1 q1 q2 _ _ hnn hDA hDB hplane hSA2 hSB0
      hplp0 hplp1 hplq1 hplq2 hpc
      ⟨((inTriangle_cyc p0 p1 p2 _).trans
        (inTriangle_cyc p1 p2 p0 _)).2 hmm.1, hmm.2⟩
  · have hmm := crossing_mem (triNormal p0 p1 p2) p0 p2 p0 p1 q1 q2 q0
      hnn hplp0 hplp1 hplq2 hplq0 hpc
    exact crossing_extreme_abs p0 p1 p2 q0 q1 q2 (triNormal p0 p1 p2)
      p0 p1 q2 q0 _ _ hnn hDA hDB hplane hSA2 hSB1
      hplp0 hplp1 hplq2 hplq0 hpc
      ⟨((inTriangle_cyc p0 p1 p2 _).trans
        (inTriangle_cyc p1 p2 p0 _)).2 hmm.1,
        (inTriangle_cyc q0 q1 q2 _).2 hmm.2⟩
  · have hmm := crossing_mem (triNormal p0 p1 p2) p0 p2 p0 p1 q2 q0 q1
      hnn hplp0 hplp1 hplq0 hplq1 hpc
    exact crossing_extreme_abs p0 p1 p2 q0 q1 q2 (triNormal p0 p1 p2)
      p0 p1 q0 q1 _ _ hnn hDA hDB hplane hSA2 hSB2
      hplp0 hplp1 hplq0 hplq1 hpc
      ⟨((inTriangle_cyc p0 p1 p2 _).trans
        (inTriangle_cyc p1 p2 p0 _)).2 hmm.1,
        ((inTriangle_cyc q0 q1 q2 _).trans
          (inTriangle_cyc q1 q2 q0 _)).2 hmm.2⟩

theorem mem_cop_P0 (n p0 p1 p2 q0 q1 q2 : vec3) (r : Rgn)
    (h : classify n q0 q1 q2 p0 = some r) :
    ((.P0, r) : Rgn × Rgn) ∈ coplanarPairs n p0 p1 p2 q0 q1 q2 := by
  simp only [coplanarPairs, List.mem_append, mem_vpairA, mem_vpairB,
    mem_xpair]
  exact Or.inl (Or.inl (Or.inl (Or.inl (Or.inl (Or.inl (Or.inl (Or.inl
    (Or.inl (Or.inl (Or.inl (Or.inl (Or.inl (Or.inl (⟨r, h,
    rfl⟩))))))))))))))

theorem mem_cop_P1 (n p0 p1 p2 q0 q1 q2 : vec3) (r : Rgn)
    (h : classify n q0 q1 q2 p1 = some r) :
    ((.P1, r) : Rgn × Rgn) ∈ coplanarPairs n p0 p1 p2 q0 q1 q2 := by
  simp only [coplanarPairs, List.mem_append, mem_vpairA, mem_vpairB,
    mem_xpair]
  exact Or.inl (Or.inl (Or.inl (Or.inl (Or.inl (Or.inl (Or.inl (Or.inl
    (Or.inl (Or.inl (Or.inl (Or.inl (Or.inl (Or.inr ⟨r, h, rfl⟩)))))))))))))

theorem mem_cop_P2 (n p0 p1 p2 q0 q1 q2 : vec3) (r : Rgn)
    (h : classify n q0 q1 q2 p2 = some r) :
    ((.P2, r) : Rgn × Rgn) ∈ coplanarPairs n p0 p1 p2 q0 q1 q2 := by
  simp only [coplanarPairs, List.mem_append, mem_vpairA, mem_vpairB,
    mem_xpair]
  exact Or.inl (Or.inl (Or.inl (Or.inl (Or.inl (Or.inl (Or.inl (Or.inl
    (Or.inl (Or.inl (Or.inl (Or.inl (Or.inr ⟨r, h, rfl⟩))))))))))))

theorem mem_cop_Q0 (n p0 p1 p2 q0 q1 q2 : vec3) (r : Rgn)
    (h : classify n p0 p1 p2 q0 = some r) :
    ((r, .P0) : Rgn × Rgn) ∈ coplanarPairs n p0 p1 p2 q0 q1 q2 := by
  simp only [coplanarPairs, List.mem_append, mem_vpairA, mem_vpairB,
    mem_xpair]
  exact Or.inl (Or.inl (Or.inl (Or.inl (Or.inl (Or.inl (Or.inl (Or.inl
    (Or.inl (Or.inl (Or.inl (Or.inr ⟨r, h, rfl⟩)))))))))))

theorem mem_cop_Q1 (n p0 p1 p2 q0 q1 q2 : vec3) (r : Rgn)
    (h : classify n p0 p1 p2 q1 = some r) :
    ((r, .P1) : Rgn × Rgn) ∈ coplanarPairs n p0 p1 p2 q0 q1 q2 := by
  simp only [coplanarPairs, List.mem_append, mem_vpairA, mem_vpairB,
    mem_xpair]
  exact Or.inl (Or.inl (Or.inl (Or.inl (Or.inl (Or.inl (Or.inl (Or.inl
    (Or.inl (Or.inl (Or.inr ⟨r, h, rfl⟩))))))))))

theorem mem_cop_Q2 (n p0 p1 p2 q0 q1 q2 : vec3) (r : Rgn)
    (h : classify n p0 p1 p2 q2 = some r) :
    ((r, .P2) : Rgn × Rgn) ∈ coplanarPairs n p0 p1 p2 q0 q1 q2 := by
  simp only [coplanarPairs, List.mem_append, mem_vpairA, mem_vpairB,
    mem_xpair]
  exact Or.inl (Or.inl (Or.inl (Or.inl (Or.inl (Or.inl (Or.inl (Or.inl
    (Or.inl (Or.inr ⟨r, h, rfl⟩)))))))))

theorem mem_cop_E0E0 (n p0 p1 p2 q0 q1 q2 : vec3)
    (h : properCross n p1 p2 q1 q2) :
    ((.E0, .E0) : Rgn × Rgn) ∈ coplanarPairs n p0 p1 p2 q0 q1 q2 := by
  simp only [coplanarPairs, List.mem_append, mem_vpairA, mem_vpairB,
    mem_xpair]
  exact Or.inl (Or.inl (Or.inl (Or.inl (Or.inl (Or.inl (Or.inl (Or.inl
    (Or.inr ⟨h, trivial⟩))))))))

theorem mem_cop_E0E1 (n p0 p1 p2 q0 q1 q2 : vec3)
    (h : properCross n p1 p2 q2 q0) :
    ((.E0, .E1) : Rgn × Rgn) ∈ coplanarPairs n p0 p1 p2 q0 q1 q2 := by
  simp only [coplanarPairs, List.mem_append, mem_vpairA, mem_vpairB,
    mem_xpair]
  exact Or.inl (Or.inl (Or.inl (Or.inl (Or.inl (Or.inl (Or.inl (Or.inr ⟨h, trivial⟩)))))))

theorem mem_cop_E0E2 (n p0 p1 p2 q0 q1 q2 : vec3)
    (h : properCross n p1 p2 q0 q1) :
    ((.E0, .E2) : Rgn × Rgn) ∈ coplanarPairs n p0 p1 p2 q0 q1 q2 := by
  simp only [coplanarPairs, List.mem_append, mem_vpairA, mem_vpairB,
    mem_xpair]
  exact Or.inl (Or.inl (Or.inl (Or.inl (Or.inl (Or.inl (Or.inr ⟨h, trivial⟩))))))

theorem mem_cop_E1E0 (n p0 p1 p2 q0 q1 q2 : vec3)
    (h : properCross n p2 p0 q1 q2) :
    ((.E1, .E0) : Rgn × Rgn) ∈ coplanarPairs n p0 p1 p2 q0 q1 q2 := by
  simp only [coplanarPairs, List.mem_append, mem_vpairA, mem_vpairB,
    mem_xpair]
  exact Or.inl (Or.inl (Or.inl (Or.inl (Or.inl (Or.inr ⟨h, trivial⟩)))))

theorem mem_cop_E1E1 (n p0 p1 p2 q0 q1 q2 : vec3)
    (h : properCross n p2 p0 q2 q0) :
    ((.E1, .E1) : Rgn × Rgn) ∈ coplanarPairs n p0 p1 p2 q0 q1 q2 := by
  simp only [coplanarPairs, List.mem_append, mem_vpairA, mem_vpairB,
    mem_xpair]
  exact Or.inl (Or.inl (Or.inl (Or.inl (Or.inr ⟨h, trivial⟩))))

theorem mem_cop_E1E2 (n p0 p1 p2 q0 q1 q2 : vec3)
    (h : properCross n p2 p0 q0 q1) :
    ((.E1, .E2) : Rgn × Rgn) ∈ coplanarPairs n p0 p1 p2 q0 q1 q2 := by
  simp only [coplanarPairs, List.mem_append, mem_vpairA, mem_vpairB,
    mem_xpair]
  exact Or.inl (Or.inl (Or.inl (Or.inr ⟨h, trivial⟩)))

theorem mem_cop_E2E0 (n p0 p1 p2 q0 q1 q2 : vec3)
    (h : properCross n p0 p1 q1 q2) :
    ((.E2, .E0) : Rgn × Rgn) ∈ coplanarPairs n p0 p1 p2 q0 q1 q2 := by
  simp only [coplanarPairs, List.mem_append, mem_vpairA, mem_vpairB,
    mem_xpair]
  exact Or.inl (Or.inl (Or.inr ⟨h, trivial⟩))

theorem mem_cop_E2E1 (n p0 p1 p2 q0 q1 q2 : vec3)
    (h : properCross n p0 p1 q2 q0) :
    ((.E2, .E1) : Rgn × Rgn) ∈ coplanarPairs n p0 p1 p2 q0 q1 q2 := by
  simp only [coplanarPairs, List.mem_append, mem_vpairA, mem_vpairB,
    mem_xpair]
  exact Or.inl (Or.inr ⟨h, trivial⟩)

theorem mem_cop_E2E2 (n p0 p1 p2 q0 q1 q2 : vec3)
    (h : properCross n p0 p1 q0 q1) :
    ((.E2, .E2) : Rgn × Rgn) ∈ coplanarPairs n p0 p1 p2 q0 q1 q2 := by
  simp only [coplanarPairs, List.mem_append, mem_vpairA, mem_vpairB,
    mem_xpair]
  exact Or.inr ⟨h, trivial⟩


/-- The classifier answers some region whenever the point is weakly
inside and is not on two edge lines at once. -/
theorem classify_isSome_of (n b0 b1 b2 zp : vec3)
    (hD : side n b0 b1 b2 ≠ 0)
    (h0 : 0 ≤ side n b0 b1 b2 * side n b1 b2 zp)
    (h1 : 0 ≤ side n b0 b1 b2 * side n b2 b0 zp)
    (h2 : 0 ≤ side n b0 b1 b2 * side n b0 b1 zp)
    (hv : ¬ ((side n b2 b0 zp = 0 ∧ side n b0 b1 zp = 0) ∨
      (side n b0 b1 zp = 0 ∧ side n b1 b2 zp = 0) ∨
      (side n b1 b2 zp = 0 ∧ side n b2 b0 zp = 0))) :
    (classify n b0 b1 b2 zp).isSome := by
  by_cases hz0 : side n b1 b2 zp = 0
  · by_cases hz1 : side n b2 b0 zp = 0
    · exact absurd (Or.inr (Or.inr ⟨hz0, hz1⟩)) hv
    · by_cases hz2 : side n b0 b1 zp = 0
      · exact absurd (Or.inr (Or.inl ⟨hz2, hz0⟩)) hv
      · rw [classify_E0_of n b0 b1 b2 zp hz0
          (lt_of_le_of_ne h1 (Ne.symm (mul_ne_zero hD hz1)))
          (lt_of_le_of_ne h2 (Ne.symm (mul_ne_zero hD hz2)))]
        rfl
  · by_cases hz1 : side n b2 b0 zp = 0
    · by_cases hz2 : side n b0 b1 zp = 0
      · exact absurd (Or.inl ⟨hz1, hz2⟩) hv
      · rw [classify_E1_of n b0 b1 b2 zp hz1
          (lt_of_le_of_ne h0 (Ne.symm (mul_ne_zero hD hz0)))
          (lt_of_le_of_ne h2 (Ne.symm (mul_ne_zero hD hz2)))]
        rfl
    · by_cases hz2 : side n b0 b1 zp = 0
      · rw [classify_E2_of n b0 b1 b2 zp hz2
          (lt_of_le_of_ne h0 (Ne.symm (mul_ne_zero hD hz0)))
          (lt_of_le_of_ne h1 (Ne.symm (mul_ne_zero hD hz1)))]
        rfl
      · rw [classify_T_of n b0 b1 b2 zp
          (lt_of_le_of_ne h0 (Ne.symm (mul_ne_zero hD hz0)))
          (lt_of_le_of_ne h1 (Ne.symm (mul_ne_zero hD hz1)))
          (lt_of_le_of_ne h2 (Ne.symm (mul_ne_zero hD hz2)))]
        rfl

/-- A point of the plane on two edge lines of the second triangle is one
of its vertices. -/
theorem two_zeros_vertexB (p0 p1 p2 q0 q1 q2 z : vec3)
    (hP : nondegenerate p0 p1 p2) (hQ : nondegenerate q0 q1 q2)
    (hq0 : orient3d p0 p1 p2 q0 = 0) (hq1 : orient3d p0 p1 p2 q1 = 0)
    (hq2 : orient3d p0 p1 p2 q2 = 0)
    (hz : dot (triNormal p0 p1 p2) (vsub z p0) = 0)
    (hvv : (side (triNormal p0 p1 p2) q2 q0 z = 0 ∧
        side (triNormal p0 p1 p2) q0 q1 z = 0) ∨
      (side (triNormal p0 p1 p2) q0 q1 z = 0 ∧
        side (triNormal p0 p1 p2) q1 q2 z = 0) ∨
      (side (triNormal p0 p1 p2) q1 q2 z = 0 ∧
        side (triNormal p0 p1 p2) q2 q0 z = 0)) :
    z = q0 ∨ z = q1 ∨ z = q2 := by
  obtain ⟨lam, hlam, hm⟩ := coplanar_normals p0 p1 p2 q0 q1 q2 hP hQ hq0 hq1 hq2
  have hzq0 : dot (triNormal p0 p1 p2) (vsub z q0) = 0 := by
    rw [dot_vsub_split _ z q0 p0, hz]
    have h0 : dot (triNormal p0 p1 p2) (vsub q0 p0) = 0 := hq0
    rw [h0]
    ring
  have hzq1 : dot (triNormal p0 p1 p2) (vsub z q1) = 0 := by
    rw [dot_vsub_split _ z q1 p0, hz]
    have h1 : dot (triNormal p0 p1 p2) (vsub q1 p0) = 0 := hq1
    rw [h1]
    ring
  have hzq2 : dot (triNormal p0 p1 p2) (vsub z q2) = 0 := by
    rw [dot_vsub_split _ z q2 p0, hz]
    have h2 : dot (triNormal p0 p1 p2) (vsub q2 p0) = 0 := hq2
    rw [h2]
    ring
  rcases hvv with ⟨h1, h2⟩ | ⟨h1, h2⟩ | ⟨h1, h2⟩
  · exact Or.inl (tri_vertex_of_zeros (triNormal p0 p1 p2) q0 q1 q2 z lam
      hQ hm hzq0 h1 h2)
  · refine Or.inr (Or.inl ?_)
    have hmrot : triNormal q1 q2 q0 = smul lam (triNormal p0 p1 p2) := by
      rw [triNormal_cyc]
      exact hm
    exact tri_vertex_of_zeros (triNormal p0 p1 p2) q1 q2 q0 z lam
      (nondegenerate_cyc _ _ _ hQ) hmrot hzq1 h1 h2
  · refine Or.inr (Or.inr ?_)
    have hmrot : triNormal q2 q0 q1 = smul lam (triNormal p0 p1 p2) := by
      rw [triNormal_cyc, triNormal_cyc]
      exact hm
    exact tri_vertex_of_zeros (triNormal p0 p1 p2) q2 q0 q1 z lam
      (nondegenerate_cyc _ _ _ (nondegenerate_cyc _ _ _ hQ)) hmrot hzq2 h1 h2

/-- A point of the plane on two edge lines of the first triangle is one
of its vertices. -/
theorem two_zeros_vertexA (p0 p1 p2 z : vec3)
    (hP : nondegenerate p0 p1 p2)
    (hz : dot (triNormal p0 p1 p2) (vsub z p0) = 0)
    (hvv : (side (triNormal p0 p1 p2) p2 p0 z = 0 ∧
        side (triNormal p0 p1 p2) p0 p1 z = 0) ∨
      (side (triNormal p0 p1 p2) p0 p1 z = 0 ∧
        side (triNormal p0 p1 p2) p1 p2 z = 0) ∨
      (side (triNormal p0 p1 p2) p1 p2 z = 0 ∧
        side (triNormal p0 p1 p2) p2 p0 z = 0)) :
    z = p0 ∨ z = p1 ∨ z = p2 := by
  have hzp1 : dot (triNormal p0 p1 p2) (vsub z p1) = 0 := by
    rw [dot_vsub_split _ z p1 p0, hz, dot_triNormal_e1]
    ring
  have hzp2 : dot (triNormal p0 p1 p2) (vsub z p2) = 0 := by
    rw [dot_vsub_split _ z p2 p0, hz, dot_triNormal_e2]
    ring
  rcases hvv with ⟨h1, h2⟩ | ⟨h1, h2⟩ | ⟨h1, h2⟩
  · exact Or.inl (tri_vertex_of_zeros (triNormal p0 p1 p2) p0 p1 p2 z 1 hP
      (smul_one_self _).symm hz h1 h2)
  · refine Or.inr (Or.inl ?_)
    have hmrot : triNormal p1 p2 p0 = smul 1 (triNormal p0 p1 p2) := by
      rw [triNormal_cyc]
      exact (smul_one_self _).symm
    exact tri_vertex_of_zeros (triNormal p0 p1 p2) p1 p2 p0 z 1
      (nondegenerate_cyc _ _ _ hP) hmrot hzp1 h1 h2
  · refine Or.inr (Or.inr ?_)
    have hmrot : triNormal p2 p0 p1 = smul 1 (triNormal p0 p1 p2) := by
      rw [triNormal_cyc, triNormal_cyc]
      exact (smul_one_self _).symm
    exact tri_vertex_of_zeros (triNormal p0 p1 p2) p2 p0 p1 z 1
      (nondegenerate_cyc _ _ _ (nondegenerate_cyc _ _ _ hP)) hmrot hzp2 h1 h2

/-- Vertex P0 of the first triangle, when in the overlap, is realized by
an emitted pair. -/
theorem emit_P0 (p0 p1 p2 q0 q1 q2 : vec3)
    (hP : nondegenerate p0 p1 p2) (hQ : nondegenerate q0 q1 q2)
    (hq0 : orient3d p0 p1 p2 q0 = 0) (hq1 : orient3d p0 p1 p2 q1 = 0)
    (hq2 : orient3d p0 p1 p2 q2 = 0)
    (hsv : ¬ sharesVertex p0 p1 p2 q0 q1 q2)
    (hmem : p0 ∈ overlapSet p0 p1 p2 q0 q1 q2) :
    ∃ pr ∈ coplanarPairs (triNormal p0 p1 p2) p0 p1 p2 q0 q1 q2,
      realizeIsect p0 p1 p2 q0 q1 q2 (embedPair pr) = p0 := by
  have hDB : side (triNormal p0 p1 p2) q0 q1 q2 ≠ 0 :=
    coplanar_delta_ne p0 p1 p2 q0 q1 q2 hP hQ hq0 hq1 hq2
  have hsB := S_signs_B p0 p1 p2 q0 q1 q2 p0 hP hQ hq0 hq1 hq2 hmem
  have hplz : dot (triNormal p0 p1 p2) (vsub p0 p0) = 0 := dot_vsub_self _ _
  have hs := classify_isSome_of (triNormal p0 p1 p2) q0 q1 q2 p0 hDB
    hsB.1 hsB.2.1 hsB.2.2 (by
      intro hvv
      rcases two_zeros_vertexB p0 p1 p2 q0 q1 q2 p0 hP hQ hq0 hq1 hq2
        hplz hvv with h | h | h
      · exact hsv (Or.inl (Or.inl h))
      · exact hsv (Or.inl (Or.inr (Or.inl h)))
      · exact hsv (Or.inl (Or.inr (Or.inr h))))
  obtain ⟨r, hr⟩ := Option.isSome_iff_exists.1 hs
  exact ⟨((.P0, r)), mem_cop_P0 _ _ _ _ _ _ _ r hr,
    realize_emb_P0 _ _ _ _ _ _ r⟩

/-- Vertex P1 of the first triangle, when in the overlap, is realized by
an emitted pair. -/
theorem emit_P1 (p0 p1 p2 q0 q1 q2 : vec3)
    (hP : nondegenerate p0 p1 p2) (hQ : nondegenerate q0 q1 q2)
    (hq0 : orient3d p0 p1 p2 q0 = 0) (hq1 : orient3d p0 p1 p2 q1 = 0)
    (hq2 : orient3d p0 p1 p2 q2 = 0)
    (hsv : ¬ sharesVertex p0 p1 p2 q0 q1 q2)
    (hmem : p1 ∈ overlapSet p0 p1 p2 q0 q1 q2) :
    ∃ pr ∈ coplanarPairs (triNormal p0 p1 p2) p0 p1 p2 q0 q1 q2,
      realizeIsect p0 p1 p2 q0 q1 q2 (embedPair pr) = p1 := by
  have hDB : side (triNormal p0 p1 p2) q0 q1 q2 ≠ 0 :=
    coplanar_delta_ne p0 p1 p2 q0 q1 q2 hP hQ hq0 hq1 hq2
  have hsB := S_signs_B p0 p1 p2 q0 q1 q2 p1 hP hQ hq0 hq1 hq2 hmem
  have hplz : dot (triNormal p0 p1 p2) (vsub p1 p0) = 0 := dot_triNormal_e1 _ _ _
  have hs := classify_isSome_of (triNormal p0 p1 p2) q0 q1 q2 p1 hDB
    hsB.1 hsB.2.1 hsB.2.2 (by
      intro hvv
      rcases two_zeros_vertexB p0 p1 p2 q0 q1 q2 p1 hP hQ hq0 hq1 hq2
        hplz hvv with h | h | h
      · exact hsv (Or.inr (Or.inl (Or.inl h)))
      · exact hsv (Or.inr (Or.inl (Or.inr (Or.inl h))))
      · exact hsv (Or.inr (Or.inl (Or.inr (Or.inr h)))))
  obtain ⟨r, hr⟩ := Option.isSome_iff_exists.1 hs
  exact ⟨((.P1, r)), mem_cop_P1 _ _ _ _ _ _ _ r hr,
    realize_emb_P1 _ _ _ _ _ _ r⟩

/-- Vertex P2 of the first triangle, when in the overlap, is realized by
an emitted pair. -/
theorem emit_P2 (p0 p1 p2 q0 q1 q2 : vec3)
    (hP : nondegenerate p0 p1 p2) (hQ : nondegenerate q0 q1 q2)
    (hq0 : orient3d p0 p1 p2 q0 = 0) (hq1 : orient3d p0 p1 p2 q1 = 0)
    (hq2 : orient3d p0 p1 p2 q2 = 0)
    (hsv : ¬ sharesVertex p0 p1 p2 q0 q1 q2)
    (hmem : p2 ∈ overlapSet p0 p1 p2 q0 q1 q2) :
    ∃ pr ∈ coplanarPairs (triNormal p0 p1 p2) p0 p1 p2 q0 q1 q2,
      realizeIsect p0 p1 p2 q0 q1 q2 (embedPair pr) = p2 := by
  have hDB : side (triNormal p0 p1 p2) q0 q1 q2 ≠ 0 :=
    coplanar_delta_ne p0 p1 p2 q0 q1 q2 hP hQ hq0 hq1 hq2
  have hsB := S_signs_B p0 p1 p2 q0 q1 q2 p2 hP hQ hq0 hq1 hq2 hmem
  have hplz : dot (triNormal p0 p1 p2) (vsub p2 p0) = 0 := dot_triNormal_e2 _ _ _
  have hs := classify_isSome_of (triNormal p0 p1 p2) q0 q1 q2 p2 hDB
    hsB.1 hsB.2.1 hsB.2.2 (by
      intro hvv
      rcases two_zeros_vertexB p0 p1 p2 q0 q1 q2 p2 hP hQ hq0 hq1 hq2
        hplz hvv with h | h | h
      · exact hsv (Or.inr (Or.inr (Or.inl h)))
      · exact hsv (Or.inr (Or.inr (Or.inr (Or.inl h))))
      · exact hsv (Or.inr (Or.inr (Or.inr (Or.inr h)))))
  obtain ⟨r, hr⟩ := Option.isSome_iff_exists.1 hs
  exact ⟨((.P2, r)), mem_cop_P2 _ _ _ _ _ _ _ r hr,
    realize_emb_P2 _ _ _ _ _ _ r⟩

/-- Vertex Q0 of the second triangle, when in the overlap, is realized
by an emitted pair. -/
theorem emit_Q0 (p0 p1 p2 q0 q1 q2 : vec3)
    (hP : nondegenerate p0 p1 p2) (hQ : nondegenerate q0 q1 q2)
    (hq0 : orient3d p0 p1 p2 q0 = 0) (hq1 : orient3d p0 p1 p2 q1 = 0)
    (hq2 : orient3d p0 p1 p2 q2 = 0)
    (hsv : ¬ sharesVertex p0 p1 p2 q0 q1 q2)
    (hmem : q0 ∈ overlapSet p0 p1 p2 q0 q1 q2) :
    ∃ pr ∈ coplanarPairs (triNormal p0 p1 p2) p0 p1 p2 q0 q1 q2,
      realizeIsect p0 p1 p2 q0 q1 q2 (embedPair pr) = q0 := by
  have hDA : side (triNormal p0 p1 p2) p0 p1 p2 ≠ 0 :=
    ne_of_gt (dot_self_pos _ hP)
  have hsA := S_signs_A p0 p1 p2 q0 q1 q2 q0 hP hmem
  have hplz : dot (triNormal p0 p1 p2) (vsub q0 p0) = 0 := hq0
  have hs := classify_isSome_of (triNormal p0 p1 p2) p0 p1 p2 q0 hDA
    hsA.1 hsA.2.1 hsA.2.2 (by
      intro hvv
      rcases two_zeros_vertexA p0 p1 p2 q0 hP hplz hvv with h | h | h
      · exact hsv (Or.inl ((Or.inl) h.symm))
      · exact hsv (Or.inr (Or.inl ((Or.inl) h.symm)))
      · exact hsv (Or.inr (Or.inr ((Or.inl) h.symm))))
  obtain ⟨r, hr⟩ := Option.isSome_iff_exists.1 hs
  have hcases := classify_some_cases _ _ _ _ _ _ hr
  exact ⟨((r, .P0)), mem_cop_Q0 _ _ _ _ _ _ _ r hr,
    realize_emb_Q0 _ _ _ _ _ _ r hcases⟩

/-- Vertex Q1 of the second triangle, when in the overlap, is realized
by an emitted pair. -/
theorem emit_Q1 (p0 p1 p2 q0 q1 q2 : vec3)
    (hP : nondegenerate p0 p1 p2) (hQ : nondegenerate q0 q1 q2)
    (hq0 : orient3d p0 p1 p2 q0 = 0) (hq1 : orient3d p0 p1 p2 q1 = 0)
    (hq2 : orient3d p0 p1 p2 q2 = 0)
    (hsv : ¬ sharesVertex p0 p1 p2 q0 q1 q2)
    (hmem : q1 ∈ overlapSet p0 p1 p2 q0 q1 q2) :
    ∃ pr ∈ coplanarPairs (triNormal p0 p1 p2) p0 p1 p2 q0 q1 q2,
      realizeIsect p0 p1 p2 q0 q1 q2 (embedPair pr) = q1 := by
  have hDA : side (triNormal p0 p1 p2) p0 p1 p2 ≠ 0 :=
    ne_of_gt (dot_self_pos _ hP)
  have hsA := S_signs_A p0 p1 p2 q0 q1 q2 q1 hP hmem
  have hplz : dot (triNormal p0 p1 p2) (vsub q1 p0) = 0 := hq1
  have hs := classify_isSome_of (triNormal p0 p1 p2) p0 p1 p2 q1 hDA
    hsA.1 hsA.2.1 hsA.2.2 (by
      intro hvv
      rcases two_zeros_vertexA p0 p1 p2 q1 hP hplz hvv with h | h | h
      · exact hsv (Or.inl ((fun hh => Or.inr (Or.inl hh)) h.symm))
      · exact hsv (Or.inr (Or.inl ((fun hh => Or.inr (Or.inl hh)) h.symm)))
      · exact hsv (Or.inr (Or.inr ((fun hh => Or.inr (Or.inl hh)) h.symm))))
  obtain ⟨r, hr⟩ := Option.isSome_iff_exists.1 hs
  have hcases := classify_some_cases _ _ _ _ _ _ hr
  exact ⟨((r, .P1)), mem_cop_Q1 _ _ _ _ _ _ _ r hr,
    realize_emb_Q1 _ _ _ _ _ _ r hcases⟩

/-- Vertex Q2 of the second triangle, when in the overlap, is realized
by an emitted pair. -/
theorem emit_Q2 (p0 p1 p2 q0 q1 q2 : vec3)
    (hP : nondegenerate p0 p1 p2) (hQ : nondegenerate q0 q1 q2)
    (hq0 : orient3d p0 p1 p2 q0 = 0) (hq1 : orient3d p0 p1 p2 q1 = 0)
    (hq2 : orient3d p0 p1 p2 q2 = 0)
    (hsv : ¬ sharesVertex p0 p1 p2 q0 q1 q2)
    (hmem : q2 ∈ overlapSet p0 p1 p2 q0 q1 q2) :
    ∃ pr ∈ coplanarPairs (triNormal p0 p1 p2) p0 p1 p2 q0 q1 q2,
      realizeIsect p0 p1 p2 q0 q1 q2 (embedPair pr) = q2 := by
  have hDA : side (triNormal p0 p1 p2) p0 p1 p2 ≠ 0 :=
    ne_of_gt (dot_self_pos _ hP)
  have hsA := S_signs_A p0 p1 p2 q0 q1 q2 q2 hP hmem
  have hplz : dot (triNormal p0 p1 p2) (vsub q2 p0) = 0 := hq2
  have hs := classify_isSome_of (triNormal p0 p1 p2) p0 p1 p2 q2 hDA
    hsA.1 hsA.2.1 hsA.2.2 (by
      intro hvv
      rcases two_zeros_vertexA p0 p1 p2 q2 hP hplz hvv with h | h | h
      · exact hsv (Or.inl ((fun hh => Or.inr (Or.inr hh)) h.symm))
      · exact hsv (Or.inr (Or.inl ((fun hh => Or.inr (Or.inr hh)) h.symm)))
      · exact hsv (Or.inr (Or.inr ((fun hh => Or.inr (Or.inr hh)) h.symm))))
  obtain ⟨r, hr⟩ := Option.isSome_iff_exists.1 hs
  have hcases := classify_some_cases _ _ _ _ _ _ hr
  exact ⟨((r, .P2)), mem_cop_Q2 _ _ _ _ _ _ _ r hr,
    realize_emb_Q2 _ _ _ _ _ _ r hcases⟩

theorem ne_of_vsub_ne_vzero (a b : vec3) (h : vsub b a ≠ vzero) : b ≠ a := by
  intro e
  apply h
  subst e
  simp only [vsub, vzero, vec3_eq_iff]
  refine ⟨?_, ?_, ?_⟩ <;> ring

theorem cross_dot_anticomm (a b n : vec3) :
    dot (cross a b) n = - dot (cross b a) n := by
  simp only [cross, dot]
  ring

/-- A vanishing proper convex combination of two distinct values forces
a strict straddle. -/
theorem straddle_of_combo (A B s : ℚ) (h : (1 - s) * A + s * B = 0)
    (hs0 : 0 < s) (hs1 : s < 1) (hne : A ≠ B) : A * B < 0 := by
  by_cases hB : B = 0
  · exfalso
    apply hne
    rw [hB] at h ⊢
    have h' : (1 - s) * A = 0 := by linarith
    rcases mul_eq_zero.1 h' with h'' | h''
    · linarith
    · exact h''
  · have h1 : (1 - s) * A = -(s * B) := by linarith
    have h2 : (1 - s) * (A * B) = -(s * (B * B)) := by
      linear_combination B * h1
    have hB2 : 0 < B * B := by
      rcases lt_or_gt_of_ne hB with h' | h'
      · nlinarith
      · nlinarith
    nlinarith

/-- At an overlap point lying on exactly one edge line of each triangle,
with the two supporting lines not parallel, the two edges cross properly
and the point is the computed crossing point. -/
theorem cross_case_emit (n o a0 a1 a2 b0 b1 b2 z : vec3)
    (hn : dot n n ≠ 0)
    (hndA : nondegenerate a0 a1 a2) (hndB : nondegenerate b0 b1 b2)
    (hpa1 : dot n (vsub a1 o) = 0) (hpa2 : dot n (vsub a2 o) = 0)
    (hpb1 : dot n (vsub b1 o) = 0) (hpb2 : dot n (vsub b2 o) = 0)
    (hpz : dot n (vsub z o) = 0)
    (hza : side n a1 a2 z = 0) (hzb : side n b1 b2 z = 0)
    (hA1 : 0 < side n a0 a1 a2 * side n a2 a0 z)
    (hA2 : 0 < side n a0 a1 a2 * side n a0 a1 z)
    (hB1 : 0 < side n b0 b1 b2 * side n b2 b0 z)
    (hB2 : 0 < side n b0 b1 b2 * side n b0 b1 z)
    (hc : dot (cross (vsub b2 b1) (vsub a2 a1)) n ≠ 0) :
    properCross n a1 a2 b1 b2 ∧ z = lineCross n a1 a2 b1 b2 := by
  have ha21 : a2 ≠ a1 :=
    ne_of_vsub_ne_vzero a1 a2 (edge_ne_vzero_12 a0 a1 a2 hndA)
  have hb21 : b2 ≠ b1 :=
    ne_of_vsub_ne_vzero b1 b2 (edge_ne_vzero_12 b0 b1 b2 hndB)
  obtain ⟨t, ht⟩ := on_line_of_side_zero n o a1 a2 z hn hpa1 hpa2 hpz ha21 hza
  obtain ⟨s, hs⟩ := on_line_of_side_zero n o b1 b2 z hn hpb1 hpb2 hpz hb21 hzb
  have hDA : side n a0 a1 a2 ≠ 0 := mul_pos_left_ne _ _ hA1
  have hDB : side n b0 b1 b2 ≠ 0 := mul_pos_left_ne _ _ hB1
  have hcycA : side n a2 a0 a1 = side n a0 a1 a2 := side_cyc n a2 a0 a1
  have hcycB : side n b2 b0 b1 = side n b0 b1 b2 := side_cyc n b2 b0 b1
  have ht1 : t < 1 := by
    rw [ht, side_affine, hcycA, side_self_left] at hA1
    have hr : side n a0 a1 a2 *
        ((1 - t) * side n a0 a1 a2 + t * 0) =
        (1 - t) * (side n a0 a1 a2 * side n a0 a1 a2) := by ring
    rw [hr] at hA1
    nlinarith [mul_self_nonneg (side n a0 a1 a2)]
  have ht0 : 0 < t := by
    rw [ht, side_affine, side_self_right] at hA2
    have hr : side n a0 a1 a2 *
        ((1 - t) * 0 + t * side n a0 a1 a2) =
        t * (side n a0 a1 a2 * side n a0 a1 a2) := by ring
    rw [hr] at hA2
    nlinarith [mul_self_nonneg (side n a0 a1 a2)]
  have hs1 : s < 1 := by
    rw [hs, side_affine, hcycB, side_self_left] at hB1
    have hr : side n b0 b1 b2 *
        ((1 - s) * side n b0 b1 b2 + s * 0) =
        (1 - s) * (side n b0 b1 b2 * side n b0 b1 b2) := by ring
    rw [hr] at hB1
    nlinarith [mul_self_nonneg (side n b0 b1 b2)]
  have hs0 : 0 < s := by
    rw [hs, side_affine, side_self_right] at hB2
    have hr : side n b0 b1 b2 *
        ((1 - s) * 0 + s * side n b0 b1 b2) =
        s * (side n b0 b1 b2 * side n b0 b1 b2) := by ring
    rw [hr] at hB2
    nlinarith [mul_self_nonneg (side n b0 b1 b2)]
  have hGne : side n a1 a2 b1 ≠ side n a1 a2 b2 := by
    intro hcon
    apply hc
    have hd := slope_diff n a1 a2 b1 b2
    rw [← hcon] at hd
    rw [cross_dot_anticomm]
    simp only [sub_self] at hd
    rw [← hd]
    ring
  have hHne : side n b1 b2 a1 ≠ side n b1 b2 a2 := by
    intro hcon
    apply hc
    have hd := slope_diff n b1 b2 a1 a2
    rw [← hcon] at hd
    simp only [sub_self] at hd
    rw [← hd]
  have hgc : (1 - s) * side n a1 a2 b1 + s * side n a1 a2 b2 = 0 := by
    rw [← side_affine, ← hs]
    exact hza
  have hhc : (1 - t) * side n b1 b2 a1 + t * side n b1 b2 a2 = 0 := by
    rw [← side_affine, ← ht]
    exact hzb
  have hstrG : side n a1 a2 b1 * side n a1 a2 b2 < 0 :=
    straddle_of_combo _ _ s hgc hs0 hs1 hGne
  have hstrH : side n b1 b2 a1 * side n b1 b2 a2 < 0 :=
    straddle_of_combo _ _ t hhc ht0 ht1 hHne
  refine ⟨⟨hstrG, hstrH⟩, ?_⟩
  have hsub : side n b1 b2 a1 - side n b1 b2 a2 ≠ 0 :=
    fun hcon => hHne (by linarith)
  have hzA : lineCross n a1 a2 b1 b2 = pOn a1 a2
      (side n b1 b2 a1 / (side n b1 b2 a1 - side n b1 b2 a2)) :=
    crossPt_as_pOn _ _ _ _
  have hv1 : side n a1 a2 (lineCross n a1 a2 b1 b2) = 0 := by
    rw [hzA]
    exact side_on_own_line n a1 a2 _
  have hv2 : side n b1 b2 (lineCross n a1 a2 b1 b2) = 0 :=
    side_at_crossPt n b1 b2 a1 a2 hsub
  have hvpl : dot n (vsub (lineCross n a1 a2 b1 b2) o) = 0 := by
    rw [hzA]
    exact inplane_pOn n o a1 a2 _ hpa1 hpa2
  exact line_line_unique n o a1 a2 b1 b2 z _ hn hpa1 hpa2 hpz hvpl
    ha21 hHne hza hv1 hzb hv2

theorem dot_smul_right (n u : vec3) (t : ℚ) :
    dot n (smul t u) = t * dot n u := by
  simp only [dot, smul]
  ring

theorem smul_smul_vec (a b : ℚ) (u : vec3) :
    smul a (smul b u) = smul (a * b) u := by
  simp only [smul, vec3_eq_iff]
  refine ⟨?_, ?_, ?_⟩ <;> ring

theorem slope_smul_dir (e u : vec3) (n : vec3) (t : ℚ) :
    dot (cross e (smul t u)) n = t * dot (cross e u) n := by
  simp only [cross, smul, dot]
  ring

theorem smul_ne_vzero (t : ℚ) (u : vec3) (ht : t ≠ 0) (hu : u ≠ vzero) :
    smul t u ≠ vzero := by
  intro hc
  apply hu
  have hx := congrArg vec3.x hc
  have hy := congrArg vec3.y hc
  have hz := congrArg vec3.z hc
  simp only [smul, vzero] at hx hy hz
  rw [vec3_eq_iff]
  simp only [vzero]
  refine ⟨?_, ?_, ?_⟩
  · rcases mul_eq_zero.1 hx with h | h
    · exact absurd h ht
    · exact h
  · rcases mul_eq_zero.1 hy with h | h
    · exact absurd h ht
    · exact h
  · rcases mul_eq_zero.1 hz with h | h
    · exact absurd h ht
    · exact h

theorem inplane_translate (n z p0 u : vec3) (m : ℚ) :
    dot n (vsub (vadd z (smul m u)) p0) =
      dot n (vsub z p0) + m * dot n u := by
  simp only [dot, vsub, vadd, smul]
  ring

theorem smul_cancel_vadd (z u : vec3) (c : ℚ) (hu : u ≠ vzero)
    (h : vadd z (smul c u) = z) : c = 0 := by
  by_contra hc
  apply hu
  have hx := congrArg vec3.x h
  have hy := congrArg vec3.y h
  have hz := congrArg vec3.z h
  simp only [vadd, smul] at hx hy hz
  rw [vec3_eq_iff]
  simp only [vzero]
  refine ⟨?_, ?_, ?_⟩
  · rcases mul_eq_zero.1 (by linarith : c * u.x = 0) with h' | h'
    · exact absurd h' hc
    · exact h'
  · rcases mul_eq_zero.1 (by linarith : c * u.y = 0) with h' | h'
    · exact absurd h' hc
    · exact h'
  · rcases mul_eq_zero.1 (by linarith : c * u.z = 0) with h' | h'
    · exact absurd h' hc
    · exact h'

/-- Exit of the overlap region along a direction keeping every vanishing
functional constant: a positive step stays in the region. -/
theorem S_flat_exit (p0 p1 p2 q0 q1 q2 z u : vec3)
    (hP : nondegenerate p0 p1 p2) (hQ : nondegenerate q0 q1 q2)
    (hq0 : orient3d p0 p1 p2 q0 = 0) (hq1 : orient3d p0 p1 p2 q1 = 0)
    (hq2 : orient3d p0 p1 p2 q2 = 0)
    (hz : z ∈ overlapSet p0 p1 p2 q0 q1 q2)
    (hupl : dot (triNormal p0 p1 p2) u = 0) (huz : u ≠ vzero)
    (hf0 : side (triNormal p0 p1 p2) p1 p2 z = 0 →
      dot (cross (vsub p2 p1) u) (triNormal p0 p1 p2) = 0)
    (hf1 : side (triNormal p0 p1 p2) p2 p0 z = 0 →
      dot (cross (vsub p0 p2) u) (triNormal p0 p1 p2) = 0)
    (hf2 : side (triNormal p0 p1 p2) p0 p1 z = 0 →
      dot (cross (vsub p1 p0) u) (triNormal p0 p1 p2) = 0)
    (hg0 : side (triNormal p0 p1 p2) q1 q2 z = 0 →
      dot (cross (vsub q2 q1) u) (triNormal p0 p1 p2) = 0)
    (hg1 : side (triNormal p0 p1 p2) q2 q0 z = 0 →
      dot (cross (vsub q0 q2) u) (triNormal p0 p1 p2) = 0)
    (hg2 : side (triNormal p0 p1 p2) q0 q1 z = 0 →
      dot (cross (vsub q1 q0) u) (triNormal p0 p1 p2) = 0) :
    ∃ m : ℚ, 0 < m ∧
      vadd z (smul m u) ∈ overlapSet p0 p1 p2 q0 q1 q2 := by
  obtain ⟨lam, hlam, hmB⟩ :=
    coplanar_normals p0 p1 p2 q0 q1 q2 hP hQ hq0 hq1 hq2
  have hDApos : (0 : ℚ) < side (triNormal p0 p1 p2) p0 p1 p2 :=
    dot_self_pos _ hP
  have hDA : side (triNormal p0 p1 p2) p0 p1 p2 ≠ 0 := ne_of_gt hDApos
  have hDB : side (triNormal p0 p1 p2) q0 q1 q2 ≠ 0 :=
    coplanar_delta_ne p0 p1 p2 q0 q1 q2 hP hQ hq0 hq1 hq2
  have hsA := S_signs_A p0 p1 p2 q0 q1 q2 z hP hz
  have hsB := S_signs_B p0 p1 p2 q0 q1 q2 z hP hQ hq0 hq1 hq2 hz
  have hzpl : dot (triNormal p0 p1 p2) (vsub z p0) = 0 :=
    overlapSet_inplane p0 p1 p2 q0 q1 q2 z hz
  obtain ⟨m, hm0, hall, -⟩ := list_exit
    [(side (triNormal p0 p1 p2) p0 p1 p2 * side (triNormal p0 p1 p2) p1 p2 z,
      side (triNormal p0 p1 p2) p0 p1 p2 *
        dot (cross (vsub p2 p1) u) (triNormal p0 p1 p2)),
     (side (triNormal p0 p1 p2) p0 p1 p2 * side (triNormal p0 p1 p2) p2 p0 z,
      side (triNormal p0 p1 p2) p0 p1 p2 *
        dot (cross (vsub p0 p2) u) (triNormal p0 p1 p2)),
     (side (triNormal p0 p1 p2) p0 p1 p2 * side (triNormal p0 p1 p2) p0 p1 z,
      side (triNormal p0 p1 p2) p0 p1 p2 *
        dot (cross (vsub p1 p0) u) (triNormal p0 p1 p2)),
     (side (triNormal p0 p1 p2) q0 q1 q2 * side (triNormal p0 p1 p2) q1 q2 z,
      side (triNormal p0 p1 p2) q0 q1 q2 *
        dot (cross (vsub q2 q1) u) (triNormal p0 p1 p2)),
     (side (triNormal p0 p1 p2) q0 q1 q2 * side (triNormal p0 p1 p2) q2 q0 z,
      side (triNormal p0 p1 p2) q0 q1 q2 *
        dot (cross (vsub q0 q2) u) (triNormal p0 p1 p2)),
     (side (triNormal p0 p1 p2) q0 q1 q2 * side (triNormal p0 p1 p2) q0 q1 z,
      side (triNormal p0 p1 p2) q0 q1 q2 *
        dot (cross (vsub q1 q0) u) (triNormal p0 p1 p2))]
    (by
      intro p hp
      simp only [List.mem_cons, List.not_mem_nil, or_false] at hp
      rcases hp with h | h | h | h | h | h <;> subst h
      · exact hsA.1
      · exact hsA.2.1
      · exact hsA.2.2
      · exact hsB.1
      · exact hsB.2.1
      · exact hsB.2.2)
    (by
      intro p hp
      simp only [List.mem_cons, List.not_mem_nil, or_false] at hp
      rcases hp with h | h | h | h | h | h <;> subst h <;> intro hv
      · rcases mul_eq_zero.1 hv with h' | h'
        · exact absurd h' hDA
        · rw [hf0 h']
          ring
      · rcases mul_eq_zero.1 hv with h' | h'
        · exact absurd h' hDA
        · rw [hf1 h']
          ring
      · rcases mul_eq_zero.1 hv with h' | h'
        · exact absurd h' hDA
        · rw [hf2 h']
          ring
      · rcases mul_eq_zero.1 hv with h' | h'
        · exact absurd h' hDB
        · rw [hg0 h']
          ring
      · rcases mul_eq_zero.1 hv with h' | h'
        · exact absurd h' hDB
        · rw [hg1 h']
          ring
      · rcases mul_eq_zero.1 hv with h' | h'
        · exact absurd h' hDB
        · rw [hg2 h']
          ring)
    (by
      rcases exists_neg_slope p0 p1 p2 u hP huz hupl with h | h | h
      · refine ⟨(side (triNormal p0 p1 p2) p0 p1 p2 *
            side (triNormal p0 p1 p2) p1 p2 z,
          side (triNormal p0 p1 p2) p0 p1 p2 *
            dot (cross (vsub p2 p1) u) (triNormal p0 p1 p2)), by simp, ?_⟩
        show side (triNormal p0 p1 p2) p0 p1 p2 *
          dot (cross (vsub p2 p1) u) (triNormal p0 p1 p2) < 0
        exact mul_neg_of_pos_of_neg hDApos h
      · refine ⟨(side (triNormal p0 p1 p2) p0 p1 p2 *
            side (triNormal p0 p1 p2) p2 p0 z,
          side (triNormal p0 p1 p2) p0 p1 p2 *
            dot (cross (vsub p0 p2) u) (triNormal p0 p1 p2)), by simp, ?_⟩
        show side (triNormal p0 p1 p2) p0 p1 p2 *
          dot (cross (vsub p0 p2) u) (triNormal p0 p1 p2) < 0
        exact mul_neg_of_pos_of_neg hDApos h
      · refine ⟨(side (triNormal p0 p1 p2) p0 p1 p2 *
            side (triNormal p0 p1 p2) p0 p1 z,
          side (triNormal p0 p1 p2) p0 p1 p2 *
            dot (cross (vsub p1 p0) u) (triNormal p0 p1 p2)), by simp, ?_⟩
        show side (triNormal p0 p1 p2) p0 p1 p2 *
          dot (cross (vsub p1 p0) u) (triNormal p0 p1 p2) < 0
        exact mul_neg_of_pos_of_neg hDApos h)
  refine ⟨m, hm0, ?_, ?_⟩
  · have hpl2 : dot (triNormal p0 p1 p2)
        (vsub (vadd z (smul m u)) p0) = 0 := by
      rw [inplane_translate, hzpl, hupl]
      ring
    refine (mem_tri_signs (triNormal p0 p1 p2) p0 p1 p2
      (vadd z (smul m u)) 1 hP hP (smul_one_self _).symm one_ne_zero
      hpl2).2 ⟨?_, ?_, ?_⟩
    · have h1 := hall _ (by simp :
        (side (triNormal p0 p1 p2) p0 p1 p2 *
          side (triNormal p0 p1 p2) p1 p2 z,
        side (triNormal p0 p1 p2) p0 p1 p2 *
          dot (cross (vsub p2 p1) u) (triNormal p0 p1 p2)) ∈ _)
      have h2 : 0 ≤ side (triNormal p0 p1 p2) p0 p1 p2 *
          side (triNormal p0 p1 p2) p1 p2 z +
          m * (side (triNormal p0 p1 p2) p0 p1 p2 *
            dot (cross (vsub p2 p1) u) (triNormal p0 p1 p2)) := h1
      rw [side_translate]
      nlinarith
    · have h1 := hall _ (by simp :
        (side (triNormal p0 p1 p2) p0 p1 p2 *
          side (triNormal p0 p1 p2) p2 p0 z,
        side (triNormal p0 p1 p2) p0 p1 p2 *
          dot (cross (vsub p0 p2) u) (triNormal p0 p1 p2)) ∈ _)
      have h2 : 0 ≤ side (triNormal p0 p1 p2) p0 p1 p2 *
          side (triNormal p0 p1 p2) p2 p0 z +
          m * (side (triNormal p0 p1 p2) p0 p1 p2 *
            dot (cross (vsub p0 p2) u) (triNormal p0 p1 p2)) := h1
      rw [side_translate]
      nlinarith
    · have h1 := hall _ (by simp :
        (side (triNormal p0 p1 p2) p0 p1 p2 *
          side (triNormal p0 p1 p2) p0 p1 z,
        side (triNormal p0 p1 p2) p0 p1 p2 *
          dot (cross (vsub p1 p0) u) (triNormal p0 p1 p2)) ∈ _)
      have h2 : 0 ≤ side (triNormal p0 p1 p2) p0 p1 p2 *
          side (triNormal p0 p1 p2) p0 p1 z +
          m * (side (triNormal p0 p1 p2) p0 p1 p2 *
            dot (cross (vsub p1 p0) u) (triNormal p0 p1 p2)) := h1
      rw [side_translate]
      nlinarith
  · have hzq : dot (triNormal p0 p1 p2) (vsub z q0) = 0 := by
      rw [dot_vsub_split _ z q0 p0, hzpl]
      have h0 : dot (triNormal p0 p1 p2) (vsub q0 p0) = 0 := hq0
      rw [h0]
      ring
    have hpl2 : dot (triNormal p0 p1 p2)
        (vsub (vadd z (smul m u)) q0) = 0 := by
      rw [dot_vsub_split _ _ q0 p0, inplane_translate, hzpl, hupl]
      have h0 : dot (triNormal p0 p1 p2) (vsub q0 p0) = 0 := hq0
      rw [h0]
      ring
    refine (mem_tri_signs (triNormal p0 p1 p2) q0 q1 q2
      (vadd z (smul m u)) lam hQ hP hmB hlam hpl2).2 ⟨?_, ?_, ?_⟩
    · have h1 := hall _ (by simp :
        (side (triNormal p0 p1 p2) q0 q1 q2 *
          side (triNormal p0 p1 p2) q1 q2 z,
        side (triNormal p0 p1 p2) q0 q1 q2 *
          dot (cross (vsub q2 q1) u) (triNormal p0 p1 p2)) ∈ _)
      have h2 : 0 ≤ side (triNormal p0 p1 p2) q0 q1 q2 *
          side (triNormal p0 p1 p2) q1 q2 z +
          m * (side (triNormal p0 p1 p2) q0 q1 q2 *
            dot (cross (vsub q2 q1) u) (triNormal p0 p1 p2)) := h1
      rw [side_translate]
      nlinarith
    · have h1 := hall _ (by simp :
        (side (triNormal p0 p1 p2) q0 q1 q2 *
          side (triNormal p0 p1 p2) q2 q0 z,
        side (triNormal p0 p1 p2) q0 q1 q2 *
          dot (cross (vsub q0 q2) u) (triNormal p0 p1 p2)) ∈ _)
      have h2 : 0 ≤ side (triNormal p0 p1 p2) q0 q1 q2 *
          side (triNormal p0 p1 p2) q2 q0 z +
          m * (side (triNormal p0 p1 p2) q0 q1 q2 *
            dot (cross (vsub q0 q2) u) (triNormal p0 p1 p2)) := h1
      rw [side_translate]
      nlinarith
    · have h1 := hall _ (by simp :
        (side (triNormal p0 p1 p2) q0 q1 q2 *
          side (triNormal p0 p1 p2) q0 q1 z,
        side (triNormal p0 p1 p2) q0 q1 q2 *
          dot (cross (vsub q1 q0) u) (triNormal p0 p1 p2)) ∈ _)
      have h2 : 0 ≤ side (triNormal p0 p1 p2) q0 q1 q2 *
          side (triNormal p0 p1 p2) q0 q1 z +
          m * (side (triNormal p0 p1 p2) q0 q1 q2 *
            dot (cross (vsub q1 q0) u) (triNormal p0 p1 p2)) := h1
      rw [side_translate]
      nlinarith

/-- A member of the overlap with a nonzero in-plane direction along
which every vanishing functional is constant lies in the open segment
between two members: it is not extreme. -/
theorem not_extreme_of_flat (p0 p1 p2 q0 q1 q2 z u : vec3)
    (hP : nondegenerate p0 p1 p2) (hQ : nondegenerate q0 q1 q2)
    (hq0 : orient3d p0 p1 p2 q0 = 0) (hq1 : orient3d p0 p1 p2 q1 = 0)
    (hq2 : orient3d p0 p1 p2 q2 = 0)
    (hz : z ∈ overlapSet p0 p1 p2 q0 q1 q2)
    (hupl : dot (triNormal p0 p1 p2) u = 0) (huz : u ≠ vzero)
    (hf0 : side (triNormal p0 p1 p2) p1 p2 z = 0 →
      dot (cross (vsub p2 p1) u) (triNormal p0 p1 p2) = 0)
    (hf1 : side (triNormal p0 p1 p2) p2 p0 z = 0 →
      dot (cross (vsub p0 p2) u) (triNormal p0 p1 p2) = 0)
    (hf2 : side (triNormal p0 p1 p2) p0 p1 z = 0 →
      dot (cross (vsub p1 p0) u) (triNormal p0 p1 p2) = 0)
    (hg0 : side (triNormal p0 p1 p2) q1 q2 z = 0 →
      dot (cross (vsub q2 q1) u) (triNormal p0 p1 p2) = 0)
    (hg1 : side (triNormal p0 p1 p2) q2 q0 z = 0 →
      dot (cross (vsub q0 q2) u) (triNormal p0 p1 p2) = 0)
    (hg2 : side (triNormal p0 p1 p2) q0 q1 z = 0 →
      dot (cross (vsub q1 q0) u) (triNormal p0 p1 p2) = 0) :
    ¬ isExtremePt (overlapSet p0 p1 p2 q0 q1 q2) z := by
  intro hext
  obtain ⟨m1, hm1, hin1⟩ := S_flat_exit p0 p1 p2 q0 q1 q2 z u hP hQ
    hq0 hq1 hq2 hz hupl huz hf0 hf1 hf2 hg0 hg1 hg2
  have hupl2 : dot (triNormal p0 p1 p2) (smul (-1) u) = 0 := by
    rw [dot_smul_right, hupl]
    ring
  have huz2 : smul (-1) u ≠ vzero :=
    smul_ne_vzero (-1) u (by norm_num) huz
  obtain ⟨m2, hm2, hin2⟩ := S_flat_exit p0 p1 p2 q0 q1 q2 z
    (smul (-1) u) hP hQ hq0 hq1 hq2 hz hupl2 huz2
    (fun hv => by rw [slope_smul_dir, hf0 hv]; ring)
    (fun hv => by rw [slope_smul_dir, hf1 hv]; ring)
    (fun hv => by rw [slope_smul_dir, hf2 hv]; ring)
    (fun hv => by rw [slope_smul_dir, hg0 hv]; ring)
    (fun hv => by rw [slope_smul_dir, hg1 hv]; ring)
    (fun hv => by rw [slope_smul_dir, hg2 hv]; ring)
  have hden : (0 : ℚ) < m2 + m1 := by linarith
  have hcombo : z = pOn (vadd z (smul m2 (smul (-1) u)))
      (vadd z (smul m1 u)) (m2 / (m2 + m1)) := by
    rw [vec3_eq_iff]
    simp only [pOn, vadd, smul, vsub]
    refine ⟨?_, ?_, ?_⟩ <;> (field_simp; ring)
  have ht0 : 0 < m2 / (m2 + m1) := div_pos hm2 hden
  have ht1 : m2 / (m2 + m1) < 1 := by
    rw [div_lt_one hden]
    linarith
  obtain ⟨hy, -⟩ := hext.2 _ _ hin2 hin1 _ ht0 ht1 hcombo
  have hm20 := smul_cancel_vadd z (smul (-1) u) m2 huz2 hy
  linarith

set_option maxHeartbeats 1000000 in
/-- Completeness of the coplanar assembly: every extreme point of the
overlap region is realized by an emitted symbolic pair. -/
theorem extreme_emitted (p0 p1 p2 q0 q1 q2 z : vec3)
    (hP : nondegenerate p0 p1 p2) (hQ : nondegenerate q0 q1 q2)
    (hq0 : orient3d p0 p1 p2 q0 = 0) (hq1 : orient3d p0 p1 p2 q1 = 0)
    (hq2 : orient3d p0 p1 p2 q2 = 0)
    (hsv : ¬ sharesVertex p0 p1 p2 q0 q1 q2)
    (hext : isExtremePt (overlapSet p0 p1 p2 q0 q1 q2) z) :
    ∃ pr ∈ coplanarPairs (triNormal p0 p1 p2) p0 p1 p2 q0 q1 q2,
      realizeIsect p0 p1 p2 q0 q1 q2 (embedPair pr) = z := by
  have hz := hext.1
  have hnn : dot (triNormal p0 p1 p2) (triNormal p0 p1 p2) ≠ 0 := ne_of_gt (dot_self_pos _ hP)
  have hDA : side (triNormal p0 p1 p2) p0 p1 p2 ≠ 0 := ne_of_gt (dot_self_pos _ hP)
  have hDB : side (triNormal p0 p1 p2) q0 q1 q2 ≠ 0 :=
    coplanar_delta_ne p0 p1 p2 q0 q1 q2 hP hQ hq0 hq1 hq2
  have hzpl : dot (triNormal p0 p1 p2) (vsub z p0) = 0 :=
    overlapSet_inplane p0 p1 p2 q0 q1 q2 z hz
  have hsA := S_signs_A p0 p1 p2 q0 q1 q2 z hP hz
  have hsB := S_signs_B p0 p1 p2 q0 q1 q2 z hP hQ hq0 hq1 hq2 hz
  have hplp0 : dot (triNormal p0 p1 p2) (vsub p0 p0) = 0 := dot_vsub_self _ _
  have hplp1 : dot (triNormal p0 p1 p2) (vsub p1 p0) = 0 := dot_triNormal_e1 p0 p1 p2
  have hplp2 : dot (triNormal p0 p1 p2) (vsub p2 p0) = 0 := dot_triNormal_e2 p0 p1 p2
  have hplq0 : dot (triNormal p0 p1 p2) (vsub q0 p0) = 0 := hq0
  have hplq1 : dot (triNormal p0 p1 p2) (vsub q1 p0) = 0 := hq1
  have hplq2 : dot (triNormal p0 p1 p2) (vsub q2 p0) = 0 := hq2
  have hplA0 : dot (triNormal p0 p1 p2) (vsub p2 p1) = 0 := by
    rw [dot_vsub_split _ p2 p1 p0, hplp2, hplp1]
    ring
  have hplA1 : dot (triNormal p0 p1 p2) (vsub p0 p2) = 0 := by
    rw [dot_vsub_split _ p0 p2 p0, hplp0, hplp2]
    ring
  have hplB0 : dot (triNormal p0 p1 p2) (vsub q2 q1) = 0 := by
    rw [dot_vsub_split _ q2 q1 p0, hplq2, hplq1]
    ring
  have hplB1 : dot (triNormal p0 p1 p2) (vsub q0 q2) = 0 := by
    rw [dot_vsub_split _ q0 q2 p0, hplq0, hplq2]
    ring
  have hplB2 : dot (triNormal p0 p1 p2) (vsub q1 q0) = 0 := by
    rw [dot_vsub_split _ q1 q0 p0, hplq1, hplq0]
    ring
  have hDA1 : side (triNormal p0 p1 p2) p1 p2 p0 = side (triNormal p0 p1 p2) p0 p1 p2 := by
    rw [side_cyc, side_cyc]
  have hDA2 : side (triNormal p0 p1 p2) p2 p0 p1 = side (triNormal p0 p1 p2) p0 p1 p2 := by
    rw [side_cyc]
  have hDB1 : side (triNormal p0 p1 p2) q1 q2 q0 = side (triNormal p0 p1 p2) q0 q1 q2 := by
    rw [side_cyc, side_cyc]
  have hDB2 : side (triNormal p0 p1 p2) q2 q0 q1 = side (triNormal p0 p1 p2) q0 q1 q2 := by
    rw [side_cyc]
  by_cases hvA : (side (triNormal p0 p1 p2) p2 p0 z = 0 ∧ side (triNormal p0 p1 p2) p0 p1 z = 0) ∨
    (side (triNormal p0 p1 p2) p0 p1 z = 0 ∧ side (triNormal p0 p1 p2) p1 p2 z = 0) ∨
    (side (triNormal p0 p1 p2) p1 p2 z = 0 ∧ side (triNormal p0 p1 p2) p2 p0 z = 0)
  · rcases two_zeros_vertexA p0 p1 p2 z hP hzpl hvA with h | h | h
    · rw [h]
      exact emit_P0 p0 p1 p2 q0 q1 q2 hP hQ hq0 hq1 hq2 hsv (h ▸ hz)
    · rw [h]
      exact emit_P1 p0 p1 p2 q0 q1 q2 hP hQ hq0 hq1 hq2 hsv (h ▸ hz)
    · rw [h]
      exact emit_P2 p0 p1 p2 q0 q1 q2 hP hQ hq0 hq1 hq2 hsv (h ▸ hz)
  by_cases hvB : (side (triNormal p0 p1 p2) q2 q0 z = 0 ∧ side (triNormal p0 p1 p2) q0 q1 z = 0) ∨
    (side (triNormal p0 p1 p2) q0 q1 z = 0 ∧ side (triNormal p0 p1 p2) q1 q2 z = 0) ∨
    (side (triNormal p0 p1 p2) q1 q2 z = 0 ∧ side (triNormal p0 p1 p2) q2 q0 z = 0)
  · rcases two_zeros_vertexB p0 p1 p2 q0 q1 q2 z hP hQ hq0 hq1 hq2 hzpl
      hvB with h | h | h
    · rw [h]
      exact emit_Q0 p0 p1 p2 q0 q1 q2 hP hQ hq0 hq1 hq2 hsv (h ▸ hz)
    · rw [h]
      exact emit_Q1 p0 p1 p2 q0 q1 q2 hP hQ hq0 hq1 hq2 hsv (h ▸ hz)
    · rw [h]
      exact emit_Q2 p0 p1 p2 q0 q1 q2 hP hQ hq0 hq1 hq2 hsv (h ▸ hz)
  by_cases hd0 : side (triNormal p0 p1 p2) p1 p2 z = 0
  · by_cases hd1 : side (triNormal p0 p1 p2) p2 p0 z = 0
    · exact absurd (Or.inr (Or.inr ⟨hd0, hd1⟩)) hvA
    · by_cases hd2 : side (triNormal p0 p1 p2) p0 p1 z = 0
      · exact absurd (Or.inr (Or.inl ⟨hd2, hd0⟩)) hvA
      ·
        by_cases he0 : side (triNormal p0 p1 p2) q1 q2 z = 0
        · by_cases he1 : side (triNormal p0 p1 p2) q2 q0 z = 0
          · exact absurd (Or.inr (Or.inr ⟨he0, he1⟩)) hvB
          · by_cases he2 : side (triNormal p0 p1 p2) q0 q1 z = 0
            · exact absurd (Or.inr (Or.inl ⟨he2, he0⟩)) hvB
            · by_cases hc : dot (cross (vsub q2 q1) (vsub p2 p1)) (triNormal p0 p1 p2) = 0
              · exact absurd hext (not_extreme_of_flat p0 p1 p2 q0 q1 q2 z
                  (vsub p2 p1) hP hQ hq0 hq1 hq2 hz hplA0 (edge_ne_vzero_12 p0 p1 p2 hP)
                  (fun _ => slope_self_edge (triNormal p0 p1 p2) p1 p2)
                  (fun hv => absurd hv hd1)
                  (fun hv => absurd hv hd2)
                  (fun _ => hc)
                  (fun hv => absurd hv he1)
                  (fun hv => absurd hv he2))
              · have hA1 : 0 < side (triNormal p0 p1 p2) p0 p1 p2 * side (triNormal p0 p1 p2) p2 p0 z := by
                  exact lt_of_le_of_ne hsA.2.1 (Ne.symm (mul_ne_zero hDA hd1))
                have hA2 : 0 < side (triNormal p0 p1 p2) p0 p1 p2 * side (triNormal p0 p1 p2) p0 p1 z := by
                  exact lt_of_le_of_ne hsA.2.2 (Ne.symm (mul_ne_zero hDA hd2))
                have hB1 : 0 < side (triNormal p0 p1 p2) q0 q1 q2 * side (triNormal p0 p1 p2) q2 q0 z := by
                  exact lt_of_le_of_ne hsB.2.1 (Ne.symm (mul_ne_zero hDB he1))
                have hB2 : 0 < side (triNormal p0 p1 p2) q0 q1 q2 * side (triNormal p0 p1 p2) q0 q1 z := by
                  exact lt_of_le_of_ne hsB.2.2 (Ne.symm (mul_ne_zero hDB he2))
                obtain ⟨hpc, hzeq⟩ := cross_case_emit (triNormal p0 p1 p2) p0 p0 p1 p2
                  q0 q1 q2 z hnn hP hQ
                  hplp1 hplp2 hplq1 hplq2 hzpl
                  hd0 he0 hA1 hA2 hB1 hB2 hc
                exact ⟨(.E0, .E0), mem_cop_E0E0 _ _ _ _ _ _ _ hpc, hzeq.symm⟩
        · by_cases he1 : side (triNormal p0 p1 p2) q2 q0 z = 0
          · by_cases he2 : side (triNormal p0 p1 p2) q0 q1 z = 0
            · exact absurd (Or.inl ⟨he1, he2⟩) hvB
            · by_cases hc : dot (cross (vsub q0 q2) (vsub p2 p1)) (triNormal p0 p1 p2) = 0
              · exact absurd hext (not_extreme_of_flat p0 p1 p2 q0 q1 q2 z
                  (vsub p2 p1) hP hQ hq0 hq1 hq2 hz hplA0 (edge_ne_vzero_12 p0 p1 p2 hP)
                  (fun _ => slope_self_edge (triNormal p0 p1 p2) p1 p2)
                  (fun hv => absurd hv hd1)
                  (fun hv => absurd hv hd2)
                  (fun hv => absurd hv he0)
                  (fun _ => hc)
                  (fun hv => absurd hv he2))
              · have hA1 : 0 < side (triNormal p0 p1 p2) p0 p1 p2 * side (triNormal p0 p1 p2) p2 p0 z := by
                  exact lt_of_le_of_ne hsA.2.1 (Ne.symm (mul_ne_zero hDA hd1))
                have hA2 : 0 < side (triNormal p0 p1 p2) p0 p1 p2 * side (triNormal p0 p1 p2) p0 p1 z := by
                  exact lt_of_le_of_ne hsA.2.2 (Ne.symm (mul_ne_zero hDA hd2))
                have hB1 : 0 < side (triNormal p0 p1 p2) q1 q2 q0 * side (triNormal p0 p1 p2) q0 q1 z := by
                  rw [hDB1]
                  exact lt_of_le_of_ne hsB.2.2 (Ne.symm (mul_ne_zero hDB he2))
                have hB2 : 0 < side (triNormal p0 p1 p2) q1 q2 q0 * side (triNormal p0 p1 p2) q1 q2 z := by
                  rw [hDB1]
                  exact lt_of_le_of_ne hsB.1 (Ne.symm (mul_ne_zero hDB he0))
                obtain ⟨hpc, hzeq⟩ := cross_case_emit (triNormal p0 p1 p2) p0 p0 p1 p2
                  q1 q2 q0 z hnn hP (nondegenerate_cyc _ _ _ hQ)
                  hplp1 hplp2 hplq2 hplq0 hzpl
                  hd0 he1 hA1 hA2 hB1 hB2 hc
                exact ⟨(.E0, .E1), mem_cop_E0E1 _ _ _ _ _ _ _ hpc, hzeq.symm⟩
          · by_cases he2 : side (triNormal p0 p1 p2) q0 q1 z = 0
            · by_cases hc : dot (cross (vsub q1 q0) (vsub p2 p1)) (triNormal p0 p1 p2) = 0
              · exact absurd hext (not_extreme_of_flat p0 p1 p2 q0 q1 q2 z
                  (vsub p2 p1) hP hQ hq0 hq1 hq2 hz hplA0 (edge_ne_vzero_12 p0 p1 p2 hP)
                  (fun _ => slope_self_edge (triNormal p0 p1 p2) p1 p2)
                  (fun hv => absurd hv hd1)
                  (fun hv => absurd hv hd2)
                  (fun hv => absurd hv he0)
                  (fun hv => absurd hv he1)
                  (fun _ => hc))
              · have hA1 : 0 < side (triNormal p0 p1 p2) p0 p1 p2 * side (triNormal p0 p1 p2) p2 p0 z := by
                  exact lt_of_le_of_ne hsA.2.1 (Ne.symm (mul_ne_zero hDA hd1))
                have hA2 : 0 < side (triNormal p0 p1 p2) p0 p1 p2 * side (triNormal p0 p1 p2) p0 p1 z := by
                  exact lt_of_le_of_ne hsA.2.2 (Ne.symm (mul_ne_zero hDA hd2))
                have hB1 : 0 < side (triNormal p0 p1 p2) q2 q0 q1 * side (triNormal p0 p1 p2) q1 q2 z := by
                  rw [hDB2]
                  exact lt_of_le_of_ne hsB.1 (Ne.symm (mul_ne_zero hDB he0))
                have hB2 : 0 < side (triNormal p0 p1 p2) q2 q0 q1 * side (triNormal p0 p1 p2) q2 q0 z := by
                  rw [hDB2]
                  exact lt_of_le_of_ne hsB.2.1 (Ne.symm (mul_ne_zero hDB he1))
                obtain ⟨hpc, hzeq⟩ := cross_case_emit (triNormal p0 p1 p2) p0 p0 p1 p2
                  q2 q0 q1 z hnn hP (nondegenerate_cyc _ _ _ (nondegenerate_cyc _ _ _ hQ))
                  hplp1 hplp2 hplq0 hplq1 hzpl
                  hd0 he2 hA1 hA2 hB1 hB2 hc
                exact ⟨(.E0, .E2), mem_cop_E0E2 _ _ _ _ _ _ _ hpc, hzeq.symm⟩
            · exact absurd hext (not_extreme_of_flat p0 p1 p2 q0 q1 q2 z
                (vsub p2 p1) hP hQ hq0 hq1 hq2 hz hplA0 (edge_ne_vzero_12 p0 p1 p2 hP)
                (fun _ => slope_self_edge (triNormal p0 p1 p2) p1 p2)
                (fun hv => absurd hv hd1)
                (fun hv => absurd hv hd2)
                (fun hv => absurd hv he0)
                (fun hv => absurd hv he1)
                (fun hv => absurd hv he2))
  · by_cases hd1 : side (triNormal p0 p1 p2) p2 p0 z = 0
    · by_cases hd2 : side (triNormal p0 p1 p2) p0 p1 z = 0
      · exact absurd (Or.inl ⟨hd1, hd2⟩) hvA
      ·
        by_cases he0 : side (triNormal p0 p1 p2) q1 q2 z = 0
        · by_cases he1 : side (triNormal p0 p1 p2) q2 q0 z = 0
          · exact absurd (Or.inr (Or.inr ⟨he0, he1⟩)) hvB
          · by_cases he2 : side (triNormal p0 p1 p2) q0 q1 z = 0
            · exact absurd (Or.inr (Or.inl ⟨he2, he0⟩)) hvB
            · by_cases hc : dot (cross (vsub q2 q1) (vsub p0 p2)) (triNormal p0 p1 p2) = 0
              · exact absurd hext (not_extreme_of_flat p0 p1 p2 q0 q1 q2 z
                  (vsub p0 p2) hP hQ hq0 hq1 hq2 hz hplA1 (edge_ne_vzero_12 p1 p2 p0 (nondegenerate_cyc _ _ _ hP))
                  (fun hv => absurd hv hd0)
                  (fun _ => slope_self_edge (triNormal p0 p1 p2) p2 p0)
                  (fun hv => absurd hv hd2)
                  (fun _ => hc)
                  (fun hv => absurd hv he1)
                  (fun hv => absurd hv he2))
              · have hA1 : 0 < side (triNormal p0 p1 p2) p1 p2 p0 * side (triNormal p0 p1 p2) p0 p1 z := by
                  rw [hDA1]
                  exact lt_of_le_of_ne hsA.2.2 (Ne.symm (mul_ne_zero hDA hd2))
                have hA2 : 0 < side (triNormal p0 p1 p2) p1 p2 p0 * side (triNormal p0 p1 p2) p1 p2 z := by
                  rw [hDA1]
                  exact lt_of_le_of_ne hsA.1 (Ne.symm (mul_ne_zero hDA hd0))
                have hB1 : 0 < side (triNormal p0 p1 p2) q0 q1 q2 * side (triNormal p0 p1 p2) q2 q0 z := by
                  exact lt_of_le_of_ne hsB.2.1 (Ne.symm (mul_ne_zero hDB he1))
                have hB2 : 0 < side (triNormal p0 p1 p2) q0 q1 q2 * side (triNormal p0 p1 p2) q0 q1 z := by
                  exact lt_of_le_of_ne hsB.2.2 (Ne.symm (mul_ne_zero hDB he2))
                obtain ⟨hpc, hzeq⟩ := cross_case_emit (triNormal p0 p1 p2) p0 p1 p2 p0
                  q0 q1 q2 z hnn (nondegenerate_cyc _ _ _ hP) hQ
                  hplp2 hplp0 hplq1 hplq2 hzpl
                  hd1 he0 hA1 hA2 hB1 hB2 hc
                exact ⟨(.E1, .E0), mem_cop_E1E0 _ _ _ _ _ _ _ hpc, hzeq.symm⟩
        · by_cases he1 : side (triNormal p0 p1 p2) q2 q0 z = 0
          · by_cases he2 : side (triNormal p0 p1 p2) q0 q1 z = 0
            · exact absurd (Or.inl ⟨he1, he2⟩) hvB
            · by_cases hc : dot (cross (vsub q0 q2) (vsub p0 p2)) (triNormal p0 p1 p2) = 0
              · exact absurd hext (not_extreme_of_flat p0 p1 p2 q0 q1 q2 z
                  (vsub p0 p2) hP hQ hq0 hq1 hq2 hz hplA1 (edge_ne_vzero_12 p1 p2 p0 (nondegenerate_cyc _ _ _ hP))
                  (fun hv => absurd hv hd0)
                  (fun _ => slope_self_edge (triNormal p0 p1 p2) p2 p0)
                  (fun hv => absurd hv hd2)
                  (fun hv => absurd hv he0)
                  (fun _ => hc)
                  (fun hv => absurd hv he2))
              · have hA1 : 0 < side (triNormal p0 p1 p2) p1 p2 p0 * side (triNormal p0 p1 p2) p0 p1 z := by
                  rw [hDA1]
                  exact lt_of_le_of_ne hsA.2.2 (Ne.symm (mul_ne_zero hDA hd2))
                have hA2 : 0 < side (triNormal p0 p1 p2) p1 p2 p0 * side (triNormal p0 p1 p2) p1 p2 z := by
                  rw [hDA1]
                  exact lt_of_le_of_ne hsA.1 (Ne.symm (mul_ne_zero hDA hd0))
                have hB1 : 0 < side (triNormal p0 p1 p2) q1 q2 q0 * side (triNormal p0 p1 p2) q0 q1 z := by
                  rw [hDB1]
                  exact lt_of_le_of_ne hsB.2.2 (Ne.symm (mul_ne_zero hDB he2))
                have hB2 : 0 < side (triNormal p0 p1 p2) q1 q2 q0 * side (triNormal p0 p1 p2) q1 q2 z := by
                  rw [hDB1]
                  exact lt_of_le_of_ne hsB.1 (Ne.symm (mul_ne_zero hDB he0))
                obtain ⟨hpc, hzeq⟩ := cross_case_emit (triNormal p0 p1 p2) p0 p1 p2 p0
                  q1 q2 q0 z hnn (nondegenerate_cyc _ _ _ hP) (nondegenerate_cyc _ _ _ hQ)
                  hplp2 hplp0 hplq2 hplq0 hzpl
                  hd1 he1 hA1 hA2 hB1 hB2 hc
                exact ⟨(.E1, .E1), mem_cop_E1E1 _ _ _ _ _ _ _ hpc, hzeq.symm⟩
          · by_cases he2 : side (triNormal p0 p1 p2) q0 q1 z = 0
            · by_cases hc : dot (cross (vsub q1 q0) (vsub p0 p2)) (triNormal p0 p1 p2) = 0
              · exact absurd hext (not_extreme_of_flat p0 p1 p2 q0 q1 q2 z
                  (vsub p0 p2) hP hQ hq0 hq1 hq2 hz hplA1 (edge_ne_vzero_12 p1 p2 p0 (nondegenerate_cyc _ _ _ hP))
                  (fun hv => absurd hv hd0)
                  (fun _ => slope_self_edge (triNormal p0 p1 p2) p2 p0)
                  (fun hv => absurd hv hd2)
                  (fun hv => absurd hv he0)
                  (fun hv => absurd hv he1)
                  (fun _ => hc))
              · have hA1 : 0 < side (triNormal p0 p1 p2) p1 p2 p0 * side (triNormal p0 p1 p2) p0 p1 z := by
                  rw [hDA1]
                  exact lt_of_le_of_ne hsA.2.2 (Ne.symm (mul_ne_zero hDA hd2))
                have hA2 : 0 < side (triNormal p0 p1 p2) p1 p2 p0 * side (triNormal p0 p1 p2) p1 p2 z := by
                  rw [hDA1]
                  exact lt_of_le_of_ne hsA.1 (Ne.symm (mul_ne_zero hDA hd0))
                have hB1 : 0 < side (triNormal p0 p1 p2) q2 q0 q1 * side (triNormal p0 p1 p2) q1 q2 z := by
                  rw [hDB2]
                  exact lt_of_le_of_ne hsB.1 (Ne.symm (mul_ne_zero hDB he0))
                have hB2 : 0 < side (triNormal p0 p1 p2) q2 q0 q1 * side (triNormal p0 p1 p2) q2 q0 z := by
                  rw [hDB2]
                  exact lt_of_le_of_ne hsB.2.1 (Ne.symm (mul_ne_zero hDB he1))
                obtain ⟨hpc, hzeq⟩ := cross_case_emit (triNormal p0 p1 p2) p0 p1 p2 p0
                  q2 q0 q1 z hnn (nondegenerate_cyc _ _ _ hP) (nondegenerate_cyc _ _ _ (nondegenerate_cyc _ _ _ hQ))
                  hplp2 hplp0 hplq0 hplq1 hzpl
                  hd1 he2 hA1 hA2 hB1 hB2 hc
                exact ⟨(.E1, .E2), mem_cop_E1E2 _ _ _ _ _ _ _ hpc, hzeq.symm⟩
            · exact absurd hext (not_extreme_of_flat p0 p1 p2 q0 q1 q2 z
                (vsub p0 p2) hP hQ hq0 hq1 hq2 hz hplA1 (edge_ne_vzero_12 p1 p2 p0 (nondegenerate_cyc _ _ _ hP))
                (fun hv => absurd hv hd0)
                (fun _ => slope_self_edge (triNormal p0 p1 p2) p2 p0)
                (fun hv => absurd hv hd2)
                (fun hv => absurd hv he0)
                (fun hv => absurd hv he1)
                (fun hv => absurd hv he2))
    · by_cases hd2 : side (triNormal p0 p1 p2) p0 p1 z = 0
      ·
        by_cases he0 : side (triNormal p0 p1 p2) q1 q2 z = 0
        · by_cases he1 : side (triNormal p0 p1 p2) q2 q0 z = 0
          · exact absurd (Or.inr (Or.inr ⟨he0, he1⟩)) hvB
          · by_cases he2 : side (triNormal p0 p1 p2) q0 q1 z = 0
            · exact absurd (Or.inr (Or.inl ⟨he2, he0⟩)) hvB
            · by_cases hc : dot (cross (vsub q2 q1) (vsub p1 p0)) (triNormal p0 p1 p2) = 0
              · exact absurd hext (not_extreme_of_flat p0 p1 p2 q0 q1 q2 z
                  (vsub p1 p0) hP hQ hq0 hq1 hq2 hz hplp1 (edge_ne_vzero_01 p0 p1 p2 hP)
                  (fun hv => absurd hv hd0)
                  (fun hv => absurd hv hd1)
                  (fun _ => slope_self_edge (triNormal p0 p1 p2) p0 p1)
                  (fun _ => hc)
                  (fun hv => absurd hv he1)
                  (fun hv => absurd hv he2))
              · have hA1 : 0 < side (triNormal p0 p1 p2) p2 p0 p1 * side (triNormal p0 p1 p2) p1 p2 z := by
                  rw [hDA2]
                  exact lt_of_le_of_ne hsA.1 (Ne.symm (mul_ne_zero hDA hd0))
                have hA2 : 0 < side (triNormal p0 p1 p2) p2 p0 p1 * side (triNormal p0 p1 p2) p2 p0 z := by
                  rw [hDA2]
                  exact lt_of_le_of_ne hsA.2.1 (Ne.symm (mul_ne_zero hDA hd1))
                have hB1 : 0 < side (triNormal p0 p1 p2) q0 q1 q2 * side (triNormal p0 p1 p2) q2 q0 z := by
                  exact lt_of_le_of_ne hsB.2.1 (Ne.symm (mul_ne_zero hDB he1))
                have hB2 : 0 < side (triNormal p0 p1 p2) q0 q1 q2 * side (triNormal p0 p1 p2) q0 q1 z := by
                  exact lt_of_le_of_ne hsB.2.2 (Ne.symm (mul_ne_zero hDB he2))
                obtain ⟨hpc, hzeq⟩ := cross_case_emit (triNormal p0 p1 p2) p0 p2 p0 p1
                  q0 q1 q2 z hnn (nondegenerate_cyc _ _ _ (nondegenerate_cyc _ _ _ hP)) hQ
                  hplp0 hplp1 hplq1 hplq2 hzpl
                  hd2 he0 hA1 hA2 hB1 hB2 hc
                exact ⟨(.E2, .E0), mem_cop_E2E0 _ _ _ _ _ _ _ hpc, hzeq.symm⟩
        · by_cases he1 : side (triNormal p0 p1 p2) q2 q0 z = 0
          · by_cases he2 : side (triNormal p0 p1 p2) q0 q1 z = 0
            · exact absurd (Or.inl ⟨he1, he2⟩) hvB
            · by_cases hc : dot (cross (vsub q0 q2) (vsub p1 p0)) (triNormal p0 p1 p2) = 0
              · exact absurd hext (not_extreme_of_flat p0 p1 p2 q0 q1 q2 z
                  (vsub p1 p0) hP hQ hq0 hq1 hq2 hz hplp1 (edge_ne_vzero_01 p0 p1 p2 hP)
                  (fun hv => absurd hv hd0)
                  (fun hv => absurd hv hd1)
                  (fun _ => slope_self_edge (triNormal p0 p1 p2) p0 p1)
                  (fun hv => absurd hv he0)
                  (fun _ => hc)
                  (fun hv => absurd hv he2))
              · have hA1 : 0 < side (triNormal p0 p1 p2) p2 p0 p1 * side (triNormal p0 p1 p2) p1 p2 z := by
                  rw [hDA2]
                  exact lt_of_le_of_ne hsA.1 (Ne.symm (mul_ne_zero hDA hd0))
                have hA2 : 0 < side (triNormal p0 p1 p2) p2 p0 p1 * side (triNormal p0 p1 p2) p2 p0 z := by
                  rw [hDA2]
                  exact lt_of_le_of_ne hsA.2.1 (Ne.symm (mul_ne_zero hDA hd1))
                have hB1 : 0 < side (triNormal p0 p1 p2) q1 q2 q0 * side (triNormal p0 p1 p2) q0 q1 z := by
                  rw [hDB1]
                  exact lt_of_le_of_ne hsB.2.2 (Ne.symm (mul_ne_zero hDB he2))
                have hB2 : 0 < side (triNormal p0 p1 p2) q1 q2 q0 * side (triNormal p0 p1 p2) q1 q2 z := by
                  rw [hDB1]
                  exact lt_of_le_of_ne hsB.1 (Ne.symm (mul_ne_zero hDB he0))
                obtain ⟨hpc, hzeq⟩ := cross_case_emit (triNormal p0 p1 p2) p0 p2 p0 p1
                  q1 q2 q0 z hnn (nondegenerate_cyc _ _ _ (nondegenerate_cyc _ _ _ hP)) (nondegenerate_cyc _ _ _ hQ)
                  hplp0 hplp1 hplq2 hplq0 hzpl
                  hd2 he1 hA1 hA2 hB1 hB2 hc
                exact ⟨(.E2, .E1), mem_cop_E2E1 _ _ _ _ _ _ _ hpc, hzeq.symm⟩
          · by_cases he2 : side (triNormal p0 p1 p2) q0 q1 z = 0
            · by_cases hc : dot (cross (vsub q1 q0) (vsub p1 p0)) (triNormal p0 p1 p2) = 0
              · exact absurd hext (not_extreme_of_flat p0 p1 p2 q0 q1 q2 z
                  (vsub p1 p0) hP hQ hq0 hq1 hq2 hz hplp1 (edge_ne_vzero_01 p0 p1 p2 hP)
                  (fun hv => absurd hv hd0)
                  (fun hv => absurd hv hd1)
                  (fun _ => slope_self_edge (triNormal p0 p1 p2) p0 p1)
                  (fun hv => absurd hv he0)
                  (fun hv => absurd hv he1)
                  (fun _ => hc))
              · have hA1 : 0 < side (triNormal p0 p1 p2) p2 p0 p1 * side (triNormal p0 p1 p2) p1 p2 z := by
                  rw [hDA2]
                  exact lt_of_le_of_ne hsA.1 (Ne.symm (mul_ne_zero hDA hd0))
                have hA2 : 0 < side (triNormal p0 p1 p2) p2 p0 p1 * side (triNormal p0 p1 p2) p2 p0 z := by
                  rw [hDA2]
                  exact lt_of_le_of_ne hsA.2.1 (Ne.symm (mul_ne_zero hDA hd1))
                have hB1 : 0 < side (triNormal p0 p1 p2) q2 q0 q1 * side (triNormal p0 p1 p2) q1 q2 z := by
                  rw [hDB2]
                  exact lt_of_le_of_ne hsB.1 (Ne.symm (mul_ne_zero hDB he0))
                have hB2 : 0 < side (triNormal p0 p1 p2) q2 q0 q1 * side (triNormal p0 p1 p2) q2 q0 z := by
                  rw [hDB2]
                  exact lt_of_le_of_ne hsB.2.1 (Ne.symm (mul_ne_zero hDB he1))
                obtain ⟨hpc, hzeq⟩ := cross_case_emit (triNormal p0 p1 p2) p0 p2 p0 p1
                  q2 q0 q1 z hnn (nondegenerate_cyc _ _ _ (nondegenerate_cyc _ _ _ hP)) (nondegenerate_cyc _ _ _ (nondegenerate_cyc _ _ _ hQ))
                  hplp0 hplp1 hplq0 hplq1 hzpl
                  hd2 he2 hA1 hA2 hB1 hB2 hc
                exact ⟨(.E2, .E2), mem_cop_E2E2 _ _ _ _ _ _ _ hpc, hzeq.symm⟩
            · exact absurd hext (not_extreme_of_flat p0 p1 p2 q0 q1 q2 z
                (vsub p1 p0) hP hQ hq0 hq1 hq2 hz hplp1 (edge_ne_vzero_01 p0 p1 p2 hP)
                (fun hv => absurd hv hd0)
                (fun hv => absurd hv hd1)
                (fun _ => slope_self_edge (triNormal p0 p1 p2) p0 p1)
                (fun hv => absurd hv he0)
                (fun hv => absurd hv he1)
                (fun hv => absurd hv he2))
      ·
        by_cases he0 : side (triNormal p0 p1 p2) q1 q2 z = 0
        · by_cases he1 : side (triNormal p0 p1 p2) q2 q0 z = 0
          · exact absurd (Or.inr (Or.inr ⟨he0, he1⟩)) hvB
          · by_cases he2 : side (triNormal p0 p1 p2) q0 q1 z = 0
            · exact absurd (Or.inr (Or.inl ⟨he2, he0⟩)) hvB
            · exact absurd hext (not_extreme_of_flat p0 p1 p2 q0 q1 q2 z
                (vsub q2 q1) hP hQ hq0 hq1 hq2 hz hplB0 (edge_ne_vzero_12 q0 q1 q2 hQ)
                (fun hv => absurd hv hd0)
                (fun hv => absurd hv hd1)
                (fun hv => absurd hv hd2)
                (fun _ => slope_self_edge (triNormal p0 p1 p2) q1 q2)
                (fun hv => absurd hv he1)
                (fun hv => absurd hv he2))
        · by_cases he1 : side (triNormal p0 p1 p2) q2 q0 z = 0
          · by_cases he2 : side (triNormal p0 p1 p2) q0 q1 z = 0
            · exact absurd (Or.inl ⟨he1, he2⟩) hvB
            · exact absurd hext (not_extreme_of_flat p0 p1 p2 q0 q1 q2 z
                (vsub q0 q2) hP hQ hq0 hq1 hq2 hz hplB1 (edge_ne_vzero_12 q1 q2 q0 (nondegenerate_cyc _ _ _ hQ))
                (fun hv => absurd hv hd0)
                (fun hv => absurd hv hd1)
                (fun hv => absurd hv hd2)
                (fun hv => absurd hv he0)
                (fun _ => slope_self_edge (triNormal p0 p1 p2) q2 q0)
                (fun hv => absurd hv he2))
          · by_cases he2 : side (triNormal p0 p1 p2) q0 q1 z = 0
            · exact absurd hext (not_extreme_of_flat p0 p1 p2 q0 q1 q2 z
                (vsub q1 q0) hP hQ hq0 hq1 hq2 hz hplB2 (edge_ne_vzero_01 q0 q1 q2 hQ)
                (fun hv => absurd hv hd0)
                (fun hv => absurd hv hd1)
                (fun hv => absurd hv hd2)
                (fun hv => absurd hv he0)
                (fun hv => absurd hv he1)
                (fun _ => slope_self_edge (triNormal p0 p1 p2) q0 q1))
            · exact absurd hext (not_extreme_of_flat p0 p1 p2 q0 q1 q2 z
                (vsub p1 p0) hP hQ hq0 hq1 hq2 hz hplp1 (edge_ne_vzero_01 p0 p1 p2 hP)
                (fun hv => absurd hv hd0)
                (fun hv => absurd hv hd1)
                (fun hv => absurd hv hd2)
                (fun hv => absurd hv he0)
                (fun hv => absurd hv he1)
                (fun hv => absurd hv he2))

set_option maxHeartbeats 1000000 in
/-- An overlap member admitting no in-plane flat direction is realized
by an emitted symbolic pair. -/
theorem emitted_of_no_flat (p0 p1 p2 q0 q1 q2 z : vec3)
    (hP : nondegenerate p0 p1 p2) (hQ : nondegenerate q0 q1 q2)
    (hq0 : orient3d p0 p1 p2 q0 = 0) (hq1 : orient3d p0 p1 p2 q1 = 0)
    (hq2 : orient3d p0 p1 p2 q2 = 0)
    (hsv : ¬ sharesVertex p0 p1 p2 q0 q1 q2)
    (hz : z ∈ overlapSet p0 p1 p2 q0 q1 q2)
    (hnoflat : ∀ u : vec3, u ≠ vzero →
      dot (triNormal p0 p1 p2) u = 0 →
      (side (triNormal p0 p1 p2) p1 p2 z = 0 →
        dot (cross (vsub p2 p1) u) (triNormal p0 p1 p2) = 0) →
      (side (triNormal p0 p1 p2) p2 p0 z = 0 →
        dot (cross (vsub p0 p2) u) (triNormal p0 p1 p2) = 0) →
      (side (triNormal p0 p1 p2) p0 p1 z = 0 →
        dot (cross (vsub p1 p0) u) (triNormal p0 p1 p2) = 0) →
      (side (triNormal p0 p1 p2) q1 q2 z = 0 →
        dot (cross (vsub q2 q1) u) (triNormal p0 p1 p2) = 0) →
      (side (triNormal p0 p1 p2) q2 q0 z = 0 →
        dot (cross (vsub q0 q2) u) (triNormal p0 p1 p2) = 0) →
      (side (triNormal p0 p1 p2) q0 q1 z = 0 →
        dot (cross (vsub q1 q0) u) (triNormal p0 p1 p2) = 0) →
      False) :
    ∃ pr ∈ coplanarPairs (triNormal p0 p1 p2) p0 p1 p2 q0 q1 q2,
      realizeIsect p0 p1 p2 q0 q1 q2 (embedPair pr) = z := by
  have hnn : dot (triNormal p0 p1 p2) (triNormal p0 p1 p2) ≠ 0 := ne_of_gt (dot_self_pos _ hP)
  have hDA : side (triNormal p0 p1 p2) p0 p1 p2 ≠ 0 := ne_of_gt (dot_self_pos _ hP)
  have hDB : side (triNormal p0 p1 p2) q0 q1 q2 ≠ 0 :=
    coplanar_delta_ne p0 p1 p2 q0 q1 q2 hP hQ hq0 hq1 hq2
  have hzpl : dot (triNormal p0 p1 p2) (vsub z p0) = 0 :=
    overlapSet_inplane p0 p1 p2 q0 q1 q2 z hz
  have hsA := S_signs_A p0 p1 p2 q0 q1 q2 z hP hz
  have hsB := S_signs_B p0 p1 p2 q0 q1 q2 z hP hQ hq0 hq1 hq2 hz
  have hplp0 : dot (triNormal p0 p1 p2) (vsub p0 p0) = 0 := dot_vsub_self _ _
  have hplp1 : dot (triNormal p0 p1 p2) (vsub p1 p0) = 0 := dot_triNormal_e1 p0 p1 p2
  have hplp2 : dot (triNormal p0 p1 p2) (vsub p2 p0) = 0 := dot_triNormal_e2 p0 p1 p2
  have hplq0 : dot (triNormal p0 p1 p2) (vsub q0 p0) = 0 := hq0
  have hplq1 : dot (triNormal p0 p1 p2) (vsub q1 p0) = 0 := hq1
  have hplq2 : dot (triNormal p0 p1 p2) (vsub q2 p0) = 0 := hq2
  have hplA0 : dot (triNormal p0 p1 p2) (vsub p2 p1) = 0 := by
    rw [dot_vsub_split _ p2 p1 p0, hplp2, hplp1]
    ring
  have hplA1 : dot (triNormal p0 p1 p2) (vsub p0 p2) = 0 := by
    rw [dot_vsub_split _ p0 p2 p0, hplp0, hplp2]
    ring
  have hplB0 : dot (triNormal p0 p1 p2) (vsub q2 q1) = 0 := by
    rw [dot_vsub_split _ q2 q1 p0, hplq2, hplq1]
    ring
  have hplB1 : dot (triNormal p0 p1 p2) (vsub q0 q2) = 0 := by
    rw [dot_vsub_split _ q0 q2 p0, hplq0, hplq2]
    ring
  have hplB2 : dot (triNormal p0 p1 p2) (vsub q1 q0) = 0 := by
    rw [dot_vsub_split _ q1 q0 p0, hplq1, hplq0]
    ring
  have hDA1 : side (triNormal p0 p1 p2) p1 p2 p0 = side (triNormal p0 p1 p2) p0 p1 p2 := by
    rw [side_cyc, side_cyc]
  have hDA2 : side (triNormal p0 p1 p2) p2 p0 p1 = side (triNormal p0 p1 p2) p0 p1 p2 := by
    rw [side_cyc]
  have hDB1 : side (triNormal p0 p1 p2) q1 q2 q0 = side (triNormal p0 p1 p2) q0 q1 q2 := by
    rw [side_cyc, side_cyc]
  have hDB2 : side (triNormal p0 p1 p2) q2 q0 q1 = side (triNormal p0 p1 p2) q0 q1 q2 := by
    rw [side_cyc]
  by_cases hvA : (side (triNormal p0 p1 p2) p2 p0 z = 0 ∧ side (triNormal p0 p1 p2) p0 p1 z = 0) ∨
    (side (triNormal p0 p1 p2) p0 p1 z = 0 ∧ side (triNormal p0 p1 p2) p1 p2 z = 0) ∨
    (side (triNormal p0 p1 p2) p1 p2 z = 0 ∧ side (triNormal p0 p1 p2) p2 p0 z = 0)
  · rcases two_zeros_vertexA p0 p1 p2 z hP hzpl hvA with h | h | h
    · rw [h]
      exact emit_P0 p0 p1 p2 q0 q1 q2 hP hQ hq0 hq1 hq2 hsv (h ▸ hz)
    · rw [h]
      exact emit_P1 p0 p1 p2 q0 q1 q2 hP hQ hq0 hq1 hq2 hsv (h ▸ hz)
    · rw [h]
      exact emit_P2 p0 p1 p2 q0 q1 q2 hP hQ hq0 hq1 hq2 hsv (h ▸ hz)
  by_cases hvB : (side (triNormal p0 p1 p2) q2 q0 z = 0 ∧ side (triNormal p0 p1 p2) q0 q1 z = 0) ∨
    (side (triNormal p0 p1 p2) q0 q1 z = 0 ∧ side (triNormal p0 p1 p2) q1 q2 z = 0) ∨
    (side (triNormal p0 p1 p2) q1 q2 z = 0 ∧ side (triNormal p0 p1 p2) q2 q0 z = 0)
  · rcases two_zeros_vertexB p0 p1 p2 q0 q1 q2 z hP hQ hq0 hq1 hq2 hzpl
      hvB with h | h | h
    · rw [h]
      exact emit_Q0 p0 p1 p2 q0 q1 q2 hP hQ hq0 hq1 hq2 hsv (h ▸ hz)
    · rw [h]
      exact emit_Q1 p0 p1 p2 q0 q1 q2 hP hQ hq0 hq1 hq2 hsv (h ▸ hz)
    · rw [h]
      exact emit_Q2 p0 p1 p2 q0 q1 q2 hP hQ hq0 hq1 hq2 hsv (h ▸ hz)
  by_cases hd0 : side (triNormal p0 p1 p2) p1 p2 z = 0
  · by_cases hd1 : side (triNormal p0 p1 p2) p2 p0 z = 0
    · exact absurd (Or.inr (Or.inr ⟨hd0, hd1⟩)) hvA
    · by_cases hd2 : side (triNormal p0 p1 p2) p0 p1 z = 0
      · exact absurd (Or.inr (Or.inl ⟨hd2, hd0⟩)) hvA
      ·
        by_cases he0 : side (triNormal p0 p1 p2) q1 q2 z = 0
        · by_cases he1 : side (triNormal p0 p1 p2) q2 q0 z = 0
          · exact absurd (Or.inr (Or.inr ⟨he0, he1⟩)) hvB
          · by_cases he2 : side (triNormal p0 p1 p2) q0 q1 z = 0
            · exact absurd (Or.inr (Or.inl ⟨he2, he0⟩)) hvB
            · by_cases hc : dot (cross (vsub q2 q1) (vsub p2 p1)) (triNormal p0 p1 p2) = 0
              · exact (hnoflat (vsub p2 p1) (edge_ne_vzero_12 p0 p1 p2 hP) hplA0
                  (fun _ => slope_self_edge (triNormal p0 p1 p2) p1 p2)
                  (fun hv => absurd hv hd1)
                  (fun hv => absurd hv hd2)
                  (fun _ => hc)
                  (fun hv => absurd hv he1)
                  (fun hv => absurd hv he2)).elim
              · have hA1 : 0 < side (triNormal p0 p1 p2) p0 p1 p2 * side (triNormal p0 p1 p2) p2 p0 z := by
                  exact lt_of_le_of_ne hsA.2.1 (Ne.symm (mul_ne_zero hDA hd1))
                have hA2 : 0 < side (triNormal p0 p1 p2) p0 p1 p2 * side (triNormal p0 p1 p2) p0 p1 z := by
                  exact lt_of_le_of_ne hsA.2.2 (Ne.symm (mul_ne_zero hDA hd2))
                have hB1 : 0 < side (triNormal p0 p1 p2) q0 q1 q2 * side (triNormal p0 p1 p2) q2 q0 z := by
                  exact lt_of_le_of_ne hsB.2.1 (Ne.symm (mul_ne_zero hDB he1))
                have hB2 : 0 < side (triNormal p0 p1 p2) q0 q1 q2 * side (triNormal p0 p1 p2) q0 q1 z := by
                  exact lt_of_le_of_ne hsB.2.2 (Ne.symm (mul_ne_zero hDB he2))
                obtain ⟨hpc, hzeq⟩ := cross_case_emit (triNormal p0 p1 p2) p0 p0 p1 p2
                  q0 q1 q2 z hnn hP hQ
                  hplp1 hplp2 hplq1 hplq2 hzpl
                  hd0 he0 hA1 hA2 hB1 hB2 hc
                exact ⟨(.E0, .E0), mem_cop_E0E0 _ _ _ _ _ _ _ hpc, hzeq.symm⟩
        · by_cases he1 : side (triNormal p0 p1 p2) q2 q0 z = 0
          · by_cases he2 : side (triNormal p0 p1 p2) q0 q1 z = 0
            · exact absurd (Or.inl ⟨he1, he2⟩) hvB
            · by_cases hc : dot (cross (vsub q0 q2) (vsub p2 p1)) (triNormal p0 p1 p2) = 0
              · exact (hnoflat (vsub p2 p1) (edge_ne_vzero_12 p0 p1 p2 hP) hplA0
                  (fun _ => slope_self_edge (triNormal p0 p1 p2) p1 p2)
                  (fun hv => absurd hv hd1)
                  (fun hv => absurd hv hd2)
                  (fun hv => absurd hv he0)
                  (fun _ => hc)
                  (fun hv => absurd hv he2)).elim
              · have hA1 : 0 < side (triNormal p0 p1 p2) p0 p1 p2 * side (triNormal p0 p1 p2) p2 p0 z := by
                  exact lt_of_le_of_ne hsA.2.1 (Ne.symm (mul_ne_zero hDA hd1))
                have hA2 : 0 < side (triNormal p0 p1 p2) p0 p1 p2 * side (triNormal p0 p1 p2) p0 p1 z := by
                  exact lt_of_le_of_ne hsA.2.2 (Ne.symm (mul_ne_zero hDA hd2))
                have hB1 : 0 < side (triNormal p0 p1 p2) q1 q2 q0 * side (triNormal p0 p1 p2) q0 q1 z := by
                  rw [hDB1]
                  exact lt_of_le_of_ne hsB.2.2 (Ne.symm (mul_ne_zero hDB he2))
                have hB2 : 0 < side (triNormal p0 p1 p2) q1 q2 q0 * side (triNormal p0 p1 p2) q1 q2 z := by
                  rw [hDB1]
                  exact lt_of_le_of_ne hsB.1 (Ne.symm (mul_ne_zero hDB he0))
                obtain ⟨hpc, hzeq⟩ := cross_case_emit (triNormal p0 p1 p2) p0 p0 p1 p2
                  q1 q2 q0 z hnn hP (nondegenerate_cyc _ _ _ hQ)
                  hplp1 hplp2 hplq2 hplq0 hzpl
                  hd0 he1 hA1 hA2 hB1 hB2 hc
                exact ⟨(.E0, .E1), mem_cop_E0E1 _ _ _ _ _ _ _ hpc, hzeq.symm⟩
          · by_cases he2 : side (triNormal p0 p1 p2) q0 q1 z = 0
            · by_cases hc : dot (cross (vsub q1 q0) (vsub p2 p1)) (triNormal p0 p1 p2) = 0
              · exact (hnoflat (vsub p2 p1) (edge_ne_vzero_12 p0 p1 p2 hP) hplA0
                  (fun _ => slope_self_edge (triNormal p0 p1 p2) p1 p2)
                  (fun hv => absurd hv hd1)
                  (fun hv => absurd hv hd2)
                  (fun hv => absurd hv he0)
                  (fun hv => absurd hv he1)
                  (fun _ => hc)).elim
              · have hA1 : 0 < side (triNormal p0 p1 p2) p0 p1 p2 * side (triNormal p0 p1 p2) p2 p0 z := by
                  exact lt_of_le_of_ne hsA.2.1 (Ne.symm (mul_ne_zero hDA hd1))
                have hA2 : 0 < side (triNormal p0 p1 p2) p0 p1 p2 * side (triNormal p0 p1 p2) p0 p1 z := by
                  exact lt_of_le_of_ne hsA.2.2 (Ne.symm (mul_ne_zero hDA hd2))
                have hB1 : 0 < side (triNormal p0 p1 p2) q2 q0 q1 * side (triNormal p0 p1 p2) q1 q2 z := by
                  rw [hDB2]
                  exact lt_of_le_of_ne hsB.1 (Ne.symm (mul_ne_zero hDB he0))
                have hB2 : 0 < side (triNormal p0 p1 p2) q2 q0 q1 * side (triNormal p0 p1 p2) q2 q0 z := by
                  rw [hDB2]
                  exact lt_of_le_of_ne hsB.2.1 (Ne.symm (mul_ne_zero hDB he1))
                obtain ⟨hpc, hzeq⟩ := cross_case_emit (triNormal p0 p1 p2) p0 p0 p1 p2
                  q2 q0 q1 z hnn hP (nondegenerate_cyc _ _ _ (nondegenerate_cyc _ _ _ hQ))
                  hplp1 hplp2 hplq0 hplq1 hzpl
                  hd0 he2 hA1 hA2 hB1 hB2 hc
                exact ⟨(.E0, .E2), mem_cop_E0E2 _ _ _ _ _ _ _ hpc, hzeq.symm⟩
            · exact (hnoflat (vsub p2 p1) (edge_ne_vzero_12 p0 p1 p2 hP) hplA0
                (fun _ => slope_self_edge (triNormal p0 p1 p2) p1 p2)
                (fun hv => absurd hv hd1)
                (fun hv => absurd hv hd2)
                (fun hv => absurd hv he0)
                (fun hv => absurd hv he1)
                (fun hv => absurd hv he2)).elim
  · by_cases hd1 : side (triNormal p0 p1 p2) p2 p0 z = 0
    · by_cases hd2 : side (triNormal p0 p1 p2) p0 p1 z = 0
      · exact absurd (Or.inl ⟨hd1, hd2⟩) hvA
      ·
        by_cases he0 : side (triNormal p0 p1 p2) q1 q2 z = 0
        · by_cases he1 : side (triNormal p0 p1 p2) q2 q0 z = 0
          · exact absurd (Or.inr (Or.inr ⟨he0, he1⟩)) hvB
          · by_cases he2 : side (triNormal p0 p1 p2) q0 q1 z = 0
            · exact absurd (Or.inr (Or.inl ⟨he2, he0⟩)) hvB
            · by_cases hc : dot (cross (vsub q2 q1) (vsub p0 p2)) (triNormal p0 p1 p2) = 0
              · exact (hnoflat (vsub p0 p2) (edge_ne_vzero_12 p1 p2 p0 (nondegenerate_cyc _ _ _ hP)) hplA1
                  (fun hv => absurd hv hd0)
                  (fun _ => slope_self_edge (triNormal p0 p1 p2) p2 p0)
                  (fun hv => absurd hv hd2)
                  (fun _ => hc)
                  (fun hv => absurd hv he1)
                  (fun hv => absurd hv he2)).elim
              · have hA1 : 0 < side (triNormal p0 p1 p2) p1 p2 p0 * side (triNormal p0 p1 p2) p0 p1 z := by
                  rw [hDA1]
                  exact lt_of_le_of_ne hsA.2.2 (Ne.symm (mul_ne_zero hDA hd2))
                have hA2 : 0 < side (triNormal p0 p1 p2) p1 p2 p0 * side (triNormal p0 p1 p2) p1 p2 z := by
                  rw [hDA1]
                  exact lt_of_le_of_ne hsA.1 (Ne.symm (mul_ne_zero hDA hd0))
                have hB1 : 0 < side (triNormal p0 p1 p2) q0 q1 q2 * side (triNormal p0 p1 p2) q2 q0 z := by
                  exact lt_of_le_of_ne hsB.2.1 (Ne.symm (mul_ne_zero hDB he1))
                have hB2 : 0 < side (triNormal p0 p1 p2) q0 q1 q2 * side (triNormal p0 p1 p2) q0 q1 z := by
                  exact lt_of_le_of_ne hsB.2.2 (Ne.symm (mul_ne_zero hDB he2))
                obtain ⟨hpc, hzeq⟩ := cross_case_emit (triNormal p0 p1 p2) p0 p1 p2 p0
                  q0 q1 q2 z hnn (nondegenerate_cyc _ _ _ hP) hQ
                  hplp2 hplp0 hplq1 hplq2 hzpl
                  hd1 he0 hA1 hA2 hB1 hB2 hc
                exact ⟨(.E1, .E0), mem_cop_E1E0 _ _ _ _ _ _ _ hpc, hzeq.symm⟩
        · by_cases he1 : side (triNormal p0 p1 p2) q2 q0 z = 0
          · by_cases he2 : side (triNormal p0 p1 p2) q0 q1 z = 0
            · exact absurd (Or.inl ⟨he1, he2⟩) hvB
            · by_cases hc : dot (cross (vsub q0 q2) (vsub p0 p2)) (triNormal p0 p1 p2) = 0
              · exact (hnoflat (vsub p0 p2) (edge_ne_vzero_12 p1 p2 p0 (nondegenerate_cyc _ _ _ hP)) hplA1
                  (fun hv => absurd hv hd0)
                  (fun _ => slope_self_edge (triNormal p0 p1 p2) p2 p0)
                  (fun hv => absurd hv hd2)
                  (fun hv => absurd hv he0)
                  (fun _ => hc)
                  (fun hv => absurd hv he2)).elim
              · have hA1 : 0 < side (triNormal p0 p1 p2) p1 p2 p0 * side (triNormal p0 p1 p2) p0 p1 z := by
                  rw [hDA1]
                  exact lt_of_le_of_ne hsA.2.2 (Ne.symm (mul_ne_zero hDA hd2))
                have hA2 : 0 < side (triNormal p0 p1 p2) p1 p2 p0 * side (triNormal p0 p1 p2) p1 p2 z := by
                  rw [hDA1]
                  exact lt_of_le_of_ne hsA.1 (Ne.symm (mul_ne_zero hDA hd0))
                have hB1 : 0 < side (triNormal p0 p1 p2) q1 q2 q0 * side (triNormal p0 p1 p2) q0 q1 z := by
                  rw [hDB1]
                  exact lt_of_le_of_ne hsB.2.2 (Ne.symm (mul_ne_zero hDB he2))
                have hB2 : 0 < side (triNormal p0 p1 p2) q1 q2 q0 * side (triNormal p0 p1 p2) q1 q2 z := by
                  rw [hDB1]
                  exact lt_of_le_of_ne hsB.1 (Ne.symm (mul_ne_zero hDB he0))
                obtain ⟨hpc, hzeq⟩ := cross_case_emit (triNormal p0 p1 p2) p0 p1 p2 p0
                  q1 q2 q0 z hnn (nondegenerate_cyc _ _ _ hP) (nondegenerate_cyc _ _ _ hQ)
                  hplp2 hplp0 hplq2 hplq0 hzpl
                  hd1 he1 hA1 hA2 hB1 hB2 hc
                exact ⟨(.E1, .E1), mem_cop_E1E1 _ _ _ _ _ _ _ hpc, hzeq.symm⟩
          · by_cases he2 : side (triNormal p0 p1 p2) q0 q1 z = 0
            · by_cases hc : dot (cross (vsub q1 q0) (vsub p0 p2)) (triNormal p0 p1 p2) = 0
              · exact (hnoflat (vsub p0 p2) (edge_ne_vzero_12 p1 p2 p0 (nondegenerate_cyc _ _ _ hP)) hplA1
                  (fun hv => absurd hv hd0)
                  (fun _ => slope_self_edge (triNormal p0 p1 p2) p2 p0)
                  (fun hv => absurd hv hd2)
                  (fun hv => absurd hv he0)
                  (fun hv => absurd hv he1)
                  (fun _ => hc)).elim
              · have hA1 : 0 < side (triNormal p0 p1 p2) p1 p2 p0 * side (triNormal p0 p1 p2) p0 p1 z := by
                  rw [hDA1]
                  exact lt_of_le_of_ne hsA.2.2 (Ne.symm (mul_ne_zero hDA hd2))
                have hA2 : 0 < side (triNormal p0 p1 p2) p1 p2 p0 * side (triNormal p0 p1 p2) p1 p2 z := by
                  rw [hDA1]
                  exact lt_of_le_of_ne hsA.1 (Ne.symm (mul_ne_zero hDA hd0))
                have hB1 : 0 < side (triNormal p0 p1 p2) q2 q0 q1 * side (triNormal p0 p1 p2) q1 q2 z := by
                  rw [hDB2]
                  exact lt_of_le_of_ne hsB.1 (Ne.symm (mul_ne_zero hDB he0))
                have hB2 : 0 < side (triNormal p0 p1 p2) q2 q0 q1 * side (triNormal p0 p1 p2) q2 q0 z := by
                  rw [hDB2]
                  exact lt_of_le_of_ne hsB.2.1 (Ne.symm (mul_ne_zero hDB he1))
                obtain ⟨hpc, hzeq⟩ := cross_case_emit (triNormal p0 p1 p2) p0 p1 p2 p0
                  q2 q0 q1 z hnn (nondegenerate_cyc _ _ _ hP) (nondegenerate_cyc _ _ _ (nondegenerate_cyc _ _ _ hQ))
                  hplp2 hplp0 hplq0 hplq1 hzpl
                  hd1 he2 hA1 hA2 hB1 hB2 hc
                exact ⟨(.E1, .E2), mem_cop_E1E2 _ _ _ _ _ _ _ hpc, hzeq.symm⟩
            · exact (hnoflat (vsub p0 p2) (edge_ne_vzero_12 p1 p2 p0 (nondegenerate_cyc _ _ _ hP)) hplA1
                (fun hv => absurd hv hd0)
                (fun _ => slope_self_edge (triNormal p0 p1 p2) p2 p0)
                (fun hv => absurd hv hd2)
                (fun hv => absurd hv he0)
                (fun hv => absurd hv he1)
                (fun hv => absurd hv he2)).elim
    · by_cases hd2 : side (triNormal p0 p1 p2) p0 p1 z = 0
      ·
        by_cases he0 : side (triNormal p0 p1 p2) q1 q2 z = 0
        · by_cases he1 : side (triNormal p0 p1 p2) q2 q0 z = 0
          · exact absurd (Or.inr (Or.inr ⟨he0, he1⟩)) hvB
          · by_cases he2 : side (triNormal p0 p1 p2) q0 q1 z = 0
            · exact absurd (Or.inr (Or.inl ⟨he2, he0⟩)) hvB
            · by_cases hc : dot (cross (vsub q2 q1) (vsub p1 p0)) (triNormal p0 p1 p2) = 0
              · exact (hnoflat (vsub p1 p0) (edge_ne_vzero_01 p0 p1 p2 hP) hplp1
                  (fun hv => absurd hv hd0)
                  (fun hv => absurd hv hd1)
                  (fun _ => slope_self_edge (triNormal p0 p1 p2) p0 p1)
                  (fun _ => hc)
                  (fun hv => absurd hv he1)
                  (fun hv => absurd hv he2)).elim
              · have hA1 : 0 < side (triNormal p0 p1 p2) p2 p0 p1 * side (triNormal p0 p1 p2) p1 p2 z := by
                  rw [hDA2]
                  exact lt_of_le_of_ne hsA.1 (Ne.symm (mul_ne_zero hDA hd0))
                have hA2 : 0 < side (triNormal p0 p1 p2) p2 p0 p1 * side (triNormal p0 p1 p2) p2 p0 z := by
                  rw [hDA2]
                  exact lt_of_le_of_ne hsA.2.1 (Ne.symm (mul_ne_zero hDA hd1))
                have hB1 : 0 < side (triNormal p0 p1 p2) q0 q1 q2 * side (triNormal p0 p1 p2) q2 q0 z := by
                  exact lt_of_le_of_ne hsB.2.1 (Ne.symm (mul_ne_zero hDB he1))
                have hB2 : 0 < side (triNormal p0 p1 p2) q0 q1 q2 * side (triNormal p0 p1 p2) q0 q1 z := by
                  exact lt_of_le_of_ne hsB.2.2 (Ne.symm (mul_ne_zero hDB he2))
                obtain ⟨hpc, hzeq⟩ := cross_case_emit (triNormal p0 p1 p2) p0 p2 p0 p1
                  q0 q1 q2 z hnn (nondegenerate_cyc _ _ _ (nondegenerate_cyc _ _ _ hP)) hQ
                  hplp0 hplp1 hplq1 hplq2 hzpl
                  hd2 he0 hA1 hA2 hB1 hB2 hc
                exact ⟨(.E2, .E0), mem_cop_E2E0 _ _ _ _ _ _ _ hpc, hzeq.symm⟩
        · by_cases he1 : side (triNormal p0 p1 p2) q2 q0 z = 0
          · by_cases he2 : side (triNormal p0 p1 p2) q0 q1 z = 0
            · exact absurd (Or.inl ⟨he1, he2⟩) hvB
            · by_cases hc : dot (cross (vsub q0 q2) (vsub p1 p0)) (triNormal p0 p1 p2) = 0
              · exact (hnoflat (vsub p1 p0) (edge_ne_vzero_01 p0 p1 p2 hP) hplp1
                  (fun hv => absurd hv hd0)
                  (fun hv => absurd hv hd1)
                  (fun _ => slope_self_edge (triNormal p0 p1 p2) p0 p1)
                  (fun hv => absurd hv he0)
                  (fun _ => hc)
                  (fun hv => absurd hv he2)).elim
              · have hA1 : 0 < side (triNormal p0 p1 p2) p2 p0 p1 * side (triNormal p0 p1 p2) p1 p2 z := by
                  rw [hDA2]
                  exact lt_of_le_of_ne hsA.1 (Ne.symm (mul_ne_zero hDA hd0))
                have hA2 : 0 < side (triNormal p0 p1 p2) p2 p0 p1 * side (triNormal p0 p1 p2) p2 p0 z := by
                  rw [hDA2]
                  exact lt_of_le_of_ne hsA.2.1 (Ne.symm (mul_ne_zero hDA hd1))
                have hB1 : 0 < side (triNormal p0 p1 p2) q1 q2 q0 * side (triNormal p0 p1 p2) q0 q1 z := by
                  rw [hDB1]
                  exact lt_of_le_of_ne hsB.2.2 (Ne.symm (mul_ne_zero hDB he2))
                have hB2 : 0 < side (triNormal p0 p1 p2) q1 q2 q0 * side (triNormal p0 p1 p2) q1 q2 z := by
                  rw [hDB1]
                  exact lt_of_le_of_ne hsB.1 (Ne.symm (mul_ne_zero hDB he0))
                obtain ⟨hpc, hzeq⟩ := cross_case_emit (triNormal p0 p1 p2) p0 p2 p0 p1
                  q1 q2 q0 z hnn (nondegenerate_cyc _ _ _ (nondegenerate_cyc _ _ _ hP)) (nondegenerate_cyc _ _ _ hQ)
                  hplp0 hplp1 hplq2 hplq0 hzpl
                  hd2 he1 hA1 hA2 hB1 hB2 hc
                exact ⟨(.E2, .E1), mem_cop_E2E1 _ _ _ _ _ _ _ hpc, hzeq.symm⟩
          · by_cases he2 : side (triNormal p0 p1 p2) q0 q1 z = 0
            · by_cases hc : dot (cross (vsub q1 q0) (vsub p1 p0)) (triNormal p0 p1 p2) = 0
              · exact (hnoflat (vsub p1 p0) (edge_ne_vzero_01 p0 p1 p2 hP) hplp1
                  (fun hv => absurd hv hd0)
                  (fun hv => absurd hv hd1)
                  (fun _ => slope_self_edge (triNormal p0 p1 p2) p0 p1)
                  (fun hv => absurd hv he0)
                  (fun hv => absurd hv he1)
                  (fun _ => hc)).elim
              · have hA1 : 0 < side (triNormal p0 p1 p2) p2 p0 p1 * side (triNormal p0 p1 p2) p1 p2 z := by
                  rw [hDA2]
                  exact lt_of_le_of_ne hsA.1 (Ne.symm (mul_ne_zero hDA hd0))
                have hA2 : 0 < side (triNormal p0 p1 p2) p2 p0 p1 * side (triNormal p0 p1 p2) p2 p0 z := by
                  rw [hDA2]
                  exact lt_of_le_of_ne hsA.2.1 (Ne.symm (mul_ne_zero hDA hd1))
                have hB1 : 0 < side (triNormal p0 p1 p2) q2 q0 q1 * side (triNormal p0 p1 p2) q1 q2 z := by
                  rw [hDB2]
                  exact lt_of_le_of_ne hsB.1 (Ne.symm (mul_ne_zero hDB he0))
                have hB2 : 0 < side (triNormal p0 p1 p2) q2 q0 q1 * side (triNormal p0 p1 p2) q2 q0 z := by
                  rw [hDB2]
                  exact lt_of_le_of_ne hsB.2.1 (Ne.symm (mul_ne_zero hDB he1))
                obtain ⟨hpc, hzeq⟩ := cross_case_emit (triNormal p0 p1 p2) p0 p2 p0 p1
                  q2 q0 q1 z hnn (nondegenerate_cyc _ _ _ (nondegenerate_cyc _ _ _ hP)) (nondegenerate_cyc _ _ _ (nondegenerate_cyc _ _ _ hQ))
                  hplp0 hplp1 hplq0 hplq1 hzpl
                  hd2 he2 hA1 hA2 hB1 hB2 hc
                exact ⟨(.E2, .E2), mem_cop_E2E2 _ _ _ _ _ _ _ hpc, hzeq.symm⟩
            · exact (hnoflat (vsub p1 p0) (edge_ne_vzero_01 p0 p1 p2 hP) hplp1
                (fun hv => absurd hv hd0)
                (fun hv => absurd hv hd1)
                (fun _ => slope_self_edge (triNormal p0 p1 p2) p0 p1)
                (fun hv => absurd hv he0)
                (fun hv => absurd hv he1)
                (fun hv => absurd hv he2)).elim
      ·
        by_cases he0 : side (triNormal p0 p1 p2) q1 q2 z = 0
        · by_cases he1 : side (triNormal p0 p1 p2) q2 q0 z = 0
          · exact absurd (Or.inr (Or.inr ⟨he0, he1⟩)) hvB
          · by_cases he2 : side (triNormal p0 p1 p2) q0 q1 z = 0
            · exact absurd (Or.inr (Or.inl ⟨he2, he0⟩)) hvB
            · exact (hnoflat (vsub q2 q1) (edge_ne_vzero_12 q0 q1 q2 hQ) hplB0
                (fun hv => absurd hv hd0)
                (fun hv => absurd hv hd1)
                (fun hv => absurd hv hd2)
                (fun _ => slope_self_edge (triNormal p0 p1 p2) q1 q2)
                (fun hv => absurd hv he1)
                (fun hv => absurd hv he2)).elim
        · by_cases he1 : side (triNormal p0 p1 p2) q2 q0 z = 0
          · by_cases he2 : side (triNormal p0 p1 p2) q0 q1 z = 0
            · exact absurd (Or.inl ⟨he1, he2⟩) hvB
            · exact (hnoflat (vsub q0 q2) (edge_ne_vzero_12 q1 q2 q0 (nondegenerate_cyc _ _ _ hQ)) hplB1
                (fun hv => absurd hv hd0)
                (fun hv => absurd hv hd1)
                (fun hv => absurd hv hd2)
                (fun hv => absurd hv he0)
                (fun _ => slope_self_edge (triNormal p0 p1 p2) q2 q0)
                (fun hv => absurd hv he2)).elim
          · by_cases he2 : side (triNormal p0 p1 p2) q0 q1 z = 0
            · exact (hnoflat (vsub q1 q0) (edge_ne_vzero_01 q0 q1 q2 hQ) hplB2
                (fun hv => absurd hv hd0)
                (fun hv => absurd hv hd1)
                (fun hv => absurd hv hd2)
                (fun hv => absurd hv he0)
                (fun hv => absurd hv he1)
                (fun _ => slope_self_edge (triNormal p0 p1 p2) q0 q1)).elim
            · exact (hnoflat (vsub p1 p0) (edge_ne_vzero_01 p0 p1 p2 hP) hplp1
                (fun hv => absurd hv hd0)
                (fun hv => absurd hv hd1)
                (fun hv => absurd hv hd2)
                (fun hv => absurd hv he0)
                (fun hv => absurd hv he1)
                (fun hv => absurd hv he2)).elim

/-- Exit of the overlap region along a direction keeping every vanishing
functional constant: a positive step stays in the region and makes a
further functional vanish, one whose slope along the direction is
nonzero. -/
theorem S_flat_exit_van (p0 p1 p2 q0 q1 q2 z u : vec3)
    (hP : nondegenerate p0 p1 p2) (hQ : nondegenerate q0 q1 q2)
    (hq0 : orient3d p0 p1 p2 q0 = 0) (hq1 : orient3d p0 p1 p2 q1 = 0)
    (hq2 : orient3d p0 p1 p2 q2 = 0)
    (hz : z ∈ overlapSet p0 p1 p2 q0 q1 q2)
    (hupl : dot (triNormal p0 p1 p2) u = 0) (huz : u ≠ vzero)
    (hf0 : side (triNormal p0 p1 p2) p1 p2 z = 0 →
      dot (cross (vsub p2 p1) u) (triNormal p0 p1 p2) = 0)
    (hf1 : side (triNormal p0 p1 p2) p2 p0 z = 0 →
      dot (cross (vsub p0 p2) u) (triNormal p0 p1 p2) = 0)
    (hf2 : side (triNormal p0 p1 p2) p0 p1 z = 0 →
      dot (cross (vsub p1 p0) u) (triNormal p0 p1 p2) = 0)
    (hg0 : side (triNormal p0 p1 p2) q1 q2 z = 0 →
      dot (cross (vsub q2 q1) u) (triNormal p0 p1 p2) = 0)
    (hg1 : side (triNormal p0 p1 p2) q2 q0 z = 0 →
      dot (cross (vsub q0 q2) u) (triNormal p0 p1 p2) = 0)
    (hg2 : side (triNormal p0 p1 p2) q0 q1 z = 0 →
      dot (cross (vsub q1 q0) u) (triNormal p0 p1 p2) = 0) :
    ∃ m : ℚ, 0 < m ∧
      vadd z (smul m u) ∈ overlapSet p0 p1 p2 q0 q1 q2 ∧
      ∃ a b : vec3,
        ((a, b) = (p1, p2) ∨ (a, b) = (p2, p0) ∨ (a, b) = (p0, p1) ∨
          (a, b) = (q1, q2) ∨ (a, b) = (q2, q0) ∨ (a, b) = (q0, q1)) ∧
        side (triNormal p0 p1 p2) a b (vadd z (smul m u)) = 0 ∧
        dot (cross (vsub b a) u) (triNormal p0 p1 p2) ≠ 0 := by
  obtain ⟨lam, hlam, hmB⟩ :=
    coplanar_normals p0 p1 p2 q0 q1 q2 hP hQ hq0 hq1 hq2
  have hDApos : (0 : ℚ) < side (triNormal p0 p1 p2) p0 p1 p2 :=
    dot_self_pos _ hP
  have hDA : side (triNormal p0 p1 p2) p0 p1 p2 ≠ 0 := ne_of_gt hDApos
  have hDB : side (triNormal p0 p1 p2) q0 q1 q2 ≠ 0 :=
    coplanar_delta_ne p0 p1 p2 q0 q1 q2 hP hQ hq0 hq1 hq2
  have hsA := S_signs_A p0 p1 p2 q0 q1 q2 z hP hz
  have hsB := S_signs_B p0 p1 p2 q0 q1 q2 z hP hQ hq0 hq1 hq2 hz
  have hzpl : dot (triNormal p0 p1 p2) (vsub z p0) = 0 :=
    overlapSet_inplane p0 p1 p2 q0 q1 q2 z hz
  obtain ⟨m, hm0, hall, p, hp, hpz, hpneg⟩ := list_exit
    [(side (triNormal p0 p1 p2) p0 p1 p2 * side (triNormal p0 p1 p2) p1 p2 z,
      side (triNormal p0 p1 p2) p0 p1 p2 *
        dot (cross (vsub p2 p1) u) (triNormal p0 p1 p2)),
     (side (triNormal p0 p1 p2) p0 p1 p2 * side (triNormal p0 p1 p2) p2 p0 z,
      side (triNormal p0 p1 p2) p0 p1 p2 *
        dot (cross (vsub p0 p2) u) (triNormal p0 p1 p2)),
     (side (triNormal p0 p1 p2) p0 p1 p2 * side (triNormal p0 p1 p2) p0 p1 z,
      side (triNormal p0 p1 p2) p0 p1 p2 *
        dot (cross (vsub p1 p0) u) (triNormal p0 p1 p2)),
     (side (triNormal p0 p1 p2) q0 q1 q2 * side (triNormal p0 p1 p2) q1 q2 z,
      side (triNormal p0 p1 p2) q0 q1 q2 *
        dot (cross (vsub q2 q1) u) (triNormal p0 p1 p2)),
     (side (triNormal p0 p1 p2) q0 q1 q2 * side (triNormal p0 p1 p2) q2 q0 z,
      side (triNormal p0 p1 p2) q0 q1 q2 *
        dot (cross (vsub q0 q2) u) (triNormal p0 p1 p2)),
     (side (triNormal p0 p1 p2) q0 q1 q2 * side (triNormal p0 p1 p2) q0 q1 z,
      side (triNormal p0 p1 p2) q0 q1 q2 *
        dot (cross (vsub q1 q0) u) (triNormal p0 p1 p2))]
    (by
      intro p hp
      simp only [List.mem_cons, List.not_mem_nil, or_false] at hp
      rcases hp with h | h | h | h | h | h <;> subst h
      · exact hsA.1
      · exact hsA.2.1
      · exact hsA.2.2
      · exact hsB.1
      · exact hsB.2.1
      · exact hsB.2.2)
    (by
      intro p hp
      simp only [List.mem_cons, List.not_mem_nil, or_false] at hp
      rcases hp with h | h | h | h | h | h <;> subst h <;> intro hv
      · rcases mul_eq_zero.1 hv with h' | h'
        · exact absurd h' hDA
        · rw [hf0 h']
          ring
      · rcases mul_eq_zero.1 hv with h' | h'
        · exact absurd h' hDA
        · rw [hf1 h']
          ring
      · rcases mul_eq_zero.1 hv with h' | h'
        · exact absurd h' hDA
        · rw [hf2 h']
          ring
      · rcases mul_eq_zero.1 hv with h' | h'
        · exact absurd h' hDB
        · rw [hg0 h']
          ring
      · rcases mul_eq_zero.1 hv with h' | h'
        · exact absurd h' hDB
        · rw [hg1 h']
          ring
      · rcases mul_eq_zero.1 hv with h' | h'
        · exact absurd h' hDB
        · rw [hg2 h']
          ring)
    (by
      rcases exists_neg_slope p0 p1 p2 u hP huz hupl with h | h | h
      · refine ⟨(side (triNormal p0 p1 p2) p0 p1 p2 *
            side (triNormal p0 p1 p2) p1 p2 z,
          side (triNormal p0 p1 p2) p0 p1 p2 *
            dot (cross (vsub p2 p1) u) (triNormal p0 p1 p2)), by simp, ?_⟩
        show side (triNormal p0 p1 p2) p0 p1 p2 *
          dot (cross (vsub p2 p1) u) (triNormal p0 p1 p2) < 0
        exact mul_neg_of_pos_of_neg hDApos h
      · refine ⟨(side (triNormal p0 p1 p2) p0 p1 p2 *
            side (triNormal p0 p1 p2) p2 p0 z,
          side (triNormal p0 p1 p2) p0 p1 p2 *
            dot (cross (vsub p0 p2) u) (triNormal p0 p1 p2)), by simp, ?_⟩
        show side (triNormal p0 p1 p2) p0 p1 p2 *
          dot (cross (vsub p0 p2) u) (triNormal p0 p1 p2) < 0
        exact mul_neg_of_pos_of_neg hDApos h
      · refine ⟨(side (triNormal p0 p1 p2) p0 p1 p2 *
            side (triNormal p0 p1 p2) p0 p1 z,
          side (triNormal p0 p1 p2) p0 p1 p2 *
            dot (cross (vsub p1 p0) u) (triNormal p0 p1 p2)), by simp, ?_⟩
        show side (triNormal p0 p1 p2) p0 p1 p2 *
          dot (cross (vsub p1 p0) u) (triNormal p0 p1 p2) < 0
        exact mul_neg_of_pos_of_neg hDApos h)
  refine ⟨m, hm0, ⟨?_, ?_⟩, ?_⟩
  · have hpl2 : dot (triNormal p0 p1 p2)
        (vsub (vadd z (smul m u)) p0) = 0 := by
      rw [inplane_translate, hzpl, hupl]
      ring
    refine (mem_tri_signs (triNormal p0 p1 p2) p0 p1 p2
      (vadd z (smul m u)) 1 hP hP (smul_one_self _).symm one_ne_zero
      hpl2).2 ⟨?_, ?_, ?_⟩
    · have h1 := hall _ (by simp :
        (side (triNormal p0 p1 p2) p0 p1 p2 *
          side (triNormal p0 p1 p2) p1 p2 z,
        side (triNormal p0 p1 p2) p0 p1 p2 *
          dot (cross (vsub p2 p1) u) (triNormal p0 p1 p2)) ∈ _)
      have h2 : 0 ≤ side (triNormal p0 p1 p2) p0 p1 p2 *
          side (triNormal p0 p1 p2) p1 p2 z +
          m * (side (triNormal p0 p1 p2) p0 p1 p2 *
            dot (cross (vsub p2 p1) u) (triNormal p0 p1 p2)) := h1
      rw [side_translate]
      nlinarith
    · have h1 := hall _ (by simp :
        (side (triNormal p0 p1 p2) p0 p1 p2 *
          side (triNormal p0 p1 p2) p2 p0 z,
        side (triNormal p0 p1 p2) p0 p1 p2 *
          dot (cross (vsub p0 p2) u) (triNormal p0 p1 p2)) ∈ _)
      have h2 : 0 ≤ side (triNormal p0 p1 p2) p0 p1 p2 *
          side (triNormal p0 p1 p2) p2 p0 z +
          m * (side (triNormal p0 p1 p2) p0 p1 p2 *
            dot (cross (vsub p0 p2) u) (triNormal p0 p1 p2)) := h1
      rw [side_translate]
      nlinarith
    · have h1 := hall _ (by simp :
        (side (triNormal p0 p1 p2) p0 p1 p2 *
          side (triNormal p0 p1 p2) p0 p1 z,
        side (triNormal p0 p1 p2) p0 p1 p2 *
          dot (cross (vsub p1 p0) u) (triNormal p0 p1 p2)) ∈ _)
      have h2 : 0 ≤ side (triNormal p0 p1 p2) p0 p1 p2 *
          side (triNormal p0 p1 p2) p0 p1 z +
          m * (side (triNormal p0 p1 p2) p0 p1 p2 *
            dot (cross (vsub p1 p0) u) (triNormal p0 p1 p2)) := h1
      rw [side_translate]
      nlinarith
  · have hzq : dot (triNormal p0 p1 p2) (vsub z q0) = 0 := by
      rw [dot_vsub_split _ z q0 p0, hzpl]
      have h0 : dot (triNormal p0 p1 p2) (vsub q0 p0) = 0 := hq0
      rw [h0]
      ring
    have hpl2 : dot (triNormal p0 p1 p2)
        (vsub (vadd z (smul m u)) q0) = 0 := by
      rw [dot_vsub_split _ _ q0 p0, inplane_translate, hzpl, hupl]
      have h0 : dot (triNormal p0 p1 p2) (vsub q0 p0) = 0 := hq0
      rw [h0]
      ring
    refine (mem_tri_signs (triNormal p0 p1 p2) q0 q1 q2
      (vadd z (smul m u)) lam hQ hP hmB hlam hpl2).2 ⟨?_, ?_, ?_⟩
    · have h1 := hall _ (by simp :
        (side (triNormal p0 p1 p2) q0 q1 q2 *
          side (triNormal p0 p1 p2) q1 q2 z,
        side (triNormal p0 p1 p2) q0 q1 q2 *
          dot (cross (vsub q2 q1) u) (triNormal p0 p1 p2)) ∈ _)
      have h2 : 0 ≤ side (triNormal p0 p1 p2) q0 q1 q2 *
          side (triNormal p0 p1 p2) q1 q2 z +
          m * (side (triNormal p0 p1 p2) q0 q1 q2 *
            dot (cross (vsub q2 q1) u) (triNormal p0 p1 p2)) := h1
      rw [side_translate]
      nlinarith
    · have h1 := hall _ (by simp :
        (side (triNormal p0 p1 p2) q0 q1 q2 *
          side (triNormal p0 p1 p2) q2 q0 z,
        side (triNormal p0 p1 p2) q0 q1 q2 *
          dot (cross (vsub q0 q2) u) (triNormal p0 p1 p2)) ∈ _)
      have h2 : 0 ≤ side (triNormal p0 p1 p2) q0 q1 q2 *
          side (triNormal p0 p1 p2) q2 q0 z +
          m * (side (triNormal p0 p1 p2) q0 q1 q2 *
            dot (cross (vsub q0 q2) u) (triNormal p0 p1 p2)) := h1
      rw [side_translate]
      nlinarith
    · have h1 := hall _ (by simp :
        (side (triNormal p0 p1 p2) q0 q1 q2 *
          side (triNormal p0 p1 p2) q0 q1 z,
        side (triNormal p0 p1 p2) q0 q1 q2 *
          dot (cross (vsub q1 q0) u) (triNormal p0 p1 p2)) ∈ _)
      have h2 : 0 ≤ side (triNormal p0 p1 p2) q0 q1 q2 *
          side (triNormal p0 p1 p2) q0 q1 z +
          m * (side (triNormal p0 p1 p2) q0 q1 q2 *
            dot (cross (vsub q1 q0) u) (triNormal p0 p1 p2)) := h1
      rw [side_translate]
      nlinarith
  · simp only [List.mem_cons, List.not_mem_nil, or_false] at hp
    rcases hp with h | h | h | h | h | h <;> subst h
    · refine ⟨p1, p2, Or.inl rfl, ?_, ?_⟩
      · have h2 : side (triNormal p0 p1 p2) p0 p1 p2 *
            side (triNormal p0 p1 p2) p1 p2 z +
            m * (side (triNormal p0 p1 p2) p0 p1 p2 *
              dot (cross (vsub p2 p1) u) (triNormal p0 p1 p2)) = 0 := hpz
        rw [side_translate]
        have h3 : side (triNormal p0 p1 p2) p0 p1 p2 *
            (side (triNormal p0 p1 p2) p1 p2 z +
              m * dot (cross (vsub p2 p1) u) (triNormal p0 p1 p2)) = 0 := by
          linear_combination h2
        rcases mul_eq_zero.1 h3 with h4 | h4
        · exact absurd h4 hDA
        · exact h4
      · have h2 : side (triNormal p0 p1 p2) p0 p1 p2 *
            dot (cross (vsub p2 p1) u) (triNormal p0 p1 p2) < 0 := hpneg
        intro hc
        rw [hc, mul_zero] at h2
        exact lt_irrefl 0 h2
    · refine ⟨p2, p0, Or.inr (Or.inl rfl), ?_, ?_⟩
      · have h2 : side (triNormal p0 p1 p2) p0 p1 p2 *
            side (triNormal p0 p1 p2) p2 p0 z +
            m * (side (triNormal p0 p1 p2) p0 p1 p2 *
              dot (cross (vsub p0 p2) u) (triNormal p0 p1 p2)) = 0 := hpz
        rw [side_translate]
        have h3 : side (triNormal p0 p1 p2) p0 p1 p2 *
            (side (triNormal p0 p1 p2) p2 p0 z +
              m * dot (cross (vsub p0 p2) u) (triNormal p0 p1 p2)) = 0 := by
          linear_combination h2
        rcases mul_eq_zero.1 h3 with h4 | h4
        · exact absurd h4 hDA
        · exact h4
      · have h2 : side (triNormal p0 p1 p2) p0 p1 p2 *
            dot (cross (vsub p0 p2) u) (triNormal p0 p1 p2) < 0 := hpneg
        intro hc
        rw [hc, mul_zero] at h2
        exact lt_irrefl 0 h2
    · refine ⟨p0, p1, Or.inr (Or.inr (Or.inl rfl)), ?_, ?_⟩
      · have h2 : side (triNormal p0 p1 p2) p0 p1 p2 *
            side (triNormal p0 p1 p2) p0 p1 z +
            m * (side (triNormal p0 p1 p2) p0 p1 p2 *
              dot (cross (vsub p1 p0) u) (triNormal p0 p1 p2)) = 0 := hpz
        rw [side_translate]
        have h3 : side (triNormal p0 p1 p2) p0 p1 p2 *
            (side (triNormal p0 p1 p2) p0 p1 z +
              m * dot (cross (vsub p1 p0) u) (triNormal p0 p1 p2)) = 0 := by
          linear_combination h2
        rcases mul_eq_zero.1 h3 with h4 | h4
        · exact absurd h4 hDA
        · exact h4
      · have h2 : side (triNormal p0 p1 p2) p0 p1 p2 *
            dot (cross (vsub p1 p0) u) (triNormal p0 p1 p2) < 0 := hpneg
        intro hc
        rw [hc, mul_zero] at h2
        exact lt_irrefl 0 h2
    · refine ⟨q1, q2, Or.inr (Or.inr (Or.inr (Or.inl rfl))), ?_, ?_⟩
      · have h2 : side (triNormal p0 p1 p2) q0 q1 q2 *
            side (triNormal p0 p1 p2) q1 q2 z +
            m * (side (triNormal p0 p1 p2) q0 q1 q2 *
              dot (cross (vsub q2 q1) u) (triNormal p0 p1 p2)) = 0 := hpz
        rw [side_translate]
        have h3 : side (triNormal p0 p1 p2) q0 q1 q2 *
            (side (triNormal p0 p1 p2) q1 q2 z +
              m * dot (cross (vsub q2 q1) u) (triNormal p0 p1 p2)) = 0 := by
          linear_combination h2
        rcases mul_eq_zero.1 h3 with h4 | h4
        · exact absurd h4 hDB
        · exact h4
      · have h2 : side (triNormal p0 p1 p2) q0 q1 q2 *
            dot (cross (vsub q2 q1) u) (triNormal p0 p1 p2) < 0 := hpneg
        intro hc
        rw [hc, mul_zero] at h2
        exact lt_irrefl 0 h2
    · refine ⟨q2, q0, Or.inr (Or.inr (Or.inr (Or.inr (Or.inl rfl)))), ?_, ?_⟩
      · have h2 : side (triNormal p0 p1 p2) q0 q1 q2 *
            side (triNormal p0 p1 p2) q2 q0 z +
            m * (side (triNormal p0 p1 p2) q0 q1 q2 *
              dot (cross (vsub q0 q2) u) (triNormal p0 p1 p2)) = 0 := hpz
        rw [side_translate]
        have h3 : side (triNormal p0 p1 p2) q0 q1 q2 *
            (side (triNormal p0 p1 p2) q2 q0 z +
              m * dot (cross (vsub q0 q2) u) (triNormal p0 p1 p2)) = 0 := by
          linear_combination h2
        rcases mul_eq_zero.1 h3 with h4 | h4
        · exact absurd h4 hDB
        · exact h4
      · have h2 : side (triNormal p0 p1 p2) q0 q1 q2 *
            dot (cross (vsub q0 q2) u) (triNormal p0 p1 p2) < 0 := hpneg
        intro hc
        rw [hc, mul_zero] at h2
        exact lt_irrefl 0 h2
    · refine ⟨q0, q1, Or.inr (Or.inr (Or.inr (Or.inr (Or.inr rfl)))), ?_, ?_⟩
      · have h2 : side (triNormal p0 p1 p2) q0 q1 q2 *
            side (triNormal p0 p1 p2) q0 q1 z +
            m * (side (triNormal p0 p1 p2) q0 q1 q2 *
              dot (cross (vsub q1 q0) u) (triNormal p0 p1 p2)) = 0 := hpz
        rw [side_translate]
        have h3 : side (triNormal p0 p1 p2) q0 q1 q2 *
            (side (triNormal p0 p1 p2) q0 q1 z +
              m * dot (cross (vsub q1 q0) u) (triNormal p0 p1 p2)) = 0 := by
          linear_combination h2
        rcases mul_eq_zero.1 h3 with h4 | h4
        · exact absurd h4 hDB
        · exact h4
      · have h2 : side (triNormal p0 p1 p2) q0 q1 q2 *
            dot (cross (vsub q1 q0) u) (triNormal p0 p1 p2) < 0 := hpneg
        intro hc
        rw [hc, mul_zero] at h2
        exact lt_irrefl 0 h2

/-- Among the six edge functionals of the coplanar configuration, a
functional vanishing at a point is constant along any direction flat at
that point. -/
theorem vanishing_flat_slope (p0 p1 p2 q0 q1 q2 y w a b : vec3)
    (hmem : (a, b) = (p1, p2) ∨ (a, b) = (p2, p0) ∨ (a, b) = (p0, p1) ∨
      (a, b) = (q1, q2) ∨ (a, b) = (q2, q0) ∨ (a, b) = (q0, q1))
    (h0 : side (triNormal p0 p1 p2) p1 p2 y = 0 →
      dot (cross (vsub p2 p1) w) (triNormal p0 p1 p2) = 0)
    (h1 : side (triNormal p0 p1 p2) p2 p0 y = 0 →
      dot (cross (vsub p0 p2) w) (triNormal p0 p1 p2) = 0)
    (h2 : side (triNormal p0 p1 p2) p0 p1 y = 0 →
      dot (cross (vsub p1 p0) w) (triNormal p0 p1 p2) = 0)
    (h3 : side (triNormal p0 p1 p2) q1 q2 y = 0 →
      dot (cross (vsub q2 q1) w) (triNormal p0 p1 p2) = 0)
    (h4 : side (triNormal p0 p1 p2) q2 q0 y = 0 →
      dot (cross (vsub q0 q2) w) (triNormal p0 p1 p2) = 0)
    (h5 : side (triNormal p0 p1 p2) q0 q1 y = 0 →
      dot (cross (vsub q1 q0) w) (triNormal p0 p1 p2) = 0)
    (hv : side (triNormal p0 p1 p2) a b y = 0) :
    dot (cross (vsub b a) w) (triNormal p0 p1 p2) = 0 := by
  rcases hmem with h | h | h | h | h | h <;>
    (rw [Prod.mk.injEq] at h; obtain ⟨ha, hb⟩ := h; rw [ha, hb] at hv ⊢)
  · exact h0 hv
  · exact h1 hv
  · exact h2 hv
  · exact h3 hv
  · exact h4 hv
  · exact h5 hv

/-- Every edge vector of either nondegenerate triangle is nonzero. -/
theorem edge_mem_ne (p0 p1 p2 q0 q1 q2 a b : vec3)
    (hP : nondegenerate p0 p1 p2) (hQ : nondegenerate q0 q1 q2)
    (hmem : (a, b) = (p1, p2) ∨ (a, b) = (p2, p0) ∨ (a, b) = (p0, p1) ∨
      (a, b) = (q1, q2) ∨ (a, b) = (q2, q0) ∨ (a, b) = (q0, q1)) :
    vsub b a ≠ vzero := by
  rcases hmem with h | h | h | h | h | h <;>
    (rw [Prod.mk.injEq] at h; obtain ⟨ha, hb⟩ := h; rw [ha, hb])
  · exact edge_ne_vzero_12 p0 p1 p2 hP
  · exact edge_ne_vzero_01 p2 p0 p1
      (nondegenerate_cyc p1 p2 p0 (nondegenerate_cyc p0 p1 p2 hP))
  · exact edge_ne_vzero_01 p0 p1 p2 hP
  · exact edge_ne_vzero_12 q0 q1 q2 hQ
  · exact edge_ne_vzero_01 q2 q0 q1
      (nondegenerate_cyc q1 q2 q0 (nondegenerate_cyc q0 q1 q2 hQ))
  · exact edge_ne_vzero_01 q0 q1 q2 hQ

/-- Every edge vector of the coplanar configuration lies in the common
plane. -/
theorem edge_mem_inplane (p0 p1 p2 q0 q1 q2 a b : vec3)
    (hq0 : orient3d p0 p1 p2 q0 = 0) (hq1 : orient3d p0 p1 p2 q1 = 0)
    (hq2 : orient3d p0 p1 p2 q2 = 0)
    (hmem : (a, b) = (p1, p2) ∨ (a, b) = (p2, p0) ∨ (a, b) = (p0, p1) ∨
      (a, b) = (q1, q2) ∨ (a, b) = (q2, q0) ∨ (a, b) = (q0, q1)) :
    dot (triNormal p0 p1 p2) (vsub b a) = 0 := by
  have e0 : dot (triNormal p0 p1 p2) (vsub q0 p0) = 0 := hq0
  have e1 : dot (triNormal p0 p1 p2) (vsub q1 p0) = 0 := hq1
  have e2 : dot (triNormal p0 p1 p2) (vsub q2 p0) = 0 := hq2
  rcases hmem with h | h | h | h | h | h <;>
    (rw [Prod.mk.injEq] at h; obtain ⟨ha, hb⟩ := h; rw [ha, hb])
  · simp only [triNormal, cross, dot, vsub]
    ring
  · simp only [triNormal, cross, dot, vsub]
    ring
  · simp only [triNormal, cross, dot, vsub]
    ring
  · rw [dot_vsub_split (triNormal p0 p1 p2) q2 q1 p0, e1, e2]
    ring
  · rw [dot_vsub_split (triNormal p0 p1 p2) q0 q2 p0, e0, e2]
    ring
  · rw [dot_vsub_split (triNormal p0 p1 p2) q1 q0 p0, e0, e1]
    ring

/-- Scaling by zero yields the zero vector. -/
theorem smul_zero_vec (e : vec3) : smul 0 e = vzero := by
  rw [vec3_eq_iff]
  simp only [smul, vzero]
  refine ⟨?_, ?_, ?_⟩ <;> ring

/-- Two in-plane functional slopes cannot both vanish along a nonzero
direction when one of them separates a direction the other annuls: the
kernel of an in-plane slope functional with nonzero edge vector is the
line spanned by that edge vector. -/
theorem no_flat_core (n e f v u : vec3) (hn : dot n n ≠ 0)
    (hne : dot n e = 0) (hnv : dot n v = 0) (hnu : dot n u = 0)
    (he : e ≠ vzero) (hu : u ≠ vzero)
    (hev : dot (cross e v) n = 0) (hfv : dot (cross f v) n ≠ 0)
    (heu : dot (cross e u) n = 0) (hfu : dot (cross f u) n = 0) :
    False := by
  have hee : dot e e ≠ 0 := fun h => he ((dot_self_eq_zero_iff e).1 h)
  have hcv : cross e v = vzero := inplane_cross_slope_zero n e v hn hne hnv hev
  have hv2 : v = smul (dot v e / dot e e) e :=
    parallel_of_cross_zero v e hee (cross_anticomm_zero e v hcv)
  have hcu : cross e u = vzero := inplane_cross_slope_zero n e u hn hne hnu heu
  have hu2 : u = smul (dot u e / dot e e) e :=
    parallel_of_cross_zero u e hee (cross_anticomm_zero e u hcu)
  rw [hv2, slope_smul_dir] at hfv
  rw [hu2, slope_smul_dir] at hfu
  have hfe : dot (cross f e) n ≠ 0 := fun h => hfv (by rw [h]; ring)
  rcases mul_eq_zero.1 hfu with h | h
  · apply hu
    rw [hu2, h]
    exact smul_zero_vec e
  · exact hfe h

/-- If an edge functional vanishes at two distinct points of a line, it
vanishes at the base point of the line. -/
theorem two_pts_vanish (n a b z e : vec3) (c1 c2 : ℚ) (hc : c1 ≠ c2)
    (h1 : side n a b (vadd z (smul c1 e)) = 0)
    (h2 : side n a b (vadd z (smul c2 e)) = 0) :
    side n a b z = 0 := by
  rw [side_translate] at h1 h2
  have hσ : dot (cross (vsub b a) e) n = 0 := by
    by_contra h
    apply hc
    have h3 : (c1 - c2) * dot (cross (vsub b a) e) n = 0 := by
      linear_combination h1 - h2
    rcases mul_eq_zero.1 h3 with h4 | h4
    · linarith
    · exact absurd h4 h
  rw [hσ, mul_zero, add_zero] at h1
  exact h1

/-- An edge functional nonzero at a base point cannot vanish at points on
both sides of the base point along a line. -/
theorem vanish_both_sides (n a b w0 u : vec3) (m1 m3 : ℚ)
    (hm1 : 0 < m1) (hm3 : 0 < m3) (hs : side n a b w0 ≠ 0)
    (h1 : side n a b (vadd w0 (smul m1 u)) = 0)
    (h2 : side n a b (vadd w0 (smul (-m3) u)) = 0) : False := by
  rw [side_translate] at h1 h2
  apply hs
  have h3 : (m3 + m1) * side n a b w0 = 0 := by
    linear_combination m3 * h1 + m1 * h2
  rcases mul_eq_zero.1 h3 with h4 | h4
  · linarith
  · exact h4

/-- Distinct coefficients along a nonzero direction give distinct
points. -/
theorem pt_ne_of_coeff_ne (z e : vec3) (c1 c2 : ℚ) (he : e ≠ vzero)
    (hc : c1 ≠ c2) : vadd z (smul c1 e) ≠ vadd z (smul c2 e) := by
  intro h
  apply hc
  have hL : vadd (vadd z (smul c2 e)) (smul (c1 - c2) e) =
      vadd z (smul c1 e) := by
    rw [vec3_eq_iff]
    simp only [vadd, smul]
    refine ⟨?_, ?_, ?_⟩ <;> ring
  have h2 : vadd (vadd z (smul c2 e)) (smul (c1 - c2) e) =
      vadd z (smul c2 e) := by rw [hL, h]
  have h3 := smul_cancel_vadd (vadd z (smul c2 e)) e (c1 - c2) he h2
  linarith

/-- A factor with strictly positive product is nonzero. -/
theorem side_ne_of_wpos (D s : ℚ) (h : 0 < D * s) : s ≠ 0 := by
  intro hs
  rw [hs, mul_zero] at h
  exact lt_irrefl 0 h

/-- Strict barycentric membership implies closed membership. -/
theorem strict_to_mem (a b c z : vec3) (h : strictlyInTriangle a b c z) :
    inTriangle a b c z := by
  obtain ⟨al, be, ga, h1, h2, h3, h4, h5⟩ := h
  exact ⟨al, be, ga, le_of_lt h1, le_of_lt h2, le_of_lt h3, h4, h5⟩

/-- Left cancellation of vector addition. -/
theorem vadd_cancel_left3 (w a b : vec3) (h : vadd w a = vadd w b) :
    a = b := by
  rw [vec3_eq_iff] at h ⊢
  simp only [vadd] at h
  obtain ⟨h1, h2, h3⟩ := h
  refine ⟨?_, ?_, ?_⟩ <;> linarith

/-- The two edge directions from the base vertex of a nondegenerate
triangle are linearly independent. -/
theorem indep_dirs (p0 p1 p2 : vec3) (hP : nondegenerate p0 p1 p2)
    (s t : ℚ) (hs : s ≠ 0)
    (h : smul s (vsub p2 p0) = smul t (vsub p1 p0)) : False := by
  have hx := congrArg vec3.x h
  have hy := congrArg vec3.y h
  have hz := congrArg vec3.z h
  simp only [smul, vsub] at hx hy hz
  apply hP
  rw [vec3_eq_iff]
  simp only [triNormal, cross, vsub, vzero]
  refine ⟨?_, ?_, ?_⟩
  · have h1 : s * ((p1.y - p0.y) * (p2.z - p0.z) -
        (p1.z - p0.z) * (p2.y - p0.y)) = 0 := by
      linear_combination (p1.y - p0.y) * hz - (p1.z - p0.z) * hy
    rcases mul_eq_zero.1 h1 with h2 | h2
    · exact absurd h2 hs
    · exact h2
  · have h1 : s * ((p1.z - p0.z) * (p2.x - p0.x) -
        (p1.x - p0.x) * (p2.z - p0.z)) = 0 := by
      linear_combination (p1.z - p0.z) * hx - (p1.x - p0.x) * hz
    rcases mul_eq_zero.1 h1 with h2 | h2
    · exact absurd h2 hs
    · exact h2
  · have h1 : s * ((p1.x - p0.x) * (p2.y - p0.y) -
        (p1.y - p0.y) * (p2.x - p0.x)) = 0 := by
      linear_combination (p1.x - p0.x) * hy - (p1.y - p0.y) * hx
    rcases mul_eq_zero.1 h1 with h2 | h2
    · exact absurd h2 hs
    · exact h2

/-- When the first triangle is nondegenerate and the second lies in its
plane, the first also lies in the plane of the second. -/
theorem coplanar_reverse (p0 p1 p2 q0 q1 q2 : vec3)
    (hP : nondegenerate p0 p1 p2) (hQ : nondegenerate q0 q1 q2)
    (hq0 : orient3d p0 p1 p2 q0 = 0) (hq1 : orient3d p0 p1 p2 q1 = 0)
    (hq2 : orient3d p0 p1 p2 q2 = 0) :
    orient3d q0 q1 q2 p0 = 0 ∧ orient3d q0 q1 q2 p1 = 0 ∧
      orient3d q0 q1 q2 p2 = 0 := by
  obtain ⟨lam, hlam, hm⟩ :=
    coplanar_normals p0 p1 p2 q0 q1 q2 hP hQ hq0 hq1 hq2
  have e0 : dot (triNormal p0 p1 p2) (vsub q0 p0) = 0 := hq0
  have hp0 : dot (triNormal p0 p1 p2) (vsub p0 q0) = 0 := by
    rw [dot_vsub_neg, e0]
    ring
  have hp1 : dot (triNormal p0 p1 p2) (vsub p1 q0) = 0 := by
    rw [dot_vsub_split (triNormal p0 p1 p2) p1 q0 p0, e0]
    have h1 : dot (triNormal p0 p1 p2) (vsub p1 p0) = 0 := by
      simp only [triNormal, cross, dot, vsub]
      ring
    rw [h1]
    ring
  have hp2 : dot (triNormal p0 p1 p2) (vsub p2 q0) = 0 := by
    rw [dot_vsub_split (triNormal p0 p1 p2) p2 q0 p0, e0]
    have h1 : dot (triNormal p0 p1 p2) (vsub p2 p0) = 0 := by
      simp only [triNormal, cross, dot, vsub]
      ring
    rw [h1]
    ring
  refine ⟨?_, ?_, ?_⟩
  · show dot (triNormal q0 q1 q2) (vsub p0 q0) = 0
    rw [hm, dot_smul_left, hp0]
    ring
  · show dot (triNormal q0 q1 q2) (vsub p1 q0) = 0
    rw [hm, dot_smul_left, hp1]
    ring
  · show dot (triNormal q0 q1 q2) (vsub p2 q0) = 0
    rw [hm, dot_smul_left, hp2]
    ring

/-- A member of the overlap with no flat in-plane direction is an
extreme point. -/
theorem extreme_of_no_flat (p0 p1 p2 q0 q1 q2 z : vec3)
    (hP : nondegenerate p0 p1 p2) (hQ : nondegenerate q0 q1 q2)
    (hq0 : orient3d p0 p1 p2 q0 = 0) (hq1 : orient3d p0 p1 p2 q1 = 0)
    (hq2 : orient3d p0 p1 p2 q2 = 0)
    (hsv : ¬ sharesVertex p0 p1 p2 q0 q1 q2)
    (hz : z ∈ overlapSet p0 p1 p2 q0 q1 q2)
    (hnoflat : ∀ u : vec3, u ≠ vzero →
      dot (triNormal p0 p1 p2) u = 0 →
      (side (triNormal p0 p1 p2) p1 p2 z = 0 →
        dot (cross (vsub p2 p1) u) (triNormal p0 p1 p2) = 0) →
      (side (triNormal p0 p1 p2) p2 p0 z = 0 →
        dot (cross (vsub p0 p2) u) (triNormal p0 p1 p2) = 0) →
      (side (triNormal p0 p1 p2) p0 p1 z = 0 →
        dot (cross (vsub p1 p0) u) (triNormal p0 p1 p2) = 0) →
      (side (triNormal p0 p1 p2) q1 q2 z = 0 →
        dot (cross (vsub q2 q1) u) (triNormal p0 p1 p2) = 0) →
      (side (triNormal p0 p1 p2) q2 q0 z = 0 →
        dot (cross (vsub q0 q2) u) (triNormal p0 p1 p2) = 0) →
      (side (triNormal p0 p1 p2) q0 q1 z = 0 →
        dot (cross (vsub q1 q0) u) (triNormal p0 p1 p2) = 0) →
      False) :
    isExtremePt (overlapSet p0 p1 p2 q0 q1 q2) z := by
  obtain ⟨pr, hpr, hre⟩ := emitted_of_no_flat p0 p1 p2 q0 q1 q2 z
    hP hQ hq0 hq1 hq2 hsv hz hnoflat
  have h := emitted_extreme p0 p1 p2 q0 q1 q2 hP hQ hq0 hq1 hq2 pr hpr
  rwa [hre] at h

/-- From two distinct values and two further distinct values, all
sharing a property, three pairwise distinct values with the property can
be selected unless both of the latter lie among the former. -/
theorem three_of_two_two {α : Type} (X1 X2 Y1 Y2 : α) (P : α → Prop)
    (hX : X1 ≠ X2) (hY : Y1 ≠ Y2)
    (hX1 : P X1) (hX2 : P X2) (hY1 : P Y1) (hY2 : P Y2)
    (hnb : ¬ ((Y1 = X1 ∨ Y1 = X2) ∧ (Y2 = X1 ∨ Y2 = X2))) :
    ∃ w1 w2 w3 : α, w1 ≠ w2 ∧ w1 ≠ w3 ∧ w2 ≠ w3 ∧
      P w1 ∧ P w2 ∧ P w3 := by
  by_cases h1 : Y1 = X1 ∨ Y1 = X2
  · have h2 : ¬ (Y2 = X1 ∨ Y2 = X2) := fun h => hnb ⟨h1, h⟩
    push_neg at h2
    exact ⟨X1, X2, Y2, hX, Ne.symm h2.1, Ne.symm h2.2, hX1, hX2, hY2⟩
  · push_neg at h1
    exact ⟨X1, X2, Y1, hX, Ne.symm h1.1, Ne.symm h1.2, hX1, hX2, hY1⟩

/-- A list containing three pairwise distinct elements has length at
least three. -/
theorem three_distinct_mem_length {α : Type} (l : List α) (x y z : α)
    (hx : x ∈ l) (hy : y ∈ l) (hz : z ∈ l)
    (hxy : x ≠ y) (hxz : x ≠ z) (hyz : y ≠ z) : 3 ≤ l.length := by
  classical
  have hsub : ({x, y, z} : Finset α) ⊆ l.toFinset := by
    intro a ha
    simp only [Finset.mem_insert, Finset.mem_singleton] at ha
    rcases ha with rfl | rfl | rfl <;> rw [List.mem_toFinset] <;> assumption
  have hcard : ({x, y, z} : Finset α).card = 3 := by
    rw [Finset.card_insert_of_not_mem (by simp [hxy, hxz]),
      Finset.card_insert_of_not_mem (by simp [hyz]),
      Finset.card_singleton]
  have hle : ({x, y, z} : Finset α).card ≤ l.toFinset.card :=
    Finset.card_le_card hsub
  have hfin := l.toFinset_card_le
  omega

/-- A member of the overlap lying on one of the six edge lines either is
itself extreme, or the segment of that line inside the overlap ends at
two distinct extreme points on the two sides. -/
theorem extremes_on_line (p0 p1 p2 q0 q1 q2 z a b : vec3)
    (hP : nondegenerate p0 p1 p2) (hQ : nondegenerate q0 q1 q2)
    (hq0 : orient3d p0 p1 p2 q0 = 0) (hq1 : orient3d p0 p1 p2 q1 = 0)
    (hq2 : orient3d p0 p1 p2 q2 = 0)
    (hsv : ¬ sharesVertex p0 p1 p2 q0 q1 q2)
    (hz : z ∈ overlapSet p0 p1 p2 q0 q1 q2)
    (hmem : (a, b) = (p1, p2) ∨ (a, b) = (p2, p0) ∨ (a, b) = (p0, p1) ∨
      (a, b) = (q1, q2) ∨ (a, b) = (q2, q0) ∨ (a, b) = (q0, q1))
    (hv : side (triNormal p0 p1 p2) a b z = 0) :
    isExtremePt (overlapSet p0 p1 p2 q0 q1 q2) z ∨
    ∃ c1 c2 : ℚ, c1 ≠ c2 ∧
      isExtremePt (overlapSet p0 p1 p2 q0 q1 q2)
        (vadd z (smul c1 (vsub b a))) ∧
      isExtremePt (overlapSet p0 p1 p2 q0 q1 q2)
        (vadd z (smul c2 (vsub b a))) := by
  by_cases hfl : ∃ v : vec3, v ≠ vzero ∧ dot (triNormal p0 p1 p2) v = 0 ∧
      (side (triNormal p0 p1 p2) p1 p2 z = 0 →
        dot (cross (vsub p2 p1) v) (triNormal p0 p1 p2) = 0) ∧
      (side (triNormal p0 p1 p2) p2 p0 z = 0 →
        dot (cross (vsub p0 p2) v) (triNormal p0 p1 p2) = 0) ∧
      (side (triNormal p0 p1 p2) p0 p1 z = 0 →
        dot (cross (vsub p1 p0) v) (triNormal p0 p1 p2) = 0) ∧
      (side (triNormal p0 p1 p2) q1 q2 z = 0 →
        dot (cross (vsub q2 q1) v) (triNormal p0 p1 p2) = 0) ∧
      (side (triNormal p0 p1 p2) q2 q0 z = 0 →
        dot (cross (vsub q0 q2) v) (triNormal p0 p1 p2) = 0) ∧
      (side (triNormal p0 p1 p2) q0 q1 z = 0 →
        dot (cross (vsub q1 q0) v) (triNormal p0 p1 p2) = 0)
  · obtain ⟨v, hvne, hvpl, hi1, hi2, hi3, hi4, hi5, hi6⟩ := hfl
    right
    have hnn : dot (triNormal p0 p1 p2) (triNormal p0 p1 p2) ≠ 0 :=
      ne_of_gt (dot_self_pos _ hP)
    have hxv : dot (cross (vsub b a) v) (triNormal p0 p1 p2) = 0 :=
      vanishing_flat_slope p0 p1 p2 q0 q1 q2 z v a b hmem
        hi1 hi2 hi3 hi4 hi5 hi6 hv
    have hexne : vsub b a ≠ vzero :=
      edge_mem_ne p0 p1 p2 q0 q1 q2 a b hP hQ hmem
    have hexpl : dot (triNormal p0 p1 p2) (vsub b a) = 0 :=
      edge_mem_inplane p0 p1 p2 q0 q1 q2 a b hq0 hq1 hq2 hmem
    have hee : dot (vsub b a) (vsub b a) ≠ 0 :=
      fun h => hexne ((dot_self_eq_zero_iff _).1 h)
    have hcev : cross (vsub b a) v = vzero :=
      inplane_cross_slope_zero (triNormal p0 p1 p2) (vsub b a) v hnn
        hexpl hvpl hxv
    obtain ⟨k, hkv⟩ : ∃ k : ℚ, v = smul k (vsub b a) :=
      ⟨_, parallel_of_cross_zero v (vsub b a) hee
        (cross_anticomm_zero _ _ hcev)⟩
    have hk0 : k ≠ 0 := by
      intro h
      apply hvne
      rw [hkv, h]
      exact smul_zero_vec _
    obtain ⟨m1, hm1, hz1, a1, b1, hmem1, hvan1, hsl1⟩ :=
      S_flat_exit_van p0 p1 p2 q0 q1 q2 z v hP hQ hq0 hq1 hq2 hz hvpl hvne
        hi1 hi2 hi3 hi4 hi5 hi6
    have hvpl2 : dot (triNormal p0 p1 p2) (smul (-1) v) = 0 := by
      rw [dot_smul_right, hvpl]
      ring
    have hvne2 : smul (-1) v ≠ vzero := smul_ne_vzero (-1) v (by norm_num) hvne
    obtain ⟨m2, hm2, hz2, a2, b2, hmem2, hvan2, hsl2⟩ :=
      S_flat_exit_van p0 p1 p2 q0 q1 q2 z (smul (-1) v) hP hQ hq0 hq1 hq2 hz
        hvpl2 hvne2
        (fun hw => by rw [slope_smul_dir, hi1 hw]; ring)
        (fun hw => by rw [slope_smul_dir, hi2 hw]; ring)
        (fun hw => by rw [slope_smul_dir, hi3 hw]; ring)
        (fun hw => by rw [slope_smul_dir, hi4 hw]; ring)
        (fun hw => by rw [slope_smul_dir, hi5 hw]; ring)
        (fun hw => by rw [slope_smul_dir, hi6 hw]; ring)
    refine ⟨m1 * k, -(m2 * k), ?_, ?_, ?_⟩
    · intro h
      apply hk0
      have h3 : (m1 + m2) * k = 0 := by linear_combination h
      rcases mul_eq_zero.1 h3 with h4 | h4
      · linarith
      · exact h4
    · have hpt : vadd z (smul (m1 * k) (vsub b a)) = vadd z (smul m1 v) := by
        rw [hkv, smul_smul_vec]
      rw [hpt]
      apply extreme_of_no_flat p0 p1 p2 q0 q1 q2 _ hP hQ hq0 hq1 hq2 hsv hz1
      intro u hune hupl hu1 hu2 hu3 hu4 hu5 hu6
      have hxz1 : side (triNormal p0 p1 p2) a b (vadd z (smul m1 v)) = 0 := by
        rw [side_translate, hv, hxv]
        ring
      have hxu : dot (cross (vsub b a) u) (triNormal p0 p1 p2) = 0 :=
        vanishing_flat_slope p0 p1 p2 q0 q1 q2 (vadd z (smul m1 v)) u a b hmem
          hu1 hu2 hu3 hu4 hu5 hu6 hxz1
      have hpsu : dot (cross (vsub b1 a1) u) (triNormal p0 p1 p2) = 0 :=
        vanishing_flat_slope p0 p1 p2 q0 q1 q2 (vadd z (smul m1 v)) u a1 b1
          hmem1 hu1 hu2 hu3 hu4 hu5 hu6 hvan1
      exact no_flat_core (triNormal p0 p1 p2) (vsub b a) (vsub b1 a1) v u hnn
        hexpl hvpl hupl hexne hune hxv hsl1 hxu hpsu
    · have hpt : vadd z (smul (-(m2 * k)) (vsub b a)) =
          vadd z (smul m2 (smul (-1) v)) := by
        rw [hkv, vec3_eq_iff]
        simp only [vadd, smul]
        refine ⟨?_, ?_, ?_⟩ <;> ring
      rw [hpt]
      apply extreme_of_no_flat p0 p1 p2 q0 q1 q2 _ hP hQ hq0 hq1 hq2 hsv hz2
      intro u hune hupl hu1 hu2 hu3 hu4 hu5 hu6
      have hxz2 : side (triNormal p0 p1 p2) a b
          (vadd z (smul m2 (smul (-1) v))) = 0 := by
        rw [side_translate, hv, slope_smul_dir, hxv]
        ring
      have hxu : dot (cross (vsub b a) u) (triNormal p0 p1 p2) = 0 :=
        vanishing_flat_slope p0 p1 p2 q0 q1 q2
          (vadd z (smul m2 (smul (-1) v))) u a b hmem
          hu1 hu2 hu3 hu4 hu5 hu6 hxz2
      have hpsu : dot (cross (vsub b2 a2) u) (triNormal p0 p1 p2) = 0 :=
        vanishing_flat_slope p0 p1 p2 q0 q1 q2
          (vadd z (smul m2 (smul (-1) v))) u a2 b2 hmem2
          hu1 hu2 hu3 hu4 hu5 hu6 hvan2
      have hsl2x : dot (cross (vsub b2 a2) v) (triNormal p0 p1 p2) ≠ 0 := by
        rw [slope_smul_dir] at hsl2
        intro h
        apply hsl2
        rw [h]
        ring
      exact no_flat_core (triNormal p0 p1 p2) (vsub b a) (vsub b2 a2) v u hnn
        hexpl hvpl hupl hexne hune hxv hsl2x hxu hpsu
  · left
    apply extreme_of_no_flat p0 p1 p2 q0 q1 q2 z hP hQ hq0 hq1 hq2 hsv hz
    intro u hune hupl h1 h2 h3 h4 h5 h6
    exact hfl ⟨u, hune, hupl, h1, h2, h3, h4, h5, h6⟩

set_option maxHeartbeats 1000000 in
/-- An overlap with a strictly interior point has at least three pairwise
distinct extreme points. -/
theorem three_extremes (p0 p1 p2 q0 q1 q2 w0 : vec3)
    (hP : nondegenerate p0 p1 p2) (hQ : nondegenerate q0 q1 q2)
    (hq0 : orient3d p0 p1 p2 q0 = 0) (hq1 : orient3d p0 p1 p2 q1 = 0)
    (hq2 : orient3d p0 p1 p2 q2 = 0)
    (hsv : ¬ sharesVertex p0 p1 p2 q0 q1 q2)
    (hw0P : strictlyInTriangle p0 p1 p2 w0)
    (hw0Q : strictlyInTriangle q0 q1 q2 w0) :
    ∃ w1 w2 w3 : vec3, w1 ≠ w2 ∧ w1 ≠ w3 ∧ w2 ≠ w3 ∧
      isExtremePt (overlapSet p0 p1 p2 q0 q1 q2) w1 ∧
      isExtremePt (overlapSet p0 p1 p2 q0 q1 q2) w2 ∧
      isExtremePt (overlapSet p0 p1 p2 q0 q1 q2) w3 := by
  have hw0 : w0 ∈ overlapSet p0 p1 p2 q0 q1 q2 :=
    ⟨strict_to_mem _ _ _ _ hw0P, strict_to_mem _ _ _ _ hw0Q⟩
  have hplP1 : dot (triNormal p0 p1 p2) (vsub p1 p0) = 0 := by
    simp only [triNormal, cross, dot, vsub]
    ring
  have hplP2 : dot (triNormal p0 p1 p2) (vsub p2 p0) = 0 := by
    simp only [triNormal, cross, dot, vsub]
    ring
  have hw0pl : dot (triNormal p0 p1 p2) (vsub w0 p0) = 0 :=
    inTriangle_inplane (triNormal p0 p1 p2) p0 p1 p2 w0 hplP1 hplP2
      (strict_to_mem _ _ _ _ hw0P)
  obtain ⟨lam, hlam, hm⟩ :=
    coplanar_normals p0 p1 p2 q0 q1 q2 hP hQ hq0 hq1 hq2
  have hw0plq : dot (triNormal p0 p1 p2) (vsub w0 q0) = 0 := by
    rw [dot_vsub_split _ w0 q0 p0, hw0pl]
    have h0 : dot (triNormal p0 p1 p2) (vsub q0 p0) = 0 := hq0
    rw [h0]
    ring
  have hA := (strict_mem_tri_signs (triNormal p0 p1 p2) p0 p1 p2 w0 1 hP hP
    (smul_one_self _).symm one_ne_zero hw0pl).1 hw0P
  have hB := (strict_mem_tri_signs (triNormal p0 p1 p2) q0 q1 q2 w0 lam hQ hP
    hm hlam hw0plq).1 hw0Q
  have hw0x : ∀ a b : vec3,
      ((a, b) = (p1, p2) ∨ (a, b) = (p2, p0) ∨ (a, b) = (p0, p1) ∨
        (a, b) = (q1, q2) ∨ (a, b) = (q2, q0) ∨ (a, b) = (q0, q1)) →
      side (triNormal p0 p1 p2) a b w0 ≠ 0 := by
    intro a b h
    rcases h with h | h | h | h | h | h <;>
      (rw [Prod.mk.injEq] at h; obtain ⟨ha, hb⟩ := h; rw [ha, hb])
    · exact side_ne_of_wpos _ _ hA.1
    · exact side_ne_of_wpos _ _ hA.2.1
    · exact side_ne_of_wpos _ _ hA.2.2
    · exact side_ne_of_wpos _ _ hB.1
    · exact side_ne_of_wpos _ _ hB.2.1
    · exact side_ne_of_wpos _ _ hB.2.2
  have hu1ne : vsub p1 p0 ≠ vzero := edge_ne_vzero_01 p0 p1 p2 hP
  have hu2ne : vsub p2 p0 ≠ vzero := by
    have h1 : vsub p0 p2 ≠ vzero := edge_ne_vzero_01 p2 p0 p1
      (nondegenerate_cyc p1 p2 p0 (nondegenerate_cyc p0 p1 p2 hP))
    exact vsub_ne_vzero p0 p2 (Ne.symm (ne_of_vsub_ne_vzero p2 p0 h1))
  have hu1ne3 : smul (-1) (vsub p1 p0) ≠ vzero :=
    smul_ne_vzero (-1) _ (by norm_num) hu1ne
  have hu1pl3 : dot (triNormal p0 p1 p2) (smul (-1) (vsub p1 p0)) = 0 := by
    rw [dot_smul_right, hplP1]
    ring
  obtain ⟨m1, hm10, hzin1, a1, b1, hmem1, hvan1, -⟩ :=
    S_flat_exit_van p0 p1 p2 q0 q1 q2 w0 (vsub p1 p0) hP hQ hq0 hq1 hq2 hw0
      hplP1 hu1ne
      (fun h => absurd h (hw0x p1 p2 (Or.inl rfl)))
      (fun h => absurd h (hw0x p2 p0 (Or.inr (Or.inl rfl))))
      (fun h => absurd h (hw0x p0 p1 (Or.inr (Or.inr (Or.inl rfl)))))
      (fun h => absurd h (hw0x q1 q2 (Or.inr (Or.inr (Or.inr (Or.inl rfl))))))
      (fun h => absurd h
        (hw0x q2 q0 (Or.inr (Or.inr (Or.inr (Or.inr (Or.inl rfl)))))))
      (fun h => absurd h
        (hw0x q0 q1 (Or.inr (Or.inr (Or.inr (Or.inr (Or.inr rfl)))))))
  obtain ⟨m3, hm30, hzin3, a3, b3, hmem3, hvan3, -⟩ :=
    S_flat_exit_van p0 p1 p2 q0 q1 q2 w0 (smul (-1) (vsub p1 p0)) hP hQ
      hq0 hq1 hq2 hw0 hu1pl3 hu1ne3
      (fun h => absurd h (hw0x p1 p2 (Or.inl rfl)))
      (fun h => absurd h (hw0x p2 p0 (Or.inr (Or.inl rfl))))
      (fun h => absurd h (hw0x p0 p1 (Or.inr (Or.inr (Or.inl rfl)))))
      (fun h => absurd h (hw0x q1 q2 (Or.inr (Or.inr (Or.inr (Or.inl rfl))))))
      (fun h => absurd h
        (hw0x q2 q0 (Or.inr (Or.inr (Or.inr (Or.inr (Or.inl rfl)))))))
      (fun h => absurd h
        (hw0x q0 q1 (Or.inr (Or.inr (Or.inr (Or.inr (Or.inr rfl)))))))
  obtain ⟨m2, hm20, hzin2, a2, b2, hmem2, hvan2, -⟩ :=
    S_flat_exit_van p0 p1 p2 q0 q1 q2 w0 (vsub p2 p0) hP hQ hq0 hq1 hq2 hw0
      hplP2 hu2ne
      (fun h => absurd h (hw0x p1 p2 (Or.inl rfl)))
      (fun h => absurd h (hw0x p2 p0 (Or.inr (Or.inl rfl))))
      (fun h => absurd h (hw0x p0 p1 (Or.inr (Or.inr (Or.inl rfl)))))
      (fun h => absurd h (hw0x q1 q2 (Or.inr (Or.inr (Or.inr (Or.inl rfl))))))
      (fun h => absurd h
        (hw0x q2 q0 (Or.inr (Or.inr (Or.inr (Or.inr (Or.inl rfl)))))))
      (fun h => absurd h
        (hw0x q0 q1 (Or.inr (Or.inr (Or.inr (Or.inr (Or.inr rfl)))))))
  have hzbeq : vadd w0 (smul m3 (smul (-1) (vsub p1 p0))) =
      vadd w0 (smul (-m3) (vsub p1 p0)) := by
    rw [vec3_eq_iff]
    simp only [vadd, smul]
    refine ⟨?_, ?_, ?_⟩ <;> ring
  rw [hzbeq] at hzin3 hvan3
  rcases extremes_on_line p0 p1 p2 q0 q1 q2
      (vadd w0 (smul m1 (vsub p1 p0))) a1 b1
      hP hQ hq0 hq1 hq2 hsv hzin1 hmem1 hvan1 with
    hEa | ⟨c1, c2, hc12, hPe1, hPe2⟩
  · -- the forward exit point along the first edge direction is extreme
    rcases extremes_on_line p0 p1 p2 q0 q1 q2
        (vadd w0 (smul (-m3) (vsub p1 p0))) a3 b3
        hP hQ hq0 hq1 hq2 hsv hzin3 hmem3 hvan3 with
      hEb | ⟨d1, d2, hd12, hQe1, hQe2⟩
    · -- both axis exit points are extreme and distinct; a third comes
      -- from the second edge direction
      have hzazb : vadd w0 (smul m1 (vsub p1 p0)) ≠
          vadd w0 (smul (-m3) (vsub p1 p0)) :=
        pt_ne_of_coeff_ne w0 (vsub p1 p0) m1 (-m3) hu1ne
          (by intro h; rw [h] at hm10; linarith)
      rcases extremes_on_line p0 p1 p2 q0 q1 q2
          (vadd w0 (smul m2 (vsub p2 p0))) a2 b2
          hP hQ hq0 hq1 hq2 hsv hzin2 hmem2 hvan2 with
        hEc | ⟨f1, f2, hf12, hRe1, hRe2⟩
      · have hca : vadd w0 (smul m2 (vsub p2 p0)) ≠
            vadd w0 (smul m1 (vsub p1 p0)) := by
          intro h
          exact indep_dirs p0 p1 p2 hP m2 m1 (ne_of_gt hm20)
            (vadd_cancel_left3 w0 _ _ h)
        have hcb : vadd w0 (smul m2 (vsub p2 p0)) ≠
            vadd w0 (smul (-m3) (vsub p1 p0)) := by
          intro h
          exact indep_dirs p0 p1 p2 hP m2 (-m3) (ne_of_gt hm20)
            (vadd_cancel_left3 w0 _ _ h)
        exact ⟨vadd w0 (smul m1 (vsub p1 p0)),
          vadd w0 (smul (-m3) (vsub p1 p0)),
          vadd w0 (smul m2 (vsub p2 p0)),
          hzazb, Ne.symm hca, Ne.symm hcb, hEa, hEb, hEc⟩
      · have hR1R2 : vadd (vadd w0 (smul m2 (vsub p2 p0)))
            (smul f1 (vsub b2 a2)) ≠
            vadd (vadd w0 (smul m2 (vsub p2 p0))) (smul f2 (vsub b2 a2)) :=
          pt_ne_of_coeff_ne _ _ f1 f2
            (edge_mem_ne p0 p1 p2 q0 q1 q2 a2 b2 hP hQ hmem2) hf12
        have hRon1 : side (triNormal p0 p1 p2) a2 b2
            (vadd (vadd w0 (smul m2 (vsub p2 p0)))
              (smul f1 (vsub b2 a2))) = 0 := by
          rw [side_translate, hvan2, slope_self_edge]
          ring
        have hRon2 : side (triNormal p0 p1 p2) a2 b2
            (vadd (vadd w0 (smul m2 (vsub p2 p0)))
              (smul f2 (vsub b2 a2))) = 0 := by
          rw [side_translate, hvan2, slope_self_edge]
          ring
        have hnb : ¬ ((vadd w0 (smul m1 (vsub p1 p0)) =
              vadd (vadd w0 (smul m2 (vsub p2 p0)))
                (smul f1 (vsub b2 a2)) ∨
            vadd w0 (smul m1 (vsub p1 p0)) =
              vadd (vadd w0 (smul m2 (vsub p2 p0)))
                (smul f2 (vsub b2 a2))) ∧
            (vadd w0 (smul (-m3) (vsub p1 p0)) =
              vadd (vadd w0 (smul m2 (vsub p2 p0)))
                (smul f1 (vsub b2 a2)) ∨
            vadd w0 (smul (-m3) (vsub p1 p0)) =
              vadd (vadd w0 (smul m2 (vsub p2 p0)))
                (smul f2 (vsub b2 a2)))) := by
          rintro ⟨h1, h2⟩
          have hva : side (triNormal p0 p1 p2) a2 b2
              (vadd w0 (smul m1 (vsub p1 p0))) = 0 := by
            rcases h1 with h | h
            · rw [h]; exact hRon1
            · rw [h]; exact hRon2
          have hvb : side (triNormal p0 p1 p2) a2 b2
              (vadd w0 (smul (-m3) (vsub p1 p0))) = 0 := by
            rcases h2 with h | h
            · rw [h]; exact hRon1
            · rw [h]; exact hRon2
          exact vanish_both_sides (triNormal p0 p1 p2) a2 b2 w0
            (vsub p1 p0) m1 m3 hm10 hm30 (hw0x a2 b2 hmem2) hva hvb
        exact three_of_two_two _ _ _ _ _ hR1R2 hzazb hRe1 hRe2 hEa hEb hnb
    · -- the backward axis point splits into two extreme endpoints
      have hQ1Q2 : vadd (vadd w0 (smul (-m3) (vsub p1 p0)))
          (smul d1 (vsub b3 a3)) ≠
          vadd (vadd w0 (smul (-m3) (vsub p1 p0))) (smul d2 (vsub b3 a3)) :=
        pt_ne_of_coeff_ne _ _ d1 d2
          (edge_mem_ne p0 p1 p2 q0 q1 q2 a3 b3 hP hQ hmem3) hd12
      have hQon1 : side (triNormal p0 p1 p2) a3 b3
          (vadd (vadd w0 (smul (-m3) (vsub p1 p0)))
            (smul d1 (vsub b3 a3))) = 0 := by
        rw [side_translate, hvan3, slope_self_edge]
        ring
      have hQon2 : side (triNormal p0 p1 p2) a3 b3
          (vadd (vadd w0 (smul (-m3) (vsub p1 p0)))
            (smul d2 (vsub b3 a3))) = 0 := by
        rw [side_translate, hvan3, slope_self_edge]
        ring
      have hza1 : vadd w0 (smul m1 (vsub p1 p0)) ≠
          vadd (vadd w0 (smul (-m3) (vsub p1 p0)))
            (smul d1 (vsub b3 a3)) := by
        intro h
        have hv3 : side (triNormal p0 p1 p2) a3 b3
            (vadd w0 (smul m1 (vsub p1 p0))) = 0 := by
          rw [h]
          exact hQon1
        exact vanish_both_sides (triNormal p0 p1 p2) a3 b3 w0 (vsub p1 p0)
          m1 m3 hm10 hm30 (hw0x a3 b3 hmem3) hv3 hvan3
      have hza2 : vadd w0 (smul m1 (vsub p1 p0)) ≠
          vadd (vadd w0 (smul (-m3) (vsub p1 p0)))
            (smul d2 (vsub b3 a3)) := by
        intro h
        have hv3 : side (triNormal p0 p1 p2) a3 b3
            (vadd w0 (smul m1 (vsub p1 p0))) = 0 := by
          rw [h]
          exact hQon2
        exact vanish_both_sides (triNormal p0 p1 p2) a3 b3 w0 (vsub p1 p0)
          m1 m3 hm10 hm30 (hw0x a3 b3 hmem3) hv3 hvan3
      exact ⟨vadd (vadd w0 (smul (-m3) (vsub p1 p0))) (smul d1 (vsub b3 a3)),
        vadd (vadd w0 (smul (-m3) (vsub p1 p0))) (smul d2 (vsub b3 a3)),
        vadd w0 (smul m1 (vsub p1 p0)),
        hQ1Q2, Ne.symm hza1, Ne.symm hza2, hQe1, hQe2, hEa⟩
  · -- the forward axis point splits into two extreme endpoints
    have hP1P2 : vadd (vadd w0 (smul m1 (vsub p1 p0)))
        (smul c1 (vsub b1 a1)) ≠
        vadd (vadd w0 (smul m1 (vsub p1 p0))) (smul c2 (vsub b1 a1)) :=
      pt_ne_of_coeff_ne _ _ c1 c2
        (edge_mem_ne p0 p1 p2 q0 q1 q2 a1 b1 hP hQ hmem1) hc12
    have hPon1 : side (triNormal p0 p1 p2) a1 b1
        (vadd (vadd w0 (smul m1 (vsub p1 p0)))
          (smul c1 (vsub b1 a1))) = 0 := by
      rw [side_translate, hvan1, slope_self_edge]
      ring
    have hPon2 : side (triNormal p0 p1 p2) a1 b1
        (vadd (vadd w0 (smul m1 (vsub p1 p0)))
          (smul c2 (vsub b1 a1))) = 0 := by
      rw [side_translate, hvan1, slope_self_edge]
      ring
    rcases extremes_on_line p0 p1 p2 q0 q1 q2
        (vadd w0 (smul (-m3) (vsub p1 p0))) a3 b3
        hP hQ hq0 hq1 hq2 hsv hzin3 hmem3 hvan3 with
      hEb | ⟨d1, d2, hd12, hQe1, hQe2⟩
    · have hzb1 : vadd w0 (smul (-m3) (vsub p1 p0)) ≠
          vadd (vadd w0 (smul m1 (vsub p1 p0)))
            (smul c1 (vsub b1 a1)) := by
        intro h
        have hv3 : side (triNormal p0 p1 p2) a1 b1
            (vadd w0 (smul (-m3) (vsub p1 p0))) = 0 := by
          rw [h]
          exact hPon1
        exact vanish_both_sides (triNormal p0 p1 p2) a1 b1 w0 (vsub p1 p0)
          m1 m3 hm10 hm30 (hw0x a1 b1 hmem1) hvan1 hv3
      have hzb2 : vadd w0 (smul (-m3) (vsub p1 p0)) ≠
          vadd (vadd w0 (smul m1 (vsub p1 p0)))
            (smul c2 (vsub b1 a1)) := by
        intro h
        have hv3 : side (triNormal p0 p1 p2) a1 b1
            (vadd w0 (smul (-m3) (vsub p1 p0))) = 0 := by
          rw [h]
          exact hPon2
        exact vanish_both_sides (triNormal p0 p1 p2) a1 b1 w0 (vsub p1 p0)
          m1 m3 hm10 hm30 (hw0x a1 b1 hmem1) hvan1 hv3
      exact ⟨vadd (vadd w0 (smul m1 (vsub p1 p0))) (smul c1 (vsub b1 a1)),
        vadd (vadd w0 (smul m1 (vsub p1 p0))) (smul c2 (vsub b1 a1)),
        vadd w0 (smul (-m3) (vsub p1 p0)),
        hP1P2, Ne.symm hzb1, Ne.symm hzb2, hPe1, hPe2, hEb⟩
    · have hQ1Q2 : vadd (vadd w0 (smul (-m3) (vsub p1 p0)))
          (smul d1 (vsub b3 a3)) ≠
          vadd (vadd w0 (smul (-m3) (vsub p1 p0))) (smul d2 (vsub b3 a3)) :=
        pt_ne_of_coeff_ne _ _ d1 d2
          (edge_mem_ne p0 p1 p2 q0 q1 q2 a3 b3 hP hQ hmem3) hd12
      have hnb : ¬ ((vadd (vadd w0 (smul (-m3) (vsub p1 p0)))
              (smul d1 (vsub b3 a3)) =
            vadd (vadd w0 (smul m1 (vsub p1 p0)))
              (smul c1 (vsub b1 a1)) ∨
          vadd (vadd w0 (smul (-m3) (vsub p1 p0)))
              (smul d1 (vsub b3 a3)) =
            vadd (vadd w0 (smul m1 (vsub p1 p0)))
              (smul c2 (vsub b1 a1))) ∧
          (vadd (vadd w0 (smul (-m3) (vsub p1 p0)))
              (smul d2 (vsub b3 a3)) =
            vadd (vadd w0 (smul m1 (vsub p1 p0)))
              (smul c1 (vsub b1 a1)) ∨
          vadd (vadd w0 (smul (-m3) (vsub p1 p0)))
              (smul d2 (vsub b3 a3)) =
            vadd (vadd w0 (smul m1 (vsub p1 p0)))
              (smul c2 (vsub b1 a1)))) := by
        rintro ⟨h1, h2⟩
        have hq1v : side (triNormal p0 p1 p2) a1 b1
            (vadd (vadd w0 (smul (-m3) (vsub p1 p0)))
              (smul d1 (vsub b3 a3))) = 0 := by
          rcases h1 with h | h
          · rw [h]; exact hPon1
          · rw [h]; exact hPon2
        have hq2v : side (triNormal p0 p1 p2) a1 b1
            (vadd (vadd w0 (smul (-m3) (vsub p1 p0)))
              (smul d2 (vsub b3 a3))) = 0 := by
          rcases h2 with h | h
          · rw [h]; exact hPon1
          · rw [h]; exact hPon2
        have hzb0 : side (triNormal p0 p1 p2) a1 b1
            (vadd w0 (smul (-m3) (vsub p1 p0))) = 0 :=
          two_pts_vanish (triNormal p0 p1 p2) a1 b1 _ (vsub b3 a3)
            d1 d2 hd12 hq1v hq2v
        exact vanish_both_sides (triNormal p0 p1 p2) a1 b1 w0 (vsub p1 p0)
          m1 m3 hm10 hm30 (hw0x a1 b1 hmem1) hvan1 hzb0
      exact three_of_two_two _ _ _ _ _ hP1P2 hQ1Q2 hPe1 hPe2 hQe1 hQe2 hnb

set_option maxHeartbeats 1000000 in
/-- C4, amended: for valid coplanar triangles sharing no vertex whose
overlap has a strictly interior point (a proper polygon), the routine
answers true with between 3 and 6 emitted pairs, and the emitted region
labels, geometrically realized, form exactly the vertex (extreme point)
set of the convex intersection polygon of the two triangles. -/
theorem triangles_intersections_coplanar_polygon_vertices
    (p0 p1 p2 q0 q1 q2 w0 : vec3) (result : List TriangleIsect)
    (hP : nondegenerate p0 p1 p2) (hQ : nondegenerate q0 q1 q2)
    (hq0 : orient3d p0 p1 p2 q0 = 0) (hq1 : orient3d p0 p1 p2 q1 = 0)
    (hq2 : orient3d p0 p1 p2 q2 = 0)
    (hsv : ¬ sharesVertex p0 p1 p2 q0 q1 q2)
    (hw0P : strictlyInTriangle p0 p1 p2 w0)
    (hw0Q : strictlyInTriangle q0 q1 q2 w0) :
    (triangles_intersections p0 p1 p2 q0 q1 q2 result).1 = true ∧
    3 ≤ (triangles_intersections p0 p1 p2 q0 q1 q2 result).2.length ∧
    (triangles_intersections p0 p1 p2 q0 q1 q2 result).2.length ≤ 6 ∧
    ∀ z : vec3,
      (∃ I ∈ (triangles_intersections p0 p1 p2 q0 q1 q2 result).2,
        realizeIsect p0 p1 p2 q0 q1 q2 I = z) ↔
      isExtremePt (overlapSet p0 p1 p2 q0 q1 q2) z := by
  obtain ⟨hr0, hr1, hr2⟩ :=
    coplanar_reverse p0 p1 p2 q0 q1 q2 hP hQ hq0 hq1 hq2
  obtain ⟨wA, wB, wC, hab, hac, hbc, hEA, hEB, hEC⟩ :=
    three_extremes p0 p1 p2 q0 q1 q2 w0 hP hQ hq0 hq1 hq2 hsv hw0P hw0Q
  obtain ⟨prA, hprA, hreA⟩ :=
    extreme_emitted p0 p1 p2 q0 q1 q2 wA hP hQ hq0 hq1 hq2 hsv hEA
  obtain ⟨prB, hprB, hreB⟩ :=
    extreme_emitted p0 p1 p2 q0 q1 q2 wB hP hQ hq0 hq1 hq2 hsv hEB
  obtain ⟨prC, hprC, hreC⟩ :=
    extreme_emitted p0 p1 p2 q0 q1 q2 wC hP hQ hq0 hq1 hq2 hsv hEC
  have hprne1 : prA ≠ prB := by
    intro h
    apply hab
    rw [← hreA, ← hreB, h]
  have hprne2 : prA ≠ prC := by
    intro h
    apply hac
    rw [← hreA, ← hreC, h]
  have hprne3 : prB ≠ prC := by
    intro h
    apply hbc
    rw [← hreB, ← hreC, h]
  have hlen3 : 3 ≤ (coplanarPairs (triNormal p0 p1 p2)
      p0 p1 p2 q0 q1 q2).length :=
    three_distinct_mem_length _ prA prB prC hprA hprB hprC
      hprne1 hprne2 hprne3
  have hlen6 := coplanarPairs_length_le_six p0 p1 p2 q0 q1 q2 hP hQ
    hq0 hq1 hq2
  unfold triangles_intersections triangles_intersections_core
  split_ifs with h1 h2
  · exfalso
    rcases h1 with h | h
    · rcases h with ⟨ha, -, -⟩ | ⟨ha, -, -⟩ <;>
        (rw [hq0] at ha; exact lt_irrefl 0 ha)
    · rcases h with ⟨ha, -, -⟩ | ⟨ha, -, -⟩ <;>
        (rw [hr0] at ha; exact lt_irrefl 0 ha)
  · refine ⟨?_, ?_, ?_, ?_⟩
    · rw [packResult_fst]
      cases hL : (coplanarPairs (triNormal p0 p1 p2)
          p0 p1 p2 q0 q1 q2).map embedPair with
      | nil =>
        exfalso
        have hc := congrArg List.length hL
        rw [List.length_map] at hc
        simp only [List.length_nil] at hc
        omega
      | cons x xs => rfl
    · rw [packResult_snd, List.length_map]
      exact hlen3
    · rw [packResult_snd, List.length_map]
      exact hlen6
    · intro z
      constructor
      · rintro ⟨I, hI, hre⟩
        rw [packResult_snd, List.mem_map] at hI
        obtain ⟨pr, hpr, rfl⟩ := hI
        have h := emitted_extreme p0 p1 p2 q0 q1 q2 hP hQ hq0 hq1 hq2 pr hpr
        rwa [hre] at h
      · intro hext
        obtain ⟨pr, hpr, hre⟩ := extreme_emitted p0 p1 p2 q0 q1 q2 z
          hP hQ hq0 hq1 hq2 hsv hext
        refine ⟨embedPair pr, ?_, hre⟩
        rw [packResult_snd, List.mem_map]
        exact ⟨pr, hpr, rfl⟩
  · exact absurd ⟨⟨hq0, hq1, hq2⟩, hr0, hr1, hr2⟩ h2

/-- Witness for the amended C4 at a concrete coplanar pair with a proper
polygon overlap and no shared vertex. -/
theorem triangles_intersections_coplanar_polygon_vertices_witness :
    (nondegenerate ⟨0, 0, 0⟩ ⟨2, 0, 0⟩ ⟨0, 2, 0⟩ ∧
     nondegenerate ⟨1/8, 1/8, 0⟩ ⟨2, 1, 0⟩ ⟨1, 2, 0⟩ ∧
     orient3d ⟨0, 0, 0⟩ ⟨2, 0, 0⟩ ⟨0, 2, 0⟩ ⟨1/8, 1/8, 0⟩ = 0 ∧
     orient3d ⟨0, 0, 0⟩ ⟨2, 0, 0⟩ ⟨0, 2, 0⟩ ⟨2, 1, 0⟩ = 0 ∧
     orient3d ⟨0, 0, 0⟩ ⟨2, 0, 0⟩ ⟨0, 2, 0⟩ ⟨1, 2, 0⟩ = 0 ∧
     ¬ sharesVertex ⟨0, 0, 0⟩ ⟨2, 0, 0⟩ ⟨0, 2, 0⟩ ⟨1/8, 1/8, 0⟩ ⟨2, 1, 0⟩
       ⟨1, 2, 0⟩ ∧
     strictlyInTriangle ⟨0, 0, 0⟩ ⟨2, 0, 0⟩ ⟨0, 2, 0⟩ ⟨1/2, 1/2, 0⟩ ∧
     strictlyInTriangle ⟨1/8, 1/8, 0⟩ ⟨2, 1, 0⟩ ⟨1, 2, 0⟩ ⟨1/2, 1/2, 0⟩) ∧
    ((triangles_intersections ⟨0, 0, 0⟩ ⟨2, 0, 0⟩ ⟨0, 2, 0⟩ ⟨1/8, 1/8, 0⟩
        ⟨2, 1, 0⟩ ⟨1, 2, 0⟩ []).1 = true ∧
     3 ≤ (triangles_intersections ⟨0, 0, 0⟩ ⟨2, 0, 0⟩ ⟨0, 2, 0⟩
        ⟨1/8, 1/8, 0⟩ ⟨2, 1, 0⟩ ⟨1, 2, 0⟩ []).2.length ∧
     (triangles_intersections ⟨0, 0, 0⟩ ⟨2, 0, 0⟩ ⟨0, 2, 0⟩ ⟨1/8, 1/8, 0⟩
        ⟨2, 1, 0⟩ ⟨1, 2, 0⟩ []).2.length ≤ 6 ∧
     ∀ z : vec3,
       (∃ I ∈ (triangles_intersections ⟨0, 0, 0⟩ ⟨2, 0, 0⟩ ⟨0, 2, 0⟩
          ⟨1/8, 1/8, 0⟩ ⟨2, 1, 0⟩ ⟨1, 2, 0⟩ []).2,
         realizeIsect ⟨0, 0, 0⟩ ⟨2, 0, 0⟩ ⟨0, 2, 0⟩ ⟨1/8, 1/8, 0⟩ ⟨2, 1, 0⟩
           ⟨1, 2, 0⟩ I = z) ↔
       isExtremePt (overlapSet ⟨0, 0, 0⟩ ⟨2, 0, 0⟩ ⟨0, 2, 0⟩ ⟨1/8, 1/8, 0⟩
         ⟨2, 1, 0⟩ ⟨1, 2, 0⟩) z) :=
  ⟨⟨by decide, by decide, by decide, by decide, by decide, by decide,
    ⟨1/2, 1/4, 1/4, by norm_num, by norm_num, by norm_num, by norm_num,
      by decide⟩,
    ⟨8/11, 3/22, 3/22, by norm_num, by norm_num, by norm_num, by norm_num,
      by decide⟩⟩,
   triangles_intersections_coplanar_polygon_vertices
     ⟨0, 0, 0⟩ ⟨2, 0, 0⟩ ⟨0, 2, 0⟩ ⟨1/8, 1/8, 0⟩ ⟨2, 1, 0⟩ ⟨1, 2, 0⟩
     ⟨1/2, 1/2, 0⟩ []
     (by decide) (by decide) (by decide) (by decide) (by decide) (by decide)
     ⟨1/2, 1/4, 1/4, by norm_num, by norm_num, by norm_num, by norm_num,
       by decide⟩
     ⟨8/11, 3/22, 3/22, by norm_num, by norm_num, by norm_num, by norm_num,
       by decide⟩⟩

/-- Counterexample to C4 as stated: two valid coplanar triangles, not
identical and not edge-sharing, whose overlap is a proper polygon with a
strictly interior point, but which share one vertex; the routine answers
through the degeneracy filter with zero pairs, not between 3 and 6. -/
theorem triangles_intersections_coplanar_polygon_counterexample :
    nondegenerate ⟨0, 0, 0⟩ ⟨2, 0, 0⟩ ⟨0, 2, 0⟩ ∧
    nondegenerate ⟨0, 0, 0⟩ ⟨2, 1, 0⟩ ⟨1, 2, 0⟩ ∧
    orient3d ⟨0, 0, 0⟩ ⟨2, 0, 0⟩ ⟨0, 2, 0⟩ ⟨0, 0, 0⟩ = 0 ∧
    orient3d ⟨0, 0, 0⟩ ⟨2, 0, 0⟩ ⟨0, 2, 0⟩ ⟨2, 1, 0⟩ = 0 ∧
    orient3d ⟨0, 0, 0⟩ ⟨2, 0, 0⟩ ⟨0, 2, 0⟩ ⟨1, 2, 0⟩ = 0 ∧
    ¬ sameVertexSet ⟨0, 0, 0⟩ ⟨2, 0, 0⟩ ⟨0, 2, 0⟩ ⟨0, 0, 0⟩ ⟨2, 1, 0⟩
      ⟨1, 2, 0⟩ ∧
    ¬ sharesEdge ⟨0, 0, 0⟩ ⟨2, 0, 0⟩ ⟨0, 2, 0⟩ ⟨0, 0, 0⟩ ⟨2, 1, 0⟩
      ⟨1, 2, 0⟩ ∧
    strictlyInTriangle ⟨0, 0, 0⟩ ⟨2, 0, 0⟩ ⟨0, 2, 0⟩ ⟨1/2, 1/2, 0⟩ ∧
    strictlyInTriangle ⟨0, 0, 0⟩ ⟨2, 1, 0⟩ ⟨1, 2, 0⟩ ⟨1/2, 1/2, 0⟩ ∧
    ¬ (3 ≤ (triangles_intersections ⟨0, 0, 0⟩ ⟨2, 0, 0⟩ ⟨0, 2, 0⟩ ⟨0, 0, 0⟩
      ⟨2, 1, 0⟩ ⟨1, 2, 0⟩ []).2.length) :=
  ⟨by decide, by decide, by decide, by decide, by decide,
   by unfold sameVertexSet; decide,
   by unfold sharesEdge isVertexOf; decide,
   ⟨1/2, 1/4, 1/4, by norm_num, by norm_num, by norm_num, by norm_num,
     by decide⟩,
   ⟨2/3, 1/6, 1/6, by norm_num, by norm_num, by norm_num, by norm_num,
     by decide⟩,
   by decide⟩
